import Mathlib

/-!
# Stratus: counter store (`src/stats.cpp`) and interval controller (`src/manager.cpp`)

A shallow embedding of `Stats` (init, accum, reset_counters, last, sum) and of
`adjust_time`, followed by the properties proved about them.

Conventions of the embedding:

* A C++ `double` is a `Dbl`: an exact rational, or one of `+inf`, `-inf`, `NaN`.
  Arithmetic on finite values is exact and the zero is unsigned; the
  non-finite cases follow IEEE 754. Rounding is modelled where a result is
  truncated to an integer that a test reads: the conversions and divisions of
  `Stats::get_current` are rounded to the nearest `double`.
* `counters_t` is the list of its records in the iteration order of the
  `by_id` index.
* `std::map<std::string, accum_t>` is a partial function from names to
  accumulators; an accumulator is the list of the samples pushed into it, the
  most recent first.
* A failed `assert`, a `throw` and a failed `map::at` are the errors of
  `Except StatsError`.
-/

namespace Stratus

/-! ## Doubles -/

/-- An idealised `double`: an exact rational value or a non-finite one. -/
inductive Dbl where
  | fin (q : ℚ)
  | pinf
  | ninf
  | nan
  deriving DecidableEq

namespace Dbl

/-- Conversion of an unsigned integer, `(double)n`. -/
def ofNat (n : Nat) : Dbl := fin (n : ℚ)

/-- Unary minus. -/
def neg : Dbl → Dbl
  | fin a => fin (-a)
  | pinf => ninf
  | ninf => pinf
  | nan => nan

/-- Addition, `a + b`. -/
def add : Dbl → Dbl → Dbl
  | fin a, fin b => fin (a + b)
  | fin _, pinf => pinf
  | fin _, ninf => ninf
  | pinf, fin _ => pinf
  | pinf, pinf => pinf
  | ninf, fin _ => ninf
  | ninf, ninf => ninf
  | pinf, ninf => nan
  | ninf, pinf => nan
  | nan, _ => nan
  | _, nan => nan

/-- Subtraction, `a - b`. -/
def sub (a b : Dbl) : Dbl := add a (neg b)

/-- The infinity with the sign of `s * t` for non-zero finite `s`, NaN for zero. -/
def signedInf (s : ℚ) : Dbl :=
  if s = 0 then nan else if 0 < s then pinf else ninf

/-- Multiplication, `a * b`. -/
def mul : Dbl → Dbl → Dbl
  | fin a, fin b => fin (a * b)
  | fin a, pinf => signedInf a
  | fin a, ninf => signedInf (-a)
  | pinf, fin b => signedInf b
  | ninf, fin b => signedInf (-b)
  | pinf, pinf => pinf
  | ninf, ninf => pinf
  | pinf, ninf => ninf
  | ninf, pinf => ninf
  | nan, _ => nan
  | _, nan => nan

/-- Division, `a / b`; a finite non-zero value over zero is an infinity and
`0 / 0` is NaN. -/
def div : Dbl → Dbl → Dbl
  | fin a, fin b => if b = 0 then signedInf a else fin (a / b)
  | fin _, pinf => fin 0
  | fin _, ninf => fin 0
  | pinf, fin b => if 0 ≤ b then pinf else ninf
  | ninf, fin b => if 0 ≤ b then ninf else pinf
  | pinf, pinf => nan
  | pinf, ninf => nan
  | ninf, pinf => nan
  | ninf, ninf => nan
  | nan, _ => nan
  | _, nan => nan

/-- Comparison `a < b`; false as soon as one side is NaN. -/
def lt : Dbl → Dbl → Bool
  | fin a, fin b => decide (a < b)
  | fin _, pinf => true
  | ninf, fin _ => true
  | ninf, pinf => true
  | _, _ => false

/-- The test `std::isfinite(a)`. -/
def isFinite : Dbl → Bool
  | fin _ => true
  | _ => false

/-- The test `a != a`, true exactly for NaN. -/
def isNaN : Dbl → Bool
  | nan => true
  | _ => false

/-- A finite value that is at least zero. -/
def NonNeg (a : Dbl) : Prop := ∃ q : ℚ, a = fin q ∧ 0 ≤ q

/-- The integer part of the binary logarithm of `n`, found in at most `fuel`
halvings. -/
def log2_fuel : Nat → Nat → Nat
  | 0, _ => 0
  | fuel + 1, n => if n < 2 then 0 else log2_fuel fuel (n / 2) + 1

/-- The integer part of the binary logarithm of a positive integer. -/
def log2 (n : Nat) : Nat := log2_fuel n n

/-- The integer part of the binary logarithm of `n / d`, for positive `n` and
`d`. -/
def floor_log2 (n d : Nat) : Int :=
  if d * 2 ^ log2 n ≤ n * 2 ^ log2 d then (log2 n : Int) - (log2 d : Int)
  else (log2 n : Int) - (log2 d : Int) - 1

/-- The integer nearest to `n / d`; of two integers that are equally near,
the even one. -/
def nearest_even (n d : Nat) : Nat :=
  if 2 * (n % d) < d then n / d
  else if d < 2 * (n % d) then n / d + 1
  else if n / d % 2 = 0 then n / d
  else n / d + 1

/-- The `double` that the arithmetic of IEEE 754 gives for an exact result
`q` in its default rounding mode: the nearest multiple of `2^(e - 52)`, where
`e` is the binary exponent of `q` and at least -1022, ties going to the even
multiple, and an infinity when that multiple is `2^1024` or more. -/
def round_nearest (q : ℚ) : Dbl :=
  if q = 0 then fin 0
  else
    let n := q.num.natAbs
    let d := q.den
    let e := floor_log2 n d
    let p : Int := (if e < -1022 then -1022 else e) - 52
    let k := nearest_even (n * 2 ^ (-p).toNat) (d * 2 ^ p.toNat)
    let r : ℚ :=
      if 0 ≤ p then ((k * 2 ^ p.toNat : Nat) : ℚ) else (k : ℚ) / ((2 ^ (-p).toNat : Nat) : ℚ)
    if ((2 ^ 1024 : Nat) : ℚ) ≤ r then (if 0 < q then pinf else ninf)
    else fin (if 0 < q then r else -r)

/-- The rounding of the exact result of an operation on doubles. -/
def rounded : Dbl → Dbl
  | fin q => round_nearest q
  | a => a

/-- Conversion of a 64-bit unsigned integer, `(double)n`: an integer of more
than 53 significant bits is rounded. -/
def of_uint64 (n : Nat) : Dbl := rounded (ofNat n)

/-- Division of two doubles as the machine makes it: the exact quotient,
rounded. -/
def div_rounded (a b : Dbl) : Dbl := rounded (div a b)

end Dbl

/-! ## Counters and accumulators -/

/-- The record `Counter` of `events-perf.hpp`; `enabled` and `running` are
`uint64_t`. -/
structure Counter where
  id : Int
  name : String
  value : Dbl
  unit : String
  snapshot : Bool
  enabled : Nat
  running : Nat
  deriving DecidableEq

/-- The accumulator set `accum_t`, represented by the samples pushed so far,
the most recent first. -/
structure accum_t where
  samples : List Dbl
  deriving DecidableEq

/-- A new accumulator, with no sample. -/
def accum_t.empty : accum_t := ⟨[]⟩

/-- Pushing a sample, `acc(value)`. -/
def accum_t.push (a : accum_t) (v : Dbl) : accum_t := ⟨v :: a.samples⟩

/-- The extractor `acc::last`; the last-accumulator starts at `Sample()`, that
is 0. -/
def accum_t.last (a : accum_t) : Dbl := a.samples.headD (Dbl.fin 0)

/-- The extractor `acc::sum`: the samples added in the order they were pushed. -/
def accum_t.sum (a : accum_t) : Dbl :=
  a.samples.foldr (fun v s => Dbl.add s v) (Dbl.fin 0)

/-- The errors of the counter store. -/
inductive StatsError where
  | assertion_failed
  | out_of_range (key : String)
  | different_number_of_derived_metrics
  | different_derived_metrics
  | negative_interval_value (name : String)
  | event_not_monitorized (name : String)
  deriving DecidableEq

/-- The map `events`. -/
abbrev Events := String → Option accum_t

/-- The call `events.insert(std::make_pair(name, accum_t(...)))`: an existing
key keeps its accumulator. -/
def events_insert (events : Events) (name : String) : Events :=
  fun n => if n = name then
    (match events n with
     | some a => some a
     | none => some accum_t.empty)
  else events n

/-- The call `events.at(name)(value)`. -/
def events_push (events : Events) (name : String) (value : Dbl) :
    Except StatsError Events :=
  match events name with
  | none => .error (.out_of_range name)
  | some a => .ok (fun n => if n = name then some (a.push value) else events n)

/-- The lambdas stored in the derived-metric tables, one constructor per
lambda of `init_derived_metrics_int` and `init_derived_metrics_total`. -/
inductive Closure where
  | int_iostat
  | int_disk_bw (interval_ti : Dbl)
  | int_ipc
  | int_ref_ipc
  | int_mpki_l2
  | int_mpki_l3
  | total_iostat
  | total_disk_bw
  | total_ipc
  | total_ref_ipc
  | total_mpki_l2
  | total_mpki_l3
  deriving DecidableEq

/-- The values of `read_max_ujoules_pkg()` and `read_max_ujoules_ram()`, read
from sysfs. -/
structure Rapl where
  max_ujoules_pkg : Nat
  max_ujoules_ram : Nat

/-- The class `Stats`. -/
structure Stats where
  initialized : Bool
  counter : Nat
  cbak : List Counter
  clast : List Counter
  ccurr : List Counter
  derived_metrics_int : List (String × Closure)
  derived_metrics_total : List (String × Closure)
  names : List String
  events : Events

namespace Stats

/-- The default-constructed store, `Stats()`. -/
def new : Stats :=
  { initialized := false, counter := 0, cbak := [], clast := [], ccurr := [],
    derived_metrics_int := [], derived_metrics_total := [], names := [],
    events := fun _ => none }

/-- The accessor `Stats::sum`. -/
def sum (st : Stats) (name : String) : Except StatsError Dbl :=
  match st.events name with
  | none => .error (.out_of_range name)
  | some a => .ok a.sum

/-- The accessor `Stats::last`. -/
def last (st : Stats) (name : String) : Except StatsError Dbl :=
  match st.events name with
  | none => .error (.out_of_range name)
  | some a => .ok a.last

/-- The constant `t_cycle` of the iostat lambdas. -/
def t_cycle : Dbl := Dbl.fin (476190476190476 / 10 ^ 24)

/-- A quotient of two accessor results, `a / b`. -/
def div2 (a b : Except StatsError Dbl) : Except StatsError Dbl :=
  match a with
  | .error e => .error e
  | .ok x =>
    match b with
    | .error e => .error e
    | .ok y => .ok (Dbl.div x y)

/-- The quotient `(1000 * m) / inst` of the mpki lambdas, `inst` being read
first. -/
def mpki (inst m : Except StatsError Dbl) : Except StatsError Dbl :=
  match inst with
  | .error e => .error e
  | .ok i =>
    match m with
    | .error e => .error e
    | .ok x => .ok (Dbl.div (Dbl.mul (Dbl.fin 1000) x) i)

/-- The iostat formula `(t_disk / 10000000000) / t_cycle`. -/
def iostat (t_disk : Except StatsError Dbl) : Except StatsError Dbl :=
  match t_disk with
  | .error e => .error e
  | .ok t => .ok (Dbl.div (Dbl.div t (Dbl.fin 10000000000)) t_cycle)

/-- Calling a stored lambda, `der.second()`. -/
def call (st : Stats) : Closure → Except StatsError Dbl
  | .int_iostat => iostat (st.last "Time_io_disk_ns")
  | .int_disk_bw interval_ti =>
    match st.last "Read_bytes_sec" with
    | .error e => .error e
    | .ok read =>
      match st.last "Write_bytes_sec" with
      | .error e => .error e
      | .ok write =>
        .ok (Dbl.div (Dbl.div (Dbl.div (Dbl.add read write) interval_ti)
          (Dbl.fin 1024)) (Dbl.fin 1024))
  | .int_ipc => div2 (st.last "inst_retired.any") (st.last "cycles")
  | .int_ref_ipc =>
    div2 (st.last "inst_retired.any") (st.last "cpu_clk_unhalted.ref_tsc")
  | .int_mpki_l2 =>
    mpki (st.last "inst_retired.any") (st.last "mem_load_retired.l2_miss")
  | .int_mpki_l3 =>
    mpki (st.last "inst_retired.any") (st.last "mem_load_retired.l3_miss")
  | .total_iostat => iostat (st.sum "Time_io_disk_ns")
  | .total_disk_bw =>
    match st.sum "Read_bytes_sec" with
    | .error e => .error e
    | .ok _ =>
      match st.sum "Write_bytes_sec" with
      | .error e => .error e
      | .ok _ => .ok (Dbl.fin 0)
  | .total_ipc => div2 (st.sum "inst_retired.any") (st.sum "cycles")
  | .total_ref_ipc =>
    div2 (st.sum "inst_retired.any") (st.sum "cpu_clk_unhalted.ref_tsc")
  | .total_mpki_l2 =>
    mpki (st.sum "inst_retired.any") (st.sum "mem_load_retired.l2_miss")
  | .total_mpki_l3 =>
    mpki (st.sum "inst_retired.any") (st.sum "mem_load_retired.l3_miss")

/-- The entries `Stats::init_derived_metrics_total` pushes, in order. -/
def init_derived_metrics_total (stats_names : List String) (_interval_ti : Dbl) :
    List (String × Closure) :=
  let instructions := decide ("inst_retired.any" ∈ stats_names)
  let cycles := decide ("cycles" ∈ stats_names)
  let ref_cycles := decide ("cpu_clk_unhalted.ref_tsc" ∈ stats_names)
  let misses_l2 := decide ("mem_load_retired.l2_miss" ∈ stats_names)
  let misses_l3 := decide ("mem_load_retired.l3_miss" ∈ stats_names)
  let read_disk := decide ("Read_bytes_sec" ∈ stats_names)
  let write_disk := decide ("Write_bytes_sec" ∈ stats_names)
  let time_disk := decide ("Time_io_disk_ns" ∈ stats_names)
  (if time_disk then [("iostat", Closure.total_iostat)] else [])
  ++ (if read_disk && write_disk then [("Disk_BW[MBps]", Closure.total_disk_bw)] else [])
  ++ (if instructions && cycles then [("ipc", Closure.total_ipc)] else [])
  ++ (if instructions && ref_cycles then [("ref-ipc", Closure.total_ref_ipc)] else [])
  ++ (if instructions && misses_l2 then [("mpki-l2", Closure.total_mpki_l2)] else [])
  ++ (if instructions && misses_l3 then [("mpki-l3", Closure.total_mpki_l3)] else [])

/-- The entries `Stats::init_derived_metrics_int` pushes, in order. -/
def init_derived_metrics_int (stats_names : List String) (interval_ti : Dbl) :
    List (String × Closure) :=
  let instructions := decide ("inst_retired.any" ∈ stats_names)
  let cycles := decide ("cycles" ∈ stats_names)
  let ref_cycles := decide ("cpu_clk_unhalted.ref_tsc" ∈ stats_names)
  let misses_l2 := decide ("mem_load_retired.l2_miss" ∈ stats_names)
  let misses_l3 := decide ("mem_load_retired.l3_miss" ∈ stats_names)
  let read_disk := decide ("Read_bytes_sec" ∈ stats_names)
  let write_disk := decide ("Write_bytes_sec" ∈ stats_names)
  let time_disk := decide ("Time_io_disk_ns" ∈ stats_names)
  (if time_disk then [("iostat", Closure.int_iostat)] else [])
  ++ (if read_disk && write_disk then
        [("Disk_BW[MBps]", Closure.int_disk_bw interval_ti)] else [])
  ++ (if instructions && cycles then [("ipc", Closure.int_ipc)] else [])
  ++ (if instructions && ref_cycles then [("ref-ipc", Closure.int_ref_ipc)] else [])
  ++ (if instructions && misses_l2 then [("mpki-l2", Closure.int_mpki_l2)] else [])
  ++ (if instructions && misses_l3 then [("mpki-l3", Closure.int_mpki_l3)] else [])

/-- The method `Stats::init`. -/
def init (st : Stats) (stats_names : List String) (interval_ti : Dbl) :
    Except StatsError Stats :=
  if st.initialized then .error .assertion_failed
  else
    let events := stats_names.foldl events_insert st.events
    let ders_int := st.derived_metrics_int ++ init_derived_metrics_int stats_names interval_ti
    let ders_total :=
      st.derived_metrics_total ++ init_derived_metrics_total stats_names interval_ti
    if ders_int.length ≠ ders_total.length then
      .error .different_number_of_derived_metrics
    else if ders_int.any (fun der => !(ders_total.any (fun tuple => tuple.1 == der.1))) then
      .error .different_derived_metrics
    else
      .ok { st with
            events := (ders_int.map Prod.fst).foldl events_insert events
            derived_metrics_int := ders_int
            derived_metrics_total := ders_total
            names := stats_names
            initialized := true }

/-- The value pushed for one sample when there is no previous sample vector
(the body of the first loop of `Stats::accum`). -/
def first_value (it : Counter) : Except StatsError Dbl :=
  let value := if it.name = "power/energy-ram/" ∨ it.name = "power/energy-pkg/"
    then Dbl.fin 0 else it.value
  if it.running ≤ it.enabled then
    let value := if it.running ≠ 0
      then Dbl.div value (Dbl.div (Dbl.ofNat it.running) (Dbl.ofNat it.enabled))
      else value
    let value := if Dbl.lt value (Dbl.fin 0) || Dbl.isNaN value || Dbl.isFinite value
      then Dbl.fin 0 else value
    if Dbl.isFinite value then .ok value else .error .assertion_failed
  else .error .assertion_failed

/-- The first loop of `Stats::accum`, over the current samples. -/
def accum_first : Events → List Counter → Except StatsError Events
  | events, [] => .ok events
  | events, it :: rest =>
    match first_value it with
    | .error e => .error e
    | .ok value =>
      match events_push events it.name value with
      | .error e => .error e
      | .ok events1 => accum_first events1 rest

/-- The test on the name of the memory-bandwidth family. -/
def is_mb (name : String) : Bool :=
  name == "MBL[MBps]" || name == "MBR[MBps]" || name == "MBT[MBps]"

/-- The names whose negative interval value is replaced by 0. -/
def is_clamped (name : String) : Bool :=
  name == "MBL[MBps]" || name == "MBR[MBps]" || name == "MBT[MBps]" ||
  name == "Rx_netBW[KBps]" || name == "Tx_netBW[KBps]" ||
  name == "OVS_Rx_netBW[KBps]" || name == "OVS_Tx_netBW[KBps]" ||
  name == "Time_io_disk_ns"

/-- The energy correction `(c * 1E6 + (max - l * 1E6)) / 1E6`. -/
def energy_wrap (max_ujoules : Nat) (c l : Dbl) : Dbl :=
  Dbl.div
    (Dbl.add (Dbl.mul c (Dbl.fin 1000000))
      (Dbl.sub (Dbl.ofNat max_ujoules) (Dbl.mul l (Dbl.fin 1000000))))
    (Dbl.fin 1000000)

/-- The interval value before the test `value < 0`: the raw reading of a
snapshot counter, the difference otherwise, divided by the interval for the
memory-bandwidth family. -/
def raw_value (interval_ti : Dbl) (c l : Counter) : Dbl :=
  let value := if c.snapshot then c.value else Dbl.sub c.value l.value
  if is_mb c.name then Dbl.div value interval_ti else value

/-- The branch `if (value < 0)` of the second loop. The debug message that
follows the choice of `newvalue` is not part of the embedding. -/
def fix_negative (rapl : Rapl) (c l : Counter) (value : Dbl) : Except StatsError Dbl :=
  if Dbl.lt value (Dbl.fin 0) then
    if is_clamped c.name then .ok (Dbl.fin 0)
    else if c.name = "power/energy-pkg/" then
      .ok (energy_wrap rapl.max_ujoules_pkg c.value l.value)
    else if c.name = "power/energy-ram/" then
      .ok (energy_wrap rapl.max_ujoules_ram c.value l.value)
    else .error (.negative_interval_value c.name)
  else .ok value

/-- The multiplexing compensation and the final test of finiteness of the
second loop. -/
def scale_value (c : Counter) (value : Dbl) : Except StatsError Dbl :=
  if c.running ≤ c.enabled then
    let enabled_fraction := Dbl.div (Dbl.ofNat c.running) (Dbl.ofNat c.enabled)
    let scaled : Except StatsError Dbl :=
      if c.enabled = 0 then .ok value
      else if Dbl.lt enabled_fraction (Dbl.fin 1) then .ok (Dbl.div value enabled_fraction)
      else if enabled_fraction = Dbl.fin 1 then .ok value
      else .error .assertion_failed
    match scaled with
    | .error e => .error e
    | .ok v => .ok (if Dbl.isFinite v then v else Dbl.fin 0)
  else .error .assertion_failed

/-- The value pushed for one sample `c` with predecessor `l` (the body of the
second loop of `Stats::accum`, up to the push). -/
def next_value (rapl : Rapl) (interval_ti : Dbl) (c l : Counter) : Except StatsError Dbl :=
  if c.id = l.id ∧ c.name = l.name then
    match fix_negative rapl c l (raw_value interval_ti c l) with
    | .error e => .error e
    | .ok value => scale_value c value
  else .error .assertion_failed

/-- The update `curr_id_idx.modify`: enabled and running times accumulate. -/
def modify (c l : Counter) : Counter :=
  { c with enabled := (c.enabled + l.enabled) % 2 ^ 64
           running := (c.running + l.running) % 2 ^ 64 }

/-- The second loop of `Stats::accum`, over the current samples paired with
the previous ones; it returns the events and the modified current samples. -/
def accum_next (rapl : Rapl) (interval_ti : Dbl) :
    Events → List Counter → List Counter → Except StatsError (Events × List Counter)
  | events, [], _ => .ok (events, [])
  | events, c :: cs, [] => .ok (events, c :: cs)
  | events, c :: cs, l :: ls =>
    match next_value rapl interval_ti c l with
    | .error e => .error e
    | .ok value =>
      match events_push events c.name value with
      | .error e => .error e
      | .ok events1 =>
        match accum_next rapl interval_ti events1 cs ls with
        | .error e => .error e
        | .ok (events2, cs1) => .ok (events2, modify c l :: cs1)

/-- The loop of `Stats::accum` over the derived metrics. -/
def accum_derived : Stats → List (String × Closure) → Except StatsError Stats
  | st, [] => .ok st
  | st, der :: rest =>
    match st.call der.2 with
    | .error e => .error e
    | .ok value =>
      match events_push st.events der.1 value with
      | .error e => .error e
      | .ok events1 => accum_derived { st with events := events1 } rest

/-- The end of `Stats::accum`: derived metrics, then `counter++`. -/
def accum_finish (st : Stats) : Except StatsError Stats :=
  match accum_derived st st.derived_metrics_int with
  | .error e => .error e
  | .ok st1 => .ok { st1 with counter := (st1.counter + 1) % 2 ^ 64 }

/-- The method `Stats::accum`. -/
def accum (rapl : Rapl) (st : Stats) (counters : List Counter) (interval_ti : Dbl) :
    Except StatsError Stats :=
  if st.initialized then
    if counters.isEmpty then .error .assertion_failed
    else if st.ccurr.isEmpty then
      match accum_first st.events counters with
      | .error e => .error e
      | .ok events1 =>
        accum_finish { st with clast := st.ccurr, ccurr := counters,
                               events := events1, cbak := counters }
    else if counters.length = st.ccurr.length then
      match accum_next rapl interval_ti st.events counters st.ccurr with
      | .error e => .error e
      | .ok (events1, ccurr1) =>
        accum_finish { st with clast := st.ccurr, ccurr := ccurr1, events := events1 }
    else .error .assertion_failed
  else .error .assertion_failed

/-- The method `Stats::reset_counters`. -/
def reset_counters (st : Stats) : Stats :=
  { st with clast := [], ccurr := [] }

/-- One call made on a counter store by its owner. -/
inductive Call where
  | accum (counters : List Counter) (interval_ti : Dbl)
  | reset_counters

/-- A sequence of calls on a store, stopping at the first error. -/
def run (rapl : Rapl) : Stats → List Call → Except StatsError Stats
  | st, [] => .ok st
  | st, Call.accum counters interval_ti :: rest =>
    match st.accum rapl counters interval_ti with
    | .error e => .error e
    | .ok st1 => run rapl st1 rest
  | st, Call.reset_counters :: rest => run rapl st.reset_counters rest

/-- The value of `last(name)` on a store built by `Stats(stats_names, ti)`
after a sequence of calls. -/
def last_after (rapl : Rapl) (stats_names : List String) (ti : Dbl)
    (calls : List Call) (name : String) : Except StatsError Dbl :=
  match init new stats_names ti with
  | .error e => .error e
  | .ok st0 =>
    match run rapl st0 calls with
    | .error e => .error e
    | .ok st => st.last name

end Stats

/-- The test on the name of the two energy counters. -/
def is_energy (name : String) : Bool :=
  name == "power/energy-pkg/" || name == "power/energy-ram/"

/-- The interval value of a sample before any correction: the raw reading of a
snapshot counter, current minus previous otherwise. -/
def interval_diff (c l : Counter) : Dbl :=
  if c.snapshot then c.value else Dbl.sub c.value l.value

/-- The energy sample as `Perf::read_counters` builds it for the package
counter: cumulative, with `enabled = running = 1`. -/
def energy_pkg_counter (id : Int) (value : Dbl) : Counter :=
  { id := id, name := "power/energy-pkg/", value := value, unit := "j",
    snapshot := false, enabled := 1, running := 1 }

/-- The energy sample as `Perf::read_counters` builds it for the memory
counter. -/
def energy_ram_counter (id : Int) (value : Dbl) : Counter :=
  { id := id, name := "power/energy-ram/", value := value, unit := "j",
    snapshot := false, enabled := 1, running := 1 }

/-! ## The interval controller -/

/-- The value of an integer stored in an `int64_t` (two-complement wrap). -/
def to_int64 (x : Int) : Int := (x + 2 ^ 63) % 2 ^ 64 - 2 ^ 63

/-- The conversion of a finite double to an integer: truncation toward zero. -/
def trunc (q : ℚ) : Int := if 0 ≤ q then ⌊q⌋ else ⌈q⌉

/-- The function `adjust_time` of `manager.cpp`. The two clock readings are
given by the durations they produce: `elapsed_us = now - start_int` and
`total_elapsed_us = now - start_glob`. The result is the new value of
`adj_delay_us`. Products by `kp` and `ki` and the two sums are exact. -/
def adjust_time (elapsed_us total_elapsed_us : Nat) (interval time_int_us : Nat)
    (adj_delay_us : Int) (new_task_completion : Bool) : Int :=
  let last : Nat := (adj_delay_us % 2 ^ 64).toNat
  let kp : ℚ := 1 / 2
  let ki : ℚ := 1 / 4
  let proportional : Int := to_int64 (to_int64 time_int_us - to_int64 elapsed_us)
  let integral : Int :=
    to_int64 (to_int64 time_int_us * ((interval + 1 : Nat) : Int) - to_int64 total_elapsed_us)
  let adj1 : Int := to_int64 (trunc ((adj_delay_us : ℚ) + kp * (proportional : ℚ)))
  let adj2 : Int := to_int64 (trunc ((adj1 : ℚ) + ki * (integral : ℚ)))
  if adj2 < 0 ∧ new_task_completion = false then
    to_int64 (((last * 0) % 2 ^ 64 : Nat) : Int)
  else adj2

/-- The timing of one interval of `simple_loop` when the interval lasts
exactly `lag` microseconds less than the sleep requested for it: the state is
the pair of `adj_delay_us` and the time elapsed since the start of the run. -/
def sim_interval (time_int_us lag : Nat) (interval : Nat) (s : Int × Nat) : Int × Nat :=
  let elapsed_us := (s.1 - (lag : Int)).toNat
  let total_elapsed_us := s.2 + elapsed_us
  (adjust_time elapsed_us total_elapsed_us interval time_int_us s.1 false, total_elapsed_us)

/-- The intervals `first, first + 1, ..., first + n - 1` of the simulated loop. -/
def sim_loop (time_int_us lag : Nat) : Nat → Nat → Int × Nat → Int × Nat
  | 0, _, s => s
  | n + 1, first, s =>
    sim_loop time_int_us lag n (first + 1) (sim_interval time_int_us lag first s)

/-! ## Concrete stores and samples -/

/-- The limits of the energy counters of the scenarios: the package limit of
the energy-wrap scenario and a memory limit. -/
def rapl0 : Rapl := { max_ujoules_pkg := 262143328000, max_ujoules_ram := 65712999613 }

/-- A sample of the cumulative event `cycles`, never multiplexed. -/
def cycles_sample (value : ℚ) : Counter :=
  { id := 0, name := "cycles", value := Dbl.fin value, unit := "",
    snapshot := false, enabled := 1, running := 1 }

/-- A sample of the cumulative event `cycles` with given enabled and running
times. -/
def cycles_sample_mux (value : ℚ) (enabled running : Nat) : Counter :=
  { id := 0, name := "cycles", value := Dbl.fin value, unit := "",
    snapshot := false, enabled := enabled, running := running }

/-- A sample named `MBL[MBps]` with given enabled and running times. -/
def mbl_sample (value : ℚ) (enabled running : Nat) : Counter :=
  { id := 0, name := "MBL[MBps]", value := Dbl.fin value, unit := "",
    snapshot := false, enabled := enabled, running := running }

/-- A store that tracks `cycles` alone and has accumulated one sample vector,
with reading 5. -/
def cycles_store : Stats :=
  { initialized := true, counter := 1, cbak := [cycles_sample 5], clast := [],
    ccurr := [cycles_sample 5], derived_metrics_int := [], derived_metrics_total := [],
    names := ["cycles"],
    events := fun n => if n = "cycles" then some ⟨[Dbl.fin 0]⟩ else none }

/-- A store that tracks the package energy counter alone and has accumulated
one sample vector, with reading 0.2 joules. -/
def energy_store : Stats :=
  { initialized := true, counter := 1, cbak := [energy_pkg_counter 0 (Dbl.fin (2 / 10))],
    clast := [], ccurr := [energy_pkg_counter 0 (Dbl.fin (2 / 10))],
    derived_metrics_int := [], derived_metrics_total := [],
    names := ["power/energy-pkg/"],
    events := fun n => if n = "power/energy-pkg/" then some ⟨[Dbl.fin 0]⟩ else none }

/-- A sample vector that is valid for a store tracking `stats_names`: it is not
empty, it holds one sample for every tracked name and no other, and every
sample has `running <= enabled` and a finite reading. -/
def valid_samples (stats_names : List String) (samples : List Counter) : Prop :=
  samples ≠ [] ∧
  (∀ c ∈ samples, c.name ∈ stats_names ∧ c.running ≤ c.enabled ∧ Dbl.isFinite c.value = true) ∧
  (∀ n ∈ stats_names, n ∈ samples.map Counter.name)

/-- The sum `s` of the controller as the specification writes it:
`adj_delay + 0.5*(T - elapsed) + 0.25*(T*(k+1) - total_elapsed)`, each of the
two additions truncated to an integer. -/
def adjust_time_sum (elapsed_us total_elapsed_us : Nat) (interval time_int_us : Nat)
    (adj_delay_us : Int) : Int :=
  trunc (((trunc ((adj_delay_us : ℚ) + 1 / 2 * ((time_int_us : ℚ) - (elapsed_us : ℚ))) : Int) : ℚ)
    + 1 / 4 * ((time_int_us : ℚ) * ((interval : ℚ) + 1) - (total_elapsed_us : ℚ)))

/-! ## Workloads -/

/-- The value of an integer stored in an `int` or a `pid_t` (32 bits, two
complement). -/
def to_int32 (x : Int) : Int := (x + 2 ^ 31) % 2 ^ 32 - 2 ^ 31

/-- The value of an integer stored in an `id_t` or a `uint32_t`. -/
def to_uint32 (x : Int) : Nat := (x % 2 ^ 32).toNat

/-- The enumeration `Task::Status`. -/
inductive Status where
  | runnable
  | limit_reached
  | exited
  | done
  deriving DecidableEq

/-- The signals that the workload methods send with `kill`. -/
inductive Signal where
  | SIGSTOP
  | SIGCONT
  | SIGKILL
  deriving DecidableEq

/-- The ways in which a workload method or the supervisor loop stops: a
`std::runtime_error` (with the start of its message), a failed `assert`, and
the three behaviours that C++ leaves undefined and the embedding reports: the
use of a null `cat`, an index of 32 or more in `pids` or `stats`, and the
conversion to `uint64_t` of a double outside its range. `child` is the branch
of `fork` that runs in the new process. -/
inductive TaskError where
  | runtime_error (what : String)
  | assertion_failed
  | runlist_empty
  | stats (e : StatsError)
  | null_pointer
  | out_of_bounds
  | conversion
  | child
  deriving DecidableEq

/-- The members of the class `Task` that the supervisor reads and writes.
`pids` and `stats` are the two arrays of 32 entries, indexed by the position of
a cpu in `cpus`. `sent` is not a member: it records the calls `kill(pid, sig)`
made by the methods of the object, the most recent first. -/
structure Task where
  cpus : List Nat
  pids : Nat → Int
  stats : Nat → Stats
  initial_clos : Nat
  max_restarts : Nat
  batch : Bool
  client : Bool
  num_restarts : Nat
  completed : Nat
  run_id : Int
  status : Status
  sent : List (Int × Signal)

/-- The class `AppTask` (a Process workload). -/
structure AppTask extends Task where
  max_instr : Nat

/-- The class `VMTask` (a virtual machine): `dom` tells that the member `dom`
is not `NULL`. -/
structure VMTask extends Task where
  dom : Bool
  client_native : Bool

/-- What `waitpid` reports: the value it returns, `WIFEXITED` and
`WEXITSTATUS` of the status it stores. -/
structure WaitResult where
  ret : Int
  exited : Bool
  exit_status : Nat

/-- The results of the calls that a workload method makes outside the
supervisor. `perf_type` is `perf.get_perf_type()`, `cat` tells that the pointer
`cat` is not null, `max_closids` is `cat->get_max_closids()`; `fork n` is what
`fork` returns to the supervisor at restart number `n`; the two `waitpid`
results and the result of `kill(-pid, SIGKILL)` are given by the pid passed;
`shutdown` is the result of `virDomainShutdown`; `launch_ok` and `start_ok`
tell that every shell command of `task_get_ready_to_execute_light`, and of
`task_start_to_execute`, returns 0. The other calls on `perf`, on `cat` and on
the file system change no member of the task and are taken to return. -/
structure TaskEnv where
  perf_type : String
  cat : Bool
  max_closids : Nat
  parse_ok : Bool
  fork : Nat → Int
  waitpid_untraced : Int → WaitResult
  waitpid_continued : Int → WaitResult
  kill_group : Int → Int
  shutdown : Int
  launch_ok : Bool
  start_ok : Bool

/-- A `for` statement over the elements of a list, with a body that can
throw: the first exception leaves the loop. -/
def for_each {σ ε α : Type} (body : α → σ → Except ε σ) : List α → σ → Except ε σ
  | [], s => .ok s
  | a :: rest, s =>
    match body a s with
    | .error e => .error e
    | .ok s1 => for_each body rest s1

/-- The outcome of a method of `AppTask`: the object when the method returns,
the exception and the object at that point when it throws. -/
abbrev AppResult := Except (TaskError × AppTask) AppTask

/-- The outcome of a method of `VMTask`. -/
abbrev VMResult := Except (TaskError × VMTask) VMTask

namespace AppTask

/-- The body of the loop of `AppTask::reset`. -/
def reset_body (i : Nat) (t : AppTask) : AppResult :=
  if 32 ≤ i then .error (.out_of_bounds, t)
  else .ok { t with stats := Function.update t.stats i (t.stats i).reset_counters
                    status := .runnable }

/-- The method `AppTask::reset`. -/
def reset (t : AppTask) : AppResult :=
  for_each reset_body (List.range t.cpus.length) t

/-- The body of the loop of `AppTask::task_pause`; `pid` is a `pid_t`. -/
def task_pause_body (env : TaskEnv) (i : Nat) (t : AppTask) : AppResult :=
  if 32 ≤ i then .error (.out_of_bounds, t)
  else
    let pid : Int := t.pids i
    if pid ≤ 1 then .error (.runtime_error "Tried to send SIGSTOP to pid", t)
    else
      let t1 : AppTask := { t with sent := (pid, Signal.SIGSTOP) :: t.sent }
      let w := env.waitpid_untraced pid
      if w.ret ≠ pid then .error (.runtime_error "Error in waitpid for command", t1)
      else if w.exited then .error (.runtime_error "exited unexpectedly", t1)
      else .ok t1

/-- The method `AppTask::task_pause`. -/
def task_pause (env : TaskEnv) (t : AppTask) : AppResult :=
  for_each (task_pause_body env) (List.range t.cpus.length) t

/-- The body of the loop of `AppTask::task_resume`; `pid` is an `id_t`, which
is unsigned, and is converted back to `pid_t` by `kill` and `waitpid`; the
comparison of the result of `waitpid` with `pid` is made on unsigned values. -/
def task_resume_body (env : TaskEnv) (i : Nat) (t : AppTask) : AppResult :=
  if 32 ≤ i then .error (.out_of_bounds, t)
  else
    let pid : Nat := to_uint32 (t.pids i)
    if pid ≤ 1 then .error (.runtime_error "tried to send SIGCONT to pid", t)
    else
      let t1 : AppTask := { t with sent := (to_int32 pid, Signal.SIGCONT) :: t.sent }
      let w := env.waitpid_continued (to_int32 pid)
      if to_uint32 w.ret ≠ pid then .error (.runtime_error "Error in waitpid for command", t1)
      else if w.exited then .error (.runtime_error "exited unexpectedly", t1)
      else .ok t1

/-- The method `AppTask::task_resume`. -/
def task_resume (env : TaskEnv) (t : AppTask) : AppResult :=
  for_each (task_resume_body env) (List.range t.cpus.length) t

/-- The body of the loop of `AppTask::task_kill`; `pid` is an `id_t`, and
`-pid` is computed on unsigned values before `kill` converts it to `pid_t`. -/
def task_kill_body (env : TaskEnv) (i : Nat) (t : AppTask) : AppResult :=
  if 32 ≤ i then .error (.out_of_bounds, t)
  else
    let pid : Nat := to_uint32 (t.pids i)
    if 1 < pid then
      if t.status = Status.exited then .ok { t with pids := Function.update t.pids i 0 }
      else
        let target : Int := to_int32 (to_uint32 (-(pid : Int)))
        let t1 : AppTask := { t with sent := (target, Signal.SIGKILL) :: t.sent }
        if env.kill_group target < 0 then
          .error (.runtime_error "Could not SIGKILL command", t1)
        else .ok { t1 with pids := Function.update t1.pids i 0 }
    else .error (.runtime_error "Tried to kill pid", t)

/-- The method `AppTask::task_kill`. -/
def task_kill (env : TaskEnv) (t : AppTask) : AppResult :=
  for_each (task_kill_body env) (List.range t.cpus.length) t

/-- The method `AppTask::task_get_ready_to_execute`, as it runs in the
supervisor: the new pid goes to `pids[0]` and the task is paused. -/
def task_get_ready_to_execute (env : TaskEnv) (t : AppTask) : AppResult :=
  if env.parse_ok then
    let pid : Int := env.fork t.num_restarts
    if pid = 0 then .error (.child, t)
    else if pid = -1 then .error (.runtime_error "Failed to start program", t)
    else task_pause env { t with pids := Function.update t.pids 0 pid }
  else .error (.runtime_error "Could not parse commandline", t)

/-- The method `AppTask::task_start_to_execute`. -/
def task_start_to_execute (env : TaskEnv) (t : AppTask) : AppResult :=
  task_resume env t

/-- The method `AppTask::task_restart`; `num_restarts` is a `uint32_t`. -/
def task_restart (env : TaskEnv) (t : AppTask) : AppResult :=
  if t.status = Status.limit_reached ∨ t.status = Status.exited then
    match reset t with
    | .error e => .error e
    | .ok t1 =>
      match task_get_ready_to_execute env t1 with
      | .error e => .error e
      | .ok t2 =>
        match task_start_to_execute env t2 with
        | .error e => .error e
        | .ok t3 => .ok { t3 with num_restarts := (t3.num_restarts + 1) % 2 ^ 32 }
  else .error (.assertion_failed, t)

/-- The start of the body of the loop of `task_restart_or_set_done`: perf and
RDT monitoring are stopped, through `pids[num_cpu]` and `cat`. -/
def stop_monitoring (env : TaskEnv) (num_cpu : Nat) (t : AppTask) : AppResult :=
  if env.perf_type = "PID" then
    if 32 ≤ num_cpu then .error (.out_of_bounds, t)
    else if env.cat then .ok t else .error (.null_pointer, t)
  else if env.perf_type = "CPU" then
    if env.cat then .ok t else .error (.null_pointer, t)
  else .ok t

/-- The body of the loop of `AppTask::task_restart_or_set_done` for the cpu at
position `x.1`; `statusTask` is the status read before the loop. -/
def restart_or_set_done_body (env : TaskEnv) (statusTask : Status) (x : Nat × Nat)
    (t : AppTask) : AppResult :=
  if statusTask = Status.limit_reached ∨ statusTask = Status.exited then
    match stop_monitoring env x.1 t with
    | .error e => .error e
    | .ok t1 =>
      let killed : AppResult :=
        if statusTask = Status.limit_reached then task_kill env t1
        else if statusTask ≠ Status.exited then
          .error (.runtime_error "Should not have reached this...", t1)
        else .ok t1
      match killed with
      | .error e => .error e
      | .ok t2 =>
        if t2.num_restarts < t2.max_restarts then
          if env.cat then
            if t2.initial_clos < env.max_closids then task_restart env t2
            else .error (.assertion_failed, t2)
          else task_restart env t2
        else .ok { t2 with status := Status.done }
  else .ok t

/-- The method `AppTask::task_restart_or_set_done`. -/
def task_restart_or_set_done (env : TaskEnv) (t : AppTask) : AppResult :=
  for_each (restart_or_set_done_body env t.status) t.cpus.enum t

/-- The method `AppTask::task_exited`; `w` is the result of
`waitpid(pids[0], &statusTask, WNOHANG)`. -/
def task_exited (w : WaitResult) (monitor_only : Bool) (t : AppTask) :
    Except TaskError Bool :=
  if monitor_only then .ok false
  else if w.ret = 0 then .ok false
  else if w.ret = -1 then .error (.runtime_error "error in waitpid")
  else if w.ret ≠ t.pids 0 then .error (.runtime_error "strange error in waitpid")
  else if w.exited then
    if w.exit_status ≠ 0 then .error (.runtime_error "exited unexpectedly with status")
    else .ok true
  else .ok false

end AppTask

namespace VMTask

/-- The body of the loop of `VMTask::reset`. -/
def reset_body (i : Nat) (t : VMTask) : VMResult :=
  if 32 ≤ i then .error (.out_of_bounds, t)
  else .ok { t with stats := Function.update t.stats i (t.stats i).reset_counters
                    status := .runnable }

/-- The method `VMTask::reset`. -/
def reset (t : VMTask) : VMResult :=
  for_each reset_body (List.range t.cpus.length) t

/-- The method `VMTask::task_kill`: it throws when `virDomainShutdown`
returns 0. -/
def task_kill (env : TaskEnv) (t : VMTask) : VMResult :=
  if t.dom then
    if env.shutdown = 0 then .error (.runtime_error "Could not shutdown domain", t)
    else .ok t
  else .error (.runtime_error "ERROR! Domain invalid when trying to kill the VM", t)

/-- The method `VMTask::task_get_ready_to_execute_light`: shell commands,
issued for a client-server benchmark only. -/
def task_get_ready_to_execute_light (env : TaskEnv) (t : VMTask) : VMResult :=
  if t.client then
    if env.launch_ok then .ok t
    else .error (.runtime_error "Error when starting", t)
  else .ok t

/-- The method `VMTask::task_start_to_execute`: one shell command. -/
def task_start_to_execute (env : TaskEnv) (t : VMTask) : VMResult :=
  if t.dom then
    if env.start_ok then .ok t
    else .error (.runtime_error "Error when starting the execution", t)
  else .error (.runtime_error "UNEXPECTED ERROR. Domain not available", t)

/-- The method `VMTask::task_restart`. -/
def task_restart (env : TaskEnv) (t : VMTask) : VMResult :=
  if t.status = Status.limit_reached ∨ t.status = Status.exited then
    match reset t with
    | .error e => .error e
    | .ok t1 =>
      match task_get_ready_to_execute_light env t1 with
      | .error e => .error e
      | .ok t2 =>
        match task_start_to_execute env t2 with
        | .error e => .error e
        | .ok t3 => .ok { t3 with num_restarts := (t3.num_restarts + 1) % 2 ^ 32 }
  else .error (.assertion_failed, t)

/-- The method `VMTask::task_restart_or_set_done`. -/
def task_restart_or_set_done (env : TaskEnv) (t : VMTask) : VMResult :=
  let curr_status := t.status
  if curr_status = Status.limit_reached ∨ curr_status = Status.exited then
    let killed : VMResult :=
      if curr_status = Status.limit_reached then task_kill env t else .ok t
    match killed with
    | .error e => .error e
    | .ok t1 =>
      if t1.num_restarts < t1.max_restarts then task_restart env t1
      else .ok { t1 with status := Status.done }
  else .ok t

/-- The method `VMTask::task_exited`; `sentinel` tells that the file
`/homenvm/dsf_<domain>/SERVER_COMPLETED` exists. -/
def task_exited (sentinel : Bool) (monitor_only : Bool) : Bool :=
  if monitor_only then false else sentinel

end VMTask

/-! ## Concrete workloads -/

/-- An environment in which every external call succeeds: perf works by pid,
`cat` is set and has 16 classes, `fork` returns the pid `200 + n % 1000` at
restart `n`, every `waitpid` reports the pid it waits for, not exited, every
`kill` and `virDomainShutdown` return 0 and every shell command returns 0. -/
def env_ok : TaskEnv :=
  { perf_type := "PID", cat := true, max_closids := 16, parse_ok := true,
    fork := fun n => 200 + ((n % 1000 : Nat) : Int),
    waitpid_untraced := fun pid => { ret := pid, exited := false, exit_status := 0 },
    waitpid_continued := fun pid => { ret := pid, exited := false, exit_status := 0 },
    kill_group := fun _ => 0,
    shutdown := 0, launch_ok := true, start_ok := true }

/-- The method `Stats::get_current`: the current reading of an event,
compensated for multiplexing. The two conversions `(double)it->running` and
`(double)it->enabled` and the two divisions are those of the machine, each
rounded to the nearest `double`. -/
def Stats.get_current (st : Stats) (name : String) : Except StatsError Dbl :=
  match st.ccurr.find? (fun c => c.name == name) with
  | none => .error (.event_not_monitorized name)
  | some it =>
    if it.value = Dbl.fin 0 then .ok (Dbl.fin 0)
    else .ok (Dbl.div_rounded it.value
      (Dbl.div_rounded (Dbl.of_uint64 it.running) (Dbl.of_uint64 it.enabled)))

/-- The conversion of a double to `uint64_t`: the value truncated toward
zero when it fits, and no value (the behaviour is undefined) otherwise. -/
def to_uint64 (d : Dbl) : Option Nat :=
  match d with
  | Dbl.fin q => if 0 ≤ trunc q ∧ trunc q < 2 ^ 64 then some (trunc q).toNat else none
  | _ => none

/-- The statement `total_inst += value` on a `uint64_t` and a double: the sum
is made on doubles and converted back. The sum is taken exact, as it is for
the first slot that holds a pid, where `total_inst` is 0. -/
def add_inst (total_inst : Nat) (value : Dbl) : Option Nat :=
  to_uint64 (Dbl.add (Dbl.ofNat total_inst) value)

/-- An object of the task list, with its dynamic type. -/
inductive AnyTask where
  | app (t : AppTask)
  | vm (t : VMTask)

/-- The members that an object inherits from `Task`. -/
def AnyTask.base : AnyTask → Task
  | .app t => t.toTask
  | .vm t => t.toTask

/-- The virtual call `task_ptr->task_restart_or_set_done(...)`. -/
def AnyTask.task_restart_or_set_done (env : TaskEnv) : AnyTask → Except TaskError AnyTask
  | .app t =>
    match AppTask.task_restart_or_set_done env t with
    | .error e => .error e.1
    | .ok t1 => .ok (.app t1)
  | .vm t =>
    match VMTask.task_restart_or_set_done env t with
    | .error e => .error e.1
    | .ok t1 => .ok (.vm t1)

/-- The parameters of `simple_loop` that the embedding uses, and the two
limits of the energy counters. `max_int` is a `uint32_t`. -/
structure Config where
  time_int_us : Nat
  max_int : Nat
  monitor_only : Bool
  rapl : Rapl

/-- The interval length passed to `Stats::accum`,
`(double)time_int_us / 1000 / 1000`. -/
def Config.interval_ti (cfg : Config) : Dbl :=
  Dbl.div (Dbl.div (Dbl.ofNat cfg.time_int_us) (Dbl.fin 1000)) (Dbl.fin 1000)

/-- What the supervisor reads from outside during one interval: the two
durations that `adjust_time` measures, and, by position in the task list, the
results of the calls of the task methods, the sample vector
`perf.read_counters(...)[0]` of each cpu position, the result of
`waitpid(pids[0], &statusTask, WNOHANG)` and the existence of the file
`SERVER_COMPLETED`. -/
structure IntervalEnv where
  elapsed_us : Nat
  total_elapsed_us : Nat
  task : Nat → TaskEnv
  counters : Nat → Nat → List Counter
  waitpid_nohang : Nat → WaitResult
  sentinel : Nat → Bool

/-- The sample vector that the loop passes to `accum`: `counters` stays empty
when the perf type is neither `PID` nor `CPU`. -/
def read_counters (perf_type : String) (counters : List Counter) : List Counter :=
  if perf_type = "PID" ∨ perf_type = "CPU" then counters else []

/-- The body of the loop over the cpus of a Process workload in the
post-sleep phase: a slot with a positive pid is sampled, and its current
instruction count is added to `total_inst`. -/
def AppTask.sample_body (cfg : Config) (perf_type : String) (counters : Nat → List Counter)
    (x : Nat × Nat) (s : AppTask × Nat) : Except TaskError (AppTask × Nat) :=
  if 32 ≤ x.1 then .error .out_of_bounds
  else if 0 < s.1.pids x.1 then
    match Stats.accum cfg.rapl (s.1.stats x.1) (read_counters perf_type (counters x.1))
        cfg.interval_ti with
    | .error e => .error (.stats e)
    | .ok st =>
      match st.get_current "inst_retired.any" with
      | .error e => .error (.stats e)
      | .ok value =>
        match add_inst s.2 value with
        | none => .error .conversion
        | some total_inst =>
          .ok ({ s.1 with stats := Function.update s.1.stats x.1 st }, total_inst)
  else .ok s

/-- The loop over the cpus of a Process workload in the post-sleep phase; it
returns the object and `total_inst`. -/
def AppTask.sample (cfg : Config) (perf_type : String) (counters : Nat → List Counter)
    (t : AppTask) : Except TaskError (AppTask × Nat) :=
  for_each (AppTask.sample_body cfg perf_type counters) t.cpus.enum (t, 0)

/-- The body of the loop over the cpus of a virtual machine in the post-sleep
phase: every slot is sampled. -/
def VMTask.sample_body (cfg : Config) (perf_type : String) (counters : Nat → List Counter)
    (x : Nat × Nat) (t : VMTask) : Except TaskError VMTask :=
  if 32 ≤ x.1 then .error .out_of_bounds
  else
    match Stats.accum cfg.rapl (t.stats x.1) (read_counters perf_type (counters x.1))
        cfg.interval_ti with
    | .error e => .error (.stats e)
    | .ok st => .ok { t with stats := Function.update t.stats x.1 st }

/-- The loop over the cpus of a virtual machine in the post-sleep phase. -/
def VMTask.sample (cfg : Config) (perf_type : String) (counters : Nat → List Counter)
    (t : VMTask) : Except TaskError VMTask :=
  for_each (VMTask.sample_body cfg perf_type counters) t.cpus.enum t

/-- The statements `set_status(s); completed++; run_id++` of the post-sleep
phase; `completed` is a `uint32_t`. -/
def Task.complete (t : Task) (s : Status) : Task :=
  { t with status := s, completed := (t.completed + 1) % 2 ^ 32, run_id := t.run_id + 1 }

/-- The post-sleep phase for the task at position `i` of the task list: the
samples are accumulated, then the exit and the instruction limit are tested.
The second component is the new value of `new_task_completion`. -/
def post_sleep_task (cfg : Config) (env : IntervalEnv) (i : Nat) (task : AnyTask)
    (new_task_completion : Bool) : Except TaskError (AnyTask × Bool) :=
  match task with
  | .vm t =>
    match VMTask.sample cfg (env.task i).perf_type (env.counters i) t with
    | .error e => .error e
    | .ok t1 =>
      if VMTask.task_exited (env.sentinel i) cfg.monitor_only then
        .ok (.vm { t1 with toTask := t1.toTask.complete Status.exited }, true)
      else .ok (.vm t1, new_task_completion)
  | .app t =>
    match AppTask.sample cfg (env.task i).perf_type (env.counters i) t with
    | .error e => .error e
    | .ok (t1, total_inst) =>
      match AppTask.task_exited (env.waitpid_nohang i) cfg.monitor_only t1 with
      | .error e => .error e
      | .ok true => .ok (.app { t1 with toTask := t1.toTask.complete Status.exited }, true)
      | .ok false =>
        if 0 < t1.max_instr ∧ t1.max_instr ≤ total_inst then
          .ok (.app { t1 with toTask := t1.toTask.complete Status.limit_reached },
               new_task_completion)
        else .ok (.app t1, new_task_completion)

/-- The variables of `simple_loop` that live across intervals. The objects of
the task list are addressed by their position, from 0 to `ntasks - 1`, and
the run-list holds positions, as it holds pointers to the same objects. -/
structure Loop where
  tasks : Nat → AnyTask
  ntasks : Nat
  runlist : List Nat
  interval : Nat
  adj_delay_us : Int
  new_task_completion : Bool

/-- The sleep of an interval and the two statements that follow it:
`new_task_completion = false` and the call of `adjust_time`. -/
def sleep (cfg : Config) (env : IntervalEnv) (L : Loop) : Loop :=
  { L with new_task_completion := false
           adj_delay_us := adjust_time env.elapsed_us env.total_elapsed_us L.interval
             cfg.time_int_us L.adj_delay_us false }

/-- The body of the post-sleep loop over the run-list; the second component
of the state is `all_completed`. -/
def post_sleep_body (cfg : Config) (env : IntervalEnv) (i : Nat) (s : Loop × Bool) :
    Except TaskError (Loop × Bool) :=
  match post_sleep_task cfg env i (s.1.tasks i) s.1.new_task_completion with
  | .error e => .error e
  | .ok (task1, ntc) =>
    .ok ({ s.1 with tasks := Function.update s.1.tasks i task1, new_task_completion := ntc },
         if task1.base.completed = 0 ∧ task1.base.batch = false then false else s.2)

/-- The post-sleep phase of an interval; it returns the variables of the loop
and `all_completed`. -/
def post_sleep (cfg : Config) (env : IntervalEnv) (L : Loop) : Except TaskError (Loop × Bool) :=
  for_each (post_sleep_body cfg env) L.runlist (L, true)

/-- The body of the post-processing loop over the run-list. -/
def post_process_body (env : IntervalEnv) (i : Nat) (L : Loop) : Except TaskError Loop :=
  if (L.tasks i).base.status = Status.exited then
    match (L.tasks i).task_restart_or_set_done (env.task i) with
    | .error e => .error e
    | .ok task1 => .ok { L with tasks := Function.update L.tasks i task1 }
  else .ok L

/-- The post-processing phase of an interval. -/
def post_process (env : IntervalEnv) (L : Loop) : Except TaskError Loop :=
  for_each (post_process_body env) L.runlist L

/-- The test of the `remove_if` that cleans the run-list. -/
def done_or_exited (L : Loop) (i : Nat) : Bool :=
  decide ((L.tasks i).base.status = Status.done) ||
  decide ((L.tasks i).base.status = Status.exited)

/-- The body of the `for` statement of `simple_loop`, from the sleep on. The
second component tells that the loop is left by `break`. -/
def interval_body (cfg : Config) (env : IntervalEnv) (L : Loop) :
    Except TaskError (Loop × Bool) :=
  match post_sleep cfg env (sleep cfg env L) with
  | .error e => .error e
  | .ok (L2, all_completed) =>
    if all_completed then .ok (L2, true)
    else
      match post_process env L2 with
      | .error e => .error e
      | .ok L3 =>
        let runlist := L3.runlist.filter (fun i => !(done_or_exited L3 i))
        if runlist.isEmpty then .error .runlist_empty
        else .ok ({ L3 with runlist := runlist }, false)

/-- The `for` statement of `simple_loop`, one element of `envs` for each
interval that is run; `interval` is a `uint32_t`. The second component tells
that the loop was left by `break`. -/
def intervals (cfg : Config) : List IntervalEnv → Loop → Except TaskError (Loop × Bool)
  | [], L => .ok (L, false)
  | env :: envs, L =>
    if L.interval < cfg.max_int then
      match interval_body cfg env L with
      | .error e => .error e
      | .ok (L1, true) => .ok (L1, true)
      | .ok (L1, false) =>
        intervals cfg envs { L1 with interval := (L1.interval + 1) % 2 ^ 32 }
    else .ok (L, false)

/-- The variables of the loop before the first interval: the run-list is a
copy of the task list and `adj_delay_us`, an `int64_t`, is `time_int_us`. -/
def Loop.start (cfg : Config) (tasks : Nat → AnyTask) (ntasks : Nat) : Loop :=
  { tasks := tasks, ntasks := ntasks, runlist := List.range ntasks, interval := 0,
    adj_delay_us := to_int64 cfg.time_int_us, new_task_completion := false }

/-! ## A concrete run of the supervisor loop -/

/-- A sample of the event `inst_retired.any` with given enabled and running
times. -/
def inst_sample (value : ℚ) (enabled running : Nat) : Counter :=
  { id := 0, name := "inst_retired.any", value := Dbl.fin value, unit := "",
    snapshot := false, enabled := enabled, running := running }

/-- A supervisor with intervals of one second, at most ten of them. -/
def cfg0 : Config :=
  { time_int_us := 1000000, max_int := 10, monitor_only := false, rapl := rapl0 }

/-- The store of a cpu slot as the prologue of `simple_loop` leaves it when
perf measures `inst_retired.any` alone: built by `Stats(names, ti)`, with a
first sample vector, of reading `value`, accumulated. -/
def inst_store (value : ℚ) : Stats :=
  match Stats.init Stats.new ["inst_retired.any"] cfg0.interval_ti with
  | .error _ => Stats.new
  | .ok st =>
    match Stats.accum cfg0.rapl st [inst_sample value 1 1] cfg0.interval_ti with
    | .error _ => Stats.new
    | .ok st1 => st1

/-- A Process workload on one cpu, runnable and never completed, with the pid
`pid` and a store that holds a first reading of 0. -/
def app_one_cpu (cpu : Nat) (pid : Int) (max_instr max_restarts : Nat) : AppTask :=
  { cpus := [cpu], pids := fun i => if i = 0 then pid else 0,
    stats := fun _ => inst_store 0, initial_clos := 0, max_restarts := max_restarts,
    batch := false, client := false, num_restarts := 0, completed := 0, run_id := 0,
    status := Status.runnable, sent := [], max_instr := max_instr }

/-- The task list of the scenarios: a Process with the given limits on
cpu 0, and a Process without limit on cpu 1. -/
def two_tasks (max_instr max_restarts : Nat) (i : Nat) : AnyTask :=
  if i = 0 then AnyTask.app (app_one_cpu 0 100 max_instr max_restarts)
  else AnyTask.app (app_one_cpu 1 101 0 0)

/-- The interval number `k` of the scenario: no process exits, the first
workload has retired `10^6 * (k + 1)` instructions since the start and the
second `5 * (k + 1)`; each interval lasts one second. -/
def busy_interval (k : Nat) : IntervalEnv :=
  { elapsed_us := 1000000, total_elapsed_us := 1000000 * (k + 1),
    task := fun _ => env_ok,
    counters := fun i _ =>
      if i = 0 then [inst_sample (1000000 * ((k : ℚ) + 1)) 1 1]
      else [inst_sample (5 * ((k : ℚ) + 1)) 1 1],
    waitpid_nohang := fun _ => { ret := 0, exited := false, exit_status := 0 },
    sentinel := fun _ => false }

/-- An interval in which the process of the first workload has exited with
status 0, and nothing else differs from `busy_interval k`. -/
def exit_interval (k : Nat) : IntervalEnv :=
  { busy_interval k with
    waitpid_nohang := fun i =>
      if i = 0 then { ret := 100, exited := true, exit_status := 0 }
      else { ret := 0, exited := false, exit_status := 0 } }

/-- The status, the number of restarts and the number of completions of the
task at position `i` when the loop returns, and whether the loop was left by
`break`; `none` when the loop throws. -/
def task_summary (r : Except TaskError (Loop × Bool)) (i : Nat) :
    Option (Status × Nat × Nat × Bool) :=
  match r with
  | .ok (L, b) =>
    some ((L.tasks i).base.status, (L.tasks i).base.num_restarts,
      (L.tasks i).base.completed, b)
  | .error _ => none

/-! ## Notions used by the statements on workloads -/

/-- The object that a method leaves: the one it returns, or the one at the
point where it throws. -/
def final_state {E σ : Type} (r : Except (E × σ) σ) : σ :=
  match r with
  | .ok s => s
  | .error e => e.2

/-- The members of `Task` that no method of a workload writes. -/
def Task.fixed (t : Task) : List Nat × Nat × Nat × Bool × Bool × Nat × Int :=
  (t.cpus, t.initial_clos, t.max_restarts, t.batch, t.client, t.completed, t.run_id)

/-- The members of a Process workload that only `task_restart` writes, or
that no method writes. -/
def AppTask.kept (t : AppTask) : (List Nat × Nat × Nat × Bool × Bool × Nat × Int) × Nat × Nat :=
  (t.toTask.fixed, t.max_instr, t.num_restarts)

/-- The members of a virtual machine that only `task_restart` writes, or
that no method writes. -/
def VMTask.kept (t : VMTask) :
    (List Nat × Nat × Nat × Bool × Bool × Nat × Int) × Bool × Bool × Nat :=
  (t.toTask.fixed, t.dom, t.client_native, t.num_restarts)

/-! ## Notions used by the statements on the supervisor loop -/

/-- The positions, among the cpus of a Process workload, of the pid slots
that hold a positive value. -/
def AppTask.live_slots (t : AppTask) : List Nat :=
  (List.range t.cpus.length).filter (fun k => decide (0 < t.pids k))

/-- The value of `get_current("inst_retired.any")` on a store; 0 stands for
the exception. -/
def Stats.current_inst (st : Stats) : Dbl :=
  match st.get_current "inst_retired.any" with
  | .ok value => value
  | .error _ => Dbl.fin 0

/-- The values of `get_current("inst_retired.any")` on the stores of the
cpus of a Process workload whose pid slot is positive, in the order of the
cpus. -/
def AppTask.inst_values (t : AppTask) : List Dbl :=
  t.live_slots.map (fun k => (t.stats k).current_inst)

/-- The values of a list added one at a time to an unsigned 64-bit integer
that starts at `total_inst`, each sum truncated toward zero; no value when a
sum is outside the range of the integer. -/
def inst_total : List Dbl → Nat → Option Nat
  | [], total_inst => some total_inst
  | value :: rest, total_inst =>
    match add_inst total_inst value with
    | none => none
    | some total_inst1 => inst_total rest total_inst1

/-- An interval in which no process exits and the event `inst_retired.any` of
every cpu reads 35 retired instructions, its counter having been enabled for
11 time units and run for 6 of them since the first sample, which makes 12 and
7 with those of the first sample. -/
def shared_interval : IntervalEnv :=
  { elapsed_us := 1000000, total_elapsed_us := 1000000,
    task := fun _ => env_ok,
    counters := fun _ _ => [inst_sample 35 11 6],
    waitpid_nohang := fun _ => { ret := 0, exited := false, exit_status := 0 },
    sentinel := fun _ => false }

/-- The status and the number of completions of the workload that the
post-sleep phase leaves, and the values of `get_current("inst_retired.any")`
on its cpus; `none` when the phase throws or leaves a virtual machine. -/
def app_summary (r : Except TaskError (AnyTask × Bool)) : Option (Status × Nat × List Dbl) :=
  match r with
  | .ok (AnyTask.app t, _) => some (t.status, t.completed, t.inst_values)
  | _ => none

/-- The condition on the variables of the loop that holds at the start of
every interval: the run-list holds distinct positions of the task list, of
tasks that are `runnable` or `limit_reached`; a task that left the run-list
has completed at least once; no task has completed more often than the number
of intervals run so far, which is at most `max_int`. -/
def Loop.consistent (cfg : Config) (L : Loop) : Prop :=
  L.runlist.Nodup ∧
  (∀ i ∈ L.runlist, i < L.ntasks) ∧
  (∀ i ∈ L.runlist, (L.tasks i).base.status = Status.runnable ∨
    (L.tasks i).base.status = Status.limit_reached) ∧
  (∀ i, i < L.ntasks → i ∉ L.runlist → 1 ≤ (L.tasks i).base.completed) ∧
  (∀ i, i < L.ntasks → (L.tasks i).base.completed ≤ L.interval) ∧
  L.interval ≤ cfg.max_int

/-! ## The RDT adapter -/

/-- The structure `pqos_l3ca` of libpqos: one class of service of the L3
table. The member `u.ways_mask` of the union shares its storage with
`u.s.data_mask`, so it is read and written here as `data_mask`. -/
structure pqos_l3ca where
  class_id : Nat
  cdp : Int
  data_mask : Nat
  code_mask : Nat
  deriving DecidableEq

/-- The block that an entry of `m_mon_grps` points to, as far as the adapter
reads it: a group started by `pqos_mon_start_pids`, with its `pids[0]`, a
group started by `pqos_mon_start`, with its `cores[0]`, a block that was
allocated and not started, and a block that was freed. -/
inductive mon_group where
  | pids (pid : Int)
  | cores (core : Nat)
  | blank
  | freed
  deriving DecidableEq

/-- The ways in which a method of the adapter stops: a `std::runtime_error`,
a failed `assert`, and the behaviours that C++ leaves undefined and the
embedding reports: the use of a null pointer, an index outside an array, and
the read of a block that was freed or never filled. -/
inductive RdtError where
  | runtime_error (what : String)
  | assertion_failed
  | null_pointer
  | out_of_bounds
  | invalid_read
  deriving DecidableEq

/-- The sizes of the two tables of monitored pids and cores. -/
def PQOS_MAX_PIDS : Nat := 32

/-- The size of `m_mon_grps` and of the table of monitored cores. -/
def PQOS_MAX_CORES : Nat := 1024

/-- The scope `CAT_UPDATE_SCOPE_BOTH`. -/
def CAT_UPDATE_SCOPE_BOTH : Nat := 0

/-- The scope `CAT_UPDATE_SCOPE_DATA`. -/
def CAT_UPDATE_SCOPE_DATA : Nat := 1

/-- The scope `CAT_UPDATE_SCOPE_CODE`. -/
def CAT_UPDATE_SCOPE_CODE : Nat := 2

/-- The members of the class `IntelRDT` that the embedded methods use,
together with what they reach outside the object: the field `pid` and the
field `core` of the two file-level tables `sel_monitor_pid_tab` and
`sel_monitor_core_tab`, and the L3 table of libpqos, a store that returns what
was last set, given by socket id and class, of which `pqos_l3ca_get` fills
`num_cos` classes. `p_sockets` is `none` for a null pointer. -/
structure IntelRDT where
  initialized : Bool
  p_sockets : Option (List Nat)
  m_mon_grps : Nat → Option mon_group
  num_pids : Nat
  num_cores : Nat
  free_pids : Bool
  free_pids_index : Nat
  free_cores : Bool
  free_cores_index : Nat
  sel_monitor_pid_tab : Nat → Int
  sel_monitor_core_tab : Nat → Nat
  l3ca : Nat → Nat → pqos_l3ca
  num_cos : Nat

namespace IntelRDT

/-- The entry `clos` of the array that `pqos_l3ca_get(socket, ...)` fills. -/
def pqos_l3ca_get (rdt : IntelRDT) (socket clos : Nat) : Except RdtError pqos_l3ca :=
  if clos < rdt.num_cos then .ok (rdt.l3ca socket clos) else .error .invalid_read

/-- The call `pqos_l3ca_set(socket, 1, &ca)`. -/
def pqos_l3ca_set (rdt : IntelRDT) (socket : Nat) (ca : pqos_l3ca) : IntelRDT :=
  { rdt with l3ca := fun s c => if s = socket ∧ c = ca.class_id then ca else rdt.l3ca s c }

/-- The end of `set_cbm` and of `set_l3_clos`: the entry is written for the
socket id `p_sockets[socket]`. -/
def write_l3ca (rdt : IntelRDT) (socket : Nat) (ca : pqos_l3ca) : Except RdtError IntelRDT :=
  match rdt.p_sockets with
  | none => .error .null_pointer
  | some sockets =>
    match sockets[socket]? with
    | none => .error .out_of_bounds
    | some id => .ok (rdt.pqos_l3ca_set id ca)

/-- The method `IntelRDT::set_cbm`; `type.compare("code")` is not zero when
`type` differs from `"code"`. -/
def set_cbm (rdt : IntelRDT) (clos socket mask cdp : Nat) (type : String) :
    Except RdtError IntelRDT :=
  if rdt.initialized then
    match rdt.pqos_l3ca_get socket clos with
    | .error e => .error e
    | .ok prev =>
      if prev.class_id = clos then
        let l3ca_cos : pqos_l3ca :=
          if (cdp : Int) = 1 then
            if type ≠ "code" then
              { class_id := clos, cdp := cdp, code_mask := mask, data_mask := prev.data_mask }
            else
              { class_id := clos, cdp := cdp, data_mask := mask, code_mask := prev.code_mask }
          else { class_id := clos, cdp := cdp, data_mask := mask, code_mask := 0 }
        rdt.write_l3ca socket l3ca_cos
      else .error .assertion_failed
  else .error (.runtime_error "Could not set mask: init method must be called first")

/-- The method `IntelRDT::get_cbm`. -/
def get_cbm (rdt : IntelRDT) (clos socket : Nat) (type : String) : Except RdtError Nat :=
  match rdt.pqos_l3ca_get socket clos with
  | .error e => .error e
  | .ok ca =>
    if ca.class_id = clos then
      if ca.cdp = 1 then
        if type ≠ "code" then .ok ca.code_mask else .ok ca.data_mask
      else .ok ca.data_mask
    else .error .assertion_failed

/-- The method `IntelRDT::set_l3_clos`, which returns 1 when it returns. -/
def set_l3_clos (rdt : IntelRDT) (clos mask socket : Nat) (cdp : Int) (scope : Nat) :
    Except RdtError IntelRDT :=
  if rdt.initialized then
    if rdt.p_sockets = none ∨ mask = 0 then
      .error (.runtime_error "Failed to set L3 CAT configuration!")
    else
      match rdt.pqos_l3ca_get socket clos with
      | .error e => .error e
      | .ok prev =>
        if prev.class_id = clos then
          let l3ca_cos : pqos_l3ca :=
            if cdp = 1 then
              if scope = CAT_UPDATE_SCOPE_CODE then
                { class_id := clos, cdp := cdp, code_mask := mask, data_mask := prev.data_mask }
              else if scope = CAT_UPDATE_SCOPE_DATA then
                { class_id := clos, cdp := cdp, data_mask := mask, code_mask := prev.code_mask }
              else if scope = CAT_UPDATE_SCOPE_BOTH then
                { class_id := clos, cdp := cdp, code_mask := mask, data_mask := mask }
              else { class_id := clos, cdp := cdp, code_mask := 0, data_mask := 0 }
            else { class_id := clos, cdp := cdp, data_mask := mask, code_mask := 0 }
          rdt.write_l3ca socket l3ca_cos
        else .error .assertion_failed
  else .error (.runtime_error "Could not reset: init method must be called first")

/-- The method `IntelRDT::monitor_setup_pid`; `start_ok` tells that
`pqos_mon_start_pids` returns `PQOS_RETVAL_OK`. `num_pids` is an `unsigned`. -/
def monitor_setup_pid (rdt : IntelRDT) (pid : Int) (start_ok : Bool) :
    Except RdtError IntelRDT :=
  let index := if rdt.free_pids then rdt.free_pids_index else rdt.num_pids
  if PQOS_MAX_CORES ≤ index ∨ PQOS_MAX_PIDS ≤ index then .error .out_of_bounds
  else if start_ok then
    .ok { rdt with
          m_mon_grps := Function.update rdt.m_mon_grps index (some (mon_group.pids pid))
          sel_monitor_pid_tab := Function.update rdt.sel_monitor_pid_tab index pid
          num_pids := if rdt.free_pids then rdt.num_pids else (rdt.num_pids + 1) % 2 ^ 32
          free_pids := false }
  else .error (.runtime_error "Method os_mon_start_pids FAILED!!")

/-- The loop of `monitor_stop_pid` over the indices of a list; `stop_ok`
tells that `pqos_mon_stop` returns `PQOS_RETVAL_OK`. -/
def stop_pid_loop (rdt : IntelRDT) (pid : Int) (stop_ok : Bool) :
    List Nat → Except RdtError IntelRDT
  | [] => .ok rdt
  | i :: rest =>
    if PQOS_MAX_CORES ≤ i then .error .out_of_bounds
    else
      match rdt.m_mon_grps i with
      | none => .error .null_pointer
      | some (mon_group.pids p) =>
        if p = pid then
          if stop_ok then
            .ok { rdt with free_pids_index := i, free_pids := true
                           m_mon_grps := Function.update rdt.m_mon_grps i (some mon_group.freed) }
          else .error (.runtime_error "Monitoring stop error!")
        else stop_pid_loop rdt pid stop_ok rest
      | some _ => .error .invalid_read

/-- The method `IntelRDT::monitor_stop_pid`. -/
def monitor_stop_pid (rdt : IntelRDT) (pid : Int) (stop_ok : Bool) : Except RdtError IntelRDT :=
  rdt.stop_pid_loop pid stop_ok (List.range rdt.num_pids)

/-- The method `IntelRDT::monitor_setup_core`; `start_ok` tells that
`pqos_mon_start` returns `PQOS_RETVAL_OK`. -/
def monitor_setup_core (rdt : IntelRDT) (core : Nat) (start_ok : Bool) :
    Except RdtError IntelRDT :=
  let index := if rdt.free_cores then rdt.free_cores_index else rdt.num_cores
  if PQOS_MAX_CORES ≤ index then .error .out_of_bounds
  else if start_ok then
    .ok { rdt with
          m_mon_grps := Function.update rdt.m_mon_grps index (some (mon_group.cores core))
          sel_monitor_core_tab := Function.update rdt.sel_monitor_core_tab index core
          num_cores := if rdt.free_cores then rdt.num_cores else (rdt.num_cores + 1) % 2 ^ 32
          free_cores := false }
  else .error (.runtime_error "Method os_mon_start FAILED!!")

/-- The loop of `monitor_stop_core` over the indices of a list. -/
def stop_core_loop (rdt : IntelRDT) (core : Nat) (stop_ok : Bool) :
    List Nat → Except RdtError IntelRDT
  | [] => .ok rdt
  | i :: rest =>
    if PQOS_MAX_CORES ≤ i then .error .out_of_bounds
    else
      match rdt.m_mon_grps i with
      | none => .error .null_pointer
      | some (mon_group.cores c) =>
        if c = core then
          if stop_ok then
            .ok { rdt with free_cores_index := i, free_cores := true
                           m_mon_grps := Function.update rdt.m_mon_grps i (some mon_group.freed) }
          else .error (.runtime_error "Monitoring stop error!")
        else stop_core_loop rdt core stop_ok rest
      | some _ => .error .invalid_read

/-- The method `IntelRDT::monitor_stop_core`. -/
def monitor_stop_core (rdt : IntelRDT) (core : Nat) (stop_ok : Bool) :
    Except RdtError IntelRDT :=
  rdt.stop_core_loop core stop_ok (List.range rdt.num_cores)

/-- One call of the pid monitoring of the adapter, with the result of the
library call it makes. -/
inductive Call where
  | setup (pid : Int) (start_ok : Bool)
  | stop (pid : Int) (stop_ok : Bool)

/-- A sequence of calls of `monitor_setup_pid` and `monitor_stop_pid`,
stopping at the first exception. -/
def run : IntelRDT → List Call → Except RdtError IntelRDT
  | rdt, [] => .ok rdt
  | rdt, Call.setup pid start_ok :: rest =>
    match rdt.monitor_setup_pid pid start_ok with
    | .error e => .error e
    | .ok rdt1 => run rdt1 rest
  | rdt, Call.stop pid stop_ok :: rest =>
    match rdt.monitor_stop_pid pid stop_ok with
    | .error e => .error e
    | .ok rdt1 => run rdt1 rest

/-- The pid `pid` is registered in an active slot. -/
def registered (rdt : IntelRDT) (pid : Int) : Prop :=
  ∃ i, rdt.m_mon_grps i = some (mon_group.pids pid)

/-- No pid is registered in two active slots. -/
def distinct (rdt : IntelRDT) : Prop :=
  ∀ i j pid, rdt.m_mon_grps i = some (mon_group.pids pid) →
    rdt.m_mon_grps j = some (mon_group.pids pid) → i = j

/-- Every call of `monitor_setup_pid` of a sequence is made for a pid that is
not registered at that point. -/
def fresh_setups : IntelRDT → List Call → Prop
  | _, [] => True
  | rdt, Call.setup pid start_ok :: rest =>
    ¬ rdt.registered pid ∧
    (match rdt.monitor_setup_pid pid start_ok with
     | .error _ => True
     | .ok rdt1 => fresh_setups rdt1 rest)
  | rdt, Call.stop pid stop_ok :: rest =>
    (match rdt.monitor_stop_pid pid stop_ok with
     | .error _ => True
     | .ok rdt1 => fresh_setups rdt1 rest)

end IntelRDT

/-- The adapter after `init` on a host with the two sockets 0 and 1 and 16
classes of `0xfffff` ways, with code and data prioritization on. -/
def rdt0 : IntelRDT :=
  { initialized := true, p_sockets := some [0, 1], m_mon_grps := fun _ => none,
    num_pids := 0, num_cores := 0, free_pids := false, free_pids_index := 0,
    free_cores := false, free_cores_index := 0,
    sel_monitor_pid_tab := fun _ => 0, sel_monitor_core_tab := fun _ => 0,
    l3ca := fun _ c => { class_id := c, cdp := 1, data_mask := 0xfffff, code_mask := 0xfffff },
    num_cos := 16 }

/-- The mask that `get_cbm(clos, socket, type)` returns after
`set_l3_clos(clos, mask, socket, cdp, scope)`; `none` when one of the two
throws. -/
def l3_clos_read_back (rdt : IntelRDT) (clos mask socket : Nat) (cdp : Int) (scope : Nat)
    (type : String) : Option Nat :=
  match rdt.set_l3_clos clos mask socket cdp scope with
  | .error _ => none
  | .ok rdt1 =>
    match rdt1.get_cbm clos socket type with
    | .error _ => none
    | .ok m => some m

/-- The pids of the active slots below `n`, the number of registered slots
and the flag of the free slot, after a sequence of calls; `none` when a call
throws. -/
def slots_after (rdt : IntelRDT) (calls : List IntelRDT.Call) (n : Nat) :
    Option (List (Option mon_group) × Nat × Bool) :=
  match rdt.run calls with
  | .error _ => none
  | .ok rdt1 => some ((List.range n).map rdt1.m_mon_grps, rdt1.num_pids, rdt1.free_pids)

/-- The adapter with the pids 100 and 101 monitored, at the indices 0 and
1. -/
def rdt_two_pids : IntelRDT :=
  { rdt0 with
    m_mon_grps := fun i =>
      if i = 0 then some (mon_group.pids 100)
      else if i = 1 then some (mon_group.pids 101) else none
    sel_monitor_pid_tab := fun i => if i = 0 then 100 else if i = 1 then 101 else 0
    num_pids := 2 }

/-- The adapter with the cores 4 and 5 monitored, at the indices 0 and 1. -/
def rdt_two_cores : IntelRDT :=
  { rdt0 with
    m_mon_grps := fun i =>
      if i = 0 then some (mon_group.cores 4)
      else if i = 1 then some (mon_group.cores 5) else none
    sel_monitor_core_tab := fun i => if i = 0 then 4 else if i = 1 then 5 else 0
    num_cores := 2 }

/-- The members of a `virTypedParameter` of libvirt that the supervisor reads:
the name `field`, the `type` (0 in an entry that libvirt did not fill) and the
member `ul` of `value`, an `unsigned long long`. -/
structure virTypedParameter where
  field : String
  type : Int
  ul : Nat
  deriving DecidableEq

/-- The macro `VIR_DOMAIN_CPU_STATS_VCPUTIME` of libvirt. -/
def VIR_DOMAIN_CPU_STATS_VCPUTIME : String := "vcpu_time"

/-- The ways in which `task_get_VM_CPU_usage` stops: a `std::runtime_error`,
and the three behaviours that C++ leaves undefined and the embedding reports:
an index outside an array, an overflow of `int`, and the use of `pos` before it
is set. -/
inductive UsageError where
  | runtime_error (what : String)
  | out_of_bounds
  | overflow
  | uninitialised
  deriving DecidableEq

/-- The members of `VMTask` that `task_get_VM_CPU_usage` reads: the two
counts returned by `virDomainGetCPUStats` and the two arrays it fills, before
and after the sleep. -/
structure CpuStats where
  then_nparams : Int
  now_nparams : Int
  then_params : List virTypedParameter
  now_params : List virTypedParameter

/-- The value of an expression of type `int`; an overflow is undefined. -/
def checked_int (x : Int) : Except UsageError Int :=
  if -2 ^ 31 ≤ x ∧ x < 2 ^ 31 then .ok x else .error .overflow

/-- The entry `params[i]` of an array. -/
def param_at (params : List virTypedParameter) (i : Int) : Except UsageError virTypedParameter :=
  if 0 ≤ i then
    match params[i.toNat]? with
    | some p => .ok p
    | none => .error .out_of_bounds
  else .error .out_of_bounds

/-- The loop `for (j = 0; j < now_nparams; j++)` of `task_get_VM_CPU_usage`,
with `base = cpu * now_nparams`, from the index `j` on and for `n` more
iterations at most: it returns `pos` when it leaves by `break`, and nothing
when it ends with `j == now_nparams`. -/
def find_vcputime (then_params : List virTypedParameter) (base : Int) :
    Nat → Nat → Except UsageError (Option Int)
  | 0, _ => .ok none
  | n + 1, j =>
    match checked_int (base + (j : Int)) with
    | .error e => .error e
    | .ok pos =>
      match param_at then_params pos with
      | .error e => .error e
      | .ok p =>
        if p.field = VIR_DOMAIN_CPU_STATS_VCPUTIME then .ok (some pos)
        else find_vcputime then_params base n (j + 1)

/-- The conversion of an unsigned integer to `float`: the nearest number with
a significand of 24 bits, a tie going to the even significand. The result is
given as an integer, which it is. -/
def to_float (n : Nat) : Nat :=
  if n < 2 ^ 24 then n
  else
    let e := Nat.log2 n - 23
    let q := n / 2 ^ e
    let r := n % 2 ^ e
    let q1 := if 2 * r < 2 ^ e then q else if 2 ^ e < 2 * r then q + 1 else q + q % 2
    q1 * 2 ^ e

/-- The method `VMTask::task_get_VM_CPU_usage(then, now, cpu)`; `then` and
`now` are `unsigned long long`, and the quotient is computed on unsigned
integers before it is converted to `float`. -/
def VMTask.task_get_VM_CPU_usage (s : CpuStats) (then_ now : Nat) (cpu : Int) :
    Except UsageError Nat :=
  if s.then_nparams ≠ s.now_nparams then
    .error (.runtime_error "parameters counts don't match")
  else
    match checked_int (cpu * s.now_nparams) with
    | .error e => .error e
    | .ok base =>
      match param_at s.now_params base with
      | .error e => .error e
      | .ok first_now =>
        if first_now.type = 0 then .error (.runtime_error "VCPU is not in the maps")
        else
          match param_at s.then_params base with
          | .error e => .error e
          | .ok first_then =>
            if first_then.type = 0 then .error (.runtime_error "VCPU is not in the maps")
            else if s.now_nparams < 0 then .error .uninitialised
            else
              match find_vcputime s.then_params base s.now_nparams.toNat 0 with
              | .error e => .error e
              | .ok none =>
                .error (.runtime_error "unable to find VIR_DOMAIN_CPU_STATS_VCPUTIME")
              | .ok (some pos) =>
                match param_at s.now_params pos with
                | .error e => .error e
                | .ok p_now =>
                  match param_at s.then_params pos with
                  | .error e => .error e
                  | .ok p_then =>
                    if then_ < now ∧ p_then.ul < p_now.ul then
                      .ok (to_float ((p_now.ul - p_then.ul) / (now - then_) / 10))
                    else .ok 0

/-- The arrays of a virtual machine hold the vcputime readings `vt` (before
the sleep) and `vn` (after it) of the cpu `cpu`: the two counts are equal, the
first entry of the cpu is filled in both arrays, and the first entry of the
cpu named `vcpu_time` has the values `vt` and `vn`. -/
def CpuStats.vcputime (s : CpuStats) (cpu vt vn : Nat) : Prop :=
  ∃ n j : Nat, s.then_nparams = (n : Int) ∧ s.now_nparams = (n : Int) ∧ j < n ∧
    cpu * n + n < 2 ^ 31 ∧
    (∃ p, s.now_params[cpu * n]? = some p ∧ p.type ≠ 0) ∧
    (∃ p, s.then_params[cpu * n]? = some p ∧ p.type ≠ 0) ∧
    (∀ k, k < j → ∃ p, s.then_params[cpu * n + k]? = some p ∧
      p.field ≠ VIR_DOMAIN_CPU_STATS_VCPUTIME) ∧
    (∃ p, s.then_params[cpu * n + j]? = some p ∧
      p.field = VIR_DOMAIN_CPU_STATS_VCPUTIME ∧ p.ul = vt) ∧
    (∃ p, s.now_params[cpu * n + j]? = some p ∧ p.ul = vn)

/-- The arrays of a virtual machine with two parameters by cpu, `cpu_time`
and `vcpu_time`, and one cpu, whose vcputime goes from `vt` to `vn`. -/
def cpu_stats_one (vt vn : Nat) : CpuStats :=
  { then_nparams := 2, now_nparams := 2,
    then_params := [{ field := "cpu_time", type := 4, ul := vt + 1000 },
                    { field := "vcpu_time", type := 4, ul := vt }],
    now_params := [{ field := "cpu_time", type := 4, ul := vn + 1000 },
                   { field := "vcpu_time", type := 4, ul := vn }] }

/-! ## The perf adapter -/

/-- One event of an event list, as the functions `::get_names` and
`::read_counters` of the perf wrapper report it: its name, its result, its
unit, whether it is a snapshot, and its enabled and running times. -/
structure PerfEntry where
  name : String
  result : Dbl
  unit : String
  snapshot : Bool
  enabled : Nat
  running : Nat

/-- The ways in which a method of `Perf` stops: a failed `assert`, and an
event list of more than `max_num_events` events, which does not fit the local
arrays (`setup_events` refuses such a list). -/
inductive PerfError where
  | assertion_failed
  | out_of_bounds
  deriving DecidableEq

/-- The constant `Perf::max_num_events`. -/
def Perf.max_num_events : Nat := 32

/-- The place of a new counter in the index `by_id` of a `counters_t`, which
is ordered by id. -/
def insert_by_id (c : Counter) : List Counter → List Counter
  | [] => [c]
  | x :: xs => if c.id < x.id then c :: x :: xs else x :: insert_by_id c xs

/-- The call `counters.insert(c)` on a `counters_t`, given by its elements in
the order of the index `by_id`. Both indices are unique: a counter whose id or
whose name is already in the container is not inserted. -/
def counters_insert (counters : List Counter) (c : Counter) : List Counter :=
  if counters.any (fun x => decide (x.id = c.id) || decide (x.name = c.name)) then counters
  else insert_by_id c counters

/-- The loop `for (i = 0; i < n; i++)` of `Perf::read_counters` over the
events of a list, from the id `i` on. -/
def insert_entries : List PerfEntry → Int → List Counter → Except PerfError (List Counter)
  | [], _, counters => .ok counters
  | e :: es, i, counters =>
    if e.running ≤ e.enabled then
      insert_entries es (i + 1)
        (counters_insert counters
          { id := i, name := e.name, value := e.result, unit := e.unit,
            snapshot := e.snapshot, enabled := e.enabled, running := e.running })
    else .error .assertion_failed

/-- The statements `counters.insert({i++, name, value, unit, snapshot, 1, 1})`
that follow the loop for the first event list, for a list of
`(name, value, unit, snapshot)` and from the id `i` on. -/
def insert_extras : List (String × Dbl × String × Bool) → Int → List Counter → List Counter
  | [], _, counters => counters
  | m :: rest, i, counters =>
    insert_extras rest (i + 1)
      (counters_insert counters
        { id := i, name := m.1, value := m.2.1, unit := m.2.2.1, snapshot := m.2.2.2,
          enabled := 1, running := 1 })

/-- The values that `Perf::read_counters` adds to the events of perf: the two
energies it reads from sysfs and the arguments it receives (the four of the
disk come from `DiskUtils`). -/
structure Readings where
  energy_pkg : Dbl
  energy_ram : Dbl
  llc_occup_value : Dbl
  lmem_bw_value : Dbl
  tmem_bw_value : Dbl
  rmem_bw_value : Dbl
  read_bytes_sec : Dbl
  write_bytes_sec : Dbl
  read_iops_sec : Dbl
  write_iops_sec : Dbl
  disk_io_time : Dbl
  network_bwtx : Dbl
  network_bwrx : Dbl
  ovs_bwtx : Dbl
  ovs_bwrx : Dbl
  time_interval : Dbl

/-- The counters that the overload of `Perf::read_counters` with disk and
network arguments adds to the first event list, in the order of the
statements. -/
def Perf.extras_vm (x : Readings) : List (String × Dbl × String × Bool) :=
  [("power/energy-pkg/", x.energy_pkg, "j", false),
   ("power/energy-ram/", x.energy_ram, "j", false),
   ("LLC_occup[MB]", x.llc_occup_value, "", true),
   ("MBL[MBps]", x.lmem_bw_value, "", false),
   ("MBT[MBps]", x.tmem_bw_value, "", false),
   ("MBR[MBps]", x.rmem_bw_value, "", false),
   ("Read_bytes_sec", x.read_bytes_sec, "", false),
   ("Write_bytes_sec", x.write_bytes_sec, "", false),
   ("Read_iops_sec", x.read_iops_sec, "", false),
   ("Write_iops_sec", x.write_iops_sec, "", false),
   ("Time_io_disk_ns", x.disk_io_time, "", false),
   ("Tx_netBW[KBps]", x.network_bwtx, "", true),
   ("Rx_netBW[KBps]", x.network_bwrx, "", true),
   ("OVS_Tx_netBW[KBps]", x.ovs_bwtx, "", true),
   ("OVS_Rx_netBW[KBps]", x.ovs_bwrx, "", true),
   ("Time[ns]", x.time_interval, "", true)]

/-- The counters that the overload of `Perf::read_counters` without disk and
network arguments adds to the first event list. -/
def Perf.extras_app (x : Readings) : List (String × Dbl × String × Bool) :=
  [("power/energy-pkg/", x.energy_pkg, "j", false),
   ("power/energy-ram/", x.energy_ram, "j", false),
   ("LLC_occup[MB]", x.llc_occup_value, "", true),
   ("MBL[MBps]", x.lmem_bw_value, "", false),
   ("MBT[MBps]", x.tmem_bw_value, "", false),
   ("MBR[MBps]", x.rmem_bw_value, "", false),
   ("Time[ns]", x.time_interval, "", true)]

/-- The body of the loop of `Perf::read_counters` over the event lists of an
id: the events of the list, then, for the first list, the added counters. -/
def Perf.read_group (extras : List (String × Dbl × String × Bool)) (first : Bool)
    (evlist : List PerfEntry) : Except PerfError (List Counter) :=
  if Perf.max_num_events < evlist.length then .error .out_of_bounds
  else
    match insert_entries evlist 0 [] with
    | .error e => .error e
    | .ok counters =>
      .ok (if first then insert_extras extras (evlist.length : Int) counters else counters)

/-- The loop of `Perf::read_counters` over the event lists of an id. -/
def Perf.read_groups (extras : List (String × Dbl × String × Bool)) :
    Bool → List (List PerfEntry) → Except PerfError (List (List Counter))
  | _, [] => .ok []
  | first, evlist :: groups =>
    match Perf.read_group extras first evlist with
    | .error e => .error e
    | .ok counters =>
      match Perf.read_groups extras false groups with
      | .error e => .error e
      | .ok result => .ok (counters :: result)

/-- The overload of `Perf::read_counters` with disk and network arguments,
which the supervisor calls for a virtual machine; `groups` is
`id_events[id].groups`. -/
def Perf.read_counters_vm (groups : List (List PerfEntry)) (x : Readings) :
    Except PerfError (List (List Counter)) :=
  Perf.read_groups (Perf.extras_vm x) true groups

/-- The overload of `Perf::read_counters` without disk and network arguments,
which the supervisor calls for a Process workload. -/
def Perf.read_counters_app (groups : List (List PerfEntry)) (x : Readings) :
    Except PerfError (List (List Counter)) :=
  Perf.read_groups (Perf.extras_app x) true groups

/-- The names that `Perf::get_names` pushes after those of the first event
list. -/
def Perf.extra_names (type : String) : List String :=
  ["power/energy-pkg/", "power/energy-ram/", "LLC_occup[MB]", "MBL[MBps]", "MBT[MBps]",
   "MBR[MBps]"] ++
  (if type = "VM" then
    ["Read_bytes_sec", "Write_bytes_sec", "Read_iops_sec", "Write_iops_sec", "Time_io_disk_ns",
     "Tx_netBW[KBps]", "Rx_netBW[KBps]", "OVS_Tx_netBW[KBps]", "OVS_Rx_netBW[KBps]"]
   else []) ++
  ["Time[ns]"]

/-- The loop of `Perf::get_names` over the event lists of an id. -/
def Perf.get_names_groups (type : String) :
    Bool → List (List PerfEntry) → Except PerfError (List (List String))
  | _, [] => .ok []
  | first, evlist :: groups =>
    if Perf.max_num_events < evlist.length then .error .out_of_bounds
    else
      match Perf.get_names_groups type false groups with
      | .error e => .error e
      | .ok r =>
        .ok ((evlist.map PerfEntry.name ++ if first then Perf.extra_names type else []) :: r)

/-- The method `Perf::get_names(id, type)`; `groups` is
`id_events[id].groups`. -/
def Perf.get_names (groups : List (List PerfEntry)) (type : String) :
    Except PerfError (List (List String)) :=
  Perf.get_names_groups type true groups

/-- The labels of the columns that `Stats::header_to_string` prints. -/
def Stats.header_columns (st : Stats) : List String :=
  if st.names.isEmpty then [] else st.names ++ st.derived_metrics_int.map Prod.fst

/-- The keys of the values that `Stats::data_to_string_int` prints when it
returns, in the order of the columns: the tracked names in the order of
`names`, then the derived metrics of the interval table. -/
def Stats.int_columns (st : Stats) : List String :=
  st.names ++ st.derived_metrics_int.map Prod.fst

/-- The keys of the values that `Stats::data_to_string_total` prints when it
returns, in the order of the columns: the names of the counters of `cbak` in
the order of their ids, then the derived metrics of the total table. -/
def Stats.total_columns (st : Stats) : List String :=
  st.cbak.map Counter.name ++ st.derived_metrics_total.map Prod.fst

/-- The counters with consecutive ids from `i` on that stand for the events
of a list. -/
def entry_counters : Int → List PerfEntry → List Counter
  | _, [] => []
  | i, e :: es =>
    { id := i, name := e.name, value := e.result, unit := e.unit, snapshot := e.snapshot,
      enabled := e.enabled, running := e.running } :: entry_counters (i + 1) es

/-- The counters with consecutive ids from `i` on that stand for a list of
added values. -/
def extra_counters : Int → List (String × Dbl × String × Bool) → List Counter
  | _, [] => []
  | i, m :: rest =>
    { id := i, name := m.1, value := m.2.1, unit := m.2.2.1, snapshot := m.2.2.2,
      enabled := 1, running := 1 } :: extra_counters (i + 1) rest

/-- An event of perf that was never multiplexed. -/
def perf_event (name : String) (result : ℚ) : PerfEntry :=
  { name := name, result := Dbl.fin result, unit := "", snapshot := false,
    enabled := 1, running := 1 }

/-- Added values that are all 0, but for the energy of the package, 7
joules. -/
def readings0 : Readings :=
  { energy_pkg := Dbl.fin 7, energy_ram := Dbl.fin 0, llc_occup_value := Dbl.fin 0,
    lmem_bw_value := Dbl.fin 0, tmem_bw_value := Dbl.fin 0, rmem_bw_value := Dbl.fin 0,
    read_bytes_sec := Dbl.fin 0, write_bytes_sec := Dbl.fin 0, read_iops_sec := Dbl.fin 0,
    write_iops_sec := Dbl.fin 0, disk_io_time := Dbl.fin 0, network_bwtx := Dbl.fin 0,
    network_bwrx := Dbl.fin 0, ovs_bwtx := Dbl.fin 0, ovs_bwrx := Dbl.fin 0,
    time_interval := Dbl.fin 0 }

/-- The numbers of columns of the header, of an interval row and of a total
row of the store built by `Stats(names, ti)` after its first `accum`, of the
sample vector `counters`; nothing when one of the two calls throws. -/
def column_counts (names : List String) (counters : List Counter) : Option (Nat × Nat × Nat) :=
  match Stats.init Stats.new names (Dbl.fin 1) with
  | .error _ => none
  | .ok st0 =>
    match st0.accum rapl0 counters (Dbl.fin 1) with
    | .error _ => none
    | .ok st => some (st.header_columns.length, st.int_columns.length, st.total_columns.length)

/-- The element `[0]` of the vector that `read_counters` returns; the empty
container stands for the cases without a first element. -/
def first_group (r : Except PerfError (List (List Counter))) : List Counter :=
  match r with
  | .ok (counters :: _) => counters
  | _ => []

/-! ## The statistics of Open vSwitch -/

/-- The character that ends a line. -/
def newline : Char := Char.ofNat 10

/-- The character at which `boost::split` cuts a line. -/
def space : Char := Char.ofNat 32

/-- The lines that `std::getline` reads from a text, one after the other;
`cur` holds, in reverse, the characters read since the last end of line. A
last line without end of line is read when it is not empty. -/
def getlines_from : List Char → List Char → List (List Char)
  | [], cur => if cur.isEmpty then [] else [cur.reverse]
  | c :: cs, cur =>
    if c = newline then cur.reverse :: getlines_from cs [] else getlines_from cs (c :: cur)

/-- The lines that the loop `while (std::getline(proc.out(), line))` reads. -/
def getlines (out : List Char) : List (List Char) := getlines_from out []

/-- The tokens that `boost::split(results, line, c == ' ')` stores: the line
is cut at every space, and two spaces in a row give an empty token. -/
def split_from : List Char → List Char → List (List Char)
  | [], cur => [cur.reverse]
  | c :: cs, cur =>
    if c = space then cur.reverse :: split_from cs [] else split_from cs (c :: cur)

/-- The call `boost::split(results, line, [](char c) { return c == ' '; })`. -/
def split (line : List Char) : List (List Char) := split_from line []

/-- The string `s` starts with `pat`. -/
def starts_with : List Char → List Char → Bool
  | [], _ => true
  | _ :: _, [] => false
  | p :: ps, c :: cs => p == c && starts_with ps cs

/-- The test `s.find(pat) != std::string::npos`. -/
def contains (pat : List Char) : List Char → Bool
  | [] => pat.isEmpty
  | c :: cs => starts_with pat (c :: cs) || contains pat cs

/-- The test `isspace` in the C locale. -/
def is_space (c : Char) : Bool :=
  c.toNat == 32 || (9 ≤ c.toNat && c.toNat ≤ 13)

/-- The decimal digits at the start of a string: their value added to
`value * 10^k` for `k` digits, their number added to `count`, and the rest of
the string. -/
def read_digits : List Char → Nat → Nat → Nat × Nat × List Char
  | [], value, count => (value, count, [])
  | c :: cs, value, count =>
    if c.isDigit then read_digits cs (value * 10 + (c.toNat - 48)) (count + 1)
    else (value, count, c :: cs)

/-- The value of an optional exponent part `e`, `e+` or `e-` followed by
digits; 0 when there is none. -/
def read_exponent (s : List Char) : Int :=
  match s with
  | [] => 0
  | c :: r =>
    if c = 'e' ∨ c = 'E' then
      let negative := starts_with ['-'] r
      let r1 := if negative || starts_with ['+'] r then r.drop 1 else r
      let d := read_digits r1 0 0
      if d.2.1 = 0 then 0 else if negative then -(d.1 : Int) else (d.1 : Int)
    else 0

/-- The magnitude from which a decimal number is converted to an infinity:
half a unit in the last place above the largest finite `double`. -/
def DBL_LIMIT : ℚ := 2 ^ 1024 - 2 ^ 970

/-- The `double` that stands for a decimal number; below `DBL_LIMIT` the
conversion is taken to be exact. -/
def round_double (q : ℚ) : Dbl :=
  if DBL_LIMIT ≤ q then Dbl.pinf else if q ≤ -DBL_LIMIT then Dbl.ninf else Dbl.fin q

/-- The function `atof` of the C library on the characters of a string:
white space, an optional sign, then `inf`, `nan` (in any case), or a decimal
number with an optional fraction and an optional exponent; 0 when no number
can be read. A hexadecimal number, which starts with `0x`, is not part of the
embedding: there is no value for it. -/
def atof (s : List Char) : Option Dbl :=
  let s1 := s.dropWhile is_space
  let negative := starts_with ['-'] s1
  let s2 := if negative || starts_with ['+'] s1 then s1.drop 1 else s1
  let low := s2.map Char.toLower
  if starts_with ['0', 'x'] low then none
  else if starts_with ['i', 'n', 'f'] low then some (if negative then Dbl.ninf else Dbl.pinf)
  else if starts_with ['n', 'a', 'n'] low then some Dbl.nan
  else
    let ip := read_digits s2 0 0
    let fp := if starts_with ['.'] ip.2.2 then read_digits (ip.2.2.drop 1) 0 0
      else (0, 0, ip.2.2)
    if ip.2.1 + fp.2.1 = 0 then some (Dbl.fin 0)
    else
      let mantissa : ℚ := (ip.1 : ℚ) + (fp.1 : ℚ) / ((10 ^ fp.2.1 : Nat) : ℚ)
      let e := read_exponent fp.2.2
      let q : ℚ := if 0 ≤ e then mantissa * ((10 ^ e.toNat : Nat) : ℚ)
        else mantissa / ((10 ^ (-e).toNat : Nat) : ℚ)
      some (round_double (if negative then -q else q))

/-- The ways in which the embedding of `ovs_ofctl_poll_stats` stops: the call
`aux.erase(aux.end() - 1)` on an empty string, whose behaviour is undefined,
and a number that the embedding of `atof` does not cover. -/
inductive OvsError where
  | erase_empty
  | number_not_covered
  deriving DecidableEq

/-- The test `(p < 0) || (p != p)` that follows each assignment of
`ovs_ofctl_poll_stats`. Its operand is the pointer `rx_bytes` or `tx_bytes`
itself, given here by its address, not the value it points to: an address is
not below the null pointer and is equal to itself. -/
def pointer_test (p : Nat) : Bool :=
  decide ((p : Int) < 0) || decide (p ≠ p)

/-- The body of the loop over the tokens of a line; `p` is the pointer
`rx_bytes` or `tx_bytes` and `mem` gives the `double` at each address. -/
def poll_token (p : Nat) (token : List Char) (mem : Nat → Dbl) : Except OvsError (Nat → Dbl) :=
  if contains "bytes".toList token then
    let aux := token.drop 6
    if aux.isEmpty then .error .erase_empty
    else
      match atof aux.dropLast with
      | none => .error .number_not_covered
      | some value =>
        let mem1 := Function.update mem p value
        .ok (if pointer_test p then Function.update mem1 p (Dbl.fin 0) else mem1)
  else .ok mem

/-- The body of the loop over the lines of the output of the command. -/
def poll_line (rx_bytes tx_bytes : Nat) (line : List Char) (mem : Nat → Dbl) :
    Except OvsError (Nat → Dbl) :=
  if contains "rx".toList line then for_each (poll_token rx_bytes) (split line) mem
  else if contains "tx".toList line then for_each (poll_token tx_bytes) (split line) mem
  else .ok mem

/-- The function `ovs_ofctl_poll_stats`, from the output `out` of the command
`ovs-ofctl dump-ports` on: `rx_bytes` and `tx_bytes` are the two pointers and
the result gives the `double` at each address when the function returns. -/
def ovs_ofctl_poll_stats (out : List Char) (rx_bytes tx_bytes : Nat) (mem : Nat → Dbl) :
    Except OvsError (Nat → Dbl) :=
  for_each (poll_line rx_bytes tx_bytes) (getlines out) mem

/-- The text made of the given lines, each followed by an end of line. -/
def text_of : List String → List Char
  | [] => []
  | l :: ls => l.toList ++ newline :: text_of ls

/-- The `double` at the address `p` when the function returns; nothing when
it does not. -/
def double_at (r : Except OvsError (Nat → Dbl)) (p : Nat) : Option Dbl :=
  match r with
  | .ok mem => some (mem p)
  | .error _ => none

/-- The output of `ovs-ofctl dump-ports` for one port, with given texts for
the two byte counts. -/
def dump_ports (rx tx : String) : List Char :=
  text_of ["OFPST_PORT reply (xid=0x2): 1 ports",
    "  port  3: rx pkts=10, bytes=" ++ rx ++ ", drop=0, errs=0, frame=0, over=0, crc=0",
    "           tx pkts=7, bytes=" ++ tx ++ ", drop=0, errs=0, coll=0"]

end Stratus

/-! ## Properties of the counter store -/

namespace Stratus

open Stats

/-- What a successful `events.at(name)(value)` does to the map. -/
theorem events_push_ok {events events1 : Events} {name : String} {v : Dbl}
    (h : events_push events name v = .ok events1) :
    ∃ a, events name = some a ∧
      events1 = fun n => if n = name then some (a.push v) else events n := by
  unfold events_push at h
  split at h
  · cases h
  · rename_i a ha
    refine ⟨a, ha, ?_⟩
    injection h with h
    exact h.symm

/-- A push succeeds on every key of the map. -/
theorem events_push_isSome {events : Events} {name : String} (v : Dbl)
    (h : (events name).isSome = true) : ∃ events1, events_push events name v = .ok events1 := by
  unfold events_push
  cases hx : events name with
  | none => simp [hx] at h
  | some a => exact ⟨_, rfl⟩

/-- A push keeps the keys of the map. -/
theorem events_push_dom {events events1 : Events} {name : String} {v : Dbl}
    (h : events_push events name v = .ok events1) (m : String) :
    (events1 m).isSome = (events m).isSome := by
  obtain ⟨a, ha, rfl⟩ := events_push_ok h
  by_cases hm : m = name
  · subst hm; simp [ha]
  · simp [hm]

/-- The second loop leaves the accumulators of the other names alone. -/
theorem accum_next_other (rapl : Rapl) (ti : Dbl) :
    ∀ (cs ls : List Counter) (events events1 : Events) (cs1 : List Counter),
      accum_next rapl ti events cs ls = .ok (events1, cs1) →
      ∀ m, m ∉ cs.map Counter.name → events1 m = events m := by
  intro cs
  induction cs with
  | nil =>
    intro ls events events1 cs1 h m _
    simp [accum_next] at h
    rw [h.1]
  | cons c cs ih =>
    intro ls events events1 cs1 h m hm
    cases ls with
    | nil =>
      simp [accum_next] at h
      rw [h.1]
    | cons l ls =>
      simp only [accum_next] at h
      split at h
      · cases h
      · rename_i value hv
        split at h
        · cases h
        · rename_i ev1 hp
          split at h
          · cases h
          · rename_i ev2 cs2 hrec
            injection h with h
            injection h with h1 h2
            subst h1
            simp only [List.map_cons, List.mem_cons, not_or] at hm
            rw [ih ls ev1 _ cs2 hrec m hm.2]
            obtain ⟨a, _, rfl⟩ := events_push_ok hp
            simp [hm.1]

/-- The second loop pushes, for every pair of a sample and its predecessor, the
value computed for the pair. -/
theorem accum_next_pushes (rapl : Rapl) (ti : Dbl) :
    ∀ (cs ls : List Counter) (events events1 : Events) (cs1 : List Counter),
      accum_next rapl ti events cs ls = .ok (events1, cs1) →
      (cs.map Counter.name).Nodup →
      ∀ c l, (c, l) ∈ cs.zip ls →
        ∃ v a, next_value rapl ti c l = .ok v ∧ events c.name = some a ∧
          events1 c.name = some (a.push v) := by
  intro cs
  induction cs with
  | nil =>
    intro ls events events1 cs1 _ _ c l hmem
    simp at hmem
  | cons c0 cs ih =>
    intro ls events events1 cs1 h hnd c l hmem
    cases ls with
    | nil => simp at hmem
    | cons l0 ls =>
      simp only [accum_next] at h
      split at h
      · cases h
      · rename_i value hv
        split at h
        · cases h
        · rename_i ev1 hp
          split at h
          · cases h
          · rename_i ev2 cs2 hrec
            injection h with h
            injection h with h1 h2
            subst h1
            simp only [List.map_cons, List.nodup_cons] at hnd
            obtain ⟨a, ha, hev1⟩ := events_push_ok hp
            simp only [List.zip_cons_cons, List.mem_cons, Prod.mk.injEq] at hmem
            rcases hmem with ⟨rfl, rfl⟩ | hmem
            · refine ⟨value, a, hv, ha, ?_⟩
              rw [accum_next_other rapl ti cs ls ev1 _ cs2 hrec c.name hnd.1, hev1]
              simp
            · obtain ⟨v, a1, h1, h2, h3⟩ := ih ls ev1 _ cs2 hrec hnd.2 c l hmem
              refine ⟨v, a1, h1, ?_, h3⟩
              have hne : c.name ≠ c0.name := by
                intro heq
                apply hnd.1
                rw [← heq]
                exact List.mem_map_of_mem _ (List.of_mem_zip hmem).1
              rw [hev1] at h2
              simpa [hne] using h2

/-- The loop over the derived metrics changes only the map of events, and in
it only the accumulators of the metrics of the table. -/
theorem accum_derived_frame :
    ∀ (ders : List (String × Closure)) (st st1 : Stats),
      accum_derived st ders = .ok st1 →
      st1.initialized = st.initialized ∧ st1.counter = st.counter ∧
      st1.cbak = st.cbak ∧ st1.clast = st.clast ∧ st1.ccurr = st.ccurr ∧
      st1.derived_metrics_int = st.derived_metrics_int ∧
      st1.derived_metrics_total = st.derived_metrics_total ∧
      st1.names = st.names ∧
      (∀ m, (st1.events m).isSome = (st.events m).isSome) ∧
      (∀ m, m ∉ ders.map Prod.fst → st1.events m = st.events m) := by
  intro ders
  induction ders with
  | nil =>
    intro st st1 h
    simp only [accum_derived] at h
    injection h with h
    subst h
    simp
  | cons der rest ih =>
    intro st st1 h
    simp only [accum_derived] at h
    split at h
    · cases h
    · rename_i value hv
      split at h
      · cases h
      · rename_i ev1 hp
        obtain ⟨h1, h2, h3, h4, h5, h6, h7, h8, h9, h10⟩ := ih _ _ h
        refine ⟨h1, h2, h3, h4, h5, h6, h7, h8, ?_, ?_⟩
        · intro m
          rw [h9 m]
          exact events_push_dom hp m
        · intro m hm
          simp only [List.map_cons, List.mem_cons, not_or] at hm
          rw [h10 m hm.2]
          obtain ⟨a, _, hev⟩ := events_push_ok hp
          simp [hev, hm.1]



/-- The shape of a successful `accum` that is not the first one. -/
theorem accum_nonfirst_ok {rapl : Rapl} {st st1 : Stats} {counters : List Counter} {ti : Dbl}
    (hnf : st.ccurr ≠ []) (h : st.accum rapl counters ti = .ok st1) :
    ∃ events1 ccurr1 st2,
      accum_next rapl ti st.events counters st.ccurr = .ok (events1, ccurr1) ∧
      accum_derived { st with clast := st.ccurr, ccurr := ccurr1, events := events1 }
        st.derived_metrics_int = .ok st2 ∧
      st1 = { st2 with counter := (st2.counter + 1) % 2 ^ 64 } := by
  unfold accum at h
  have hnf2 : st.ccurr.isEmpty = false := by
    cases hc : st.ccurr with
    | nil => exact absurd hc hnf
    | cons a b => rfl
  split at h
  · split at h
    · cases h
    · rw [hnf2] at h
      simp only [Bool.false_eq_true, if_false] at h
      split at h
      · split at h
        · cases h
        · rename_i ev1 cc1 hnext
          unfold accum_finish at h
          split at h
          · cases h
          · rename_i st2 hder
            injection h with h
            exact ⟨ev1, cc1, st2, hnext, hder, h.symm⟩
      · cases h
  · cases h

/-- No compensation is applied to a finite value when the counter ran for the
whole time it was enabled. -/
theorem scale_value_full {c : Counter} (q : ℚ) (hrun : c.running = c.enabled)
    (hen : 0 < c.enabled) : scale_value c (Dbl.fin q) = .ok (Dbl.fin q) := by
  have hne : c.enabled ≠ 0 := Nat.pos_iff_ne_zero.mp hen
  have hq : ((c.enabled : ℕ) : ℚ) ≠ 0 := by exact_mod_cast hne
  simp [scale_value, hrun, hne, Dbl.div, Dbl.ofNat, hq, Dbl.lt, Dbl.isFinite]

/-- C1. On an `accum` that is not the first one since `init` or
`reset_counters`, for a counter outside the MBL/MBT/MBR family whose current
sample has `running = enabled > 0` and whose interval value is a non-negative
number, the value recorded, `last(name)`, is the raw reading when the counter
is a snapshot and current minus previous otherwise. The names of the sample
vector are distinct, as in `counters_t`, and no derived metric of the store
bears the name of the counter. -/
theorem accum_records_interval_value (rapl : Rapl) (st st1 : Stats)
    (counters : List Counter) (interval_ti : Dbl) (c l : Counter)
    (hnonfirst : st.ccurr ≠ [])
    (hok : st.accum rapl counters interval_ti = .ok st1)
    (hnodup : (counters.map Counter.name).Nodup)
    (hmem : (c, l) ∈ counters.zip st.ccurr)
    (hmb : is_mb c.name = false)
    (hrun : c.running = c.enabled) (hen : 0 < c.enabled)
    (hder : c.name ∉ st.derived_metrics_int.map Prod.fst)
    (hval : Dbl.NonNeg (if c.snapshot then c.value else Dbl.sub c.value l.value)) :
    st1.last c.name = .ok (if c.snapshot then c.value else Dbl.sub c.value l.value) := by
  obtain ⟨ev1, cc1, st2, hnext, hderived, rfl⟩ := accum_nonfirst_ok hnonfirst hok
  obtain ⟨v, a, hv, _, hpush⟩ :=
    accum_next_pushes rapl interval_ti counters st.ccurr st.events ev1 cc1 hnext hnodup c l hmem
  have hframe := (accum_derived_frame _ _ _ hderived).2.2.2.2.2.2.2.2.2 c.name hder
  obtain ⟨q, hq, hq0⟩ := hval
  have hvq : v = Dbl.fin q := by
    unfold next_value at hv
    split at hv
    · have hraw : raw_value interval_ti c l = Dbl.fin q := by
        simp only [raw_value, hmb, Bool.false_eq_true, if_false]
        exact hq
      have hfix : fix_negative rapl c l (Dbl.fin q) = .ok (Dbl.fin q) := by
        simp [fix_negative, Dbl.lt, not_lt.mpr hq0]
      rw [hraw, hfix] at hv
      simp only [scale_value_full q hrun hen] at hv
      injection hv with hv
      exact hv.symm
    · cases hv
  rw [hq]
  simp only [Stats.last]
  rw [hframe]
  simp only [hpush, accum_t.last, accum_t.push, List.headD_cons, hvq]


/-- Witness of C1: the store that has seen the reading 5 of `cycles` records 3
for the reading 8. -/
theorem accum_records_interval_value_witness :
    ∃ st1, cycles_store.accum rapl0 [cycles_sample 8] (Dbl.fin 1) = .ok st1 ∧
      st1.last "cycles" = .ok (Dbl.sub (Dbl.fin 8) (Dbl.fin 5)) := by
  have hex : ∃ st1, cycles_store.accum rapl0 [cycles_sample 8] (Dbl.fin 1) = .ok st1 := by
    norm_num [accum, cycles_store, cycles_sample, accum_next, next_value, raw_value, is_mb,
      fix_negative, scale_value, events_push, accum_finish, accum_derived, Dbl.sub, Dbl.add,
      Dbl.neg, Dbl.lt, Dbl.div, Dbl.ofNat, Dbl.isFinite]
  obtain ⟨st1, h⟩ := hex
  refine ⟨st1, h, ?_⟩
  exact accum_records_interval_value rapl0 cycles_store st1 [cycles_sample 8] (Dbl.fin 1)
    (cycles_sample 8) (cycles_sample 5) (by simp [cycles_store]) h
    (by simp) (by simp [cycles_store]) (by simp [is_mb, cycles_sample]) rfl
    (by simp [cycles_sample]) (by simp [cycles_store])
    ⟨3, by simp [cycles_sample, Dbl.sub, Dbl.add, Dbl.neg]; norm_num, by norm_num⟩

/-- The two tables of derived metrics list the same names in the same order. -/
theorem derived_names_eq (stats_names : List String) (ti : Dbl) :
    (init_derived_metrics_int stats_names ti).map Prod.fst =
      (init_derived_metrics_total stats_names ti).map Prod.fst := by
  simp only [init_derived_metrics_int, init_derived_metrics_total, List.map_append]
  congr 1
  · congr 1
    · congr 1
      · congr 1
        · congr 1
          · split <;> rfl
          · split <;> rfl
        · split <;> rfl
      · split <;> rfl
    · split <;> rfl
  · split <;> rfl

/-- The search `std::find_if` of `init` finds every name of a table in a table
with the same names. -/
theorem any_not_any_eq_false (a b : List (String × Closure))
    (h : a.map Prod.fst = b.map Prod.fst) :
    a.any (fun der => !(b.any (fun tuple => tuple.1 == der.1))) = false := by
  rw [List.any_eq_false]
  intro der hder
  have hmem : der.1 ∈ b.map Prod.fst := by
    rw [← h]
    exact List.mem_map_of_mem _ hder
  obtain ⟨t, ht, hte⟩ := List.mem_map.mp hmem
  simp only [Bool.not_eq_true, Bool.not_eq_false', List.any_eq_true, beq_iff_eq]
  exact ⟨t, ht, hte⟩

/-- The result of `init` on a default-constructed store. -/
theorem init_new_eq (stats_names : List String) (ti : Dbl) :
    init new stats_names ti = .ok
      { new with
        events := ((init_derived_metrics_int stats_names ti).map Prod.fst).foldl events_insert
          (stats_names.foldl events_insert new.events)
        derived_metrics_int := init_derived_metrics_int stats_names ti
        derived_metrics_total := init_derived_metrics_total stats_names ti
        names := stats_names
        initialized := true } := by
  have hlen : (init_derived_metrics_int stats_names ti).length =
      (init_derived_metrics_total stats_names ti).length := by
    have := congrArg List.length (derived_names_eq stats_names ti)
    simpa using this
  have hany := any_not_any_eq_false _ _ (derived_names_eq stats_names ti)
  simp only [init, new, Bool.false_eq_true, if_false, List.nil_append, hlen, ne_eq,
    not_true_eq_false, hany]

/-- C8. For every list of counter names, `init` builds the interval table and
the total table of derived metrics with the same names in the same order, and
on a default-constructed store it raises neither of the two errors of its
consistency check: it succeeds and stores these two tables. -/
theorem init_tables_consistent (stats_names : List String) (interval_ti : Dbl) :
    (init_derived_metrics_int stats_names interval_ti).map Prod.fst =
      (init_derived_metrics_total stats_names interval_ti).map Prod.fst ∧
    init new stats_names interval_ti ≠ .error .different_number_of_derived_metrics ∧
    init new stats_names interval_ti ≠ .error .different_derived_metrics ∧
    ∃ st, init new stats_names interval_ti = .ok st ∧
      st.derived_metrics_int = init_derived_metrics_int stats_names interval_ti ∧
      st.derived_metrics_total = init_derived_metrics_total stats_names interval_ti := by
  refine ⟨derived_names_eq stats_names interval_ti, ?_, ?_, ?_⟩
  · rw [init_new_eq]; intro h; cases h
  · rw [init_new_eq]; intro h; cases h
  · exact ⟨_, init_new_eq stats_names interval_ti, rfl, rfl⟩

/-- Inserting keys keeps the keys already present. -/
theorem foldl_insert_isSome_of_isSome (l : List String) :
    ∀ (events : Events) (n : String), (events n).isSome = true →
      ((l.foldl events_insert events) n).isSome = true := by
  induction l with
  | nil => intro events n h; simpa using h
  | cons x l ih =>
    intro events n h
    simp only [List.foldl_cons]
    apply ih
    unfold events_insert
    by_cases hn : n = x
    · simp only [hn, if_true]
      cases hx : events x with
      | none => rfl
      | some a => rfl
    · simp only [hn, if_false]
      exact h

/-- Every inserted key is present. -/
theorem foldl_insert_isSome_of_mem (l : List String) :
    ∀ (events : Events) (n : String), n ∈ l →
      ((l.foldl events_insert events) n).isSome = true := by
  induction l with
  | nil => intro events n h; simp at h
  | cons x l ih =>
    intro events n h
    simp only [List.foldl_cons]
    rcases List.mem_cons.mp h with rfl | h
    · apply foldl_insert_isSome_of_isSome
      unfold events_insert
      simp only [if_true]
      cases hx : events n with
      | none => rfl
      | some a => rfl
    · exact ih _ n h

/-- Inserting keys into a map whose accumulators are all empty gives such a
map. -/
theorem foldl_insert_samples (l : List String) :
    ∀ (events : Events), (∀ n a, events n = some a → a.samples = []) →
      ∀ n a, (l.foldl events_insert events) n = some a → a.samples = [] := by
  induction l with
  | nil => intro events h n a hn; exact h n a hn
  | cons x l ih =>
    intro events h
    simp only [List.foldl_cons]
    apply ih
    intro n a hn
    unfold events_insert at hn
    by_cases hx : n = x
    · simp only [hx, if_true] at hn
      cases he : events x with
      | none =>
        rw [he] at hn
        injection hn with hn
        rw [← hn]
        rfl
      | some b =>
        rw [he] at hn
        injection hn with hn
        rw [← hn]
        exact h x b he
    · simp only [hx, if_false] at hn
      exact h n a hn

/-- The invariant of a store built from `stats_names`: it is initialised, its
interval table is the one of `init`, and every tracked name and every derived
metric has an accumulator. -/
theorem init_new_inv {stats_names : List String} {ti : Dbl} {st0 : Stats}
    (h : init new stats_names ti = .ok st0) :
    st0.initialized = true ∧
    st0.derived_metrics_int = init_derived_metrics_int stats_names ti ∧
    st0.ccurr = [] ∧
    (∀ n ∈ stats_names, (st0.events n).isSome = true) ∧
    (∀ n ∈ (init_derived_metrics_int stats_names ti).map Prod.fst,
      (st0.events n).isSome = true) ∧
    (∀ n a, st0.events n = some a → a.samples = []) := by
  rw [init_new_eq] at h
  injection h with h
  subst h
  refine ⟨rfl, rfl, rfl, ?_, ?_, ?_⟩
  · intro n hn
    exact foldl_insert_isSome_of_isSome _ _ _ (foldl_insert_isSome_of_mem _ _ _ hn)
  · intro n hn
    exact foldl_insert_isSome_of_mem _ _ _ hn
  · apply foldl_insert_samples
    apply foldl_insert_samples
    intro n a hn
    simp [new] at hn

/-- The first loop keeps the keys of the map. -/
theorem accum_first_dom :
    ∀ (cs : List Counter) (events events1 : Events),
      accum_first events cs = .ok events1 →
      ∀ m, (events1 m).isSome = (events m).isSome := by
  intro cs
  induction cs with
  | nil =>
    intro events events1 h m
    simp only [accum_first] at h
    injection h with h
    rw [h]
  | cons c cs ih =>
    intro events events1 h m
    simp only [accum_first] at h
    split at h
    · cases h
    · split at h
      · cases h
      · rename_i ev1 hp
        rw [ih ev1 events1 h m, events_push_dom hp m]

/-- The second loop keeps the keys of the map. -/
theorem accum_next_dom (rapl : Rapl) (ti : Dbl) :
    ∀ (cs ls : List Counter) (events events1 : Events) (cs1 : List Counter),
      accum_next rapl ti events cs ls = .ok (events1, cs1) →
      ∀ m, (events1 m).isSome = (events m).isSome := by
  intro cs
  induction cs with
  | nil =>
    intro ls events events1 cs1 h m
    simp [accum_next] at h
    rw [h.1]
  | cons c cs ih =>
    intro ls events events1 cs1 h m
    cases ls with
    | nil =>
      simp [accum_next] at h
      rw [h.1]
    | cons l ls =>
      simp only [accum_next] at h
      split at h
      · cases h
      · split at h
        · cases h
        · rename_i ev1 hp
          split at h
          · cases h
          · rename_i ev2 cs2 hrec
            injection h with h
            injection h with h1 h2
            subst h1
            rw [ih ls ev1 _ cs2 hrec m, events_push_dom hp m]

/-- The shape of a successful first `accum`. -/
theorem accum_first_ok {rapl : Rapl} {st st1 : Stats} {counters : List Counter} {ti : Dbl}
    (hf : st.ccurr = []) (h : st.accum rapl counters ti = .ok st1) :
    ∃ events1 st2,
      accum_first st.events counters = .ok events1 ∧
      accum_derived { st with clast := st.ccurr, ccurr := counters, events := events1,
                              cbak := counters }
        st.derived_metrics_int = .ok st2 ∧
      st1 = { st2 with counter := (st2.counter + 1) % 2 ^ 64 } := by
  unfold accum at h
  split at h
  · split at h
    · cases h
    · simp only [hf, List.isEmpty_nil, if_true] at h
      split at h
      · cases h
      · rename_i ev1 hfirst
        unfold accum_finish at h
        split at h
        · cases h
        · rename_i st2 hder
          injection h with h
          refine ⟨ev1, st2, hfirst, ?_, h.symm⟩
          simpa [hf] using hder
  · cases h

/-- A successful `accum` keeps the store initialised, its interval table and
the keys of its map. -/
theorem accum_keeps {rapl : Rapl} {st st1 : Stats} {counters : List Counter} {ti : Dbl}
    (h : st.accum rapl counters ti = .ok st1) :
    st1.initialized = st.initialized ∧
    st1.derived_metrics_int = st.derived_metrics_int ∧
    (∀ m, (st1.events m).isSome = (st.events m).isSome) := by
  by_cases hf : st.ccurr = []
  · obtain ⟨ev1, st2, h1, h2, rfl⟩ := accum_first_ok hf h
    obtain ⟨a1, _, _, _, _, a6, _, _, a9, _⟩ := accum_derived_frame _ _ _ h2
    refine ⟨a1, a6, fun m => ?_⟩
    show (st2.events m).isSome = _
    rw [a9 m]
    exact accum_first_dom _ _ _ h1 m
  · obtain ⟨ev1, cc1, st2, h1, h2, rfl⟩ := accum_nonfirst_ok hf h
    obtain ⟨a1, _, _, _, _, a6, _, _, a9, _⟩ := accum_derived_frame _ _ _ h2
    refine ⟨a1, a6, fun m => ?_⟩
    show (st2.events m).isSome = _
    rw [a9 m]
    exact accum_next_dom rapl ti _ _ _ _ _ h1 m

/-- The invariant of a store holds after every sequence of calls. -/
theorem run_keeps (rapl : Rapl) :
    ∀ (calls : List Call) (st st1 : Stats), run rapl st calls = .ok st1 →
      st1.initialized = st.initialized ∧
      st1.derived_metrics_int = st.derived_metrics_int ∧
      (∀ m, (st1.events m).isSome = (st.events m).isSome) := by
  intro calls
  induction calls with
  | nil =>
    intro st st1 h
    simp only [run] at h
    injection h with h
    subst h
    exact ⟨rfl, rfl, fun _ => rfl⟩
  | cons call rest ih =>
    intro st st1 h
    cases call with
    | accum counters ti =>
      simp only [run] at h
      split at h
      · cases h
      · rename_i st2 hacc
        obtain ⟨b1, b2, b3⟩ := ih _ _ h
        obtain ⟨c1, c2, c3⟩ := accum_keeps hacc
        exact ⟨b1.trans c1, b2.trans c2, fun m => (b3 m).trans (c3 m)⟩
    | reset_counters =>
      simp only [run] at h
      obtain ⟨b1, b2, b3⟩ := ih _ _ h
      exact ⟨b1, b2, b3⟩

/-- The entries of the interval table, with the counters each one needs. -/
theorem mem_init_derived_metrics_int {stats_names : List String} {ti : Dbl}
    {d : String × Closure} (h : d ∈ init_derived_metrics_int stats_names ti) :
    (d = ("iostat", Closure.int_iostat) ∧ "Time_io_disk_ns" ∈ stats_names) ∨
    (d = ("Disk_BW[MBps]", Closure.int_disk_bw ti) ∧ "Read_bytes_sec" ∈ stats_names ∧
      "Write_bytes_sec" ∈ stats_names) ∨
    (d = ("ipc", Closure.int_ipc) ∧ "inst_retired.any" ∈ stats_names ∧
      "cycles" ∈ stats_names) ∨
    (d = ("ref-ipc", Closure.int_ref_ipc) ∧ "inst_retired.any" ∈ stats_names ∧
      "cpu_clk_unhalted.ref_tsc" ∈ stats_names) ∨
    (d = ("mpki-l2", Closure.int_mpki_l2) ∧ "inst_retired.any" ∈ stats_names ∧
      "mem_load_retired.l2_miss" ∈ stats_names) ∨
    (d = ("mpki-l3", Closure.int_mpki_l3) ∧ "inst_retired.any" ∈ stats_names ∧
      "mem_load_retired.l3_miss" ∈ stats_names) := by
  simp only [init_derived_metrics_int, List.mem_append, Bool.and_eq_true, decide_eq_true_eq] at h
  rcases h with ((((h | h) | h) | h) | h) | h
  · split at h
    · rename_i hc; simp at h; exact Or.inl ⟨h, hc⟩
    · simp at h
  · split at h
    · rename_i hc; simp at h; exact Or.inr (Or.inl ⟨h, hc⟩)
    · simp at h
  · split at h
    · rename_i hc; simp at h; exact Or.inr (Or.inr (Or.inl ⟨h, hc⟩))
    · simp at h
  · split at h
    · rename_i hc; simp at h; exact Or.inr (Or.inr (Or.inr (Or.inl ⟨h, hc⟩)))
    · simp at h
  · split at h
    · rename_i hc; simp at h; exact Or.inr (Or.inr (Or.inr (Or.inr (Or.inl ⟨h, hc⟩))))
    · simp at h
  · split at h
    · rename_i hc; simp at h; exact Or.inr (Or.inr (Or.inr (Or.inr (Or.inr ⟨h, hc⟩))))
    · simp at h

/-- A lambda of the interval table reads only `last` of tracked counters: two
stores that agree on `last` of the tracked names give it the same value. -/
theorem call_int_congr {stats_names : List String} {ti : Dbl} {d : String × Closure}
    (hd : d ∈ init_derived_metrics_int stats_names ti) (st st1 : Stats)
    (h : ∀ n ∈ stats_names, st.last n = st1.last n) :
    st.call d.2 = st1.call d.2 := by
  rcases mem_init_derived_metrics_int hd with
    ⟨rfl, h1⟩ | ⟨rfl, h1, h2⟩ | ⟨rfl, h1, h2⟩ | ⟨rfl, h1, h2⟩ | ⟨rfl, h1, h2⟩ | ⟨rfl, h1, h2⟩
  · simp only [call, h _ h1]
  · simp only [call, h _ h1, h _ h2]
  · simp only [call, h _ h1, h _ h2]
  · simp only [call, h _ h1, h _ h2]
  · simp only [call, h _ h1, h _ h2]
  · simp only [call, h _ h1, h _ h2]

/-- The accessor `last` succeeds on every key of the map. -/
theorem last_ok_of_isSome {st : Stats} {n : String} (h : (st.events n).isSome = true) :
    ∃ v, st.last n = .ok v := by
  unfold Stats.last
  cases hx : st.events n with
  | none => simp [hx] at h
  | some a => exact ⟨_, rfl⟩

/-- A lambda of the interval table returns a value when every tracked name has
an accumulator. -/
theorem call_int_ok {stats_names : List String} {ti : Dbl} {d : String × Closure}
    (hd : d ∈ init_derived_metrics_int stats_names ti) (st : Stats)
    (h : ∀ n ∈ stats_names, (st.events n).isSome = true) :
    ∃ v, st.call d.2 = .ok v := by
  rcases mem_init_derived_metrics_int hd with
    ⟨rfl, h1⟩ | ⟨rfl, h1, h2⟩ | ⟨rfl, h1, h2⟩ | ⟨rfl, h1, h2⟩ | ⟨rfl, h1, h2⟩ | ⟨rfl, h1, h2⟩
  · obtain ⟨v, hv⟩ := last_ok_of_isSome (h _ h1)
    exact ⟨_, by simp only [call, hv, iostat]; rfl⟩
  · obtain ⟨v, hv⟩ := last_ok_of_isSome (h _ h1)
    obtain ⟨w, hw⟩ := last_ok_of_isSome (h _ h2)
    exact ⟨_, by simp only [call, hv, hw]; rfl⟩
  · obtain ⟨v, hv⟩ := last_ok_of_isSome (h _ h1)
    obtain ⟨w, hw⟩ := last_ok_of_isSome (h _ h2)
    exact ⟨_, by simp only [call, hv, hw, div2]; rfl⟩
  · obtain ⟨v, hv⟩ := last_ok_of_isSome (h _ h1)
    obtain ⟨w, hw⟩ := last_ok_of_isSome (h _ h2)
    exact ⟨_, by simp only [call, hv, hw, div2]; rfl⟩
  · obtain ⟨v, hv⟩ := last_ok_of_isSome (h _ h1)
    obtain ⟨w, hw⟩ := last_ok_of_isSome (h _ h2)
    exact ⟨_, by simp only [call, hv, hw, mpki]; rfl⟩
  · obtain ⟨v, hv⟩ := last_ok_of_isSome (h _ h1)
    obtain ⟨w, hw⟩ := last_ok_of_isSome (h _ h2)
    exact ⟨_, by simp only [call, hv, hw, mpki]; rfl⟩

/-- The loop over the derived metrics succeeds on a store in which every
tracked name and every derived metric has an accumulator. -/
theorem accum_derived_ok (stats_names : List String) (ti : Dbl) :
    ∀ (ders : List (String × Closure)) (st : Stats),
      (∀ d ∈ ders, d ∈ init_derived_metrics_int stats_names ti) →
      (∀ n ∈ stats_names, (st.events n).isSome = true) →
      (∀ d ∈ ders, (st.events d.1).isSome = true) →
      ∃ st1, accum_derived st ders = .ok st1 := by
  intro ders
  induction ders with
  | nil => intro st _ _ _; exact ⟨st, rfl⟩
  | cons d rest ih =>
    intro st hsub hnames hders
    obtain ⟨v, hv⟩ := call_int_ok (hsub d (List.mem_cons_self _ _)) st hnames
    obtain ⟨ev1, hp⟩ := events_push_isSome v (hders d (List.mem_cons_self _ _))
    simp only [accum_derived, hv, hp]
    apply ih
    · intro x hx; exact hsub x (List.mem_cons_of_mem _ hx)
    · intro n hn
      show (ev1 n).isSome = true
      rw [events_push_dom hp n]; exact hnames n hn
    · intro x hx
      show (ev1 x.1).isSome = true
      rw [events_push_dom hp x.1]; exact hders x (List.mem_cons_of_mem _ hx)

/-- A name whose negative value is not clamped is not in the memory-bandwidth
family. -/
theorem is_mb_of_not_clamped {name : String} (h : is_clamped name = false) :
    is_mb name = false := by
  simp only [is_clamped, Bool.or_eq_false_iff] at h
  simp only [is_mb, Bool.or_eq_false_iff]
  exact ⟨⟨h.1.1.1.1.1.1.1, h.1.1.1.1.1.1.2⟩, h.1.1.1.1.1.2⟩

/-- The compensation never fails on a sample with `running <= enabled`, and
its result is finite. -/
theorem scale_value_ok {c : Counter} (v : Dbl) (hrun : c.running ≤ c.enabled) :
    ∃ w, scale_value c v = .ok w ∧ Dbl.isFinite w = true := by
  have hfin : ∀ x : Dbl, Dbl.isFinite (if Dbl.isFinite x = true then x else Dbl.fin 0) = true := by
    intro x
    split
    · assumption
    · rfl
  unfold scale_value
  simp only [hrun, if_true]
  by_cases he : c.enabled = 0
  · simp only [he, if_true]
    exact ⟨_, rfl, hfin v⟩
  · simp only [he, if_false]
    by_cases hlt : Dbl.lt (Dbl.div (Dbl.ofNat c.running) (Dbl.ofNat c.enabled)) (Dbl.fin 1) = true
    · simp only [hlt, if_true]
      exact ⟨_, rfl, hfin _⟩
    · simp only [hlt, if_false]
      have hq : ((c.enabled : ℕ) : ℚ) ≠ 0 := by exact_mod_cast he
      have hone : Dbl.div (Dbl.ofNat c.running) (Dbl.ofNat c.enabled) = Dbl.fin 1 := by
        simp only [Dbl.div, Dbl.ofNat, hq, if_false, Dbl.lt, decide_eq_true_eq, not_lt] at hlt ⊢
        congr 1
        apply le_antisymm _ hlt
        rw [div_le_one (by positivity)]
        exact_mod_cast hrun
      simp only [hone, if_true]
      exact ⟨_, rfl, hfin v⟩

/-- The only error of the body of the second loop, on a sample that matches
its predecessor and has `running <= enabled`, is the negative interval value of
a counter that is neither clamped nor an energy counter. -/
theorem next_value_error {rapl : Rapl} {ti : Dbl} {c l : Counter} {e : StatsError}
    (hid : c.id = l.id) (hname : c.name = l.name) (hrun : c.running ≤ c.enabled)
    (h : next_value rapl ti c l = .error e) :
    e = .negative_interval_value c.name ∧
    Dbl.lt (interval_diff c l) (Dbl.fin 0) = true ∧
    is_energy c.name = false ∧ is_clamped c.name = false := by
  unfold next_value at h
  simp only [hid, hname, and_self, if_true] at h
  split at h
  · rename_i e1 hfix
    injection h with h
    subst h
    unfold fix_negative at hfix
    split at hfix
    · rename_i hlt
      split at hfix
      · cases hfix
      · rename_i hcl
        split at hfix
        · cases hfix
        · rename_i hpkg
          split at hfix
          · cases hfix
          · rename_i hram
            injection hfix with hfix
            have hcl2 : is_clamped c.name = false := by simpa using hcl
            refine ⟨by rw [← hfix, hname], ?_, ?_, hcl2⟩
            · have hmb := is_mb_of_not_clamped hcl2
              simpa only [raw_value, hmb, Bool.false_eq_true, if_false, interval_diff] using hlt
            · simp [is_energy, hpkg, hram]
    · cases hfix
  · rename_i value hfix
    obtain ⟨w, hw, _⟩ := scale_value_ok value hrun
    rw [hw] at h
    cases h

/-- The body of the second loop fails on a negative interval value of a
counter that is neither clamped nor an energy counter. -/
theorem next_value_bad {rapl : Rapl} {ti : Dbl} {c l : Counter}
    (hlt : Dbl.lt (interval_diff c l) (Dbl.fin 0) = true)
    (hen : is_energy c.name = false) (hcl : is_clamped c.name = false) :
    ∀ v, next_value rapl ti c l ≠ .ok v := by
  intro v h
  unfold next_value at h
  split at h
  · have hmb := is_mb_of_not_clamped hcl
    have hraw : raw_value ti c l = interval_diff c l := by
      simp only [raw_value, hmb, Bool.false_eq_true, if_false, interval_diff]
    simp only [is_energy, Bool.or_eq_false_iff, beq_eq_false_iff_ne, ne_eq] at hen
    simp only [hraw, fix_negative, hlt, if_true, hcl, Bool.false_eq_true, if_false, hen.1,
      hen.2] at h
    cases h
  · cases h

/-- A successful second loop has computed a value for every pair. -/
theorem accum_next_values (rapl : Rapl) (ti : Dbl) :
    ∀ (cs ls : List Counter) (events events1 : Events) (cs1 : List Counter),
      accum_next rapl ti events cs ls = .ok (events1, cs1) →
      ∀ c l, (c, l) ∈ cs.zip ls → ∃ v, next_value rapl ti c l = .ok v := by
  intro cs
  induction cs with
  | nil =>
    intro ls events events1 cs1 _ c l hmem
    simp at hmem
  | cons c0 cs ih =>
    intro ls events events1 cs1 h c l hmem
    cases ls with
    | nil => simp at hmem
    | cons l0 ls =>
      simp only [accum_next] at h
      split at h
      · cases h
      · rename_i value hv
        split at h
        · cases h
        · rename_i ev1 hp
          split at h
          · cases h
          · rename_i ev2 cs2 hrec
            simp only [List.zip_cons_cons, List.mem_cons, Prod.mk.injEq] at hmem
            rcases hmem with ⟨rfl, rfl⟩ | hmem
            · exact ⟨value, hv⟩
            · exact ih ls ev1 _ cs2 hrec c l hmem

/-- The only error of the second loop, on samples that match their
predecessors, have `running <= enabled` and an accumulator each, is the
negative interval value of a counter that is neither clamped nor an energy
counter. -/
theorem accum_next_error (rapl : Rapl) (ti : Dbl) :
    ∀ (cs ls : List Counter) (events : Events) (e : StatsError),
      accum_next rapl ti events cs ls = .error e →
      (∀ p ∈ cs.zip ls, p.1.id = p.2.id ∧ p.1.name = p.2.name) →
      (∀ c ∈ cs, c.running ≤ c.enabled) →
      (∀ c ∈ cs, (events c.name).isSome = true) →
      ∃ p ∈ cs.zip ls, e = .negative_interval_value p.1.name ∧
        Dbl.lt (interval_diff p.1 p.2) (Dbl.fin 0) = true ∧
        is_energy p.1.name = false ∧ is_clamped p.1.name = false := by
  intro cs
  induction cs with
  | nil =>
    intro ls events e h _ _ _
    simp [accum_next] at h
  | cons c cs ih =>
    intro ls events e h hpair hrun hdom
    cases ls with
    | nil => simp [accum_next] at h
    | cons l ls =>
      have hp0 := hpair (c, l) (by simp)
      simp only [accum_next] at h
      split at h
      · rename_i e1 hv
        injection h with h
        subst h
        exact ⟨(c, l), by simp, next_value_error hp0.1 hp0.2 (hrun c (by simp)) hv⟩
      · rename_i value hv
        obtain ⟨ev1, hp⟩ := events_push_isSome value (hdom c (by simp))
        rw [hp] at h
        simp only at h
        split at h
        · rename_i e2 hrec
          injection h with h
          subst h
          obtain ⟨p, hpm, hbad⟩ := ih ls ev1 _ hrec
            (fun p hp1 => hpair p (by simp [hp1]))
            (fun c1 hc1 => hrun c1 (by simp [hc1]))
            (fun c1 hc1 => by rw [events_push_dom hp]; exact hdom c1 (by simp [hc1]))
          exact ⟨p, by simp [hpm], hbad⟩
        · cases h

/-- The final test of finiteness turns a zero or non-finite value into 0. -/
theorem finite_or_zero {x : Dbl} (hx : x = Dbl.fin 0 ∨ Dbl.isFinite x = false) :
    (if Dbl.isFinite x = true then x else Dbl.fin 0) = Dbl.fin 0 := by
  rcases hx with rfl | hx
  · simp
  · simp [hx]

/-- Dividing a zero or non-finite value by a finite fraction that is not
negative gives a zero or non-finite value. -/
theorem div_zero_or_nonfinite {v : Dbl} {f : ℚ} (hf : 0 ≤ f)
    (hv : v = Dbl.fin 0 ∨ Dbl.isFinite v = false) :
    Dbl.div v (Dbl.fin f) = Dbl.fin 0 ∨ Dbl.isFinite (Dbl.div v (Dbl.fin f)) = false := by
  rcases hv with rfl | hv
  · by_cases hz : f = 0
    · right; simp [Dbl.div, hz, Dbl.signedInf, Dbl.isFinite]
    · left; simp [Dbl.div, hz]
  · right
    cases v with
    | fin q => simp [Dbl.isFinite] at hv
    | pinf => simp [Dbl.div, hf, Dbl.isFinite]
    | ninf => simp [Dbl.div, hf, Dbl.isFinite]
    | nan => simp [Dbl.div, Dbl.isFinite]

/-- A zero or non-finite value is recorded as 0 whatever the compensation. -/
theorem scale_value_zero {c : Counter} {v w : Dbl} (h : scale_value c v = .ok w)
    (hv : v = Dbl.fin 0 ∨ Dbl.isFinite v = false) : w = Dbl.fin 0 := by
  unfold scale_value at h
  by_cases hrun : c.running ≤ c.enabled
  · simp only [hrun, if_true] at h
    by_cases he : c.enabled = 0
    · simp only [he, if_true] at h
      injection h with h
      rw [← h]
      exact finite_or_zero hv
    · have hq : ((c.enabled : ℕ) : ℚ) ≠ 0 := by exact_mod_cast he
      have hfrac : Dbl.div (Dbl.ofNat c.running) (Dbl.ofNat c.enabled) =
          Dbl.fin ((c.running : ℚ) / (c.enabled : ℚ)) := by
        simp [Dbl.div, Dbl.ofNat, hq]
      simp only [he, if_false, hfrac] at h
      cases hlt : Dbl.lt (Dbl.fin ((c.running : ℚ) / (c.enabled : ℚ))) (Dbl.fin 1) with
      | true =>
        simp only [hlt, if_true] at h
        injection h with h
        rw [← h]
        exact finite_or_zero (div_zero_or_nonfinite (by positivity) hv)
      | false =>
        simp only [hlt, Bool.false_eq_true, if_false] at h
        by_cases h1 : Dbl.fin ((c.running : ℚ) / (c.enabled : ℚ)) = Dbl.fin 1
        · simp only [h1, if_true] at h
          injection h with h
          rw [← h]
          exact finite_or_zero hv
        · simp only [h1, if_false] at h
          cases h
  · simp only [hrun, if_false] at h
    cases h

/-- In the memory-bandwidth family, a negative difference over an interval
that is not negative gives a value that is negative, zero or not finite. -/
theorem div_interval_sign {d ti : Dbl} (hd : Dbl.lt d (Dbl.fin 0) = true)
    (hti : Dbl.lt ti (Dbl.fin 0) = false)
    (hraw : Dbl.lt (Dbl.div d ti) (Dbl.fin 0) = false) :
    Dbl.div d ti = Dbl.fin 0 ∨ Dbl.isFinite (Dbl.div d ti) = false := by
  cases d with
  | fin a =>
    simp only [Dbl.lt, decide_eq_true_eq] at hd
    cases ti with
    | fin b =>
      simp only [Dbl.lt, decide_eq_false_iff_not, not_lt] at hti
      by_cases hb : b = 0
      · subst hb
        simp [Dbl.div, Dbl.signedInf, hd.ne, not_lt.mpr hd.le, Dbl.lt] at hraw
      · have hbpos : 0 < b := lt_of_le_of_ne hti (Ne.symm hb)
        have : a / b < 0 := div_neg_of_neg_of_pos hd hbpos
        simp [Dbl.div, hb, Dbl.lt, this] at hraw
    | pinf => left; rfl
    | ninf => simp [Dbl.lt] at hti
    | nan => right; rfl
  | pinf => simp [Dbl.lt] at hd
  | ninf =>
    cases ti with
    | fin b =>
      simp only [Dbl.lt, decide_eq_false_iff_not, not_lt] at hti
      simp [Dbl.div, hti, Dbl.lt] at hraw
    | pinf => right; rfl
    | ninf => simp [Dbl.lt] at hti
    | nan => right; rfl
  | nan => simp [Dbl.lt] at hd

/-- For one of the eight clamped names, the value pushed is 0 as soon as the
tested value is negative, or the difference is negative and the interval is
not. -/
theorem next_value_clamped {rapl : Rapl} {ti : Dbl} {c l : Counter} {v : Dbl}
    (h : next_value rapl ti c l = .ok v) (hcl : is_clamped c.name = true)
    (hneg : Dbl.lt (raw_value ti c l) (Dbl.fin 0) = true ∨
      (Dbl.lt (interval_diff c l) (Dbl.fin 0) = true ∧ Dbl.lt ti (Dbl.fin 0) = false)) :
    v = Dbl.fin 0 := by
  unfold next_value at h
  split at h
  · split at h
    · cases h
    · rename_i value hfix
      apply scale_value_zero h
      unfold fix_negative at hfix
      by_cases hlt : Dbl.lt (raw_value ti c l) (Dbl.fin 0) = true
      · simp only [hlt, if_true, hcl] at hfix
        injection hfix with hfix
        exact Or.inl hfix.symm
      · simp only [hlt, if_false] at hfix
        injection hfix with hfix
        subst hfix
        rcases hneg with hneg | ⟨hd, hti⟩
        · exact absurd hneg hlt
        · have hlt2 : Dbl.lt (raw_value ti c l) (Dbl.fin 0) = false := by simpa using hlt
          by_cases hmb : is_mb c.name = true
          · have hraw : raw_value ti c l = Dbl.div (interval_diff c l) ti := by
              simp only [raw_value, hmb, if_true, interval_diff]
            rw [hraw] at hlt2 ⊢
            exact div_interval_sign hd hti hlt2
          · have hraw : raw_value ti c l = interval_diff c l := by
              simp only [raw_value, hmb, interval_diff]
              rfl
            rw [hraw, hd] at hlt2
            cases hlt2
  · cases h

/-- The method `accum` on an initialised store that holds a previous sample
vector of the length of the new one: the second loop, then the derived
metrics. -/
theorem accum_nonfirst_unfold (rapl : Rapl) {st : Stats} {counters : List Counter} (ti : Dbl)
    (hinit : st.initialized = true) (hne : counters ≠ []) (hnf : st.ccurr ≠ [])
    (hlen : counters.length = st.ccurr.length) :
    st.accum rapl counters ti =
      match accum_next rapl ti st.events counters st.ccurr with
      | .error e => .error e
      | .ok (events1, ccurr1) =>
        accum_finish { st with clast := st.ccurr, ccurr := ccurr1, events := events1 } := by
  have h1 : counters.isEmpty = false := by
    cases counters with
    | nil => exact absurd rfl hne
    | cons a b => rfl
  have h2 : st.ccurr.isEmpty = false := by
    cases hc : st.ccurr with
    | nil => exact absurd hc hnf
    | cons a b => rfl
  unfold accum
  simp only [hinit, if_true, h1, h2, Bool.false_eq_true, if_false, hlen]

/-- The invariant of a store reached from `init` by a sequence of calls. -/
theorem reached_inv {rapl : Rapl} {stats_names : List String} {ti0 : Dbl} {st0 st : Stats}
    {calls : List Call} (h0 : init new stats_names ti0 = .ok st0)
    (hreach : run rapl st0 calls = .ok st) :
    st.initialized = true ∧
    st.derived_metrics_int = init_derived_metrics_int stats_names ti0 ∧
    (∀ n ∈ stats_names, (st.events n).isSome = true) ∧
    (∀ n ∈ (init_derived_metrics_int stats_names ti0).map Prod.fst,
      (st.events n).isSome = true) := by
  obtain ⟨a1, a2, _, a4, a5, _⟩ := init_new_inv h0
  obtain ⟨b1, b2, b3⟩ := run_keeps rapl calls st0 st hreach
  refine ⟨b1.trans a1, b2.trans a2, ?_, ?_⟩
  · intro n hn; rw [b3 n]; exact a4 n hn
  · intro n hn; rw [b3 n]; exact a5 n hn

/-- The end of `accum` succeeds on a store reached from `init` whose map has
kept its keys. -/
theorem accum_finish_ok (stats_names : List String) (ti0 : Dbl) (st : Stats)
    (hder : st.derived_metrics_int = init_derived_metrics_int stats_names ti0)
    (hnames : ∀ n ∈ stats_names, (st.events n).isSome = true)
    (hders : ∀ n ∈ (init_derived_metrics_int stats_names ti0).map Prod.fst,
      (st.events n).isSome = true) :
    ∃ st1, accum_finish st = .ok st1 := by
  obtain ⟨st2, h2⟩ := accum_derived_ok stats_names ti0
    st.derived_metrics_int st (by rw [hder]; intro d hd; exact hd) hnames
    (by rw [hder]; intro d hd; exact hders d.1 (List.mem_map_of_mem _ hd))
  exact ⟨_, by simp only [accum_finish, h2]; rfl⟩

/-- C3. On an `accum` that is not the first one, made on a store built by
`init` with samples that match the previous ones, are tracked by the store and
have `running <= enabled`: the call raises an error if and only if the interval
value of some counter (raw reading of a snapshot counter, current minus
previous otherwise) is negative and its name is neither one of the two energy
counters nor one of the eight clamped names; the error is then the negative
interval value of such a counter; and when the call succeeds, 0 is recorded for
every one of the eight clamped names whose tested value is negative (also
when the difference is negative and the interval is not). -/
theorem accum_error_iff_negative (rapl : Rapl) (stats_names : List String) (ti0 : Dbl)
    (st0 st : Stats) (calls : List Call) (counters : List Counter) (interval_ti : Dbl)
    (h0 : init new stats_names ti0 = .ok st0)
    (hreach : run rapl st0 calls = .ok st)
    (hnonfirst : st.ccurr ≠ [])
    (hne : counters ≠ [])
    (hlen : counters.length = st.ccurr.length)
    (hpair : ∀ p ∈ counters.zip st.ccurr, p.1.id = p.2.id ∧ p.1.name = p.2.name)
    (hrun : ∀ c ∈ counters, c.running ≤ c.enabled)
    (htracked : ∀ c ∈ counters, c.name ∈ stats_names)
    (hnodup : (counters.map Counter.name).Nodup)
    (hder : ∀ c ∈ counters,
      c.name ∉ (init_derived_metrics_int stats_names ti0).map Prod.fst) :
    ((∃ e, st.accum rapl counters interval_ti = .error e) ↔
      ∃ p ∈ counters.zip st.ccurr,
        Dbl.lt (interval_diff p.1 p.2) (Dbl.fin 0) = true ∧
        is_energy p.1.name = false ∧ is_clamped p.1.name = false) ∧
    (∀ e, st.accum rapl counters interval_ti = .error e →
      ∃ p ∈ counters.zip st.ccurr, e = .negative_interval_value p.1.name) ∧
    (∀ st1, st.accum rapl counters interval_ti = .ok st1 →
      ∀ p ∈ counters.zip st.ccurr, is_clamped p.1.name = true →
        (Dbl.lt (raw_value interval_ti p.1 p.2) (Dbl.fin 0) = true ∨
          (Dbl.lt (interval_diff p.1 p.2) (Dbl.fin 0) = true ∧
            Dbl.lt interval_ti (Dbl.fin 0) = false)) →
        st1.last p.1.name = .ok (Dbl.fin 0)) := by
  obtain ⟨i1, i2, i3, i4⟩ := reached_inv h0 hreach
  have hunf := accum_nonfirst_unfold rapl interval_ti i1 hne hnonfirst hlen
  have hdom : ∀ c ∈ counters, (st.events c.name).isSome = true :=
    fun c hc => i3 _ (htracked c hc)
  have herr : ∀ e, st.accum rapl counters interval_ti = .error e →
      ∃ p ∈ counters.zip st.ccurr, e = .negative_interval_value p.1.name ∧
        Dbl.lt (interval_diff p.1 p.2) (Dbl.fin 0) = true ∧
        is_energy p.1.name = false ∧ is_clamped p.1.name = false := by
    intro e he
    rw [hunf] at he
    split at he
    · rename_i e1 hnext
      injection he with he
      subst he
      exact accum_next_error rapl interval_ti _ _ _ _ hnext hpair hrun hdom
    · rename_i ev1 cc1 hnext
      obtain ⟨st2, h2⟩ := accum_finish_ok stats_names ti0
        { st with clast := st.ccurr, ccurr := cc1, events := ev1 } i2
        (fun n hn => by
          show (ev1 n).isSome = true
          rw [accum_next_dom rapl interval_ti _ _ _ _ _ hnext n]; exact i3 n hn)
        (fun n hn => by
          show (ev1 n).isSome = true
          rw [accum_next_dom rapl interval_ti _ _ _ _ _ hnext n]; exact i4 n hn)
      rw [h2] at he
      cases he
  refine ⟨⟨?_, ?_⟩, ?_, ?_⟩
  · rintro ⟨e, he⟩
    obtain ⟨p, hp, _, hbad⟩ := herr e he
    exact ⟨p, hp, hbad⟩
  · rintro ⟨p, hp, hlt, hen, hcl⟩
    rw [hunf]
    cases hnext : accum_next rapl interval_ti st.events counters st.ccurr with
    | error e => exact ⟨e, rfl⟩
    | ok r =>
      obtain ⟨ev1, cc1⟩ := r
      obtain ⟨v, hv⟩ := accum_next_values rapl interval_ti _ _ _ _ _ hnext p.1 p.2 hp
      exact absurd hv (next_value_bad hlt hen hcl v)
  · intro e he
    obtain ⟨p, hp, hpe, _⟩ := herr e he
    exact ⟨p, hp, hpe⟩
  · intro st1 hok p hp hcl hneg
    obtain ⟨ev1, cc1, st2, hnext, hderived, rfl⟩ := accum_nonfirst_ok hnonfirst hok
    obtain ⟨v, a, hv, _, hpush⟩ :=
      accum_next_pushes rapl interval_ti counters st.ccurr st.events ev1 cc1 hnext hnodup
        p.1 p.2 hp
    have hnotder : p.1.name ∉ st.derived_metrics_int.map Prod.fst := by
      rw [i2]
      exact hder p.1 (List.of_mem_zip hp).1
    have hframe := (accum_derived_frame _ _ _ hderived).2.2.2.2.2.2.2.2.2 p.1.name hnotder
    have hv0 := next_value_clamped hv hcl hneg
    simp only [Stats.last]
    rw [hframe]
    simp only [hpush, accum_t.last, accum_t.push, List.headD_cons, hv0]

/-- The store `cycles_store` is the one built by `init` for `cycles` after one
`accum` of the reading 5. -/
theorem cycles_store_reached :
    ∃ st0, init new ["cycles"] (Dbl.fin 1) = .ok st0 ∧
      run rapl0 st0 [Call.accum [cycles_sample 5] (Dbl.fin 1)] = .ok cycles_store := by
  refine ⟨_, init_new_eq _ _, ?_⟩
  simp [run, accum, new, init_derived_metrics_int, init_derived_metrics_total, accum_first,
    first_value, cycles_sample, events_push, events_insert, accum_finish,
    accum_derived, Dbl.div, Dbl.ofNat, Dbl.lt, Dbl.isFinite, Dbl.isNaN, cycles_store, accum_t.push,
    accum_t.empty]
  funext n
  by_cases hn : n = "cycles" <;> simp [hn]

/-- Witness of C3: after the reading 5 of `cycles`, the reading 3 makes `accum`
raise an error. -/
theorem accum_error_iff_negative_witness :
    ∃ e, cycles_store.accum rapl0 [cycles_sample 3] (Dbl.fin 1) = .error e := by
  obtain ⟨st0, h0, hreach⟩ := cycles_store_reached
  have h := accum_error_iff_negative rapl0 ["cycles"] (Dbl.fin 1) st0 cycles_store
    [Call.accum [cycles_sample 5] (Dbl.fin 1)] [cycles_sample 3] (Dbl.fin 1) h0 hreach
    (by simp [cycles_store]) (by simp) (by simp [cycles_store])
    (by simp [cycles_store, cycles_sample]) (by simp [cycles_sample])
    (by simp [cycles_sample]) (by simp)
    (by simp [cycles_sample, init_derived_metrics_int])
  refine h.1.2 ⟨(cycles_sample 3, cycles_sample 5), by simp [cycles_store], ?_, ?_, ?_⟩
  · norm_num [interval_diff, cycles_sample, Dbl.sub, Dbl.add, Dbl.neg, Dbl.lt]
  · simp [is_energy, cycles_sample]
  · simp [is_clamped, cycles_sample]

/-- The first loop pushes 0 for every sample it accepts: the clamp
`(value < 0) || (value != value) || std::isfinite(value)` replaces every finite
value, and the assertion that follows rejects the other ones. -/
theorem first_value_eq_zero {it : Counter} {v : Dbl} (h : first_value it = .ok v) :
    v = Dbl.fin 0 := by
  unfold first_value at h
  by_cases hrun : it.running ≤ it.enabled
  · simp only [hrun, if_true] at h
    generalize (if it.running ≠ 0 then
      Dbl.div (if it.name = "power/energy-ram/" ∨ it.name = "power/energy-pkg/"
        then Dbl.fin 0 else it.value) (Dbl.div (Dbl.ofNat it.running) (Dbl.ofNat it.enabled))
      else (if it.name = "power/energy-ram/" ∨ it.name = "power/energy-pkg/"
        then Dbl.fin 0 else it.value)) = x at h
    cases x <;> simp [Dbl.lt, Dbl.isNaN, Dbl.isFinite] at h
    · exact h.symm
    · exact h.symm
    · exact h.symm
  · simp only [hrun, if_false] at h
    cases h

/-- C2, the code at the failing input. On the first `accum` after `init`, the
sample of `cycles` with reading 5 and `running = enabled = 1` is recorded as
0, whereas the reading divided by `running/enabled` is 5. -/
theorem first_accum_records_zero :
    last_after rapl0 ["cycles"] (Dbl.fin 1) [Call.accum [cycles_sample 5] (Dbl.fin 1)] "cycles"
      = .ok (Dbl.fin 0) ∧
    Dbl.div (cycles_sample 5).value
      (Dbl.div (Dbl.ofNat (cycles_sample 5).running) (Dbl.ofNat (cycles_sample 5).enabled))
      = Dbl.fin 5 ∧
    Dbl.fin 0 ≠ Dbl.fin 5 := by
  refine ⟨?_, ?_, ?_⟩
  · simp [last_after, init, new, init_derived_metrics_int, init_derived_metrics_total,
      events_insert, run, accum, accum_first, first_value, cycles_sample, events_push,
      accum_finish, accum_derived, Stats.last, accum_t.last, accum_t.push, Dbl.div, Dbl.ofNat,
      Dbl.lt, Dbl.isFinite]
  · simp [cycles_sample, Dbl.div, Dbl.ofNat]
  · intro h
    injection h with h
    norm_num at h

/-- C5, counterexample. A cumulative counter named `MBL[MBps]` whose current
sample has `running = 1 < enabled = 2`, with readings 0 then 4 and an interval
of 2 seconds: the difference is `d = 4`, the value recorded is 4, and
`d * enabled / running` is 8. -/
theorem accum_scales_mb_counterexample :
    last_after rapl0 ["MBL[MBps]"] (Dbl.fin 2)
      [Call.accum [mbl_sample 0 1 1] (Dbl.fin 2), Call.accum [mbl_sample 4 2 1] (Dbl.fin 2)]
      "MBL[MBps]" = .ok (Dbl.fin 4) ∧
    (mbl_sample 4 2 1).snapshot = false ∧
    0 < (mbl_sample 4 2 1).running ∧ (mbl_sample 4 2 1).running < (mbl_sample 4 2 1).enabled ∧
    Dbl.sub (mbl_sample 4 2 1).value (mbl_sample 0 1 1).value = Dbl.fin 4 ∧
    Dbl.fin 4 ≠ Dbl.fin (4 * ((mbl_sample 4 2 1).enabled : ℚ) / ((mbl_sample 4 2 1).running : ℚ)) := by
  refine ⟨?_, rfl, by simp [mbl_sample], by simp [mbl_sample], ?_, ?_⟩
  · simp [last_after, init, new, init_derived_metrics_int, init_derived_metrics_total,
      events_insert, run, accum, accum_first, first_value, mbl_sample, events_push,
      accum_finish, accum_derived, Stats.last, accum_t.last, accum_t.push, Dbl.div, Dbl.ofNat,
      Dbl.lt, Dbl.isFinite, accum_next, next_value, raw_value, fix_negative, scale_value, is_mb,
      Dbl.sub, Dbl.add, Dbl.neg]
    norm_num
  · simp [mbl_sample, Dbl.sub, Dbl.add, Dbl.neg]
  · intro h
    injection h with h
    norm_num [mbl_sample] at h

/-- C5, amended. On an `accum` that is not the first one, for a cumulative
counter outside the MBL/MBT/MBR family whose current sample has
`0 < running < enabled` and whose difference `d = current - previous` is a
non-negative number, the value recorded is `d * enabled / running`, with the
running and enabled times of the sample passed to `accum`. -/
theorem accum_scales_by_current_sample (rapl : Rapl) (st st1 : Stats)
    (counters : List Counter) (interval_ti : Dbl) (c l : Counter) (d : ℚ)
    (hnonfirst : st.ccurr ≠ [])
    (hok : st.accum rapl counters interval_ti = .ok st1)
    (hnodup : (counters.map Counter.name).Nodup)
    (hmem : (c, l) ∈ counters.zip st.ccurr)
    (hsnap : c.snapshot = false)
    (hmb : is_mb c.name = false)
    (hrun0 : 0 < c.running) (hrun : c.running < c.enabled)
    (hder : c.name ∉ st.derived_metrics_int.map Prod.fst)
    (hd : Dbl.sub c.value l.value = Dbl.fin d) (hd0 : 0 ≤ d) :
    st1.last c.name = .ok (Dbl.fin (d * (c.enabled : ℚ) / (c.running : ℚ))) := by
  obtain ⟨ev1, cc1, st2, hnext, hderived, rfl⟩ := accum_nonfirst_ok hnonfirst hok
  obtain ⟨v, a, hv, _, hpush⟩ :=
    accum_next_pushes rapl interval_ti counters st.ccurr st.events ev1 cc1 hnext hnodup c l hmem
  have hframe := (accum_derived_frame _ _ _ hderived).2.2.2.2.2.2.2.2.2 c.name hder
  have hvq : v = Dbl.fin (d * (c.enabled : ℚ) / (c.running : ℚ)) := by
    unfold next_value at hv
    split at hv
    · have hraw : raw_value interval_ti c l = Dbl.fin d := by
        simp only [raw_value, hmb, hsnap, Bool.false_eq_true, if_false]
        exact hd
      have hfix : fix_negative rapl c l (Dbl.fin d) = .ok (Dbl.fin d) := by
        simp [fix_negative, Dbl.lt, not_lt.mpr hd0]
      rw [hraw, hfix] at hv
      have he : c.enabled ≠ 0 := by omega
      have hr : c.running ≠ 0 := by omega
      have hqe : ((c.enabled : ℕ) : ℚ) ≠ 0 := by exact_mod_cast he
      have hqr : ((c.running : ℕ) : ℚ) ≠ 0 := by exact_mod_cast hr
      have hqe0 : (0 : ℚ) < (c.enabled : ℚ) := by exact_mod_cast (Nat.pos_of_ne_zero he)
      have hfrac : (c.running : ℚ) / (c.enabled : ℚ) < 1 := by
        rw [div_lt_one hqe0]
        exact_mod_cast hrun
      have hne : (c.running : ℚ) / (c.enabled : ℚ) ≠ 0 := div_ne_zero hqr hqe
      simp only [scale_value, le_of_lt hrun, if_true, he, if_false, Dbl.div, Dbl.ofNat, hqe,
        Dbl.lt, hfrac, decide_True, hne, Dbl.isFinite] at hv
      injection hv with hv
      rw [← hv]
      congr 1
      field_simp
    · cases hv
  simp only [Stats.last]
  rw [hframe]
  simp only [hpush, accum_t.last, accum_t.push, List.headD_cons, hvq]

/-- Witness of C5, amended: after the reading 5 of `cycles`, the reading 8 of a
sample that ran for 1 of the 2 time units it was enabled is recorded as
`3 * 2 / 1`. -/
theorem accum_scales_by_current_sample_witness :
    ∃ st1, cycles_store.accum rapl0 [cycles_sample_mux 8 2 1] (Dbl.fin 1) = .ok st1 ∧
      st1.last "cycles" = .ok (Dbl.fin (3 * ((2 : ℕ) : ℚ) / ((1 : ℕ) : ℚ))) := by
  have hex : ∃ st1, cycles_store.accum rapl0 [cycles_sample_mux 8 2 1] (Dbl.fin 1) = .ok st1 := by
    norm_num [accum, cycles_store, cycles_sample, cycles_sample_mux, accum_next, next_value,
      raw_value, is_mb, fix_negative, scale_value, events_push, accum_finish, accum_derived,
      Dbl.sub, Dbl.add, Dbl.neg, Dbl.lt, Dbl.div, Dbl.ofNat, Dbl.isFinite]
  obtain ⟨st1, h⟩ := hex
  refine ⟨st1, h, ?_⟩
  exact accum_scales_by_current_sample rapl0 cycles_store st1 [cycles_sample_mux 8 2 1]
    (Dbl.fin 1) (cycles_sample_mux 8 2 1) (cycles_sample 5) 3 (by simp [cycles_store]) h
    (by simp) (by simp [cycles_store]) rfl (by simp [is_mb, cycles_sample_mux])
    (by simp [cycles_sample_mux]) (by simp [cycles_sample_mux]) (by simp [cycles_store])
    (by simp [cycles_sample, cycles_sample_mux, Dbl.sub, Dbl.add, Dbl.neg]; norm_num)
    (by norm_num)

/-- The energy correction on finite readings, in joules. -/
theorem energy_wrap_fin (max_ujoules : Nat) (cur prev : ℚ) :
    energy_wrap max_ujoules (Dbl.fin cur) (Dbl.fin prev) =
      Dbl.fin (cur + ((max_ujoules : ℚ) / 10 ^ 6 - prev)) := by
  simp only [energy_wrap, Dbl.mul, Dbl.sub, Dbl.neg, Dbl.add, Dbl.ofNat, Dbl.div]
  norm_num
  ring

/-- C4. For an energy counter (`power/energy-pkg/` or `power/energy-ram/`, a
cumulative sample that is never multiplexed: `Perf::read_counters` builds it
with `snapshot = false` and `enabled = running = 1`) whose current reading is
below the previous one, `accum` records `current + (max_ujoules/10^6 -
previous)` joules, `max_ujoules` being the limit of that counter; this value is
not negative when `0 <= current` and `previous <= max_ujoules/10^6`; and with
`max_ujoules = 262143328000` the readings `0.1, 0.2, max_j - 0.05, 0.05` record
the interval values `0, 0.1, max_j - 0.25, 0.10`. -/
theorem energy_wrap_recorded (rapl : Rapl) (st st1 : Stats)
    (counters : List Counter) (interval_ti : Dbl) (c l : Counter) (max_ujoules : Nat)
    (cur prev : ℚ)
    (hnonfirst : st.ccurr ≠ [])
    (hok : st.accum rapl counters interval_ti = .ok st1)
    (hnodup : (counters.map Counter.name).Nodup)
    (hmem : (c, l) ∈ counters.zip st.ccurr)
    (hname : (c.name = "power/energy-pkg/" ∧ max_ujoules = rapl.max_ujoules_pkg) ∨
      (c.name = "power/energy-ram/" ∧ max_ujoules = rapl.max_ujoules_ram))
    (hsnap : c.snapshot = false) (hrun : c.running = c.enabled)
    (hder : c.name ∉ st.derived_metrics_int.map Prod.fst)
    (hcur : c.value = Dbl.fin cur) (hprev : l.value = Dbl.fin prev) (hlt : cur < prev) :
    st1.last c.name = .ok (Dbl.fin (cur + ((max_ujoules : ℚ) / 10 ^ 6 - prev))) ∧
    (0 ≤ cur → prev ≤ (max_ujoules : ℚ) / 10 ^ 6 →
      0 ≤ cur + ((max_ujoules : ℚ) / 10 ^ 6 - prev)) ∧
    last_after rapl0 ["power/energy-pkg/"] (Dbl.fin 1)
      [Call.accum [energy_pkg_counter 0 (Dbl.fin (1 / 10))] (Dbl.fin 1)]
      "power/energy-pkg/" = .ok (Dbl.fin 0) ∧
    last_after rapl0 ["power/energy-pkg/"] (Dbl.fin 1)
      [Call.accum [energy_pkg_counter 0 (Dbl.fin (1 / 10))] (Dbl.fin 1),
       Call.accum [energy_pkg_counter 0 (Dbl.fin (2 / 10))] (Dbl.fin 1)]
      "power/energy-pkg/" = .ok (Dbl.fin (1 / 10)) ∧
    last_after rapl0 ["power/energy-pkg/"] (Dbl.fin 1)
      [Call.accum [energy_pkg_counter 0 (Dbl.fin (1 / 10))] (Dbl.fin 1),
       Call.accum [energy_pkg_counter 0 (Dbl.fin (2 / 10))] (Dbl.fin 1),
       Call.accum [energy_pkg_counter 0 (Dbl.fin (262143328000 / 10 ^ 6 - 5 / 100))] (Dbl.fin 1)]
      "power/energy-pkg/" = .ok (Dbl.fin (262143328000 / 10 ^ 6 - 25 / 100)) ∧
    last_after rapl0 ["power/energy-pkg/"] (Dbl.fin 1)
      [Call.accum [energy_pkg_counter 0 (Dbl.fin (1 / 10))] (Dbl.fin 1),
       Call.accum [energy_pkg_counter 0 (Dbl.fin (2 / 10))] (Dbl.fin 1),
       Call.accum [energy_pkg_counter 0 (Dbl.fin (262143328000 / 10 ^ 6 - 5 / 100))] (Dbl.fin 1),
       Call.accum [energy_pkg_counter 0 (Dbl.fin (5 / 100))] (Dbl.fin 1)]
      "power/energy-pkg/" = .ok (Dbl.fin (10 / 100)) := by
  refine ⟨?_, ?_, ?_, ?_, ?_, ?_⟩
  · obtain ⟨ev1, cc1, st2, hnext, hderived, rfl⟩ := accum_nonfirst_ok hnonfirst hok
    obtain ⟨v, a, hv, _, hpush⟩ :=
      accum_next_pushes rapl interval_ti counters st.ccurr st.events ev1 cc1 hnext hnodup c l hmem
    have hframe := (accum_derived_frame _ _ _ hderived).2.2.2.2.2.2.2.2.2 c.name hder
    have hvq : v = Dbl.fin (cur + ((max_ujoules : ℚ) / 10 ^ 6 - prev)) := by
      unfold next_value at hv
      split at hv
      · have hmb : is_mb c.name = false := by
          rcases hname with ⟨h, _⟩ | ⟨h, _⟩ <;> simp [is_mb, h]
        have hcl : is_clamped c.name = false := by
          rcases hname with ⟨h, _⟩ | ⟨h, _⟩ <;> simp [is_clamped, h]
        have hraw : raw_value interval_ti c l = Dbl.fin (cur - prev) := by
          simp only [raw_value, hmb, hsnap, Bool.false_eq_true, if_false, hcur, hprev, Dbl.sub,
            Dbl.neg, Dbl.add]
          congr 1
          ring
        have hneg : Dbl.lt (Dbl.fin (cur - prev)) (Dbl.fin 0) = true := by
          simp [Dbl.lt, hlt]
        have hfix : fix_negative rapl c l (Dbl.fin (cur - prev)) =
            .ok (Dbl.fin (cur + ((max_ujoules : ℚ) / 10 ^ 6 - prev))) := by
          unfold fix_negative
          simp only [hneg, if_true, hcl, Bool.false_eq_true, if_false]
          rcases hname with ⟨h, hm⟩ | ⟨h, hm⟩
          · simp only [h, if_true, hcur, hprev, energy_wrap_fin, hm]
          · simp [h, hcur, hprev, energy_wrap_fin, hm]
        rw [hraw, hfix] at hv
        by_cases he : c.enabled = 0
        · simp only [scale_value, hrun, le_refl, if_true, he, Dbl.isFinite] at hv
          injection hv with hv
          exact hv.symm
        · simp only [scale_value_full _ hrun (Nat.pos_of_ne_zero he)] at hv
          injection hv with hv
          exact hv.symm
      · cases hv
    simp only [Stats.last]
    rw [hframe]
    simp only [hpush, accum_t.last, accum_t.push, List.headD_cons, hvq]
  · intro h1 h2
    linarith
  · repeat (first
      | simp [last_after, init, new, init_derived_metrics_int, init_derived_metrics_total,
          events_insert, run, accum, accum_first, first_value, energy_pkg_counter, events_push,
          accum_finish, accum_derived, Stats.last, accum_t.last, accum_t.push, Dbl.div,
          Dbl.ofNat, Dbl.lt, Dbl.isFinite, accum_next, next_value, raw_value, fix_negative,
          scale_value, is_mb, is_clamped, energy_wrap, rapl0, Dbl.mul, Dbl.sub, Dbl.add, Dbl.neg,
          Stats.modify]
      | norm_num [last_after, init, new, init_derived_metrics_int, init_derived_metrics_total,
          events_insert, run, accum, accum_first, first_value, energy_pkg_counter, events_push,
          accum_finish, accum_derived, Stats.last, accum_t.last, accum_t.push, Dbl.div,
          Dbl.ofNat, Dbl.lt, Dbl.isFinite, accum_next, next_value, raw_value, fix_negative,
          scale_value, is_mb, is_clamped, energy_wrap, rapl0, Dbl.mul, Dbl.sub, Dbl.add, Dbl.neg,
          Stats.modify])
  · repeat (first
      | simp [last_after, init, new, init_derived_metrics_int, init_derived_metrics_total,
          events_insert, run, accum, accum_first, first_value, energy_pkg_counter, events_push,
          accum_finish, accum_derived, Stats.last, accum_t.last, accum_t.push, Dbl.div,
          Dbl.ofNat, Dbl.lt, Dbl.isFinite, accum_next, next_value, raw_value, fix_negative,
          scale_value, is_mb, is_clamped, energy_wrap, rapl0, Dbl.mul, Dbl.sub, Dbl.add, Dbl.neg,
          Stats.modify]
      | norm_num [last_after, init, new, init_derived_metrics_int, init_derived_metrics_total,
          events_insert, run, accum, accum_first, first_value, energy_pkg_counter, events_push,
          accum_finish, accum_derived, Stats.last, accum_t.last, accum_t.push, Dbl.div,
          Dbl.ofNat, Dbl.lt, Dbl.isFinite, accum_next, next_value, raw_value, fix_negative,
          scale_value, is_mb, is_clamped, energy_wrap, rapl0, Dbl.mul, Dbl.sub, Dbl.add, Dbl.neg,
          Stats.modify])
  · repeat (first
      | simp [last_after, init, new, init_derived_metrics_int, init_derived_metrics_total,
          events_insert, run, accum, accum_first, first_value, energy_pkg_counter, events_push,
          accum_finish, accum_derived, Stats.last, accum_t.last, accum_t.push, Dbl.div,
          Dbl.ofNat, Dbl.lt, Dbl.isFinite, accum_next, next_value, raw_value, fix_negative,
          scale_value, is_mb, is_clamped, energy_wrap, rapl0, Dbl.mul, Dbl.sub, Dbl.add, Dbl.neg,
          Stats.modify]
      | norm_num [last_after, init, new, init_derived_metrics_int, init_derived_metrics_total,
          events_insert, run, accum, accum_first, first_value, energy_pkg_counter, events_push,
          accum_finish, accum_derived, Stats.last, accum_t.last, accum_t.push, Dbl.div,
          Dbl.ofNat, Dbl.lt, Dbl.isFinite, accum_next, next_value, raw_value, fix_negative,
          scale_value, is_mb, is_clamped, energy_wrap, rapl0, Dbl.mul, Dbl.sub, Dbl.add, Dbl.neg,
          Stats.modify])
  · repeat (first
      | simp [last_after, init, new, init_derived_metrics_int, init_derived_metrics_total,
          events_insert, run, accum, accum_first, first_value, energy_pkg_counter, events_push,
          accum_finish, accum_derived, Stats.last, accum_t.last, accum_t.push, Dbl.div,
          Dbl.ofNat, Dbl.lt, Dbl.isFinite, accum_next, next_value, raw_value, fix_negative,
          scale_value, is_mb, is_clamped, energy_wrap, rapl0, Dbl.mul, Dbl.sub, Dbl.add, Dbl.neg,
          Stats.modify]
      | norm_num [last_after, init, new, init_derived_metrics_int, init_derived_metrics_total,
          events_insert, run, accum, accum_first, first_value, energy_pkg_counter, events_push,
          accum_finish, accum_derived, Stats.last, accum_t.last, accum_t.push, Dbl.div,
          Dbl.ofNat, Dbl.lt, Dbl.isFinite, accum_next, next_value, raw_value, fix_negative,
          scale_value, is_mb, is_clamped, energy_wrap, rapl0, Dbl.mul, Dbl.sub, Dbl.add, Dbl.neg,
          Stats.modify])

/-- Witness of C4: after the reading 0.2 of the package energy counter, the
reading 0.1 is recorded as `0.1 + (max_j - 0.2)`. -/
theorem energy_wrap_recorded_witness :
    ∃ st1, energy_store.accum rapl0 [energy_pkg_counter 0 (Dbl.fin (1 / 10))] (Dbl.fin 1)
        = .ok st1 ∧
      st1.last "power/energy-pkg/" =
        .ok (Dbl.fin (1 / 10 + (((262143328000 : ℕ) : ℚ) / 10 ^ 6 - 2 / 10))) := by
  have hex : ∃ st1, energy_store.accum rapl0 [energy_pkg_counter 0 (Dbl.fin (1 / 10))]
      (Dbl.fin 1) = .ok st1 := by
    repeat (first
      | simp [accum, energy_store, energy_pkg_counter, accum_next, next_value,
          raw_value, is_mb, is_clamped, fix_negative, scale_value, events_push, accum_finish,
          accum_derived, energy_wrap, rapl0, Dbl.mul, Dbl.sub, Dbl.add, Dbl.neg, Dbl.lt, Dbl.div,
          Dbl.ofNat, Dbl.isFinite]
      | norm_num [accum, energy_store, energy_pkg_counter, accum_next, next_value,
          raw_value, is_mb, is_clamped, fix_negative, scale_value, events_push, accum_finish,
          accum_derived, energy_wrap, rapl0, Dbl.mul, Dbl.sub, Dbl.add, Dbl.neg, Dbl.lt, Dbl.div,
          Dbl.ofNat, Dbl.isFinite])
  obtain ⟨st1, h⟩ := hex
  refine ⟨st1, h, ?_⟩
  exact (energy_wrap_recorded rapl0 energy_store st1 [energy_pkg_counter 0 (Dbl.fin (1 / 10))]
    (Dbl.fin 1) (energy_pkg_counter 0 (Dbl.fin (1 / 10)))
    (energy_pkg_counter 0 (Dbl.fin (2 / 10))) 262143328000 (1 / 10) (2 / 10)
    (by simp [energy_store]) h (by simp) (by simp [energy_store])
    (Or.inl ⟨rfl, rfl⟩) rfl rfl (by simp [energy_store]) rfl rfl (by norm_num)).1

/-- After the final test of finiteness, a value that is not negative is a
non-negative number. -/
theorem finite_or_zero_nonneg {x : Dbl} (hx : Dbl.lt x (Dbl.fin 0) = false) :
    Dbl.NonNeg (if Dbl.isFinite x = true then x else Dbl.fin 0) := by
  cases x with
  | fin q =>
    simp only [Dbl.lt, decide_eq_false_iff_not, not_lt] at hx
    exact ⟨q, by simp [Dbl.isFinite], hx⟩
  | pinf => exact ⟨0, by simp [Dbl.isFinite], le_refl _⟩
  | ninf => simp [Dbl.lt] at hx
  | nan => exact ⟨0, by simp [Dbl.isFinite], le_refl _⟩

/-- Dividing a value that is not negative by a finite fraction that is not
negative gives a value that is not negative. -/
theorem div_frac_not_neg {w : Dbl} {f : ℚ} (hf : 0 ≤ f)
    (hw : Dbl.lt w (Dbl.fin 0) = false) : Dbl.lt (Dbl.div w (Dbl.fin f)) (Dbl.fin 0) = false := by
  cases w with
  | fin q =>
    simp only [Dbl.lt, decide_eq_false_iff_not, not_lt] at hw
    by_cases hz : f = 0
    · simp only [Dbl.div, hz, if_true, Dbl.signedInf]
      by_cases hq : q = 0
      · simp [hq, Dbl.lt]
      · have : 0 < q := lt_of_le_of_ne hw (Ne.symm hq)
        simp [hq, this, Dbl.lt]
    · simp only [Dbl.div, hz, if_false, Dbl.lt, decide_eq_false_iff_not, not_lt]
      exact div_nonneg hw hf
  | pinf => simp [Dbl.div, hf, Dbl.lt]
  | ninf => simp [Dbl.lt] at hw
  | nan => simp [Dbl.div, Dbl.lt]

/-- The compensation turns a value that is not negative into a non-negative
number. -/
theorem scale_value_nonneg {c : Counter} {w v : Dbl} (h : scale_value c w = .ok v)
    (hw : Dbl.lt w (Dbl.fin 0) = false) : Dbl.NonNeg v := by
  unfold scale_value at h
  by_cases hrun : c.running ≤ c.enabled
  · simp only [hrun, if_true] at h
    by_cases he : c.enabled = 0
    · simp only [he, if_true] at h
      injection h with h
      rw [← h]
      exact finite_or_zero_nonneg hw
    · have hq : ((c.enabled : ℕ) : ℚ) ≠ 0 := by exact_mod_cast he
      have hfrac : Dbl.div (Dbl.ofNat c.running) (Dbl.ofNat c.enabled) =
          Dbl.fin ((c.running : ℚ) / (c.enabled : ℚ)) := by
        simp [Dbl.div, Dbl.ofNat, hq]
      simp only [he, if_false, hfrac] at h
      cases hlt : Dbl.lt (Dbl.fin ((c.running : ℚ) / (c.enabled : ℚ))) (Dbl.fin 1) with
      | true =>
        simp only [hlt, if_true] at h
        injection h with h
        rw [← h]
        exact finite_or_zero_nonneg (div_frac_not_neg (by positivity) hw)
      | false =>
        simp only [hlt, Bool.false_eq_true, if_false] at h
        by_cases h1 : Dbl.fin ((c.running : ℚ) / (c.enabled : ℚ)) = Dbl.fin 1
        · simp only [h1, if_true] at h
          injection h with h
          rw [← h]
          exact finite_or_zero_nonneg hw
        · simp only [h1, if_false] at h
          cases h
  · simp only [hrun, if_false] at h
    cases h

/-- The value pushed by the second loop for a counter other than the two
energy counters is a non-negative number. -/
theorem next_value_nonneg {rapl : Rapl} {ti : Dbl} {c l : Counter} {v : Dbl}
    (h : next_value rapl ti c l = .ok v) (hen : is_energy c.name = false) :
    Dbl.NonNeg v := by
  unfold next_value at h
  split at h
  · split at h
    · cases h
    · rename_i w hfix
      apply scale_value_nonneg h
      unfold fix_negative at hfix
      simp only [is_energy, Bool.or_eq_false_iff, beq_eq_false_iff_ne, ne_eq] at hen
      cases hlt : Dbl.lt (raw_value ti c l) (Dbl.fin 0) with
      | true =>
        simp only [hlt, if_true, hen.1, hen.2, if_false] at hfix
        split at hfix
        · injection hfix with hfix
          rw [← hfix]
          simp [Dbl.lt]
        · cases hfix
      | false =>
        simp only [hlt, Bool.false_eq_true, if_false] at hfix
        injection hfix with hfix
        rw [← hfix]
        exact hlt
  · cases h

/-- A push of a non-negative number keeps the samples of an accumulator
non-negative. -/
theorem events_push_nonneg {events events1 : Events} {n name : String} {v : Dbl}
    (h : events_push events n v = .ok events1) (hv : n = name → Dbl.NonNeg v)
    (hP : ∀ a, events name = some a → ∀ x ∈ a.samples, Dbl.NonNeg x) :
    ∀ a, events1 name = some a → ∀ x ∈ a.samples, Dbl.NonNeg x := by
  obtain ⟨a0, ha0, rfl⟩ := events_push_ok h
  intro a ha x hx
  by_cases hn : name = n
  · subst hn
    simp only [if_true] at ha
    injection ha with ha
    subst ha
    simp only [accum_t.push, List.mem_cons] at hx
    rcases hx with rfl | hx
    · exact hv rfl
    · exact hP a0 ha0 x hx
  · simp only [hn, if_false] at ha
    exact hP a ha x hx

/-- The first loop keeps the samples of an accumulator non-negative. -/
theorem accum_first_nonneg (name : String) :
    ∀ (cs : List Counter) (events events1 : Events),
      accum_first events cs = .ok events1 →
      (∀ a, events name = some a → ∀ x ∈ a.samples, Dbl.NonNeg x) →
      ∀ a, events1 name = some a → ∀ x ∈ a.samples, Dbl.NonNeg x := by
  intro cs
  induction cs with
  | nil =>
    intro events events1 h hP
    simp only [accum_first] at h
    injection h with h
    subst h
    exact hP
  | cons c cs ih =>
    intro events events1 h hP
    simp only [accum_first] at h
    split at h
    · cases h
    · rename_i value hv
      split at h
      · cases h
      · rename_i ev1 hp
        apply ih ev1 events1 h
        apply events_push_nonneg hp _ hP
        intro _
        exact ⟨0, first_value_eq_zero hv, le_refl _⟩

/-- The second loop keeps the samples of an accumulator other than the two
energy counters non-negative. -/
theorem accum_next_nonneg (rapl : Rapl) (ti : Dbl) (name : String)
    (hen : is_energy name = false) :
    ∀ (cs ls : List Counter) (events events1 : Events) (cs1 : List Counter),
      accum_next rapl ti events cs ls = .ok (events1, cs1) →
      (∀ a, events name = some a → ∀ x ∈ a.samples, Dbl.NonNeg x) →
      ∀ a, events1 name = some a → ∀ x ∈ a.samples, Dbl.NonNeg x := by
  intro cs
  induction cs with
  | nil =>
    intro ls events events1 cs1 h hP
    simp [accum_next] at h
    rw [← h.1]
    exact hP
  | cons c cs ih =>
    intro ls events events1 cs1 h hP
    cases ls with
    | nil =>
      simp [accum_next] at h
      rw [← h.1]
      exact hP
    | cons l ls =>
      simp only [accum_next] at h
      split at h
      · cases h
      · rename_i value hv
        split at h
        · cases h
        · rename_i ev1 hp
          split at h
          · cases h
          · rename_i ev2 cs2 hrec
            injection h with h
            injection h with h1 h2
            subst h1
            apply ih ls ev1 _ cs2 hrec
            apply events_push_nonneg hp _ hP
            intro hn
            exact next_value_nonneg hv (by rw [hn]; exact hen)

/-- A successful `accum` keeps the samples of an accumulator non-negative when
it is neither the one of an energy counter nor the one of a derived metric. -/
theorem accum_nonneg {rapl : Rapl} {st st1 : Stats} {counters : List Counter} {ti : Dbl}
    (name : String) (h : st.accum rapl counters ti = .ok st1)
    (hen : is_energy name = false) (hder : name ∉ st.derived_metrics_int.map Prod.fst)
    (hP : ∀ a, st.events name = some a → ∀ x ∈ a.samples, Dbl.NonNeg x) :
    ∀ a, st1.events name = some a → ∀ x ∈ a.samples, Dbl.NonNeg x := by
  by_cases hf : st.ccurr = []
  · obtain ⟨ev1, st2, h1, h2, rfl⟩ := accum_first_ok hf h
    have hframe := (accum_derived_frame _ _ _ h2).2.2.2.2.2.2.2.2.2 name hder
    intro a ha
    have ha2 : st2.events name = some a := ha
    rw [hframe] at ha2
    exact accum_first_nonneg name _ _ _ h1 hP a ha2
  · obtain ⟨ev1, cc1, st2, h1, h2, rfl⟩ := accum_nonfirst_ok hf h
    have hframe := (accum_derived_frame _ _ _ h2).2.2.2.2.2.2.2.2.2 name hder
    intro a ha
    have ha2 : st2.events name = some a := ha
    rw [hframe] at ha2
    exact accum_next_nonneg rapl ti name hen _ _ _ _ _ h1 hP a ha2

/-- A sequence of calls keeps the samples of an accumulator non-negative when
it is neither the one of an energy counter nor the one of a derived metric. -/
theorem run_nonneg (rapl : Rapl) (name : String) (hen : is_energy name = false) :
    ∀ (calls : List Call) (st st1 : Stats), run rapl st calls = .ok st1 →
      name ∉ st.derived_metrics_int.map Prod.fst →
      (∀ a, st.events name = some a → ∀ x ∈ a.samples, Dbl.NonNeg x) →
      ∀ a, st1.events name = some a → ∀ x ∈ a.samples, Dbl.NonNeg x := by
  intro calls
  induction calls with
  | nil =>
    intro st st1 h _ hP
    simp only [run] at h
    injection h with h
    subst h
    exact hP
  | cons call rest ih =>
    intro st st1 h hder hP
    cases call with
    | accum counters ti =>
      simp only [run] at h
      split at h
      · cases h
      · rename_i st2 hacc
        apply ih st2 st1 h
        · rw [(accum_keeps hacc).2.1]; exact hder
        · exact accum_nonneg name hacc hen hder hP
    | reset_counters =>
      simp only [run] at h
      exact ih _ st1 h hder hP

/-- C6. For every sequence of calls of `accum` (and of `reset_counters`) on a
store built by `init` that raises no error, and every name other than the two
energy counters that is not the name of a derived metric of the store, every
value pushed into the accumulator of that name is a number `>= 0`. The success
of the calls entails `running <= enabled` for every sample; no condition on the
interval is needed. -/
theorem pushed_values_nonneg (rapl : Rapl) (stats_names : List String) (ti0 : Dbl)
    (st0 st : Stats) (calls : List Call) (name : String) (acc : accum_t)
    (h0 : init new stats_names ti0 = .ok st0)
    (hrun : run rapl st0 calls = .ok st)
    (hen : is_energy name = false)
    (hder : name ∉ (init_derived_metrics_int stats_names ti0).map Prod.fst)
    (hacc : st.events name = some acc) :
    ∀ v ∈ acc.samples, Dbl.NonNeg v := by
  obtain ⟨_, a2, _, _, _, a6⟩ := init_new_inv h0
  apply run_nonneg rapl name hen calls st0 st hrun (by rw [a2]; exact hder) _ acc hacc
  intro a ha x hx
  rw [a6 name a ha] at hx
  simp at hx

/-- Witness of C6: the store that has accumulated the reading 5 of `cycles`
holds the single sample 0 for it, a non-negative number. -/
theorem pushed_values_nonneg_witness :
    cycles_store.events "cycles" = some ⟨[Dbl.fin 0]⟩ ∧ Dbl.NonNeg (Dbl.fin 0) := by
  obtain ⟨st0, h0, hreach⟩ := cycles_store_reached
  have hacc : cycles_store.events "cycles" = some ⟨[Dbl.fin 0]⟩ := by simp [cycles_store]
  exact ⟨hacc, pushed_values_nonneg rapl0 ["cycles"] (Dbl.fin 1) st0 cycles_store
    [Call.accum [cycles_sample 5] (Dbl.fin 1)] "cycles" ⟨[Dbl.fin 0]⟩ h0 hreach
    (by simp [is_energy]) (by simp [init_derived_metrics_int]) hacc (Dbl.fin 0) (by simp)⟩

/-- The first loop leaves the accumulators of the other names alone. -/
theorem accum_first_other :
    ∀ (cs : List Counter) (events events1 : Events),
      accum_first events cs = .ok events1 →
      ∀ m, m ∉ cs.map Counter.name → events1 m = events m := by
  intro cs
  induction cs with
  | nil =>
    intro events events1 h m _
    simp only [accum_first] at h
    injection h with h
    rw [h]
  | cons c cs ih =>
    intro events events1 h m hm
    simp only [accum_first] at h
    split at h
    · cases h
    · split at h
      · cases h
      · rename_i ev1 hp
        simp only [List.map_cons, List.mem_cons, not_or] at hm
        rw [ih ev1 events1 h m hm.2]
        obtain ⟨a, _, rfl⟩ := events_push_ok hp
        simp [hm.1]

/-- After the first loop over the same samples, two maps hold the same last
value for every name of a sample. -/
theorem accum_first_agree :
    ∀ (cs : List Counter) (e1 e2 r1 r2 : Events),
      accum_first e1 cs = .ok r1 → accum_first e2 cs = .ok r2 →
      ∀ n ∈ cs.map Counter.name,
        (r1 n).map accum_t.last = (r2 n).map accum_t.last ∧ (r1 n).isSome = true := by
  intro cs
  induction cs with
  | nil =>
    intro e1 e2 r1 r2 _ _ n hn
    simp at hn
  | cons c cs ih =>
    intro e1 e2 r1 r2 h1 h2 n hn
    simp only [accum_first] at h1 h2
    split at h1
    · cases h1
    · rename_i v hv
      rw [hv] at h2
      simp only at h2
      split at h1
      · cases h1
      · rename_i m1 hp1
        split at h2
        · cases h2
        · rename_i m2 hp2
          by_cases hmem : n ∈ cs.map Counter.name
          · exact ih m1 m2 r1 r2 h1 h2 n hmem
          · have hnc : n = c.name := by
              simp only [List.map_cons, List.mem_cons] at hn
              rcases hn with hn | hn
              · exact hn
              · exact absurd hn hmem
            rw [accum_first_other cs m1 r1 h1 n hmem, accum_first_other cs m2 r2 h2 n hmem]
            obtain ⟨a1, _, rfl⟩ := events_push_ok hp1
            obtain ⟨a2, _, rfl⟩ := events_push_ok hp2
            simp [hnc, accum_t.last, accum_t.push]

/-- The body of the first loop accepts a sample with `running <= enabled` and
a finite reading. -/
theorem first_value_ok {c : Counter} (hrun : c.running ≤ c.enabled)
    (hfin : Dbl.isFinite c.value = true) : first_value c = .ok (Dbl.fin 0) := by
  have hx : ∃ q, (if c.name = "power/energy-ram/" ∨ c.name = "power/energy-pkg/"
      then Dbl.fin 0 else c.value) = Dbl.fin q := by
    split
    · exact ⟨0, rfl⟩
    · cases hv : c.value with
      | fin q => exact ⟨q, rfl⟩
      | pinf => rw [hv] at hfin; cases hfin
      | ninf => rw [hv] at hfin; cases hfin
      | nan => rw [hv] at hfin; cases hfin
  obtain ⟨q, hq⟩ := hx
  unfold first_value
  simp only [hrun, if_true, hq]
  by_cases hr : c.running = 0
  · simp [hr, Dbl.isFinite]
  · have he : c.enabled ≠ 0 := by omega
    have hqe : ((c.enabled : ℕ) : ℚ) ≠ 0 := by exact_mod_cast he
    have hqr : ((c.running : ℕ) : ℚ) ≠ 0 := by exact_mod_cast hr
    simp [hr, Dbl.div, Dbl.ofNat, hqe, hqr, Dbl.isFinite]

/-- The first loop succeeds on samples it accepts whose names are keys of the
map. -/
theorem accum_first_total :
    ∀ (cs : List Counter) (events : Events),
      (∀ c ∈ cs, c.running ≤ c.enabled ∧ Dbl.isFinite c.value = true) →
      (∀ c ∈ cs, (events c.name).isSome = true) →
      ∃ events1, accum_first events cs = .ok events1 := by
  intro cs
  induction cs with
  | nil => intro events _ _; exact ⟨events, rfl⟩
  | cons c cs ih =>
    intro events hok hdom
    obtain ⟨h1, h2⟩ := hok c (by simp)
    obtain ⟨ev1, hp⟩ := events_push_isSome (Dbl.fin 0) (hdom c (by simp))
    simp only [accum_first, first_value_ok h1 h2, hp]
    apply ih ev1 (fun c1 hc1 => hok c1 (by simp [hc1]))
    intro c1 hc1
    rw [events_push_dom hp]
    exact hdom c1 (by simp [hc1])

/-- The accessor `last` read on the map of events. -/
theorem last_eq_map (st : Stats) (n : String) :
    st.last n = match (st.events n).map accum_t.last with
      | none => .error (.out_of_range n)
      | some v => .ok v := by
  unfold Stats.last
  cases st.events n <;> rfl

/-- Pushing the same value under the same name keeps two stores in agreement
on `last`, and they agree on the name pushed. -/
theorem events_push_agree {e1 e2 r1 r2 : Events} {m : String} {v : Dbl}
    (h1 : events_push e1 m v = .ok r1) (h2 : events_push e2 m v = .ok r2) (n : String)
    (h : n = m ∨ (e1 n).map accum_t.last = (e2 n).map accum_t.last) :
    (r1 n).map accum_t.last = (r2 n).map accum_t.last := by
  obtain ⟨a1, _, rfl⟩ := events_push_ok h1
  obtain ⟨a2, _, rfl⟩ := events_push_ok h2
  by_cases hn : n = m
  · simp [hn, accum_t.last, accum_t.push]
  · rcases h with h | h
    · exact absurd h hn
    · simpa [hn] using h

/-- Two stores that agree on `last` of the tracked names agree, after the loop
over the derived metrics, on `last` of every name they agreed on and of every
derived metric. -/
theorem accum_derived_agree (stats_names : List String) (ti : Dbl) :
    ∀ (ders : List (String × Closure)) (s1 s2 r1 r2 : Stats),
      (∀ d ∈ ders, d ∈ init_derived_metrics_int stats_names ti) →
      accum_derived s1 ders = .ok r1 → accum_derived s2 ders = .ok r2 →
      (∀ n ∈ stats_names, (s1.events n).map accum_t.last = (s2.events n).map accum_t.last) →
      (∀ n, (s1.events n).map accum_t.last = (s2.events n).map accum_t.last →
        (r1.events n).map accum_t.last = (r2.events n).map accum_t.last) ∧
      (∀ n ∈ ders.map Prod.fst,
        (r1.events n).map accum_t.last = (r2.events n).map accum_t.last) := by
  intro ders
  induction ders with
  | nil =>
    intro s1 s2 r1 r2 _ h1 h2 _
    simp only [accum_derived] at h1 h2
    injection h1 with h1
    injection h2 with h2
    subst h1
    subst h2
    exact ⟨fun _ h => h, fun n hn => by simp at hn⟩
  | cons d rest ih =>
    intro s1 s2 r1 r2 hsub h1 h2 hag
    have hcall : s1.call d.2 = s2.call d.2 := by
      apply call_int_congr (hsub d (List.mem_cons_self _ _))
      intro n hn
      rw [last_eq_map, last_eq_map, hag n hn]
    simp only [accum_derived] at h1 h2
    rw [← hcall] at h2
    split at h1
    · cases h1
    · rename_i v hv
      rw [hv] at h2
      simp only at h2
      split at h1
      · cases h1
      · rename_i m1 hp1
        split at h2
        · cases h2
        · rename_i m2 hp2
          obtain ⟨i1, i2⟩ := ih { s1 with events := m1 } { s2 with events := m2 } r1 r2
            (fun x hx => hsub x (List.mem_cons_of_mem _ hx)) h1 h2
            (fun n hn => events_push_agree hp1 hp2 n (Or.inr (hag n hn)))
          refine ⟨fun n hn => i1 n (events_push_agree hp1 hp2 n (Or.inr hn)), ?_⟩
          intro n hn
          simp only [List.map_cons, List.mem_cons] at hn
          rcases hn with hn | hn
          · exact i1 n (events_push_agree hp1 hp2 n (Or.inl hn))
          · exact i2 n hn

/-- The first `accum` of a valid sample vector on a store reached from `init`
whose current vector is empty: it succeeds, and the last values of the tracked
names and of the derived metrics depend on the sample vector alone. -/
theorem accum_first_run (rapl : Rapl) {stats_names : List String} {ti0 : Dbl}
    (st : Stats) (samples : List Counter) (ti : Dbl)
    (hinit : st.initialized = true) (hcc : st.ccurr = [])
    (hder : st.derived_metrics_int = init_derived_metrics_int stats_names ti0)
    (hnames : ∀ n ∈ stats_names, (st.events n).isSome = true)
    (hders : ∀ n ∈ (init_derived_metrics_int stats_names ti0).map Prod.fst,
      (st.events n).isSome = true)
    (hS : valid_samples stats_names samples) :
    ∃ events1 st2, accum_first st.events samples = .ok events1 ∧
      accum_derived { st with clast := st.ccurr, ccurr := samples, events := events1,
                              cbak := samples } st.derived_metrics_int = .ok st2 ∧
      st.accum rapl samples ti = .ok { st2 with counter := (st2.counter + 1) % 2 ^ 64 } := by
  obtain ⟨hne, hall, _⟩ := hS
  obtain ⟨ev1, h1⟩ := accum_first_total samples st.events
    (fun c hc => (hall c hc).2) (fun c hc => hnames _ (hall c hc).1)
  obtain ⟨st2, h2⟩ := accum_derived_ok stats_names ti0 st.derived_metrics_int
    { st with clast := st.ccurr, ccurr := samples, events := ev1, cbak := samples }
    (by rw [hder]; intro d hd; exact hd)
    (fun n hn => by
      show (ev1 n).isSome = true
      rw [accum_first_dom _ _ _ h1 n]; exact hnames n hn)
    (by
      rw [hder]
      intro d hd
      show (ev1 d.1).isSome = true
      rw [accum_first_dom _ _ _ h1 d.1]
      exact hders d.1 (List.mem_map_of_mem _ hd))
  refine ⟨ev1, st2, h1, h2, ?_⟩
  have hne2 : samples.isEmpty = false := by
    cases samples with
    | nil => exact absurd rfl hne
    | cons a b => rfl
  unfold accum
  simp only [hinit, if_true, hne2, Bool.false_eq_true, if_false, hcc, List.isEmpty_nil, h1]
  simp only [hcc, hinit] at h2
  simp only [accum_finish, h2]

/-- C7. For every store built by `init` from `stats_names`, whatever calls it
has received since, and every sample vector valid for it: `reset_counters()`
followed by `accum(S)` succeeds, as `accum(S)` does on the store freshly
built by `init` from the same names, and `last(name)` has the same value in the
two resulting stores for every tracked name and every derived metric. -/
theorem reset_accum_eq_fresh (rapl : Rapl) (stats_names : List String) (ti0 : Dbl)
    (fresh st : Stats) (calls : List Call) (samples : List Counter) (interval_ti : Dbl)
    (h0 : init new stats_names ti0 = .ok fresh)
    (hreach : run rapl fresh calls = .ok st)
    (hS : valid_samples stats_names samples) :
    ∃ a b, st.reset_counters.accum rapl samples interval_ti = .ok a ∧
      fresh.accum rapl samples interval_ti = .ok b ∧
      ∀ n, n ∈ stats_names ∨ n ∈ (init_derived_metrics_int stats_names ti0).map Prod.fst →
        ∃ v, a.last n = .ok v ∧ b.last n = .ok v := by
  obtain ⟨f1, f2, f3, f4, f5, _⟩ := init_new_inv h0
  obtain ⟨i1, i2, i3, i4⟩ := reached_inv h0 hreach
  obtain ⟨ea, sa, ha1, ha2, ha3⟩ := accum_first_run rapl st.reset_counters samples
    interval_ti i1 rfl i2 i3 i4 hS
  obtain ⟨eb, sb, hb1, hb2, hb3⟩ := accum_first_run rapl fresh samples
    interval_ti f1 f3 f2 f4 f5 hS
  refine ⟨_, _, ha3, hb3, ?_⟩
  have hfirst := accum_first_agree samples _ _ ea eb ha1 hb1
  have hag : ∀ n ∈ stats_names, (ea n).map accum_t.last = (eb n).map accum_t.last :=
    fun n hn => (hfirst n (hS.2.2 n hn)).1
  have ha2b := ha2
  rw [show st.reset_counters.derived_metrics_int = init_derived_metrics_int stats_names ti0
    from i2] at ha2b
  have hb2b := hb2
  rw [f2] at hb2b
  obtain ⟨j1, j2⟩ := accum_derived_agree stats_names ti0 _ _ _ sa sb
    (fun d hd => hd) ha2b hb2b hag
  have hmap : ∀ n, n ∈ stats_names ∨
      n ∈ (init_derived_metrics_int stats_names ti0).map Prod.fst →
      (sa.events n).map accum_t.last = (sb.events n).map accum_t.last := by
    intro n hn
    rcases hn with hn | hn
    · exact j1 n (hag n hn)
    · exact j2 n hn
  intro n hn
  have hsome : (sb.events n).isSome = true := by
    rw [(accum_derived_frame _ _ _ hb2).2.2.2.2.2.2.2.2.1 n]
    show (eb n).isSome = true
    rw [accum_first_dom _ _ _ hb1 n]
    rcases hn with hn | hn
    · exact f4 n hn
    · exact f5 n hn
  have hm := hmap n hn
  cases hb : sb.events n with
  | none => rw [hb] at hsome; cases hsome
  | some accb =>
    rw [hb] at hm
    cases ha : sa.events n with
    | none => rw [ha] at hm; cases hm
    | some acca =>
      rw [ha] at hm
      simp only [Option.map_some', Option.some.injEq] at hm
      refine ⟨accb.last, ?_, ?_⟩
      · show (match sa.events n with
          | none => Except.error (StatsError.out_of_range n)
          | some a => Except.ok a.last) = _
        rw [ha]
        show Except.ok acca.last = _
        rw [hm]
      · show (match sb.events n with
          | none => Except.error (StatsError.out_of_range n)
          | some a => Except.ok a.last) = _
        rw [hb]

/-- Witness of C7: on the store that has accumulated the reading 5 of `cycles`,
`reset_counters` then `accum` of the reading 8 gives the same `last("cycles")`
as `accum` of the reading 8 on a fresh store. -/
theorem reset_accum_eq_fresh_witness :
    ∃ fresh a b, init new ["cycles"] (Dbl.fin 1) = .ok fresh ∧
      cycles_store.reset_counters.accum rapl0 [cycles_sample 8] (Dbl.fin 1) = .ok a ∧
      fresh.accum rapl0 [cycles_sample 8] (Dbl.fin 1) = .ok b ∧
      ∃ v, a.last "cycles" = .ok v ∧ b.last "cycles" = .ok v := by
  obtain ⟨st0, h0, hreach⟩ := cycles_store_reached
  obtain ⟨a, b, ha, hb, hab⟩ := reset_accum_eq_fresh rapl0 ["cycles"] (Dbl.fin 1) st0
    cycles_store [Call.accum [cycles_sample 5] (Dbl.fin 1)] [cycles_sample 8] (Dbl.fin 1)
    h0 hreach (by simp [valid_samples, cycles_sample, Dbl.isFinite])
  exact ⟨st0, a, b, h0, ha, hb, hab "cycles" (Or.inl (by simp))⟩

/-! ## Properties of the interval controller -/

/-- An integer in the range of `int64_t` is stored unchanged. -/
theorem to_int64_eq {x : Int} (h1 : -2 ^ 63 ≤ x) (h2 : x < 2 ^ 63) : to_int64 x = x := by
  unfold to_int64
  omega

/-- Truncation toward zero does not leave a symmetric integer range. -/
theorem trunc_bound {q : ℚ} {B : Int} (h1 : -(B : ℚ) ≤ q) (h2 : q ≤ (B : ℚ)) :
    -B ≤ trunc q ∧ trunc q ≤ B := by
  unfold trunc
  split
  · rename_i hq
    have hB : (0 : ℚ) ≤ (B : ℚ) := le_trans hq h2
    have hB2 : (0 : Int) ≤ B := by exact_mod_cast hB
    have hf : 0 ≤ ⌊q⌋ := Int.floor_nonneg.mpr hq
    have hf2 : ((⌊q⌋ : Int) : ℚ) ≤ (B : ℚ) := le_trans (Int.floor_le q) h2
    have hf3 : ⌊q⌋ ≤ B := by exact_mod_cast hf2
    omega
  · rename_i hq
    have hq2 : q ≤ ((0 : Int) : ℚ) := by
      push_cast
      exact le_of_lt (not_le.mp hq)
    have hc : ⌈q⌉ ≤ 0 := Int.ceil_le.mpr hq2
    have hc2 : ((-B : Int) : ℚ) ≤ ((⌈q⌉ : Int) : ℚ) := by
      push_cast
      exact le_trans h1 (Int.le_ceil q)
    have hc3 : -B ≤ ⌈q⌉ := by exact_mod_cast hc2
    omega

/-- Within the range where the machine arithmetic is exact, `adjust_time`
returns the sum of the controller, replaced by 0 when it is negative and no
task completed. -/
theorem adjust_time_eq (elapsed_us total_elapsed_us interval time_int_us : Nat)
    (adj_delay_us : Int) (new_task_completion : Bool)
    (hT : time_int_us * (interval + 1) < 2 ^ 50) (he : elapsed_us < 2 ^ 50)
    (ht : total_elapsed_us < 2 ^ 50)
    (ha1 : -2 ^ 50 < adj_delay_us) (ha2 : adj_delay_us < 2 ^ 50) :
    adjust_time elapsed_us total_elapsed_us interval time_int_us adj_delay_us
        new_task_completion =
      if adjust_time_sum elapsed_us total_elapsed_us interval time_int_us adj_delay_us < 0 ∧
          new_task_completion = false then 0
      else adjust_time_sum elapsed_us total_elapsed_us interval time_int_us adj_delay_us := by
  have hT1 : time_int_us < 2 ^ 50 := by
    calc time_int_us = time_int_us * 1 := (Nat.mul_one _).symm
      _ ≤ time_int_us * (interval + 1) := Nat.mul_le_mul_left _ (by omega)
      _ < 2 ^ 50 := hT
  have hTz : ((time_int_us : Int)) < 2 ^ 50 := by exact_mod_cast hT1
  have hTz0 : (0 : Int) ≤ (time_int_us : Int) := Int.natCast_nonneg _
  have hez : ((elapsed_us : Int)) < 2 ^ 50 := by exact_mod_cast he
  have hez0 : (0 : Int) ≤ (elapsed_us : Int) := Int.natCast_nonneg _
  have htz : ((total_elapsed_us : Int)) < 2 ^ 50 := by exact_mod_cast ht
  have htz0 : (0 : Int) ≤ (total_elapsed_us : Int) := Int.natCast_nonneg _
  have hTkz : (time_int_us : Int) * ((interval + 1 : Nat) : Int) < 2 ^ 50 := by exact_mod_cast hT
  have hTkz0 : (0 : Int) ≤ (time_int_us : Int) * ((interval + 1 : Nat) : Int) :=
    mul_nonneg hTz0 (Int.natCast_nonneg _)
  have e1 : to_int64 (time_int_us : Int) = time_int_us := to_int64_eq (by omega) (by omega)
  have e2 : to_int64 (elapsed_us : Int) = elapsed_us := to_int64_eq (by omega) (by omega)
  have e3 : to_int64 (total_elapsed_us : Int) = total_elapsed_us :=
    to_int64_eq (by omega) (by omega)
  have e4 : to_int64 ((time_int_us : Int) - (elapsed_us : Int)) =
      (time_int_us : Int) - (elapsed_us : Int) := to_int64_eq (by omega) (by omega)
  have e5 : to_int64 ((time_int_us : Int) * ((interval + 1 : Nat) : Int) -
      (total_elapsed_us : Int)) =
      (time_int_us : Int) * ((interval + 1 : Nat) : Int) - (total_elapsed_us : Int) :=
    to_int64_eq (by omega) (by omega)
  have q1 : (((time_int_us : Int) - (elapsed_us : Int) : Int) : ℚ) =
      (time_int_us : ℚ) - (elapsed_us : ℚ) := by push_cast; ring
  have q2 : (((time_int_us : Int) * ((interval + 1 : Nat) : Int) - (total_elapsed_us : Int) : Int)
      : ℚ) = (time_int_us : ℚ) * ((interval : ℚ) + 1) - (total_elapsed_us : ℚ) := by
    push_cast; ring
  have b1 := trunc_bound (q := (adj_delay_us : ℚ) + 1 / 2 * ((time_int_us : ℚ) - (elapsed_us : ℚ)))
    (B := 2 ^ 51)
    (by
      have h1 : (-2 ^ 50 : ℚ) < (adj_delay_us : ℚ) := by exact_mod_cast ha1
      have h2 : (elapsed_us : ℚ) < 2 ^ 50 := by exact_mod_cast he
      have h3 : (0 : ℚ) ≤ (time_int_us : ℚ) := Nat.cast_nonneg _
      push_cast
      linarith)
    (by
      have h1 : (adj_delay_us : ℚ) < 2 ^ 50 := by exact_mod_cast ha2
      have h2 : (time_int_us : ℚ) < 2 ^ 50 := by exact_mod_cast hT1
      have h3 : (0 : ℚ) ≤ (elapsed_us : ℚ) := Nat.cast_nonneg _
      push_cast
      linarith)
  have e6 : to_int64 (trunc ((adj_delay_us : ℚ) + 1 / 2 *
      ((time_int_us : ℚ) - (elapsed_us : ℚ)))) =
      trunc ((adj_delay_us : ℚ) + 1 / 2 * ((time_int_us : ℚ) - (elapsed_us : ℚ))) :=
    to_int64_eq (by omega) (by omega)
  have b2 := trunc_bound
    (q := ((trunc ((adj_delay_us : ℚ) + 1 / 2 * ((time_int_us : ℚ) - (elapsed_us : ℚ))) : Int)
      : ℚ) + 1 / 4 * ((time_int_us : ℚ) * ((interval : ℚ) + 1) - (total_elapsed_us : ℚ)))
    (B := 2 ^ 52)
    (by
      have h1 : ((-2 ^ 51 : Int) : ℚ) ≤ ((trunc ((adj_delay_us : ℚ) + 1 / 2 *
          ((time_int_us : ℚ) - (elapsed_us : ℚ))) : Int) : ℚ) := by exact_mod_cast b1.1
      have h2 : (total_elapsed_us : ℚ) < 2 ^ 50 := by exact_mod_cast ht
      have h3 : (0 : ℚ) ≤ (time_int_us : ℚ) * ((interval : ℚ) + 1) := by positivity
      push_cast at h1 ⊢
      linarith)
    (by
      have h1 : ((trunc ((adj_delay_us : ℚ) + 1 / 2 *
          ((time_int_us : ℚ) - (elapsed_us : ℚ))) : Int) : ℚ) ≤ ((2 ^ 51 : Int) : ℚ) := by
        exact_mod_cast b1.2
      have h2 : (time_int_us : ℚ) * ((interval : ℚ) + 1) < 2 ^ 50 := by exact_mod_cast hT
      have h3 : (0 : ℚ) ≤ (total_elapsed_us : ℚ) := Nat.cast_nonneg _
      push_cast at h1 ⊢
      linarith)
  have e7 : to_int64 (adjust_time_sum elapsed_us total_elapsed_us interval time_int_us
      adj_delay_us) =
      adjust_time_sum elapsed_us total_elapsed_us interval time_int_us adj_delay_us := by
    unfold adjust_time_sum
    exact to_int64_eq (by omega) (by omega)
  have hsum : to_int64 (trunc (((to_int64 (trunc ((adj_delay_us : ℚ) + 1 / 2 *
      ((to_int64 (to_int64 (time_int_us : Int) - to_int64 (elapsed_us : Int)) : Int) : ℚ)))
        : Int) : ℚ) + 1 / 4 *
      ((to_int64 (to_int64 (time_int_us : Int) * ((interval + 1 : Nat) : Int) -
        to_int64 (total_elapsed_us : Int)) : Int) : ℚ))) =
      adjust_time_sum elapsed_us total_elapsed_us interval time_int_us adj_delay_us := by
    rw [e1, e2, e3, e4, e5, q1, q2, e6]
    exact e7
  unfold adjust_time
  simp only [hsum]
  split
  · simp [to_int64]
  · rfl

/-- C9. Within the range where the machine arithmetic is exact (times below
`2^50` microseconds), `adjust_time` computes the sum
`s = adj_delay + 0.5*(T - elapsed) + 0.25*(T*(k+1) - total_elapsed)`, each of
the two additions truncated to an integer; the new `adj_delay` is `s` when
`s >= 0`, it is 0 when `s < 0` and no task completed, and it is `s`, negative,
when `s < 0` and a task completed. -/
theorem adjust_time_spec (elapsed_us total_elapsed_us interval time_int_us : Nat)
    (adj_delay_us : Int) (new_task_completion : Bool)
    (hT : time_int_us * (interval + 1) < 2 ^ 50) (he : elapsed_us < 2 ^ 50)
    (ht : total_elapsed_us < 2 ^ 50)
    (ha1 : -2 ^ 50 < adj_delay_us) (ha2 : adj_delay_us < 2 ^ 50) :
    (0 ≤ adjust_time_sum elapsed_us total_elapsed_us interval time_int_us adj_delay_us →
      adjust_time elapsed_us total_elapsed_us interval time_int_us adj_delay_us
          new_task_completion =
        adjust_time_sum elapsed_us total_elapsed_us interval time_int_us adj_delay_us) ∧
    (adjust_time_sum elapsed_us total_elapsed_us interval time_int_us adj_delay_us < 0 →
      new_task_completion = false →
      adjust_time elapsed_us total_elapsed_us interval time_int_us adj_delay_us
          new_task_completion = 0) ∧
    (adjust_time_sum elapsed_us total_elapsed_us interval time_int_us adj_delay_us < 0 →
      new_task_completion = true →
      adjust_time elapsed_us total_elapsed_us interval time_int_us adj_delay_us
          new_task_completion =
        adjust_time_sum elapsed_us total_elapsed_us interval time_int_us adj_delay_us ∧
      adjust_time elapsed_us total_elapsed_us interval time_int_us adj_delay_us
          new_task_completion < 0) := by
  have h := adjust_time_eq elapsed_us total_elapsed_us interval time_int_us adj_delay_us
    new_task_completion hT he ht ha1 ha2
  refine ⟨?_, ?_, ?_⟩
  · intro hs
    rw [h, if_neg]
    intro hc
    exact absurd hc.1 (not_lt.mpr hs)
  · intro hs hc
    rw [h, if_pos ⟨hs, hc⟩]
  · intro hs hc
    have hne : ¬ (adjust_time_sum elapsed_us total_elapsed_us interval time_int_us
        adj_delay_us < 0 ∧ new_task_completion = false) := by
      intro hx
      rw [hc] at hx
      cases hx.2
    rw [h, if_neg hne]
    exact ⟨rfl, hs⟩

/-- Truncation of a quotient of integers is the truncated division. -/
theorem trunc_div (n : Int) (d : Nat) : trunc ((n : ℚ) / (d : ℚ)) = Int.tdiv n d := by
  unfold trunc
  rcases Nat.eq_zero_or_pos d with hd | hd
  · subst hd
    simp
  · have hdq : (0 : ℚ) < (d : ℚ) := by exact_mod_cast hd
    by_cases hn : 0 ≤ n
    · have hq : (0 : ℚ) ≤ (n : ℚ) / (d : ℚ) := div_nonneg (by exact_mod_cast hn) hdq.le
      rw [if_pos hq, Rat.floor_intCast_div_natCast, Int.tdiv_eq_ediv hn (Int.natCast_nonneg d)]
    · have hn2 : n < 0 := not_le.mp hn
      have hq : ¬ (0 : ℚ) ≤ (n : ℚ) / (d : ℚ) := by
        rw [not_le]
        exact div_neg_of_neg_of_pos (by exact_mod_cast hn2) hdq
      rw [if_neg hq]
      have h1 : (n : ℚ) / (d : ℚ) = -(((-n : Int) : ℚ) / (d : ℚ)) := by push_cast; ring
      rw [h1, Int.ceil_neg, Rat.floor_intCast_div_natCast]
      have h2 : n = -(-n) := by ring
      conv_rhs => rw [h2, Int.neg_tdiv]
      rw [Int.tdiv_eq_ediv (by omega) (Int.natCast_nonneg d)]

/-- The sum of the controller computed with integer divisions. -/
theorem adjust_time_sum_eq (elapsed_us total_elapsed_us interval time_int_us : Nat)
    (adj_delay_us : Int) :
    adjust_time_sum elapsed_us total_elapsed_us interval time_int_us adj_delay_us =
      Int.tdiv (4 * Int.tdiv (2 * adj_delay_us + ((time_int_us : Int) - (elapsed_us : Int))) 2
        + ((time_int_us : Int) * ((interval : Int) + 1) - (total_elapsed_us : Int))) 4 := by
  unfold adjust_time_sum
  have h1 : (adj_delay_us : ℚ) + 1 / 2 * ((time_int_us : ℚ) - (elapsed_us : ℚ)) =
      ((2 * adj_delay_us + ((time_int_us : Int) - (elapsed_us : Int)) : Int) : ℚ) /
        ((2 : Nat) : ℚ) := by
    push_cast
    ring
  rw [h1, trunc_div]
  have h2 : ((Int.tdiv (2 * adj_delay_us + ((time_int_us : Int) - (elapsed_us : Int)))
      ((2 : Nat) : Int) : Int) : ℚ) +
      1 / 4 * ((time_int_us : ℚ) * ((interval : ℚ) + 1) - (total_elapsed_us : ℚ)) =
      ((4 * Int.tdiv (2 * adj_delay_us + ((time_int_us : Int) - (elapsed_us : Int)))
        ((2 : Nat) : Int) +
        ((time_int_us : Int) * ((interval : Int) + 1) - (total_elapsed_us : Int)) : Int) : ℚ) /
        ((4 : Nat) : ℚ) := by
    push_cast
    ring
  rw [h2, trunc_div]
  rfl

/-- One simulated interval without task completion, computed with integer
divisions. -/
theorem sim_interval_eq (time_int_us lag interval : Nat) (adj : Int) (total : Nat)
    (hT : time_int_us * (interval + 1) < 2 ^ 50)
    (he : (adj - (lag : Int)).toNat < 2 ^ 50)
    (ht : total + (adj - (lag : Int)).toNat < 2 ^ 50)
    (ha1 : -2 ^ 50 < adj) (ha2 : adj < 2 ^ 50) :
    sim_interval time_int_us lag interval (adj, total) =
      (if Int.tdiv (4 * Int.tdiv (2 * adj + ((time_int_us : Int) -
            ((adj - (lag : Int)).toNat : Int))) 2
          + ((time_int_us : Int) * ((interval : Int) + 1) -
            ((total + (adj - (lag : Int)).toNat : Nat) : Int))) 4 < 0 then 0
       else Int.tdiv (4 * Int.tdiv (2 * adj + ((time_int_us : Int) -
            ((adj - (lag : Int)).toNat : Int))) 2
          + ((time_int_us : Int) * ((interval : Int) + 1) -
            ((total + (adj - (lag : Int)).toNat : Nat) : Int))) 4,
       total + (adj - (lag : Int)).toNat) := by
  simp only [sim_interval]
  rw [adjust_time_eq _ _ _ _ _ _ hT he ht ha1 ha2, adjust_time_sum_eq]
  simp

/-- The ten simulated intervals of scenario S2, one by one. -/
theorem sim_steps :
    sim_interval 1000000 100000 0 (1000000, 0) = (1075000, 900000) ∧
    sim_interval 1000000 100000 1 (1075000, 900000) = (1118750, 1875000) ∧
    sim_interval 1000000 100000 2 (1118750, 1875000) = (1135937, 2893750) ∧
    sim_interval 1000000 100000 3 (1135937, 2893750) = (1135546, 3929687) ∧
    sim_interval 1000000 100000 4 (1135546, 3929687) = (1126464, 4965233) ∧
    sim_interval 1000000 100000 5 (1126464, 4965233) = (1115307, 5991697) ∧
    sim_interval 1000000 100000 6 (1115307, 5991697) = (1105902, 7007004) ∧
    sim_interval 1000000 100000 7 (1105902, 7007004) = (1099724, 8012906) ∧
    sim_interval 1000000 100000 8 (1099724, 8012906) = (1096704, 9012630) ∧
    sim_interval 1000000 100000 9 (1096704, 9012630) = (1096018, 10009334) := by
  refine ⟨?_, ?_, ?_, ?_, ?_, ?_, ?_, ?_, ?_, ?_⟩ <;>
  · rw [sim_interval_eq _ _ _ _ _ (by decide) (by decide) (by decide) (by decide) (by decide)]
    decide

/-- Witness of C9: with `T = 1 s`, a first interval of 900 ms and
`adj_delay = 1 s`, the sum is 1 075 000 and `adjust_time` returns it. -/
theorem adjust_time_spec_witness :
    adjust_time 900000 900000 0 1000000 1000000 false = 1075000 := by
  have hs : adjust_time_sum 900000 900000 0 1000000 1000000 = 1075000 := by
    rw [adjust_time_sum_eq]
    decide
  have h := (adjust_time_spec 900000 900000 0 1000000 1000000 false (by decide) (by decide)
    (by decide) (by decide) (by decide)).1 (by rw [hs]; decide)
  rw [h, hs]

/-- The simulated loop over ten intervals applies `sim_interval` ten times. -/
theorem sim_loop_ten (time_int_us lag : Nat) (s : Int × Nat) :
    sim_loop time_int_us lag 10 0 s =
      sim_interval time_int_us lag 9 (sim_interval time_int_us lag 8
        (sim_interval time_int_us lag 7 (sim_interval time_int_us lag 6
          (sim_interval time_int_us lag 5 (sim_interval time_int_us lag 4
            (sim_interval time_int_us lag 3 (sim_interval time_int_us lag 2
              (sim_interval time_int_us lag 1 (sim_interval time_int_us lag 0 s))))))))) := rfl

/-- C10. Iterating `adjust_time` for the intervals `k = 0..9` from
`adj_delay = T = 1 000 000` microseconds, every interval lasting exactly 100 ms
less than the sleep requested for it and no task completing: the loop ends
with `adj_delay = 1 096 018` and a total elapsed time of 10 009 334
microseconds, so the total elapsed time divided by 10 lies within 5 000
microseconds of `T`. -/
theorem pi_convergence :
    sim_loop 1000000 100000 10 0 (1000000, 0) = (1096018, 10009334) ∧
    |((sim_loop 1000000 100000 10 0 (1000000, 0)).2 : ℚ) / 10 - 1000000| ≤ 5000 := by
  obtain ⟨s0, s1, s2, s3, s4, s5, s6, s7, s8, s9⟩ := sim_steps
  have h : sim_loop 1000000 100000 10 0 (1000000, 0) = (1096018, 10009334) := by
    rw [sim_loop_ten, s0, s1, s2, s3, s4, s5, s6, s7, s8, s9]
  refine ⟨h, ?_⟩
  rw [h, abs_le]
  constructor <;> norm_num

/-! ## Properties of the workload methods -/

/-- A property that the body of a loop preserves holds when the loop returns. -/
theorem for_each_ok_inv {σ ε α : Type} (P : σ → Prop) (body : α → σ → Except ε σ)
    (l : List α)
    (h : ∀ a ∈ l, ∀ s s1, P s → body a s = .ok s1 → P s1) :
    ∀ s s1, P s → for_each body l s = .ok s1 → P s1 := by
  induction l with
  | nil =>
    intro s s1 hP hr
    simp only [for_each, Except.ok.injEq] at hr
    exact hr ▸ hP
  | cons a rest ih =>
    intro s s1 hP hr
    simp only [for_each] at hr
    cases hb : body a s with
    | error e => rw [hb] at hr; cases hr
    | ok s2 =>
      rw [hb] at hr
      exact ih (fun b hb1 => h b (List.mem_cons_of_mem a hb1)) s2 s1
        (h a (List.mem_cons_self a rest) s s2 hP hb) hr

/-- A property that the body of a loop preserves, also when it throws, holds
for the state that the loop leaves. -/
theorem for_each_final_inv {E σ α : Type} (P : σ → Prop)
    (body : α → σ → Except (E × σ) σ) (h : ∀ a s, P s → P (final_state (body a s))) :
    ∀ (l : List α) (s : σ), P s → P (final_state (for_each body l s)) := by
  intro l
  induction l with
  | nil => intro s hP; simpa [for_each, final_state] using hP
  | cons a rest ih =>
    intro s hP
    have hb := h a s hP
    simp only [for_each]
    cases hbody : body a s with
    | error e => rw [hbody] at hb; simpa [final_state] using hb
    | ok s2 => rw [hbody] at hb; exact ih s2 (by simpa [final_state] using hb)

theorem AppTask.reset_body_kept (i : Nat) (t : AppTask) :
    (final_state (AppTask.reset_body i t)).kept = t.kept := by
  unfold AppTask.reset_body
  split <;> simp [final_state, AppTask.kept, Task.fixed]

theorem AppTask.reset_kept (t : AppTask) : (final_state (AppTask.reset t)).kept = t.kept := by
  unfold AppTask.reset
  exact for_each_final_inv (fun s => s.kept = t.kept) AppTask.reset_body
    (fun a s hs => (AppTask.reset_body_kept a s).trans hs) _ t rfl

theorem AppTask.task_pause_body_kept (env : TaskEnv) (i : Nat) (t : AppTask) :
    (final_state (AppTask.task_pause_body env i t)).kept = t.kept := by
  unfold AppTask.task_pause_body
  simp only
  repeat' split
  all_goals simp [final_state, AppTask.kept, Task.fixed]

theorem AppTask.task_pause_kept (env : TaskEnv) (t : AppTask) :
    (final_state (AppTask.task_pause env t)).kept = t.kept := by
  unfold AppTask.task_pause
  exact for_each_final_inv (fun s => s.kept = t.kept) (AppTask.task_pause_body env)
    (fun a s hs => (AppTask.task_pause_body_kept env a s).trans hs) _ t rfl

theorem AppTask.task_resume_body_kept (env : TaskEnv) (i : Nat) (t : AppTask) :
    (final_state (AppTask.task_resume_body env i t)).kept = t.kept := by
  unfold AppTask.task_resume_body
  simp only
  repeat' split
  all_goals simp [final_state, AppTask.kept, Task.fixed]

theorem AppTask.task_resume_kept (env : TaskEnv) (t : AppTask) :
    (final_state (AppTask.task_resume env t)).kept = t.kept := by
  unfold AppTask.task_resume
  exact for_each_final_inv (fun s => s.kept = t.kept) (AppTask.task_resume_body env)
    (fun a s hs => (AppTask.task_resume_body_kept env a s).trans hs) _ t rfl

theorem AppTask.task_kill_body_kept (env : TaskEnv) (i : Nat) (t : AppTask) :
    (final_state (AppTask.task_kill_body env i t)).kept = t.kept := by
  unfold AppTask.task_kill_body
  simp only
  repeat' split
  all_goals simp [final_state, AppTask.kept, Task.fixed]

theorem AppTask.task_kill_kept (env : TaskEnv) (t : AppTask) :
    (final_state (AppTask.task_kill env t)).kept = t.kept := by
  unfold AppTask.task_kill
  exact for_each_final_inv (fun s => s.kept = t.kept) (AppTask.task_kill_body env)
    (fun a s hs => (AppTask.task_kill_body_kept env a s).trans hs) _ t rfl

theorem AppTask.task_get_ready_to_execute_kept (env : TaskEnv) (t : AppTask) :
    (final_state (AppTask.task_get_ready_to_execute env t)).kept = t.kept := by
  unfold AppTask.task_get_ready_to_execute
  simp only
  repeat' split
  all_goals first
    | (rw [AppTask.task_pause_kept]; simp [AppTask.kept, Task.fixed])
    | simp [final_state, AppTask.kept, Task.fixed]

theorem AppTask.kept_eq_iff (t1 t : AppTask) :
    t1.kept = t.kept ↔
      t1.toTask.fixed = t.toTask.fixed ∧ t1.max_instr = t.max_instr ∧
      t1.num_restarts = t.num_restarts := by
  simp [AppTask.kept]

/-- The method `task_restart` of a Process writes `num_restarts` only, among
the members kept by the other methods, and adds 1 to it when it returns. -/
theorem AppTask.task_restart_kept (env : TaskEnv) (t : AppTask) :
    (final_state (AppTask.task_restart env t)).toTask.fixed = t.toTask.fixed ∧
    (final_state (AppTask.task_restart env t)).max_instr = t.max_instr ∧
    (final_state (AppTask.task_restart env t)).num_restarts =
      (match AppTask.task_restart env t with
       | .ok _ => (t.num_restarts + 1) % 2 ^ 32
       | .error _ => t.num_restarts) := by
  unfold AppTask.task_restart AppTask.task_start_to_execute
  split
  · have k1 := AppTask.reset_kept t
    cases h1 : AppTask.reset t with
    | error e =>
      rw [h1] at k1
      simpa [final_state, AppTask.kept_eq_iff] using k1
    | ok t1 =>
      rw [h1] at k1
      dsimp only
      have k2 := AppTask.task_get_ready_to_execute_kept env t1
      cases h2 : AppTask.task_get_ready_to_execute env t1 with
      | error e =>
        rw [h2] at k2
        have k := k2.trans k1
        simpa [final_state, AppTask.kept_eq_iff] using k
      | ok t2 =>
        rw [h2] at k2
        dsimp only
        have k3 := AppTask.task_resume_kept env t2
        cases h3 : AppTask.task_resume env t2 with
        | error e =>
          rw [h3] at k3
          have k := (k3.trans k2).trans k1
          simpa [final_state, AppTask.kept_eq_iff] using k
        | ok t3 =>
          rw [h3] at k3
          have k := (k3.trans k2).trans k1
          simp only [final_state, AppTask.kept_eq_iff] at k
          simp [final_state, Task.fixed] at k ⊢
          simp [k]
  · simp [final_state]

theorem AppTask.stop_monitoring_final (env : TaskEnv) (n : Nat) (t : AppTask) :
    final_state (AppTask.stop_monitoring env n t) = t := by
  unfold AppTask.stop_monitoring
  repeat' split
  all_goals rfl

theorem AppTask.task_restart_bounded (env : TaskEnv) (t : AppTask)
    (h : t.num_restarts < t.max_restarts) :
    (final_state (AppTask.task_restart env t)).toTask.fixed = t.toTask.fixed ∧
    (final_state (AppTask.task_restart env t)).max_instr = t.max_instr ∧
    (final_state (AppTask.task_restart env t)).num_restarts ≤
      (final_state (AppTask.task_restart env t)).max_restarts := by
  obtain ⟨k1, k2, k3⟩ := AppTask.task_restart_kept env t
  refine ⟨k1, k2, ?_⟩
  have hm : (final_state (AppTask.task_restart env t)).max_restarts = t.max_restarts := by
    simp only [Task.fixed, Prod.mk.injEq] at k1
    exact k1.2.2.1
  rw [hm, k3]
  split
  · exact le_trans (Nat.mod_le _ _) h
  · exact Nat.le_of_lt h

/-- The body of the loop of `task_restart_or_set_done` of a Process keeps
`num_restarts <= max_restarts` and the members that no method writes, also
when it throws. -/
theorem AppTask.restart_or_set_done_body_inv (env : TaskEnv) (st : Status) (x : Nat × Nat)
    (t : AppTask) :
    (final_state (AppTask.restart_or_set_done_body env st x t)).toTask.fixed = t.toTask.fixed ∧
    (final_state (AppTask.restart_or_set_done_body env st x t)).max_instr = t.max_instr ∧
    (t.num_restarts ≤ t.max_restarts →
      (final_state (AppTask.restart_or_set_done_body env st x t)).num_restarts ≤
        (final_state (AppTask.restart_or_set_done_body env st x t)).max_restarts) := by
  unfold AppTask.restart_or_set_done_body
  split
  · have k1 := AppTask.stop_monitoring_final env x.1 t
    cases h1 : AppTask.stop_monitoring env x.1 t with
    | error e =>
      rw [h1] at k1
      simp only [final_state] at k1 ⊢
      rw [k1]
      exact ⟨rfl, rfl, fun h => h⟩
    | ok t1 =>
      rw [h1] at k1
      simp only [final_state] at k1
      subst k1
      dsimp only
      generalize hk : (if st = Status.limit_reached then AppTask.task_kill env t1
        else if st ≠ Status.exited then
          (Except.error (TaskError.runtime_error "Should not have reached this...", t1) :
            AppResult)
        else Except.ok t1) = killed
      have kk : (final_state killed).kept = t1.kept := by
        rw [← hk]
        split
        · exact AppTask.task_kill_kept env t1
        · split <;> rfl
      rw [AppTask.kept_eq_iff] at kk
      obtain ⟨kf, km, kn⟩ := kk
      have kmax : (final_state killed).max_restarts = t1.max_restarts := by
        simp only [Task.fixed, Prod.mk.injEq] at kf
        exact kf.2.2.1
      cases killed with
      | error e =>
        simp only [final_state] at kf km kn kmax ⊢
        exact ⟨kf, km, fun h => by rw [kn, kmax]; exact h⟩
      | ok t2 =>
        simp only [final_state] at kf km kn kmax
        dsimp only
        split
        · rename_i hlt
          obtain ⟨r1, r2, r3⟩ := AppTask.task_restart_bounded env t2 hlt
          split
          · split
            · exact ⟨r1.trans kf, r2.trans km, fun _ => r3⟩
            · simp only [final_state]
              exact ⟨kf, km, fun h => by rw [kn, kmax]; exact h⟩
          · exact ⟨r1.trans kf, r2.trans km, fun _ => r3⟩
        · simp only [final_state]
          refine ⟨?_, km, ?_⟩
          · simpa [Task.fixed] using kf
          · intro h
            show t2.num_restarts ≤ t2.max_restarts
            rw [kn, kmax]; exact h
  · exact ⟨rfl, rfl, fun h => h⟩

/-- The method `task_restart_or_set_done` of a Process keeps
`num_restarts <= max_restarts` and the members that no method writes, also
when it throws. -/
theorem AppTask.task_restart_or_set_done_inv (env : TaskEnv) (t : AppTask) :
    (final_state (AppTask.task_restart_or_set_done env t)).toTask.fixed = t.toTask.fixed ∧
    (final_state (AppTask.task_restart_or_set_done env t)).max_instr = t.max_instr ∧
    (t.num_restarts ≤ t.max_restarts →
      (final_state (AppTask.task_restart_or_set_done env t)).num_restarts ≤
        (final_state (AppTask.task_restart_or_set_done env t)).max_restarts) := by
  unfold AppTask.task_restart_or_set_done
  exact for_each_final_inv
    (fun s => s.toTask.fixed = t.toTask.fixed ∧ s.max_instr = t.max_instr ∧
      (t.num_restarts ≤ t.max_restarts → s.num_restarts ≤ s.max_restarts))
    (AppTask.restart_or_set_done_body env t.status)
    (fun a s hs => by
      obtain ⟨r1, r2, r3⟩ := AppTask.restart_or_set_done_body_inv env t.status a s
      exact ⟨r1.trans hs.1, r2.trans hs.2.1, fun h => r3 (hs.2.2 h)⟩)
    _ t ⟨rfl, rfl, fun h => h⟩

/-- On a workload that is neither `limit_reached` nor `exited`, and so on a
`done` one, `task_restart_or_set_done` of a Process returns the object as it
is. -/
theorem AppTask.task_restart_or_set_done_idle (env : TaskEnv) (t : AppTask)
    (h : t.status ≠ Status.limit_reached ∧ t.status ≠ Status.exited) :
    AppTask.task_restart_or_set_done env t = .ok t := by
  unfold AppTask.task_restart_or_set_done
  generalize t.cpus.enum = l
  generalize hs : t.status = st at h
  clear hs
  induction l with
  | nil => rfl
  | cons a rest ih =>
    simp only [for_each, AppTask.restart_or_set_done_body]
    rw [if_neg (by simp [h.1, h.2])]
    exact ih

theorem VMTask.kept_eq_iff_vm (t1 t : VMTask) :
    t1.kept = t.kept ↔
      t1.toTask.fixed = t.toTask.fixed ∧ t1.dom = t.dom ∧
      t1.client_native = t.client_native ∧ t1.num_restarts = t.num_restarts := by
  simp [VMTask.kept]

theorem VMTask.reset_body_kept_vm (i : Nat) (t : VMTask) :
    (final_state (VMTask.reset_body i t)).kept = t.kept := by
  unfold VMTask.reset_body
  split <;> simp [final_state, VMTask.kept, Task.fixed]

theorem VMTask.reset_kept_vm (t : VMTask) : (final_state (VMTask.reset t)).kept = t.kept := by
  unfold VMTask.reset
  exact for_each_final_inv (fun s => s.kept = t.kept) VMTask.reset_body
    (fun a s hs => (VMTask.reset_body_kept_vm a s).trans hs) _ t rfl

theorem VMTask.task_kill_final (env : TaskEnv) (t : VMTask) :
    final_state (VMTask.task_kill env t) = t := by
  unfold VMTask.task_kill
  repeat' split
  all_goals rfl

theorem VMTask.task_get_ready_to_execute_light_final (env : TaskEnv) (t : VMTask) :
    final_state (VMTask.task_get_ready_to_execute_light env t) = t := by
  unfold VMTask.task_get_ready_to_execute_light
  repeat' split
  all_goals rfl

theorem VMTask.task_start_to_execute_final (env : TaskEnv) (t : VMTask) :
    final_state (VMTask.task_start_to_execute env t) = t := by
  unfold VMTask.task_start_to_execute
  repeat' split
  all_goals rfl

/-- The method `task_restart` of a virtual machine writes `num_restarts` only,
among the members kept by the other methods, and adds 1 to it when it
returns. -/
theorem VMTask.task_restart_kept_vm (env : TaskEnv) (t : VMTask) :
    (final_state (VMTask.task_restart env t)).toTask.fixed = t.toTask.fixed ∧
    (final_state (VMTask.task_restart env t)).dom = t.dom ∧
    (final_state (VMTask.task_restart env t)).client_native = t.client_native ∧
    (final_state (VMTask.task_restart env t)).num_restarts =
      (match VMTask.task_restart env t with
       | .ok _ => (t.num_restarts + 1) % 2 ^ 32
       | .error _ => t.num_restarts) := by
  unfold VMTask.task_restart
  split
  · have k1 := VMTask.reset_kept_vm t
    cases h1 : VMTask.reset t with
    | error e =>
      rw [h1] at k1
      simpa [final_state, VMTask.kept_eq_iff_vm] using k1
    | ok t1 =>
      rw [h1] at k1
      dsimp only
      have k2 := VMTask.task_get_ready_to_execute_light_final env t1
      cases h2 : VMTask.task_get_ready_to_execute_light env t1 with
      | error e =>
        rw [h2] at k2
        simp only [final_state] at k2 k1
        simp only [final_state, k2]
        simpa [VMTask.kept_eq_iff_vm] using k1
      | ok t2 =>
        rw [h2] at k2
        simp only [final_state] at k2 k1
        subst k2
        dsimp only
        have k3 := VMTask.task_start_to_execute_final env t2
        cases h3 : VMTask.task_start_to_execute env t2 with
        | error e =>
          rw [h3] at k3
          simp only [final_state] at k3
          simp only [final_state, k3]
          simpa [VMTask.kept_eq_iff_vm] using k1
        | ok t3 =>
          rw [h3] at k3
          simp only [final_state] at k3
          subst k3
          simp only [VMTask.kept_eq_iff_vm] at k1
          simp [final_state, Task.fixed] at k1 ⊢
          simp [k1]
  · simp [final_state]

/-- The method `task_restart_or_set_done` of a virtual machine keeps
`num_restarts <= max_restarts` and the members that no method writes, also
when it throws. -/
theorem VMTask.task_restart_or_set_done_inv_vm (env : TaskEnv) (t : VMTask) :
    (final_state (VMTask.task_restart_or_set_done env t)).toTask.fixed = t.toTask.fixed ∧
    (t.num_restarts ≤ t.max_restarts →
      (final_state (VMTask.task_restart_or_set_done env t)).num_restarts ≤
        (final_state (VMTask.task_restart_or_set_done env t)).max_restarts) := by
  unfold VMTask.task_restart_or_set_done
  dsimp only
  split
  · generalize hk : (if t.status = Status.limit_reached then VMTask.task_kill env t
        else (Except.ok t : VMResult)) = killed
    have kk : final_state killed = t := by
      rw [← hk]
      split
      · exact VMTask.task_kill_final env t
      · rfl
    cases killed with
    | error e =>
      simp only [final_state] at kk ⊢
      rw [kk]
      exact ⟨rfl, fun h => h⟩
    | ok t2 =>
      simp only [final_state] at kk
      subst kk
      dsimp only
      split
      · rename_i hlt
        obtain ⟨r1, _, _, r4⟩ := VMTask.task_restart_kept_vm env t2
        refine ⟨r1, fun h => ?_⟩
        have hm : (final_state (VMTask.task_restart env t2)).max_restarts = t2.max_restarts := by
          simp only [Task.fixed, Prod.mk.injEq] at r1
          exact r1.2.2.1
        rw [hm, r4]
        split
        · exact le_trans (Nat.mod_le _ _) hlt
        · exact h
      · simp only [final_state]
        exact ⟨by simp [Task.fixed], fun h => h⟩
  · exact ⟨rfl, fun h => h⟩

/-- On a workload that is neither `limit_reached` nor `exited`, and so on a
`done` one, `task_restart_or_set_done` of a virtual machine returns the object
as it is. -/
theorem VMTask.task_restart_or_set_done_idle_vm (env : TaskEnv) (t : VMTask)
    (h : t.status ≠ Status.limit_reached ∧ t.status ≠ Status.exited) :
    VMTask.task_restart_or_set_done env t = .ok t := by
  unfold VMTask.task_restart_or_set_done
  dsimp only
  rw [if_neg (by simp [h.1, h.2])]

/-! ## Properties of the supervisor loop -/

/-- One step of the sampling loop of a Process: only the store of the
position changes, and `total_inst` grows by the current instruction count of
that store when the pid slot is positive. -/
theorem AppTask.sample_body_spec (cfg : Config) (pt : String) (counters : Nat → List Counter)
    (x : Nat × Nat) (s s1 : AppTask × Nat)
    (h : AppTask.sample_body cfg pt counters x s = .ok s1) :
    s1.1 = { s.1 with stats := s1.1.stats } ∧
    (∀ k, k ≠ x.1 → s1.1.stats k = s.1.stats k) ∧
    (if 0 < s.1.pids x.1 then add_inst s.2 (s1.1.stats x.1).current_inst = some s1.2
     else s1.2 = s.2) := by
  unfold AppTask.sample_body at h
  split at h
  · cases h
  · split at h
    · rename_i hpid
      cases ha : Stats.accum cfg.rapl (s.1.stats x.1) (read_counters pt (counters x.1))
          cfg.interval_ti with
      | error e => rw [ha] at h; cases h
      | ok st =>
        rw [ha] at h
        dsimp only at h
        cases hg : st.get_current "inst_retired.any" with
        | error e => rw [hg] at h; cases h
        | ok value =>
          rw [hg] at h
          dsimp only at h
          cases hadd : add_inst s.2 value with
          | none => rw [hadd] at h; cases h
          | some total =>
            rw [hadd] at h
            simp only [Except.ok.injEq] at h
            subst h
            refine ⟨rfl, ?_, ?_⟩
            · intro k hk
              simp [Function.update_noteq hk]
            · rw [if_pos hpid]
              simp [Stats.current_inst, hg, hadd]
    · rename_i hpid
      simp only [Except.ok.injEq] at h
      subst h
      refine ⟨rfl, fun _ _ => rfl, ?_⟩
      rw [if_neg hpid]

/-- The sampling loop of a Process over a list of distinct positions: the
workload changes by its stores only, the stores of the other positions are
kept, and `total_inst` is the truncated sum of the current instruction counts
of the positions with a positive pid slot. -/
theorem AppTask.sample_loop_spec (cfg : Config) (pt : String) (counters : Nat → List Counter) :
    ∀ (l : List (Nat × Nat)) (s s1 : AppTask × Nat),
      (l.map Prod.fst).Nodup →
      for_each (AppTask.sample_body cfg pt counters) l s = .ok s1 →
      s1.1 = { s.1 with stats := s1.1.stats } ∧
      (∀ k, k ∉ l.map Prod.fst → s1.1.stats k = s.1.stats k) ∧
      inst_total
        (((l.map Prod.fst).filter (fun k => decide (0 < s.1.pids k))).map
          (fun k => (s1.1.stats k).current_inst)) s.2 = some s1.2 := by
  intro l
  induction l with
  | nil =>
    intro s s1 _ h
    simp only [for_each, Except.ok.injEq] at h
    subst h
    exact ⟨rfl, fun _ _ => rfl, rfl⟩
  | cons x rest ih =>
    intro s s1 hnd h
    simp only [for_each] at h
    cases hb : AppTask.sample_body cfg pt counters x s with
    | error e => rw [hb] at h; cases h
    | ok s2 =>
      rw [hb] at h
      dsimp only at h
      simp only [List.map_cons, List.nodup_cons] at hnd
      obtain ⟨b1, b2, b3⟩ := AppTask.sample_body_spec cfg pt counters x s s2 hb
      obtain ⟨i1, i2, i3⟩ := ih s2 s1 hnd.2 h
      have hpids : s2.1.pids = s.1.pids := by rw [b1]
      have hx : s1.1.stats x.1 = s2.1.stats x.1 := i2 x.1 hnd.1
      refine ⟨?_, ?_, ?_⟩
      · rw [i1, b1]
      · intro k hk
        simp only [List.map_cons, List.mem_cons, not_or] at hk
        rw [i2 k hk.2, b2 k hk.1]
      · rw [hpids] at i3
        simp only [List.map_cons, List.filter_cons]
        by_cases hp : 0 < s.1.pids x.1
        · rw [if_pos hp] at b3
          simp only [hp, decide_True, if_true, List.map_cons, inst_total, hx, b3]
          exact i3
        · rw [if_neg hp] at b3
          simp only [hp, decide_False, Bool.false_eq_true, if_false]
          rw [← b3]
          exact i3

/-- The sampling loop of a Process workload changes its stores only, and
returns as `total_inst` the truncated sum of the current instruction counts of
the cpus whose pid slot is positive. -/
theorem AppTask.sample_spec (cfg : Config) (pt : String) (counters : Nat → List Counter)
    (t t1 : AppTask) (total_inst : Nat)
    (h : AppTask.sample cfg pt counters t = .ok (t1, total_inst)) :
    t1 = { t with stats := t1.stats } ∧ inst_total t1.inst_values 0 = some total_inst := by
  unfold AppTask.sample at h
  have hnd : (t.cpus.enum.map Prod.fst).Nodup := by
    rw [List.enum_map_fst]
    exact List.nodup_range _
  obtain ⟨i1, _, i3⟩ := AppTask.sample_loop_spec cfg pt counters _ _ _ hnd h
  have i1b : t1 = { t with stats := t1.stats } := i1
  refine ⟨i1b, ?_⟩
  simp only [List.enum_map_fst] at i3
  have hp : t1.pids = t.pids := by rw [i1b]
  have hc : t1.cpus = t.cpus := by rw [i1b]
  simp only [AppTask.inst_values, AppTask.live_slots, hp, hc]
  exact i3

/-- The sampling loop of a virtual machine changes its stores only. -/
theorem VMTask.sample_spec_vm (cfg : Config) (pt : String) (counters : Nat → List Counter)
    (t t1 : VMTask) (h : VMTask.sample cfg pt counters t = .ok t1) :
    t1 = { t with stats := t1.stats } := by
  unfold VMTask.sample at h
  refine for_each_ok_inv (fun s : VMTask => s = { t with stats := s.stats })
    (VMTask.sample_body cfg pt counters) _ ?_ t t1 rfl h
  intro a _ s s1 hs hb
  unfold VMTask.sample_body at hb
  split at hb
  · cases hb
  · cases ha : Stats.accum cfg.rapl (s.stats a.1) (read_counters pt (counters a.1))
        cfg.interval_ti with
    | error e => rw [ha] at hb; cases hb
    | ok st =>
      rw [ha] at hb
      simp only [Except.ok.injEq] at hb
      subst hb
      show _ = _
      rw [hs]

/-- What the post-sleep phase does to the members of a task that `Task`
declares: the stores apart, it either keeps them, or sets the status to
`exited` or `limit_reached` and adds 1 to `completed` and to `run_id`. -/
theorem post_sleep_task_base (cfg : Config) (env : IntervalEnv) (i : Nat) (task task1 : AnyTask)
    (ntc ntc1 : Bool) (h : post_sleep_task cfg env i task ntc = .ok (task1, ntc1)) :
    task1.base = { task.base with stats := task1.base.stats } ∨
    task1.base = ({ task.base with stats := task1.base.stats } : Task).complete Status.exited ∨
    task1.base =
      ({ task.base with stats := task1.base.stats } : Task).complete Status.limit_reached := by
  unfold post_sleep_task at h
  cases task with
  | vm t =>
    dsimp only at h
    cases hs : VMTask.sample cfg (env.task i).perf_type (env.counters i) t with
    | error e => rw [hs] at h; cases h
    | ok t1 =>
      rw [hs] at h
      dsimp only at h
      have k := VMTask.sample_spec_vm cfg _ _ t t1 hs
      split at h
      · simp only [Except.ok.injEq, Prod.mk.injEq] at h
        obtain ⟨h1, _⟩ := h
        subst h1
        right; left
        simp only [AnyTask.base, Task.complete]
        rw [k]
      · simp only [Except.ok.injEq, Prod.mk.injEq] at h
        obtain ⟨h1, _⟩ := h
        subst h1
        left
        simp only [AnyTask.base]
        rw [k]
  | app t =>
    dsimp only at h
    cases hs : AppTask.sample cfg (env.task i).perf_type (env.counters i) t with
    | error e => rw [hs] at h; cases h
    | ok r =>
      obtain ⟨t1, total⟩ := r
      rw [hs] at h
      dsimp only at h
      have k := (AppTask.sample_spec cfg _ _ t t1 total hs).1
      cases he : AppTask.task_exited (env.waitpid_nohang i) cfg.monitor_only t1 with
      | error e => rw [he] at h; cases h
      | ok b =>
        rw [he] at h
        cases b with
        | true =>
          simp only [Except.ok.injEq, Prod.mk.injEq] at h
          obtain ⟨h1, _⟩ := h
          subst h1
          right; left
          simp only [AnyTask.base, Task.complete]
          rw [k]
        | false =>
          dsimp only at h
          split at h
          · simp only [Except.ok.injEq, Prod.mk.injEq] at h
            obtain ⟨h1, _⟩ := h
            subst h1
            right; right
            simp only [AnyTask.base, Task.complete]
            rw [k]
          · simp only [Except.ok.injEq, Prod.mk.injEq] at h
            obtain ⟨h1, _⟩ := h
            subst h1
            left
            simp only [AnyTask.base]
            rw [k]

/-- The call `task_restart_or_set_done` on an object of the task list keeps
the members that no method writes, and keeps `num_restarts <= max_restarts`. -/
theorem AnyTask.task_restart_or_set_done_base (env : TaskEnv) (task task1 : AnyTask)
    (h : task.task_restart_or_set_done env = .ok task1) :
    task1.base.fixed = task.base.fixed ∧
    (task.base.num_restarts ≤ task.base.max_restarts →
      task1.base.num_restarts ≤ task1.base.max_restarts) := by
  unfold AnyTask.task_restart_or_set_done at h
  cases task with
  | app t =>
    dsimp only at h
    obtain ⟨r1, _, r3⟩ := AppTask.task_restart_or_set_done_inv env t
    cases hr : AppTask.task_restart_or_set_done env t with
    | error e => rw [hr] at h; cases h
    | ok t1 =>
      rw [hr] at h r1 r3
      simp only [Except.ok.injEq] at h
      subst h
      exact ⟨r1, r3⟩
  | vm t =>
    dsimp only at h
    obtain ⟨r1, r3⟩ := VMTask.task_restart_or_set_done_inv_vm env t
    cases hr : VMTask.task_restart_or_set_done env t with
    | error e => rw [hr] at h; cases h
    | ok t1 =>
      rw [hr] at h r1 r3
      simp only [Except.ok.injEq] at h
      subst h
      exact ⟨r1, r3⟩

/-- On an object that is neither `limit_reached` nor `exited`, and so on a
`done` one, `task_restart_or_set_done` returns the object as it is. -/
theorem AnyTask.task_restart_or_set_done_idle_any (env : TaskEnv) (task : AnyTask)
    (h : task.base.status ≠ Status.limit_reached ∧ task.base.status ≠ Status.exited) :
    task.task_restart_or_set_done env = .ok task := by
  unfold AnyTask.task_restart_or_set_done
  cases task with
  | app t => dsimp only; rw [AppTask.task_restart_or_set_done_idle env t h]
  | vm t => dsimp only; rw [VMTask.task_restart_or_set_done_idle_vm env t h]

/-- One step of the post-sleep loop over the run-list. -/
theorem post_sleep_body_spec (cfg : Config) (env : IntervalEnv) (a : Nat) (s s1 : Loop × Bool)
    (h : post_sleep_body cfg env a s = .ok s1) :
    s1.1.runlist = s.1.runlist ∧ s1.1.ntasks = s.1.ntasks ∧ s1.1.interval = s.1.interval ∧
    s1.1.adj_delay_us = s.1.adj_delay_us ∧
    (∀ j, j ≠ a → s1.1.tasks j = s.1.tasks j) ∧
    (∃ ntc ntc1, post_sleep_task cfg env a (s.1.tasks a) ntc = .ok (s1.1.tasks a, ntc1)) ∧
    (s1.2 = true ↔ s.2 = true ∧
      ¬((s1.1.tasks a).base.completed = 0 ∧ (s1.1.tasks a).base.batch = false)) := by
  unfold post_sleep_body at h
  cases hp : post_sleep_task cfg env a (s.1.tasks a) s.1.new_task_completion with
  | error e => rw [hp] at h; cases h
  | ok r =>
    obtain ⟨task1, ntc1⟩ := r
    rw [hp] at h
    simp only [Except.ok.injEq] at h
    subst h
    refine ⟨rfl, rfl, rfl, rfl, ?_, ?_, ?_⟩
    · intro j hj
      simp [Function.update_noteq hj]
    · exact ⟨_, ntc1, by simpa using hp⟩
    · simp only [Function.update_same]
      by_cases hc : task1.base.completed = 0 ∧ task1.base.batch = false
      · simp [hc]
      · simp [hc]

/-- The post-sleep loop over a list of distinct positions: it changes the
objects at these positions only, each by `post_sleep_task`, and clears
`all_completed` when one of them is not batch and has `completed = 0`. -/
theorem post_sleep_loop_spec (cfg : Config) (env : IntervalEnv) :
    ∀ (l : List Nat) (s s2 : Loop × Bool), l.Nodup →
      for_each (post_sleep_body cfg env) l s = .ok s2 →
      s2.1.runlist = s.1.runlist ∧ s2.1.ntasks = s.1.ntasks ∧ s2.1.interval = s.1.interval ∧
      s2.1.adj_delay_us = s.1.adj_delay_us ∧
      (∀ j, j ∉ l → s2.1.tasks j = s.1.tasks j) ∧
      (∀ i ∈ l, ∃ ntc ntc1,
        post_sleep_task cfg env i (s.1.tasks i) ntc = .ok (s2.1.tasks i, ntc1)) ∧
      (s2.2 = true ↔ s.2 = true ∧ ∀ i ∈ l,
        ¬((s2.1.tasks i).base.completed = 0 ∧ (s2.1.tasks i).base.batch = false)) := by
  intro l
  induction l with
  | nil =>
    intro s s2 _ h
    simp only [for_each, Except.ok.injEq] at h
    subst h
    simp
  | cons a rest ih =>
    intro s s2 hnd h
    simp only [for_each] at h
    cases hb : post_sleep_body cfg env a s with
    | error e => rw [hb] at h; cases h
    | ok s1 =>
      rw [hb] at h
      dsimp only at h
      simp only [List.nodup_cons] at hnd
      obtain ⟨b1, b2, b3, b4, b5, b6, b7⟩ := post_sleep_body_spec cfg env a s s1 hb
      obtain ⟨i1, i2, i3, i4, i5, i6, i7⟩ := ih s1 s2 hnd.2 h
      have ha : s2.1.tasks a = s1.1.tasks a := i5 a hnd.1
      refine ⟨i1.trans b1, i2.trans b2, i3.trans b3, i4.trans b4, ?_, ?_, ?_⟩
      · intro j hj
        simp only [List.mem_cons, not_or] at hj
        rw [i5 j hj.2, b5 j hj.1]
      · intro i hi
        simp only [List.mem_cons] at hi
        rcases hi with hi | hi
        · subst hi
          rw [ha]
          exact b6
        · have hne : i ≠ a := fun e => hnd.1 (e ▸ hi)
          obtain ⟨ntc, ntc1, hq⟩ := i6 i hi
          rw [b5 i hne] at hq
          exact ⟨ntc, ntc1, hq⟩
      · rw [i7, b7, ← ha]
        simp only [List.mem_cons, forall_eq_or_imp]
        tauto

/-- One step of the post-processing loop over the run-list. -/
theorem post_process_body_spec (env : IntervalEnv) (a : Nat) (L L1 : Loop)
    (h : post_process_body env a L = .ok L1) :
    L1.runlist = L.runlist ∧ L1.ntasks = L.ntasks ∧ L1.interval = L.interval ∧
    L1.adj_delay_us = L.adj_delay_us ∧ L1.new_task_completion = L.new_task_completion ∧
    (∀ j, j ≠ a → L1.tasks j = L.tasks j) ∧
    (if (L.tasks a).base.status = Status.exited then
       (L.tasks a).task_restart_or_set_done (env.task a) = .ok (L1.tasks a)
     else L1.tasks a = L.tasks a) := by
  unfold post_process_body at h
  split at h
  · rename_i hst
    cases hp : (L.tasks a).task_restart_or_set_done (env.task a) with
    | error e => rw [hp] at h; cases h
    | ok task1 =>
      rw [hp] at h
      simp only [Except.ok.injEq] at h
      subst h
      refine ⟨rfl, rfl, rfl, rfl, rfl, ?_, ?_⟩
      · intro j hj
        simp [Function.update_noteq hj]
      · rw [if_pos hst]
        simp
  · rename_i hst
    simp only [Except.ok.injEq] at h
    subst h
    refine ⟨rfl, rfl, rfl, rfl, rfl, fun _ _ => rfl, ?_⟩
    rw [if_neg hst]

/-- The post-processing loop over a list of distinct positions: it changes
the objects at these positions only, and only those that are `exited`, by
`task_restart_or_set_done`. -/
theorem post_process_loop_spec (env : IntervalEnv) :
    ∀ (l : List Nat) (L L3 : Loop), l.Nodup →
      for_each (post_process_body env) l L = .ok L3 →
      L3.runlist = L.runlist ∧ L3.ntasks = L.ntasks ∧ L3.interval = L.interval ∧
      L3.adj_delay_us = L.adj_delay_us ∧ L3.new_task_completion = L.new_task_completion ∧
      (∀ j, j ∉ l → L3.tasks j = L.tasks j) ∧
      (∀ i ∈ l, if (L.tasks i).base.status = Status.exited then
          (L.tasks i).task_restart_or_set_done (env.task i) = .ok (L3.tasks i)
        else L3.tasks i = L.tasks i) := by
  intro l
  induction l with
  | nil =>
    intro L L3 _ h
    simp only [for_each, Except.ok.injEq] at h
    subst h
    simp
  | cons a rest ih =>
    intro L L3 hnd h
    simp only [for_each] at h
    cases hb : post_process_body env a L with
    | error e => rw [hb] at h; cases h
    | ok L1 =>
      rw [hb] at h
      dsimp only at h
      simp only [List.nodup_cons] at hnd
      obtain ⟨b1, b2, b3, b4, b5, b6, b7⟩ := post_process_body_spec env a L L1 hb
      obtain ⟨i1, i2, i3, i4, i5, i6, i7⟩ := ih L1 L3 hnd.2 h
      have ha : L3.tasks a = L1.tasks a := i6 a hnd.1
      refine ⟨i1.trans b1, i2.trans b2, i3.trans b3, i4.trans b4, i5.trans b5, ?_, ?_⟩
      · intro j hj
        simp only [List.mem_cons, not_or] at hj
        rw [i6 j hj.2, b6 j hj.1]
      · intro i hi
        simp only [List.mem_cons] at hi
        rcases hi with hi | hi
        · subst hi
          rw [ha]
          exact b7
        · have hne : i ≠ a := fun e => hnd.1 (e ▸ hi)
          have hq := i7 i hi
          rw [b6 i hne] at hq
          exact hq

/-- The shape of a run of the body of the loop: the post-sleep phase, then
either `break`, or the post-processing phase and the cleaning of the
run-list. -/
theorem interval_body_spec (cfg : Config) (env : IntervalEnv) (L L1 : Loop) (b : Bool)
    (h : interval_body cfg env L = .ok (L1, b)) :
    ∃ L2 ac, post_sleep cfg env (sleep cfg env L) = .ok (L2, ac) ∧
      (b = true → ac = true ∧ L1 = L2) ∧
      (b = false → ac = false ∧ ∃ L3, post_process env L2 = .ok L3 ∧
        L1 = { L3 with runlist := L3.runlist.filter (fun i => !(done_or_exited L3 i)) } ∧
        L1.runlist ≠ []) := by
  unfold interval_body at h
  cases hp : post_sleep cfg env (sleep cfg env L) with
  | error e => rw [hp] at h; cases h
  | ok r =>
    obtain ⟨L2, ac⟩ := r
    rw [hp] at h
    dsimp only at h
    refine ⟨L2, ac, rfl, ?_⟩
    cases ac with
    | true =>
      simp only [if_true, Except.ok.injEq, Prod.mk.injEq] at h
      obtain ⟨h1, h2⟩ := h
      subst h1
      subst h2
      simp
    | false =>
      simp only [Bool.false_eq_true, if_false] at h
      cases hq : post_process env L2 with
      | error e => rw [hq] at h; cases h
      | ok L3 =>
        rw [hq] at h
        dsimp only at h
        split at h
        · cases h
        · rename_i hne
          simp only [Except.ok.injEq, Prod.mk.injEq] at h
          obtain ⟨h1, h2⟩ := h
          subst h1
          subst h2
          refine ⟨by simp, fun _ => ⟨rfl, L3, rfl, rfl, ?_⟩⟩
          intro he
          apply hne
          simp only at he
          rw [he]
          rfl

/-- What one interval does to a task of the run-list that was `runnable` or
`limit_reached` at its start: `completed` grows by at most 1, the status
`done` comes from `exited`, and a task that ends `done` or `exited` has
completed in the interval. -/
theorem interval_task_spec (cfg : Config) (env : IntervalEnv) (i : Nat)
    (t0 t2 t3 : AnyTask) (ntc ntc1 : Bool)
    (hst : t0.base.status = Status.runnable ∨ t0.base.status = Status.limit_reached)
    (hc : t0.base.completed + 1 < 2 ^ 32)
    (h2 : post_sleep_task cfg env i t0 ntc = .ok (t2, ntc1))
    (h3 : if t2.base.status = Status.exited then
        t2.task_restart_or_set_done (env.task i) = .ok t3 else t3 = t2) :
    t2.base.completed ≤ t0.base.completed + 1 ∧
    t3.base.completed = t2.base.completed ∧ t3.base.batch = t2.base.batch ∧
    t2.base.batch = t0.base.batch ∧
    (t3.base.status = Status.done ∨ t3.base.status = Status.exited →
      t2.base.status = Status.exited ∧ 1 ≤ t3.base.completed) := by
  have hb := post_sleep_task_base cfg env i t0 t2 ntc ntc1 h2
  have hmod : (t0.base.completed + 1) % 2 ^ 32 = t0.base.completed + 1 := Nat.mod_eq_of_lt hc
  have e2 : t2.base.batch = t0.base.batch ∧
      ((t2.base.status = t0.base.status ∧ t2.base.completed = t0.base.completed) ∨
       ((t2.base.status = Status.exited ∨ t2.base.status = Status.limit_reached) ∧
         t2.base.completed = t0.base.completed + 1)) := by
    rcases hb with hb | hb | hb
    · rw [hb]; exact ⟨rfl, Or.inl ⟨rfl, rfl⟩⟩
    · rw [hb]; exact ⟨rfl, Or.inr ⟨Or.inl rfl, by simp only [Task.complete]; exact hmod⟩⟩
    · rw [hb]; exact ⟨rfl, Or.inr ⟨Or.inr rfl, by simp only [Task.complete]; exact hmod⟩⟩
  obtain ⟨eb, e2⟩ := e2
  have hle : t2.base.completed ≤ t0.base.completed + 1 := by
    rcases e2 with e2 | e2
    · rw [e2.2]; exact Nat.le_succ _
    · rw [e2.2]
  by_cases hex : t2.base.status = Status.exited
  · rw [if_pos hex] at h3
    have hf := (AnyTask.task_restart_or_set_done_base (env.task i) t2 t3 h3).1
    simp only [Task.fixed, Prod.mk.injEq] at hf
    have hc3 : t3.base.completed = t2.base.completed := hf.2.2.2.2.2.1
    refine ⟨hle, hc3, hf.2.2.2.1, eb, fun _ => ⟨hex, ?_⟩⟩
    rw [hc3]
    rcases e2 with e2 | e2
    · rw [e2.1] at hex
      rcases hst with hst | hst <;> rw [hst] at hex <;> cases hex
    · rw [e2.2]; exact Nat.le_add_left 1 _
  · rw [if_neg hex] at h3
    subst h3
    refine ⟨hle, rfl, rfl, eb, fun hd => ?_⟩
    exfalso
    rcases hd with hd | hd
    · rcases e2 with e2 | e2
      · rw [e2.1] at hd
        rcases hst with hst | hst <;> rw [hst] at hd <;> cases hd
      · rcases e2.1 with e | e
        · exact hex e
        · rw [e] at hd; cases hd
    · exact hex hd

theorem sleep_tasks (cfg : Config) (env : IntervalEnv) (L : Loop) :
    (sleep cfg env L).tasks = L.tasks ∧ (sleep cfg env L).runlist = L.runlist ∧
    (sleep cfg env L).ntasks = L.ntasks ∧ (sleep cfg env L).interval = L.interval := by
  unfold sleep
  exact ⟨rfl, rfl, rfl, rfl⟩

/-- The facts on an interval that the statements on the loop use: when the
variables are consistent at the start of an interval and the post-sleep phase
returns, the phase keeps the run-list and the objects outside it, and every
object of the run-list went through `post_sleep_task`. -/
theorem post_sleep_spec (cfg : Config) (env : IntervalEnv) (L L2 : Loop) (ac : Bool)
    (hnd : L.runlist.Nodup)
    (h : post_sleep cfg env (sleep cfg env L) = .ok (L2, ac)) :
    L2.runlist = L.runlist ∧ L2.ntasks = L.ntasks ∧ L2.interval = L.interval ∧
    (∀ j, j ∉ L.runlist → L2.tasks j = L.tasks j) ∧
    (∀ i ∈ L.runlist, ∃ ntc ntc1,
      post_sleep_task cfg env i (L.tasks i) ntc = .ok (L2.tasks i, ntc1)) ∧
    (ac = true ↔ ∀ i ∈ L.runlist,
      ¬((L2.tasks i).base.completed = 0 ∧ (L2.tasks i).base.batch = false)) := by
  obtain ⟨s1, s2, s3, s4⟩ := sleep_tasks cfg env L
  generalize sleep cfg env L = L0 at h s1 s2 s3 s4
  unfold post_sleep at h
  rw [← s2] at hnd
  obtain ⟨i1, i2, i3, _, i5, i6, i7⟩ :=
    post_sleep_loop_spec cfg env L0.runlist (L0, true) (L2, ac) hnd h
  simp only [s1, s2, s3, s4] at i1 i2 i3 i5 i6 i7
  refine ⟨i1, i2, i3, i5, i6, ?_⟩
  rw [i7]
  simp

/-- The body of the loop keeps the variables consistent when it does not
leave the loop. -/
theorem Loop.consistent_step (cfg : Config) (hmax : cfg.max_int < 2 ^ 32) (env : IntervalEnv)
    (L L1 : Loop) (hI : L.consistent cfg) (hlt : L.interval < cfg.max_int)
    (h : interval_body cfg env L = .ok (L1, false)) :
    Loop.consistent cfg { L1 with interval := (L1.interval + 1) % 2 ^ 32 } := by
  obtain ⟨c1, c2, c3, c4, c5, c6⟩ := hI
  obtain ⟨L2, ac, hps, _, hb⟩ := interval_body_spec cfg env L L1 false h
  obtain ⟨_, L3, hpp, hL1, _⟩ := hb rfl
  obtain ⟨p1, p2, p3, p4, p5, _⟩ := post_sleep_spec cfg env L L2 ac c1 hps
  unfold post_process at hpp
  rw [p1] at hpp
  obtain ⟨q1, q2, q3, _, _, q6, q7⟩ := post_process_loop_spec env L.runlist L2 L3 c1 hpp
  have hrl : L3.runlist = L.runlist := q1.trans p1
  have hint : L1.interval = L.interval := by rw [hL1]; exact q3.trans p3
  have hnt : L1.ntasks = L.ntasks := by rw [hL1]; exact q2.trans p2
  have htk : L1.tasks = L3.tasks := by rw [hL1]
  have hmem : ∀ i, i ∈ L1.runlist ↔ i ∈ L.runlist ∧ done_or_exited L3 i = false := by
    intro i
    rw [hL1]
    simp only [List.mem_filter, hrl, Bool.not_eq_true', Bool.not_eq_eq_eq_not, Bool.not_true]
  have hnext : (L1.interval + 1) % 2 ^ 32 = L.interval + 1 := by
    rw [hint]
    exact Nat.mod_eq_of_lt (by omega)
  have key : ∀ i ∈ L.runlist, i < L.ntasks →
      (L3.tasks i).base.completed ≤ L.interval + 1 ∧
      ((L3.tasks i).base.status = Status.done ∨ (L3.tasks i).base.status = Status.exited →
        1 ≤ (L3.tasks i).base.completed) := by
    intro i hi hin
    obtain ⟨ntc, ntc1, h2⟩ := p5 i hi
    have hc : (L.tasks i).base.completed + 1 < 2 ^ 32 := by
      have := c5 i hin
      omega
    obtain ⟨k1, k2, _, _, k5⟩ :=
      interval_task_spec cfg env i (L.tasks i) (L2.tasks i) (L3.tasks i) ntc ntc1 (c3 i hi) hc h2
        (q7 i hi)
    refine ⟨?_, fun hd => (k5 hd).2⟩
    rw [k2]
    exact le_trans k1 (Nat.add_le_add_right (c5 i hin) 1)
  refine ⟨?_, ?_, ?_, ?_, ?_, ?_⟩
  · show L1.runlist.Nodup
    rw [hL1]
    simp only [hrl]
    exact c1.filter _
  · intro i hi
    show i < L1.ntasks
    rw [hnt]
    exact c2 i ((hmem i).1 hi).1
  · intro i hi
    show (L1.tasks i).base.status = Status.runnable ∨
      (L1.tasks i).base.status = Status.limit_reached
    rw [htk]
    have hd := ((hmem i).1 hi).2
    simp only [done_or_exited, Bool.or_eq_false_iff, decide_eq_false_iff_not] at hd
    cases hs : (L3.tasks i).base.status with
    | runnable => exact Or.inl rfl
    | limit_reached => exact Or.inr rfl
    | exited => exact absurd hs hd.2
    | done => exact absurd hs hd.1
  · intro i hin hi
    show 1 ≤ (L1.tasks i).base.completed
    have hin1 : i < L.ntasks := by rw [← hnt]; exact hin
    have hi1 : ¬ i ∈ L1.runlist := hi
    rw [htk]
    by_cases hr : i ∈ L.runlist
    · have hd : done_or_exited L3 i = true := by
        by_contra hne
        exact hi1 ((hmem i).2 ⟨hr, by simpa using hne⟩)
      simp only [done_or_exited, Bool.or_eq_true, decide_eq_true_eq] at hd
      exact (key i hr hin1).2 hd
    · rw [q6 i hr, p4 i hr]
      exact c4 i hin1 hr
  · intro i hin
    show (L1.tasks i).base.completed ≤ (L1.interval + 1) % 2 ^ 32
    have hin1 : i < L.ntasks := by rw [← hnt]; exact hin
    rw [hnext, htk]
    by_cases hr : i ∈ L.runlist
    · exact (key i hr hin1).1
    · rw [q6 i hr, p4 i hr]
      exact le_trans (c5 i hin1) (Nat.le_succ _)
  · show (L1.interval + 1) % 2 ^ 32 ≤ cfg.max_int
    rw [hnext]
    exact hlt

/-- The variables of the loop are consistent at the start of every interval
when they are at the start of the first one. -/
theorem Loop.consistent_intervals (cfg : Config) (hmax : cfg.max_int < 2 ^ 32) :
    ∀ (envs : List IntervalEnv) (L L1 : Loop), L.consistent cfg →
      intervals cfg envs L = .ok (L1, false) → L1.consistent cfg := by
  intro envs
  induction envs with
  | nil =>
    intro L L1 hI h
    simp only [intervals, Except.ok.injEq, Prod.mk.injEq, and_true] at h
    exact h ▸ hI
  | cons env rest ih =>
    intro L L1 hI h
    simp only [intervals] at h
    split at h
    · rename_i hlt
      cases hb : interval_body cfg env L with
      | error e => rw [hb] at h; cases h
      | ok r =>
        obtain ⟨L2, b⟩ := r
        rw [hb] at h
        cases b with
        | true => simp at h
        | false =>
          dsimp only at h
          exact ih _ L1 (Loop.consistent_step cfg hmax env L L2 hI hlt hb) h
    · simp only [Except.ok.injEq, Prod.mk.injEq, and_true] at h
      exact h ▸ hI

/-- The variables of the loop are consistent before the first interval when
every task is `runnable` and has never completed. -/
theorem Loop.consistent_start (cfg : Config) (tasks : Nat → AnyTask) (ntasks : Nat)
    (h0 : ∀ i, i < ntasks →
      (tasks i).base.status = Status.runnable ∧ (tasks i).base.completed = 0) :
    (Loop.start cfg tasks ntasks).consistent cfg := by
  refine ⟨List.nodup_range _, ?_, ?_, ?_, ?_, Nat.zero_le _⟩
  · intro i hi
    exact List.mem_range.1 hi
  · intro i hi
    exact Or.inl (h0 i (List.mem_range.1 hi)).1
  · intro i hin hi
    exact absurd (List.mem_range.2 hin) hi
  · intro i hin
    show (tasks i).base.completed ≤ 0
    rw [(h0 i hin).2]

/-- The post-sleep phase keeps the status of a task or sets it to `exited`
or `limit_reached`, and keeps `num_restarts` and `max_restarts`. -/
theorem post_sleep_task_restarts (cfg : Config) (env : IntervalEnv) (i : Nat)
    (task task1 : AnyTask) (ntc ntc1 : Bool)
    (h : post_sleep_task cfg env i task ntc = .ok (task1, ntc1)) :
    task1.base.num_restarts = task.base.num_restarts ∧
    task1.base.max_restarts = task.base.max_restarts ∧
    (task1.base.status = task.base.status ∨ task1.base.status = Status.exited ∨
      task1.base.status = Status.limit_reached) := by
  rcases post_sleep_task_base cfg env i task task1 ntc ntc1 h with hb | hb | hb
  · rw [hb]; exact ⟨rfl, rfl, Or.inl rfl⟩
  · rw [hb]; exact ⟨rfl, rfl, Or.inr (Or.inl rfl)⟩
  · rw [hb]; exact ⟨rfl, rfl, Or.inr (Or.inr rfl)⟩

/-- The body of the loop keeps `num_restarts <= max_restarts` on every
object, whether it leaves the loop or not. -/
theorem interval_body_bounded (cfg : Config) (env : IntervalEnv) (L L1 : Loop) (b : Bool)
    (hB : ∀ i, (L.tasks i).base.num_restarts ≤ (L.tasks i).base.max_restarts)
    (h : interval_body cfg env L = .ok (L1, b)) :
    ∀ i, (L1.tasks i).base.num_restarts ≤ (L1.tasks i).base.max_restarts := by
  obtain ⟨L2, ac, hps, hb1, hb2⟩ := interval_body_spec cfg env L L1 b h
  obtain ⟨s1, _, _, _⟩ := sleep_tasks cfg env L
  have hB2 : ∀ i, (L2.tasks i).base.num_restarts ≤ (L2.tasks i).base.max_restarts := by
    unfold post_sleep at hps
    have hP := for_each_ok_inv
      (fun s : Loop × Bool =>
        ∀ i, (s.1.tasks i).base.num_restarts ≤ (s.1.tasks i).base.max_restarts)
      (post_sleep_body cfg env) (sleep cfg env L).runlist
      (fun a _ s s1 hs hbody i => by
        obtain ⟨_, _, _, _, b5, b6, _⟩ := post_sleep_body_spec cfg env a s s1 hbody
        by_cases hia : i = a
        · subst hia
          obtain ⟨ntc, ntc1, hq⟩ := b6
          obtain ⟨r1, r2, _⟩ := post_sleep_task_restarts cfg env i _ _ ntc ntc1 hq
          rw [r1, r2]
          exact hs i
        · rw [b5 i hia]
          exact hs i)
      (sleep cfg env L, true) (L2, ac) (fun i => by simp only [s1]; exact hB i) hps
    exact hP
  cases b with
  | true =>
    obtain ⟨_, e⟩ := hb1 rfl
    rw [e]
    exact hB2
  | false =>
    obtain ⟨_, L3, hpp, e, _⟩ := hb2 rfl
    have hB3 : ∀ i, (L3.tasks i).base.num_restarts ≤ (L3.tasks i).base.max_restarts := by
      unfold post_process at hpp
      exact for_each_ok_inv
        (fun s : Loop => ∀ i, (s.tasks i).base.num_restarts ≤ (s.tasks i).base.max_restarts)
        (post_process_body env) L2.runlist
        (fun a _ s s1 hs hbody i => by
          obtain ⟨_, _, _, _, _, b6, b7⟩ := post_process_body_spec env a s s1 hbody
          by_cases hia : i = a
          · subst hia
            by_cases hex : (s.tasks i).base.status = Status.exited
            · rw [if_pos hex] at b7
              exact (AnyTask.task_restart_or_set_done_base _ _ _ b7).2 (hs i)
            · rw [if_neg hex] at b7
              rw [b7]
              exact hs i
          · rw [b6 i hia]
            exact hs i)
        L2 L3 hB2 hpp
    rw [e]
    exact hB3

/-- The loop keeps `num_restarts <= max_restarts` on every object. -/
theorem intervals_bounded (cfg : Config) :
    ∀ (envs : List IntervalEnv) (L L1 : Loop) (b : Bool),
      (∀ i, (L.tasks i).base.num_restarts ≤ (L.tasks i).base.max_restarts) →
      intervals cfg envs L = .ok (L1, b) →
      ∀ i, (L1.tasks i).base.num_restarts ≤ (L1.tasks i).base.max_restarts := by
  intro envs
  induction envs with
  | nil =>
    intro L L1 b hB h
    simp only [intervals, Except.ok.injEq, Prod.mk.injEq] at h
    rw [← h.1]
    exact hB
  | cons env rest ih =>
    intro L L1 b hB h
    simp only [intervals] at h
    split at h
    · cases hb : interval_body cfg env L with
      | error e => rw [hb] at h; cases h
      | ok r =>
        obtain ⟨L2, b2⟩ := r
        rw [hb] at h
        have hB2 := interval_body_bounded cfg env L L2 b2 hB hb
        cases b2 with
        | true =>
          simp only [Except.ok.injEq, Prod.mk.injEq] at h
          rw [← h.1]
          exact hB2
        | false =>
          dsimp only at h
          exact ih { L2 with interval := (L2.interval + 1) % 2 ^ 32 } L1 b hB2 h
    · simp only [Except.ok.injEq, Prod.mk.injEq] at h
      rw [← h.1]
      exact hB

/-- The body of the loop changes no object outside the run-list, adds no
position to the run-list, and leaves no `done` object in it. -/
theorem interval_body_frame (cfg : Config) (env : IntervalEnv) (L L1 : Loop) (b : Bool)
    (hnd : L.runlist.Nodup)
    (hJ : ∀ i ∈ L.runlist, (L.tasks i).base.status ≠ Status.done)
    (h : interval_body cfg env L = .ok (L1, b)) :
    L1.runlist.Nodup ∧ (∀ i ∈ L1.runlist, i ∈ L.runlist) ∧
    (∀ i ∈ L1.runlist, (L1.tasks i).base.status ≠ Status.done) ∧
    (∀ i, i ∉ L.runlist → L1.tasks i = L.tasks i) := by
  obtain ⟨L2, ac, hps, hb1, hb2⟩ := interval_body_spec cfg env L L1 b h
  obtain ⟨p1, _, _, p4, p5, _⟩ := post_sleep_spec cfg env L L2 ac hnd hps
  have hJ2 : ∀ i ∈ L.runlist, (L2.tasks i).base.status ≠ Status.done := by
    intro i hi
    obtain ⟨ntc, ntc1, hq⟩ := p5 i hi
    obtain ⟨_, _, r3⟩ := post_sleep_task_restarts cfg env i _ _ ntc ntc1 hq
    rcases r3 with r | r | r
    · rw [r]; exact hJ i hi
    · rw [r]; exact fun e => Status.noConfusion e
    · rw [r]; exact fun e => Status.noConfusion e
  cases b with
  | true =>
    obtain ⟨_, e⟩ := hb1 rfl
    subst e
    refine ⟨by rw [p1]; exact hnd, fun i hi => by rw [← p1]; exact hi, ?_, p4⟩
    intro i hi
    rw [p1] at hi
    exact hJ2 i hi
  | false =>
    obtain ⟨_, L3, hpp, e, _⟩ := hb2 rfl
    unfold post_process at hpp
    rw [p1] at hpp
    obtain ⟨q1, _, _, _, _, q6, _⟩ := post_process_loop_spec env L.runlist L2 L3 hnd hpp
    have hrl : L3.runlist = L.runlist := q1.trans p1
    subst e
    refine ⟨?_, ?_, ?_, ?_⟩
    · show (L3.runlist.filter _).Nodup
      rw [hrl]
      exact hnd.filter _
    · intro i hi
      have hi1 : i ∈ L3.runlist.filter (fun i => !(done_or_exited L3 i)) := hi
      rw [hrl] at hi1
      exact (List.mem_filter.1 hi1).1
    · intro i hi
      have hi1 : i ∈ L3.runlist.filter (fun i => !(done_or_exited L3 i)) := hi
      have hd := (List.mem_filter.1 hi1).2
      simp only [done_or_exited, Bool.not_eq_true', Bool.or_eq_false_iff,
        decide_eq_false_iff_not] at hd
      exact hd.1
    · intro i hi
      show L3.tasks i = L.tasks i
      rw [q6 i hi, p4 i hi]

/-- The loop changes no object outside the run-list, adds no position to the
run-list, and leaves no `done` object in it. -/
theorem intervals_frame (cfg : Config) :
    ∀ (envs : List IntervalEnv) (L L1 : Loop) (b : Bool), L.runlist.Nodup →
      (∀ i ∈ L.runlist, (L.tasks i).base.status ≠ Status.done) →
      intervals cfg envs L = .ok (L1, b) →
      L1.runlist.Nodup ∧ (∀ i ∈ L1.runlist, i ∈ L.runlist) ∧
      (∀ i ∈ L1.runlist, (L1.tasks i).base.status ≠ Status.done) ∧
      (∀ i, i ∉ L.runlist → L1.tasks i = L.tasks i) := by
  intro envs
  induction envs with
  | nil =>
    intro L L1 b hnd hJ h
    simp only [intervals, Except.ok.injEq, Prod.mk.injEq] at h
    rw [← h.1]
    exact ⟨hnd, fun _ hi => hi, hJ, fun _ _ => rfl⟩
  | cons env rest ih =>
    intro L L1 b hnd hJ h
    simp only [intervals] at h
    split at h
    · cases hb : interval_body cfg env L with
      | error e => rw [hb] at h; cases h
      | ok r =>
        obtain ⟨L2, b2⟩ := r
        rw [hb] at h
        obtain ⟨f1, f2, f3, f4⟩ := interval_body_frame cfg env L L2 b2 hnd hJ hb
        cases b2 with
        | true =>
          simp only [Except.ok.injEq, Prod.mk.injEq] at h
          rw [← h.1]
          exact ⟨f1, f2, f3, f4⟩
        | false =>
          dsimp only at h
          obtain ⟨g1, g2, g3, g4⟩ :=
            ih { L2 with interval := (L2.interval + 1) % 2 ^ 32 } L1 b f1 f3 h
          refine ⟨g1, fun i hi => f2 i (g2 i hi), g3, fun i hi => ?_⟩
          rw [g4 i (fun hc => hi (f2 i hc))]
          exact f4 i hi
    · simp only [Except.ok.injEq, Prod.mk.injEq] at h
      rw [← h.1]
      exact ⟨hnd, fun _ hi => hi, hJ, fun _ _ => rfl⟩

theorem add_inst_ofNat (n m total : Nat) (h : add_inst n (Dbl.ofNat m) = some total) :
    total = n + m := by
  have ht : trunc (((n : ℚ) + (m : ℚ))) = ((n + m : Nat) : Int) := by
    have hq : (0 : ℚ) ≤ (n : ℚ) + (m : ℚ) := by positivity
    unfold trunc
    rw [if_pos hq]
    have : ((n : ℚ) + (m : ℚ)) = (((n + m : Nat) : Int) : ℚ) := by push_cast; ring
    rw [this, Int.floor_intCast]
  unfold add_inst to_uint64 at h
  simp only [Dbl.ofNat, Dbl.add] at h
  rw [ht] at h
  split at h
  · simp only [Int.toNat_ofNat, Option.some.injEq] at h
    exact h.symm
  · cases h

/-- The truncated sum of whole numbers is their sum. -/
theorem inst_total_sum :
    ∀ (values : List Dbl) (n total : Nat), (∀ v ∈ values, ∃ m : Nat, v = Dbl.ofNat m) →
      inst_total values n = some total →
      values.foldl Dbl.add (Dbl.ofNat n) = Dbl.ofNat total := by
  intro values
  induction values with
  | nil =>
    intro n total _ h
    simp only [inst_total, Option.some.injEq] at h
    subst h
    rfl
  | cons v rest ih =>
    intro n total hv h
    obtain ⟨m, hm⟩ := hv v (List.mem_cons_self v rest)
    subst hm
    simp only [inst_total] at h
    cases ha : add_inst n (Dbl.ofNat m) with
    | none => rw [ha] at h; cases h
    | some n1 =>
      rw [ha] at h
      dsimp only at h
      have e := add_inst_ofNat n m n1 ha
      subst e
      have := ih (n + m) total (fun w hw => hv w (List.mem_cons_of_mem _ hw)) h
      simp only [List.foldl_cons]
      have hadd : Dbl.add (Dbl.ofNat n) (Dbl.ofNat m) = Dbl.ofNat (n + m) := by
        simp [Dbl.ofNat, Dbl.add]
      rw [hadd]
      exact this

/-- C12. In a run of the supervisor loop that starts with
`num_restarts = 0` on every workload, `num_restarts <= max_restarts` holds on
every workload when the loop returns, after any number of intervals and
whether it was left by `break` or not; and one more call of
`task_restart_or_set_done`, with any results of the external calls, leaves
`num_restarts <= max_restarts` and the same `max_restarts`, whether the call
returns or throws. -/
theorem restarts_never_exceed_max (cfg : Config) (envs : List IntervalEnv)
    (tasks : Nat → AnyTask) (ntasks : Nat) (L : Loop) (b : Bool)
    (h0 : ∀ i, (tasks i).base.num_restarts = 0)
    (hrun : intervals cfg envs (Loop.start cfg tasks ntasks) = .ok (L, b))
    (i : Nat) (env : TaskEnv) :
    (L.tasks i).base.num_restarts ≤ (L.tasks i).base.max_restarts ∧
    (match L.tasks i with
     | AnyTask.app t =>
       (final_state (AppTask.task_restart_or_set_done env t)).num_restarts ≤
         (final_state (AppTask.task_restart_or_set_done env t)).max_restarts ∧
       (final_state (AppTask.task_restart_or_set_done env t)).max_restarts = t.max_restarts
     | AnyTask.vm t =>
       (final_state (VMTask.task_restart_or_set_done env t)).num_restarts ≤
         (final_state (VMTask.task_restart_or_set_done env t)).max_restarts ∧
       (final_state (VMTask.task_restart_or_set_done env t)).max_restarts = t.max_restarts) := by
  have hB := intervals_bounded cfg envs (Loop.start cfg tasks ntasks) L b
    (fun j => by
      show (tasks j).base.num_restarts ≤ (tasks j).base.max_restarts
      rw [h0 j]
      exact Nat.zero_le _) hrun i
  refine ⟨hB, ?_⟩
  cases hL : L.tasks i with
  | app t =>
    rw [hL] at hB
    obtain ⟨r1, _, r3⟩ := AppTask.task_restart_or_set_done_inv env t
    simp only [Task.fixed, Prod.mk.injEq] at r1
    exact ⟨r3 hB, r1.2.2.1⟩
  | vm t =>
    rw [hL] at hB
    obtain ⟨r1, r3⟩ := VMTask.task_restart_or_set_done_inv_vm env t
    simp only [Task.fixed, Prod.mk.injEq] at r1
    exact ⟨r3 hB, r1.2.2.1⟩

/-- Witness of C12: the first of two Process workloads has `max_restarts = 1`
and exits in the first interval; the loop restarts it, and its `num_restarts`
is within `max_restarts` then and after one more call. -/
theorem restarts_never_exceed_max_witness :
    ∃ L b, intervals cfg0 [exit_interval 0] (Loop.start cfg0 (two_tasks 0 1) 2) = .ok (L, b) ∧
      (L.tasks 0).base.num_restarts ≤ (L.tasks 0).base.max_restarts ∧
      (match L.tasks 0 with
       | AnyTask.app t =>
         (final_state (AppTask.task_restart_or_set_done env_ok t)).num_restarts ≤
           (final_state (AppTask.task_restart_or_set_done env_ok t)).max_restarts ∧
         (final_state (AppTask.task_restart_or_set_done env_ok t)).max_restarts
           = t.max_restarts
       | AnyTask.vm t =>
         (final_state (VMTask.task_restart_or_set_done env_ok t)).num_restarts ≤
           (final_state (VMTask.task_restart_or_set_done env_ok t)).max_restarts ∧
         (final_state (VMTask.task_restart_or_set_done env_ok t)).max_restarts
           = t.max_restarts) := by
  have hok : (intervals cfg0 [exit_interval 0]
      (Loop.start cfg0 (two_tasks 0 1) 2)).toBool = true := by decide!
  cases h : intervals cfg0 [exit_interval 0] (Loop.start cfg0 (two_tasks 0 1) 2) with
  | error e => rw [h] at hok; cases hok
  | ok r =>
    exact ⟨r.1, r.2, rfl,
      restarts_never_exceed_max cfg0 [exit_interval 0] (two_tasks 0 1) 2 r.1 r.2
        (fun i => by unfold two_tasks; split <;> rfl) h 0 env_ok⟩

/-- C13, the code at the failing input. A Process workload with
`max_instr = 10^6` and `max_restarts = 2` reaches its instruction limit in each
of three intervals, next to a workload that never completes. After the three
intervals it is `limit_reached` with `num_restarts = 0` and `completed = 3`,
where the claim gives `done` and `num_restarts = 2`: the post-processing phase
handles `exited` workloads only. When the workload is alone in the task list,
the loop is left in the first interval, with `completed = 1`. -/
theorem limit_reached_never_restarts :
    task_summary (intervals cfg0 [busy_interval 0, busy_interval 1, busy_interval 2]
        (Loop.start cfg0 (two_tasks 1000000 2) 2)) 0
      = some (Status.limit_reached, 0, 3, false) ∧
    task_summary (intervals cfg0 [busy_interval 0, busy_interval 1, busy_interval 2]
        (Loop.start cfg0 (two_tasks 1000000 2) 1)) 0
      = some (Status.limit_reached, 0, 1, true) := by
  constructor <;> decide!

/-- The rounding to the nearest `double` at some values: a whole number below
`2^53` is kept; `1 / 3` goes to `6004799503160661 / 2^54`; of `2^53 + 1` and
`2^53 + 3`, both half way between two doubles, the first goes down and the
second up, to the even multiple of 2; `2^1024 - 2^970` and more is an
infinity and the value just below goes to the largest finite `double`; and
below `2^-1022` the doubles are the multiples of `2^-1074`. -/
theorem round_nearest_values :
    Dbl.round_nearest 1000000 = Dbl.fin 1000000 ∧
    Dbl.round_nearest (1 / 3) = Dbl.fin (6004799503160661 / 18014398509481984) ∧
    Dbl.round_nearest (-(1 / 3)) = Dbl.fin (-(6004799503160661 / 18014398509481984)) ∧
    Dbl.round_nearest ((2 ^ 53 + 1 : Nat) : ℚ) = Dbl.fin ((2 ^ 53 : Nat) : ℚ) ∧
    Dbl.round_nearest ((2 ^ 53 + 3 : Nat) : ℚ) = Dbl.fin ((2 ^ 53 + 4 : Nat) : ℚ) ∧
    Dbl.round_nearest ((2 ^ 1024 - 2 ^ 970 : Nat) : ℚ) = Dbl.pinf ∧
    Dbl.round_nearest (-((2 ^ 1024 - 2 ^ 970 : Nat) : ℚ)) = Dbl.ninf ∧
    Dbl.round_nearest ((2 ^ 1024 - 2 ^ 970 - 1 : Nat) : ℚ)
      = Dbl.fin ((2 ^ 1024 - 2 ^ 971 : Nat) : ℚ) ∧
    Dbl.round_nearest (1 / ((2 ^ 1075 : Nat) : ℚ)) = Dbl.fin 0 ∧
    Dbl.round_nearest (3 / ((2 ^ 1075 : Nat) : ℚ)) = Dbl.fin (1 / ((2 ^ 1073 : Nat) : ℚ)) := by
  refine ⟨?_, ?_, ?_, ?_, ?_, ?_, ?_, ?_, ?_, ?_⟩ <;> decide!

/-- The reading of 35 instructions of a counter that ran 7 of its 12 time
units is compensated by two divisions of doubles: `7.0 / 12.0` is rounded to
`5254199565265579 / 2^53`, and `35.0` divided by it to `60 - 2^-47`, which is
printed `59.99999999999999`. A Process workload with this reading and
`max_instr = 60` stays `runnable`; with `max_instr = 59` it becomes
`limit_reached`. -/
theorem get_current_rounds :
    Dbl.div_rounded (Dbl.of_uint64 7) (Dbl.of_uint64 12)
      = Dbl.fin (5254199565265579 / 9007199254740992) ∧
    app_summary (post_sleep_task cfg0 shared_interval 0
        (AnyTask.app (app_one_cpu 0 100 60 0)) false)
      = some (Status.runnable, 0, [Dbl.fin (8444249301319679 / 140737488355328)]) ∧
    app_summary (post_sleep_task cfg0 shared_interval 0
        (AnyTask.app (app_one_cpu 0 100 59 0)) false)
      = some (Status.limit_reached, 1, [Dbl.fin (8444249301319679 / 140737488355328)]) ∧
    (8444249301319679 / 140737488355328 : ℚ) = 60 - 1 / 2 ^ 47 := by
  refine ⟨by decide!, by decide!, by decide!, by norm_num⟩

/-- C15. The loop starts with every workload of the task list
`runnable` and `completed = 0`, and `max_int` fits its 32 bits. At the start of
any interval that the loop reaches without `break`, when the post-sleep phase
returns, `all_completed` is true if and only if every workload of the whole
task list that is not batch has `completed >= 1`, the workloads that left the
run-list included. -/
theorem all_completed_iff (cfg : Config) (hmax : cfg.max_int < 2 ^ 32)
    (tasks : Nat → AnyTask) (ntasks : Nat)
    (h0 : ∀ i, i < ntasks →
      (tasks i).base.status = Status.runnable ∧ (tasks i).base.completed = 0)
    (envs : List IntervalEnv) (L : Loop)
    (hrun : intervals cfg envs (Loop.start cfg tasks ntasks) = .ok (L, false))
    (env : IntervalEnv) (L2 : Loop) (all_completed : Bool)
    (hps : post_sleep cfg env (sleep cfg env L) = .ok (L2, all_completed)) :
    all_completed = true ↔
      ∀ i, i < L2.ntasks → (L2.tasks i).base.batch = false →
        1 ≤ (L2.tasks i).base.completed := by
  obtain ⟨c1, c2, _, c4, _, _⟩ := Loop.consistent_intervals cfg hmax envs _ L
    (Loop.consistent_start cfg tasks ntasks h0) hrun
  obtain ⟨_, p2, _, p4, _, p6⟩ := post_sleep_spec cfg env L L2 all_completed c1 hps
  rw [p6, p2]
  constructor
  · intro h i hin hb
    by_cases hr : i ∈ L.runlist
    · have := h i hr
      rw [not_and] at this
      exact Nat.one_le_iff_ne_zero.2 (fun hz => this hz hb)
    · rw [p4 i hr]
      exact c4 i hin hr
  · intro h i hr hc
    have := h i (c2 i hr) hc.2
    rw [hc.1] at this
    exact absurd this (by decide)

/-- Witness of C15: the first interval of a loop over two Process workloads,
of which the first reaches its instruction limit. -/
theorem all_completed_iff_witness :
    ∃ L2 all_completed,
      post_sleep cfg0 (busy_interval 0)
        (sleep cfg0 (busy_interval 0) (Loop.start cfg0 (two_tasks 1000000 2) 2))
        = .ok (L2, all_completed) ∧
      (all_completed = true ↔
        ∀ i, i < L2.ntasks → (L2.tasks i).base.batch = false →
          1 ≤ (L2.tasks i).base.completed) := by
  have hok : (post_sleep cfg0 (busy_interval 0)
      (sleep cfg0 (busy_interval 0) (Loop.start cfg0 (two_tasks 1000000 2) 2))).toBool
      = true := by decide!
  cases h : post_sleep cfg0 (busy_interval 0)
      (sleep cfg0 (busy_interval 0) (Loop.start cfg0 (two_tasks 1000000 2) 2)) with
  | error e => rw [h] at hok; cases hok
  | ok r =>
    exact ⟨r.1, r.2, rfl,
      all_completed_iff cfg0 (by decide) (two_tasks 1000000 2) 2
        (fun i _ => by unfold two_tasks; split <;> exact ⟨rfl, rfl⟩)
        [] (Loop.start cfg0 (two_tasks 1000000 2) 2) rfl (busy_interval 0) r.1 r.2 h⟩

/-- C16. The loop starts with distinct positions in the run-list, none
of a `done` workload. When it returns, after any number of intervals, a
workload that is `done` is not in the run-list; `task_restart_or_set_done`
returns it unchanged, whatever the results of the external calls; and any
further intervals leave the object as it is, its stores and its status
included, and do not put it back in the run-list. -/
theorem done_is_terminal (cfg : Config) (envs : List IntervalEnv) (L0 L : Loop) (b : Bool)
    (hnd : L0.runlist.Nodup)
    (h0 : ∀ i ∈ L0.runlist, (L0.tasks i).base.status ≠ Status.done)
    (hrun : intervals cfg envs L0 = .ok (L, b))
    (i : Nat) (hd : (L.tasks i).base.status = Status.done) :
    i ∉ L.runlist ∧
    (∀ env : TaskEnv, (L.tasks i).task_restart_or_set_done env = .ok (L.tasks i)) ∧
    (∀ (envs1 : List IntervalEnv) (L1 : Loop) (b1 : Bool),
      intervals cfg envs1 L = .ok (L1, b1) → L1.tasks i = L.tasks i ∧ i ∉ L1.runlist) := by
  obtain ⟨f1, _, f3, _⟩ := intervals_frame cfg envs L0 L b hnd h0 hrun
  have hi : i ∉ L.runlist := fun hc => f3 i hc hd
  refine ⟨hi, ?_, ?_⟩
  · intro env
    apply AnyTask.task_restart_or_set_done_idle_any
    rw [hd]
    exact ⟨fun e => Status.noConfusion e, fun e => Status.noConfusion e⟩
  · intro envs1 L1 b1 h1
    obtain ⟨_, g2, _, g4⟩ := intervals_frame cfg envs1 L L1 b1 f1 f3 h1
    exact ⟨g4 i hi, fun hc => hi (g2 i hc)⟩

/-- Witness of C16: the first of two Process workloads has `max_restarts = 0`
and exits in the first interval, so that the loop marks it `done`. -/
theorem done_is_terminal_witness :
    ∃ L b, intervals cfg0 [exit_interval 0] (Loop.start cfg0 (two_tasks 0 0) 2) = .ok (L, b) ∧
      (L.tasks 0).base.status = Status.done ∧
      0 ∉ L.runlist ∧
      (∀ env : TaskEnv, (L.tasks 0).task_restart_or_set_done env = .ok (L.tasks 0)) ∧
      (∀ (envs1 : List IntervalEnv) (L1 : Loop) (b1 : Bool),
        intervals cfg0 envs1 L = .ok (L1, b1) → L1.tasks 0 = L.tasks 0 ∧ 0 ∉ L1.runlist) := by
  have hs : task_summary (intervals cfg0 [exit_interval 0]
      (Loop.start cfg0 (two_tasks 0 0) 2)) 0 = some (Status.done, 0, 1, false) := by decide!
  cases h : intervals cfg0 [exit_interval 0] (Loop.start cfg0 (two_tasks 0 0) 2) with
  | error e => rw [h] at hs; cases hs
  | ok r =>
    rw [h] at hs
    simp only [task_summary, Option.some.injEq, Prod.mk.injEq] at hs
    exact ⟨r.1, r.2, rfl, hs.1,
      done_is_terminal cfg0 [exit_interval 0] (Loop.start cfg0 (two_tasks 0 0) 2) r.1 r.2
        (List.nodup_range 2)
        (fun i _ => by
          show (two_tasks 0 0 i).base.status ≠ Status.done
          unfold two_tasks
          split <;> exact fun e => Status.noConfusion e)
        h 0 hs.1⟩

/-! ## Properties of the RDT adapter -/

theorem IntelRDT.get_after_write (rdt rdt1 : IntelRDT) (socket : Nat) (ca : pqos_l3ca)
    (hs : ∃ sockets, rdt.p_sockets = some sockets ∧ sockets[socket]? = some socket)
    (hn : ca.class_id < rdt.num_cos)
    (h : rdt.write_l3ca socket ca = .ok rdt1) :
    rdt1.pqos_l3ca_get socket ca.class_id = .ok ca := by
  obtain ⟨sockets, h1, h2⟩ := hs
  unfold IntelRDT.write_l3ca at h
  rw [h1] at h
  dsimp only at h
  rw [h2] at h
  simp only [Except.ok.injEq] at h
  subst h
  simp [IntelRDT.pqos_l3ca_get, IntelRDT.pqos_l3ca_set, hn]

/-- When `p_sockets[socket]` is `socket`, a mask written by `set_cbm` is the
one that `get_cbm` returns for the same `type`. -/
theorem IntelRDT.get_cbm_set_cbm (rdt rdt1 : IntelRDT) (clos socket mask cdp : Nat)
    (type : String)
    (hs : ∃ sockets, rdt.p_sockets = some sockets ∧ sockets[socket]? = some socket)
    (h : rdt.set_cbm clos socket mask cdp type = .ok rdt1) :
    rdt1.get_cbm clos socket type = .ok mask := by
  unfold IntelRDT.set_cbm at h
  split at h
  · cases hg : rdt.pqos_l3ca_get socket clos with
    | error e => rw [hg] at h; cases h
    | ok prev =>
      rw [hg] at h
      dsimp only at h
      have hn : clos < rdt.num_cos := by
        unfold IntelRDT.pqos_l3ca_get at hg
        split at hg
        · assumption
        · cases hg
      split at h
      · by_cases hc : (cdp : Int) = 1
        · by_cases ht : type ≠ "code"
          · rw [if_pos hc, if_pos ht] at h
            have := IntelRDT.get_after_write rdt rdt1 socket _ hs hn h
            simp only at this
            simp [IntelRDT.get_cbm, this, hc, ht]
          · rw [if_pos hc, if_neg ht] at h
            have := IntelRDT.get_after_write rdt rdt1 socket _ hs hn h
            simp only at this
            simp only [IntelRDT.get_cbm, this, hc, if_true]
            rw [if_neg ht]
        · rw [if_neg hc] at h
          have := IntelRDT.get_after_write rdt rdt1 socket _ hs hn h
          simp only at this
          simp [IntelRDT.get_cbm, this, hc]
      · cases h
  · cases h

/-- When `p_sockets[socket]` is `socket`, a mask written by `set_l3_clos`
without code and data prioritization, or for both scopes, is the one that
`get_cbm` returns. -/
theorem IntelRDT.get_cbm_set_l3_clos (rdt rdt1 : IntelRDT) (clos mask socket : Nat)
    (cdp : Int) (scope : Nat) (type : String)
    (hs : ∃ sockets, rdt.p_sockets = some sockets ∧ sockets[socket]? = some socket)
    (hc : cdp ≠ 1 ∨ scope = CAT_UPDATE_SCOPE_BOTH)
    (h : rdt.set_l3_clos clos mask socket cdp scope = .ok rdt1) :
    rdt1.get_cbm clos socket type = .ok mask := by
  unfold IntelRDT.set_l3_clos at h
  split at h
  · split at h
    · cases h
    · cases hg : rdt.pqos_l3ca_get socket clos with
      | error e => rw [hg] at h; cases h
      | ok prev =>
        rw [hg] at h
        dsimp only at h
        have hn : clos < rdt.num_cos := by
          unfold IntelRDT.pqos_l3ca_get at hg
          split at hg
          · assumption
          · cases hg
        split at h
        · by_cases h1 : cdp = 1
          · rcases hc with hc | hc
            · exact absurd h1 hc
            · subst hc
              rw [if_pos h1] at h
              simp only [CAT_UPDATE_SCOPE_BOTH, CAT_UPDATE_SCOPE_CODE, CAT_UPDATE_SCOPE_DATA,
                OfNat.zero_ne_ofNat, if_false, zero_ne_one, if_true] at h
              have := IntelRDT.get_after_write rdt rdt1 socket _ hs hn h
              simp only at this
              simp only [IntelRDT.get_cbm, this, h1, if_true]
              split <;> rfl
          · rw [if_neg h1] at h
            have := IntelRDT.get_after_write rdt rdt1 socket _ hs hn h
            simp only at this
            simp [IntelRDT.get_cbm, this, h1]
        · cases h
  · cases h

/-- C17, the code at the failing input. On a host with code and data
prioritization, class 1 of socket 0 holds the masks `0xfffff`. After
`set_l3_clos(1, 0x3, 0, 1, CAT_UPDATE_SCOPE_CODE)`, `get_cbm(1, 0, "code")`
returns `0xfffff`, the data mask, and not `0x3`; after the same call with
`CAT_UPDATE_SCOPE_DATA`, `get_cbm(1, 0, "data")` returns `0xfffff`, the code
mask: `get_cbm` takes the code mask when `type` is not `"code"`. -/
theorem get_cbm_reads_other_mask :
    l3_clos_read_back rdt0 1 3 0 1 CAT_UPDATE_SCOPE_CODE "code" = some 0xfffff ∧
    l3_clos_read_back rdt0 1 3 0 1 CAT_UPDATE_SCOPE_DATA "data" = some 0xfffff := by
  constructor <;> decide

theorem range_split (n i : Nat) (h : i < n) :
    ∃ l2, List.range n = List.range i ++ i :: l2 := by
  induction n with
  | zero => exact absurd h (Nat.not_lt_zero _)
  | succ n ih =>
    rcases Nat.lt_succ_iff_lt_or_eq.1 h with h1 | h1
    · obtain ⟨l2, e⟩ := ih h1
      exact ⟨l2 ++ [n], by rw [List.range_succ, e]; simp⟩
    · subst h1
      exact ⟨[], by rw [List.range_succ]⟩

/-- The loop of `monitor_stop_pid` stops at the first index that holds the
pid, when the groups before it are active groups of other pids. -/
theorem IntelRDT.stop_pid_loop_first (rdt : IntelRDT) (pid : Int) (stop_ok : Bool) (i : Nat)
    (l2 : List Nat) (hi : i < PQOS_MAX_CORES)
    (hp : rdt.m_mon_grps i = some (mon_group.pids pid)) :
    ∀ l1 : List Nat,
      (∀ j ∈ l1, j < PQOS_MAX_CORES ∧
        ∃ p1, rdt.m_mon_grps j = some (mon_group.pids p1) ∧ p1 ≠ pid) →
      rdt.stop_pid_loop pid stop_ok (l1 ++ i :: l2) =
        if stop_ok then
          .ok { rdt with free_pids_index := i, free_pids := true
                         m_mon_grps := Function.update rdt.m_mon_grps i (some mon_group.freed) }
        else .error (.runtime_error "Monitoring stop error!") := by
  intro l1
  induction l1 with
  | nil =>
    intro _
    simp only [List.nil_append, IntelRDT.stop_pid_loop]
    rw [if_neg (Nat.not_le.2 hi), hp]
    simp
  | cons a rest ih =>
    intro h
    obtain ⟨ha, p1, hg, hne⟩ := h a (List.mem_cons_self a rest)
    simp only [List.cons_append, IntelRDT.stop_pid_loop]
    rw [if_neg (Nat.not_le.2 ha), hg]
    simp only [hne, if_false]
    exact ih (fun j hj => h j (List.mem_cons_of_mem a hj))

/-- The loop of `monitor_stop_core` stops at the first index that holds the
core, when the groups before it are active groups of other cores. -/
theorem IntelRDT.stop_core_loop_first (rdt : IntelRDT) (core : Nat) (stop_ok : Bool) (i : Nat)
    (l2 : List Nat) (hi : i < PQOS_MAX_CORES)
    (hp : rdt.m_mon_grps i = some (mon_group.cores core)) :
    ∀ l1 : List Nat,
      (∀ j ∈ l1, j < PQOS_MAX_CORES ∧
        ∃ c1, rdt.m_mon_grps j = some (mon_group.cores c1) ∧ c1 ≠ core) →
      rdt.stop_core_loop core stop_ok (l1 ++ i :: l2) =
        if stop_ok then
          .ok { rdt with free_cores_index := i, free_cores := true
                         m_mon_grps := Function.update rdt.m_mon_grps i (some mon_group.freed) }
        else .error (.runtime_error "Monitoring stop error!") := by
  intro l1
  induction l1 with
  | nil =>
    intro _
    simp only [List.nil_append, IntelRDT.stop_core_loop]
    rw [if_neg (Nat.not_le.2 hi), hp]
    simp
  | cons a rest ih =>
    intro h
    obtain ⟨ha, c1, hg, hne⟩ := h a (List.mem_cons_self a rest)
    simp only [List.cons_append, IntelRDT.stop_core_loop]
    rw [if_neg (Nat.not_le.2 ha), hg]
    simp only [hne, if_false]
    exact ih (fun j hj => h j (List.mem_cons_of_mem a hj))

/-- The method `monitor_stop_pid` on a table whose first group of the pid is
at index `i`, after active groups of other pids. -/
theorem IntelRDT.monitor_stop_pid_at (rdt : IntelRDT) (pid : Int) (i : Nat)
    (hi : i < rdt.num_pids) (hcap : i < PQOS_MAX_CORES)
    (hp : rdt.m_mon_grps i = some (mon_group.pids pid))
    (hb : ∀ j, j < i → ∃ p1, rdt.m_mon_grps j = some (mon_group.pids p1) ∧ p1 ≠ pid) :
    rdt.monitor_stop_pid pid true =
      .ok { rdt with free_pids_index := i, free_pids := true
                     m_mon_grps := Function.update rdt.m_mon_grps i (some mon_group.freed) } := by
  unfold IntelRDT.monitor_stop_pid
  obtain ⟨l2, e⟩ := range_split rdt.num_pids i hi
  rw [e, IntelRDT.stop_pid_loop_first rdt pid true i l2 hcap hp (List.range i)
    (fun j hj => ⟨lt_trans (List.mem_range.1 hj) hcap, hb j (List.mem_range.1 hj)⟩)]
  rfl

/-- The method `monitor_stop_core` on a table whose first group of the core
is at index `i`, after active groups of other cores. -/
theorem IntelRDT.monitor_stop_core_at (rdt : IntelRDT) (core : Nat) (i : Nat)
    (hi : i < rdt.num_cores) (hcap : i < PQOS_MAX_CORES)
    (hp : rdt.m_mon_grps i = some (mon_group.cores core))
    (hb : ∀ j, j < i → ∃ c1, rdt.m_mon_grps j = some (mon_group.cores c1) ∧ c1 ≠ core) :
    rdt.monitor_stop_core core true =
      .ok { rdt with free_cores_index := i, free_cores := true
                     m_mon_grps := Function.update rdt.m_mon_grps i (some mon_group.freed) } := by
  unfold IntelRDT.monitor_stop_core
  obtain ⟨l2, e⟩ := range_split rdt.num_cores i hi
  rw [e, IntelRDT.stop_core_loop_first rdt core true i l2 hcap hp (List.range i)
    (fun j hj => ⟨lt_trans (List.mem_range.1 hj) hcap, hb j (List.mem_range.1 hj)⟩)]
  rfl

/-- The method `monitor_setup_pid` returns when the library call succeeds and
the index it takes is inside the pid table. -/
theorem IntelRDT.monitor_setup_pid_ok (rdt : IntelRDT) (pid : Int)
    (h : (if rdt.free_pids then rdt.free_pids_index else rdt.num_pids) < PQOS_MAX_PIDS) :
    rdt.monitor_setup_pid pid true =
      .ok { rdt with
            m_mon_grps := Function.update rdt.m_mon_grps
              (if rdt.free_pids then rdt.free_pids_index else rdt.num_pids)
              (some (mon_group.pids pid))
            sel_monitor_pid_tab := Function.update rdt.sel_monitor_pid_tab
              (if rdt.free_pids then rdt.free_pids_index else rdt.num_pids) pid
            num_pids := if rdt.free_pids then rdt.num_pids else (rdt.num_pids + 1) % 2 ^ 32
            free_pids := false } := by
  have h2 : (if rdt.free_pids then rdt.free_pids_index else rdt.num_pids) < PQOS_MAX_CORES :=
    lt_trans h (by decide)
  simp only [IntelRDT.monitor_setup_pid]
  rw [if_neg (by
    rw [not_or]
    exact ⟨Nat.not_le.2 h2, Nat.not_le.2 h⟩)]
  simp only [if_true]

/-- The method `monitor_setup_core` returns when the library call succeeds
and the index it takes is inside the table of groups. -/
theorem IntelRDT.monitor_setup_core_ok (rdt : IntelRDT) (core : Nat)
    (h : (if rdt.free_cores then rdt.free_cores_index else rdt.num_cores) < PQOS_MAX_CORES) :
    rdt.monitor_setup_core core true =
      .ok { rdt with
            m_mon_grps := Function.update rdt.m_mon_grps
              (if rdt.free_cores then rdt.free_cores_index else rdt.num_cores)
              (some (mon_group.cores core))
            sel_monitor_core_tab := Function.update rdt.sel_monitor_core_tab
              (if rdt.free_cores then rdt.free_cores_index else rdt.num_cores) core
            num_cores := if rdt.free_cores then rdt.num_cores else (rdt.num_cores + 1) % 2 ^ 32
            free_cores := false } := by
  simp only [IntelRDT.monitor_setup_core]
  rw [if_neg (Nat.not_le.2 h)]
  simp only [if_true]

/-- C18. A table of the adapter holds the pid `p` at index `i`, below
`num_pids` and below the size of the pid table, after active groups of other
pids, so that `monitor_stop_pid(p)` stops the group at index `i`. When the
library calls succeed, `monitor_stop_pid(p)` returns, the next
`monitor_setup_pid(q)` returns and registers `q` at index `i`, in the group and
in the pid table, `num_pids` is what it was before the two calls and the
other entries keep their groups. The same holds for a core `c` at index `k`,
with `monitor_stop_core`, `monitor_setup_core` and `num_cores`. -/
theorem freed_slot_is_reused (rdt : IntelRDT) (p q : Int) (i : Nat)
    (rdc : IntelRDT) (c d : Nat) (k : Nat)
    (hi : i < rdt.num_pids) (hcap : i < PQOS_MAX_PIDS)
    (hp : rdt.m_mon_grps i = some (mon_group.pids p))
    (hb : ∀ j, j < i → ∃ p1, rdt.m_mon_grps j = some (mon_group.pids p1) ∧ p1 ≠ p)
    (hk : k < rdc.num_cores) (hkcap : k < PQOS_MAX_CORES)
    (hc : rdc.m_mon_grps k = some (mon_group.cores c))
    (hkb : ∀ j, j < k → ∃ c1, rdc.m_mon_grps j = some (mon_group.cores c1) ∧ c1 ≠ c) :
    (∃ r1 r2, rdt.monitor_stop_pid p true = .ok r1 ∧ r1.monitor_setup_pid q true = .ok r2 ∧
      r1.m_mon_grps i = some mon_group.freed ∧
      r2.m_mon_grps i = some (mon_group.pids q) ∧ r2.sel_monitor_pid_tab i = q ∧
      r1.num_pids = rdt.num_pids ∧ r2.num_pids = rdt.num_pids ∧
      ∀ j, j ≠ i → r2.m_mon_grps j = rdt.m_mon_grps j) ∧
    (∃ r1 r2, rdc.monitor_stop_core c true = .ok r1 ∧ r1.monitor_setup_core d true = .ok r2 ∧
      r1.m_mon_grps k = some mon_group.freed ∧
      r2.m_mon_grps k = some (mon_group.cores d) ∧ r2.sel_monitor_core_tab k = d ∧
      r1.num_cores = rdc.num_cores ∧ r2.num_cores = rdc.num_cores ∧
      ∀ j, j ≠ k → r2.m_mon_grps j = rdc.m_mon_grps j) := by
  have hcap2 : i < PQOS_MAX_CORES := lt_trans hcap (by decide)
  have e1 := IntelRDT.monitor_stop_pid_at rdt p i hi hcap2 hp hb
  have e2 := IntelRDT.monitor_setup_pid_ok
    { rdt with free_pids_index := i, free_pids := true
               m_mon_grps := Function.update rdt.m_mon_grps i (some mon_group.freed) } q
    (by simpa using hcap)
  have f1 := IntelRDT.monitor_stop_core_at rdc c k hk hkcap hc hkb
  have f2 := IntelRDT.monitor_setup_core_ok
    { rdc with free_cores_index := k, free_cores := true
               m_mon_grps := Function.update rdc.m_mon_grps k (some mon_group.freed) } d
    (by simpa using hkcap)
  constructor
  · refine ⟨_, _, e1, e2, by simp, by simp, by simp, rfl, rfl, ?_⟩
    intro j hj
    simp [Function.update_noteq hj]
  · refine ⟨_, _, f1, f2, by simp, by simp, by simp, rfl, rfl, ?_⟩
    intro j hj
    simp [Function.update_noteq hj]

/-- Witness of C18: with the pids 100 and 101 at the indices 0 and 1, the pid
101 is stopped and the pid 102 takes the index 1; with the cores 4 and 5 at the
indices 0 and 1, the core 5 is stopped and the core 6 takes the index 1. -/
theorem freed_slot_is_reused_witness :
    (∃ r1 r2, rdt_two_pids.monitor_stop_pid 101 true = .ok r1 ∧
      r1.monitor_setup_pid 102 true = .ok r2 ∧
      r1.m_mon_grps 1 = some mon_group.freed ∧
      r2.m_mon_grps 1 = some (mon_group.pids 102) ∧ r2.sel_monitor_pid_tab 1 = 102 ∧
      r1.num_pids = rdt_two_pids.num_pids ∧ r2.num_pids = rdt_two_pids.num_pids ∧
      ∀ j, j ≠ 1 → r2.m_mon_grps j = rdt_two_pids.m_mon_grps j) ∧
    (∃ r1 r2, rdt_two_cores.monitor_stop_core 5 true = .ok r1 ∧
      r1.monitor_setup_core 6 true = .ok r2 ∧
      r1.m_mon_grps 1 = some mon_group.freed ∧
      r2.m_mon_grps 1 = some (mon_group.cores 6) ∧ r2.sel_monitor_core_tab 1 = 6 ∧
      r1.num_cores = rdt_two_cores.num_cores ∧ r2.num_cores = rdt_two_cores.num_cores ∧
      ∀ j, j ≠ 1 → r2.m_mon_grps j = rdt_two_cores.m_mon_grps j) :=
  freed_slot_is_reused rdt_two_pids 101 102 1 rdt_two_cores 5 6 1
    (by decide) (by decide) (by decide)
    (fun j hj => by
      have h0 : j = 0 := by omega
      subst h0
      exact ⟨100, by decide, by decide⟩)
    (by decide) (by decide) (by decide)
    (fun j hj => by
      have h0 : j = 0 := by omega
      subst h0
      exact ⟨4, by decide, by decide⟩)

/-- C19. The adapter has no pending free slot, room in the pid table, and
below `num_pids` only active groups, of pids other than `p`. When the library
calls succeed, the three calls `monitor_setup_pid(p)`, `monitor_stop_pid(p)`,
`monitor_setup_pid(p)` return, and leave the groups, the pid table, `num_pids`
and the flag of the free slot as the first call left them: the adapter differs
from the one after the first call by `free_pids_index` only. -/
theorem setup_stop_setup (rdt : IntelRDT) (p : Int)
    (hfree : rdt.free_pids = false) (hcap : rdt.num_pids < PQOS_MAX_PIDS)
    (hlive : ∀ j, j < rdt.num_pids →
      ∃ p1, rdt.m_mon_grps j = some (mon_group.pids p1) ∧ p1 ≠ p) :
    ∃ r1 r2 r3, rdt.monitor_setup_pid p true = .ok r1 ∧
      r1.monitor_stop_pid p true = .ok r2 ∧ r2.monitor_setup_pid p true = .ok r3 ∧
      r3.m_mon_grps = r1.m_mon_grps ∧ r3.sel_monitor_pid_tab = r1.sel_monitor_pid_tab ∧
      r3.num_pids = r1.num_pids ∧ r3.free_pids = r1.free_pids ∧
      r3 = { r1 with free_pids_index := rdt.num_pids } := by
  have hcap2 : rdt.num_pids < PQOS_MAX_CORES := lt_trans hcap (by decide)
  have e1 : rdt.monitor_setup_pid p true = .ok
      { rdt with
        m_mon_grps := Function.update rdt.m_mon_grps rdt.num_pids (some (mon_group.pids p))
        sel_monitor_pid_tab := Function.update rdt.sel_monitor_pid_tab rdt.num_pids p
        num_pids := rdt.num_pids + 1
        free_pids := false } := by
    have hlt : rdt.num_pids + 1 < 4294967296 := by
      unfold PQOS_MAX_PIDS at hcap
      omega
    rw [IntelRDT.monitor_setup_pid_ok rdt p (by simpa [hfree] using hcap)]
    simp [hfree, Nat.mod_eq_of_lt hlt]
  have e2 := IntelRDT.monitor_stop_pid_at
    { rdt with
      m_mon_grps := Function.update rdt.m_mon_grps rdt.num_pids (some (mon_group.pids p))
      sel_monitor_pid_tab := Function.update rdt.sel_monitor_pid_tab rdt.num_pids p
      num_pids := rdt.num_pids + 1
      free_pids := false } p rdt.num_pids (Nat.lt_succ_self _) hcap2 (by simp)
    (fun j hj => by
      obtain ⟨p1, h1, h2⟩ := hlive j hj
      exact ⟨p1, by simp [Function.update_noteq (Nat.ne_of_lt hj), h1], h2⟩)
  have e3 := IntelRDT.monitor_setup_pid_ok
    { rdt with
      m_mon_grps := Function.update
        (Function.update rdt.m_mon_grps rdt.num_pids (some (mon_group.pids p)))
        rdt.num_pids (some mon_group.freed)
      sel_monitor_pid_tab := Function.update rdt.sel_monitor_pid_tab rdt.num_pids p
      num_pids := rdt.num_pids + 1
      free_pids := true
      free_pids_index := rdt.num_pids } p (by simpa using hcap)
  refine ⟨_, _, _, e1, e2, e3, ?_, ?_, ?_, ?_, ?_⟩
  · simp
  · simp
  · simp
  · simp
  · simp

/-- Witness of C19: on the adapter that monitors the pids 100 and 101, the
pid 102 is set up, stopped and set up again. -/
theorem setup_stop_setup_witness :
    ∃ r1 r2 r3, rdt_two_pids.monitor_setup_pid 102 true = .ok r1 ∧
      r1.monitor_stop_pid 102 true = .ok r2 ∧ r2.monitor_setup_pid 102 true = .ok r3 ∧
      r3.m_mon_grps = r1.m_mon_grps ∧ r3.sel_monitor_pid_tab = r1.sel_monitor_pid_tab ∧
      r3.num_pids = r1.num_pids ∧ r3.free_pids = r1.free_pids ∧
      r3 = { r1 with free_pids_index := rdt_two_pids.num_pids } :=
  setup_stop_setup rdt_two_pids 102 (by decide) (by decide)
    (fun j hj => by
      have hj2 : j < 2 := hj
      interval_cases j
      · exact ⟨100, by decide, by decide⟩
      · exact ⟨101, by decide, by decide⟩)

/-- What `monitor_setup_pid` does when it returns: the groups change at the
index taken only, where the pid is registered; the index is the free one when
there is one, and `num_pids` otherwise, in which case `num_pids` grows by 1. -/
theorem IntelRDT.monitor_setup_pid_spec (rdt r : IntelRDT) (q : Int) (ok : Bool)
    (h : rdt.monitor_setup_pid q ok = .ok r) :
    r.m_mon_grps = Function.update rdt.m_mon_grps
      (if rdt.free_pids then rdt.free_pids_index else rdt.num_pids) (some (mon_group.pids q)) ∧
    (if rdt.free_pids then r.num_pids = rdt.num_pids
     else r.num_pids = rdt.num_pids + 1) := by
  unfold IntelRDT.monitor_setup_pid at h
  cases hf : rdt.free_pids with
  | true =>
    simp only [hf, if_true] at h ⊢
    split at h
    · cases h
    · split at h
      · simp only [Except.ok.injEq] at h
        subst h
        exact ⟨rfl, rfl⟩
      · cases h
  | false =>
    simp only [hf, Bool.false_eq_true, if_false] at h ⊢
    split at h
    · cases h
    · rename_i hidx
      rw [not_or] at hidx
      split at h
      · simp only [Except.ok.injEq] at h
        subst h
        refine ⟨rfl, ?_⟩
        have hlt : rdt.num_pids < PQOS_MAX_PIDS := Nat.not_le.1 hidx.2
        show (rdt.num_pids + 1) % 2 ^ 32 = rdt.num_pids + 1
        exact Nat.mod_eq_of_lt (by unfold PQOS_MAX_PIDS at hlt; omega)
      · cases h

/-- A call of `monitor_setup_pid` for a pid that is not registered keeps the
registered pids distinct. -/
theorem IntelRDT.monitor_setup_pid_distinct (rdt r : IntelRDT) (q : Int) (ok : Bool)
    (hd : rdt.distinct) (hq : ¬ rdt.registered q)
    (h : rdt.monitor_setup_pid q ok = .ok r) : r.distinct := by
  obtain ⟨hg, _⟩ := IntelRDT.monitor_setup_pid_spec rdt r q ok h
  generalize (if rdt.free_pids then rdt.free_pids_index else rdt.num_pids) = idx at hg
  intro i j pid hi hj
  rw [hg] at hi hj
  by_cases e1 : i = idx
  · by_cases e2 : j = idx
    · rw [e1, e2]
    · subst e1
      rw [Function.update_same] at hi
      rw [Function.update_noteq e2] at hj
      simp only [Option.some.injEq, mon_group.pids.injEq] at hi
      subst hi
      exact absurd ⟨j, hj⟩ hq
  · by_cases e2 : j = idx
    · subst e2
      rw [Function.update_same] at hj
      rw [Function.update_noteq e1] at hi
      simp only [Option.some.injEq, mon_group.pids.injEq] at hj
      subst hj
      exact absurd ⟨i, hi⟩ hq
    · rw [Function.update_noteq e1] at hi
      rw [Function.update_noteq e2] at hj
      exact hd i j pid hi hj

/-- The loop of `monitor_stop_pid` keeps the groups, or marks one of them as
freed. -/
theorem IntelRDT.stop_pid_loop_grps (rdt r : IntelRDT) (pid : Int) (ok : Bool) :
    ∀ l : List Nat, rdt.stop_pid_loop pid ok l = .ok r →
      r.m_mon_grps = rdt.m_mon_grps ∨
      ∃ i, r.m_mon_grps = Function.update rdt.m_mon_grps i (some mon_group.freed) := by
  intro l
  induction l with
  | nil =>
    intro h
    simp only [IntelRDT.stop_pid_loop, Except.ok.injEq] at h
    subst h
    exact Or.inl rfl
  | cons a rest ih =>
    intro h
    simp only [IntelRDT.stop_pid_loop] at h
    split at h
    · cases h
    · split at h
      · cases h
      · split at h
        · split at h
          · simp only [Except.ok.injEq] at h
            subst h
            exact Or.inr ⟨a, rfl⟩
          · cases h
        · exact ih h
      · cases h

/-- A call of `monitor_stop_pid` keeps the registered pids distinct. -/
theorem IntelRDT.monitor_stop_pid_distinct (rdt r : IntelRDT) (pid : Int) (ok : Bool)
    (hd : rdt.distinct) (h : rdt.monitor_stop_pid pid ok = .ok r) : r.distinct := by
  unfold IntelRDT.monitor_stop_pid at h
  rcases IntelRDT.stop_pid_loop_grps rdt r pid ok _ h with hg | ⟨idx, hg⟩
  · intro i j p hi hj
    rw [hg] at hi hj
    exact hd i j p hi hj
  · intro i j p hi hj
    rw [hg] at hi hj
    have e1 : i ≠ idx := by
      intro e
      subst e
      rw [Function.update_same] at hi
      cases hi
    have e2 : j ≠ idx := by
      intro e
      subst e
      rw [Function.update_same] at hj
      cases hj
    rw [Function.update_noteq e1] at hi
    rw [Function.update_noteq e2] at hj
    exact hd i j p hi hj

/-- A sequence of calls in which every set-up is made for a pid that is not
registered keeps the registered pids distinct. -/
theorem IntelRDT.run_distinct :
    ∀ (calls : List IntelRDT.Call) (rdt r : IntelRDT), rdt.distinct →
      rdt.fresh_setups calls → rdt.run calls = .ok r → r.distinct := by
  intro calls
  induction calls with
  | nil =>
    intro rdt r hd _ h
    simp only [IntelRDT.run, Except.ok.injEq] at h
    exact h ▸ hd
  | cons c rest ih =>
    intro rdt r hd hf h
    cases c with
    | setup pid ok =>
      simp only [IntelRDT.run] at h
      simp only [IntelRDT.fresh_setups] at hf
      cases hs : rdt.monitor_setup_pid pid ok with
      | error e => rw [hs] at h; cases h
      | ok r1 =>
        rw [hs] at h hf
        exact ih r1 r (IntelRDT.monitor_setup_pid_distinct rdt r1 pid ok hd hf.1 hs) hf.2 h
    | stop pid ok =>
      simp only [IntelRDT.run] at h
      simp only [IntelRDT.fresh_setups] at hf
      cases hs : rdt.monitor_stop_pid pid ok with
      | error e => rw [hs] at h; cases h
      | ok r1 =>
        rw [hs] at h hf
        exact ih r1 r (IntelRDT.monitor_stop_pid_distinct rdt r1 pid ok hd hs) hf h

/-- C20, counterexample. On a new adapter, `monitor_setup_pid(100)` twice
registers the pid 100 in the two active slots 0 and 1. And after the set-up of
100 and 101, the stop of 101 and of 100, and the set-up of 102, which takes
the slot 0, the set-up of 103 takes the new index 2 and `num_pids` becomes 3,
while the slot 1, freed by the stop of 101, is still unused. -/
theorem slots_not_pooled :
    slots_after rdt0 [IntelRDT.Call.setup 100 true, IntelRDT.Call.setup 100 true] 2
      = some ([some (mon_group.pids 100), some (mon_group.pids 100)], 2, false) ∧
    slots_after rdt0
      [IntelRDT.Call.setup 100 true, IntelRDT.Call.setup 101 true, IntelRDT.Call.stop 101 true,
       IntelRDT.Call.stop 100 true, IntelRDT.Call.setup 102 true, IntelRDT.Call.setup 103 true] 3
      = some ([some (mon_group.pids 102), some mon_group.freed, some (mon_group.pids 103)],
          3, false) := by
  constructor <;> decide

/-- A sequence of calls runs as its first part, then its second part from
the adapter that the first part leaves. -/
theorem IntelRDT.run_append (l2 : List IntelRDT.Call) :
    ∀ (l1 : List IntelRDT.Call) (rdt : IntelRDT),
      rdt.run (l1 ++ l2) =
        match rdt.run l1 with
        | .error e => .error e
        | .ok r0 => r0.run l2 := by
  intro l1
  induction l1 with
  | nil => intro rdt; rfl
  | cons c rest ih =>
    intro rdt
    cases c with
    | setup pid ok =>
      simp only [List.cons_append, IntelRDT.run]
      cases rdt.monitor_setup_pid pid ok with
      | error e => rfl
      | ok r1 => exact ih r1
    | stop pid ok =>
      simp only [List.cons_append, IntelRDT.run]
      cases rdt.monitor_stop_pid pid ok with
      | error e => rfl
      | ok r1 => exact ih r1

/-- When every set-up of a sequence is made for a pid that is not registered,
so is every set-up of a first part of it. -/
theorem IntelRDT.fresh_setups_prefix (l2 : List IntelRDT.Call) :
    ∀ (l1 : List IntelRDT.Call) (rdt : IntelRDT),
      rdt.fresh_setups (l1 ++ l2) → rdt.fresh_setups l1 := by
  intro l1
  induction l1 with
  | nil => intro rdt _; trivial
  | cons c rest ih =>
    intro rdt h
    cases c with
    | setup pid ok =>
      simp only [List.cons_append, IntelRDT.fresh_setups] at h ⊢
      refine ⟨h.1, ?_⟩
      have h2 := h.2
      cases hs : rdt.monitor_setup_pid pid ok with
      | error e => trivial
      | ok r1 => rw [hs] at h2; exact ih r1 h2
    | stop pid ok =>
      simp only [List.cons_append, IntelRDT.fresh_setups] at h ⊢
      cases hs : rdt.monitor_stop_pid pid ok with
      | error e => trivial
      | ok r1 => rw [hs] at h; exact ih r1 h

/-- A call of `monitor_setup_pid` that returns leaves no free slot
remembered. -/
theorem IntelRDT.monitor_setup_pid_flag (rdt r : IntelRDT) (q : Int) (ok : Bool)
    (h : rdt.monitor_setup_pid q ok = .ok r) : r.free_pids = false := by
  unfold IntelRDT.monitor_setup_pid at h
  cases hf : rdt.free_pids with
  | true =>
    simp only [hf, if_true] at h
    split at h
    · cases h
    · split at h
      · simp only [Except.ok.injEq] at h
        subst h
        rfl
      · cases h
  | false =>
    simp only [hf, Bool.false_eq_true, if_false] at h
    split at h
    · cases h
    · split at h
      · simp only [Except.ok.injEq] at h
        subst h
        rfl
      · cases h

/-- The loop of `monitor_stop_pid`, when it returns: either no index of the
list holds the pid and the adapter is kept, or the group at an index that
holds the pid is freed and that index is remembered as the free slot. -/
theorem IntelRDT.stop_pid_loop_result (rdt r : IntelRDT) (pid : Int) (ok : Bool) :
    ∀ l : List Nat, rdt.stop_pid_loop pid ok l = .ok r →
      (r = rdt ∧ ∀ i ∈ l, rdt.m_mon_grps i ≠ some (mon_group.pids pid)) ∨
      ∃ i ∈ l, rdt.m_mon_grps i = some (mon_group.pids pid) ∧
        r = { rdt with free_pids_index := i, free_pids := true
                       m_mon_grps := Function.update rdt.m_mon_grps i (some mon_group.freed) } := by
  intro l
  induction l with
  | nil =>
    intro h
    simp only [IntelRDT.stop_pid_loop, Except.ok.injEq] at h
    subst h
    exact Or.inl ⟨rfl, fun i hi => by cases hi⟩
  | cons a rest ih =>
    intro h
    simp only [IntelRDT.stop_pid_loop] at h
    split at h
    · cases h
    · split at h
      · cases h
      · rename_i p hg
        split at h
        · rename_i hp
          split at h
          · simp only [Except.ok.injEq] at h
            subst h
            subst hp
            exact Or.inr ⟨a, List.mem_cons_self a rest, hg, rfl⟩
          · cases h
        · rename_i hp
          rcases ih h with ⟨e, hn⟩ | ⟨i, hi, hgi, e⟩
          · refine Or.inl ⟨e, fun i hi => ?_⟩
            rcases List.mem_cons.1 hi with rfl | hi
            · rw [hg]
              intro hc
              simp only [Option.some.injEq, mon_group.pids.injEq] at hc
              exact hp hc
            · exact hn i hi
          · exact Or.inr ⟨i, List.mem_cons_of_mem a hi, hgi, e⟩
      · cases h

/-- C20, amended. The adapter starts with no pid registered in two active
slots, and every set-up of the sequence `calls` of calls of
`monitor_setup_pid` and `monitor_stop_pid` is made for a pid that is not
registered at that point. When the calls return, no pid is registered in two
active slots. The adapter remembers one freed slot only. A set-up that returns
directly after a set-up takes the new index `num_pids`, `num_pids` grows by 1
and every other slot is kept, the slots that earlier stops freed included. A
set-up that returns directly after a stop of the pid `p` takes the slot that
held `p`, which that stop freed, and `num_pids` is kept; a stop of a pid that
no slot below `num_pids` holds leaves the adapter as it was. A set-up made
first, on an adapter that remembers no free slot, takes the new index
`num_pids`. -/
theorem monitor_slots_distinct (rdt : IntelRDT) (calls : List IntelRDT.Call) (r : IntelRDT)
    (hd : rdt.distinct) (hf : rdt.fresh_setups calls) (hrun : rdt.run calls = .ok r) :
    r.distinct ∧
    (∀ (pre : List IntelRDT.Call) (c : IntelRDT.Call) (r0 : IntelRDT) (q : Int) (ok : Bool)
        (r1 : IntelRDT),
      calls = pre ++ [c] → rdt.run pre = .ok r0 → r.monitor_setup_pid q ok = .ok r1 →
      match c with
      | IntelRDT.Call.setup _ _ =>
        r1.num_pids = r.num_pids + 1 ∧
        r1.m_mon_grps = Function.update r.m_mon_grps r.num_pids (some (mon_group.pids q))
      | IntelRDT.Call.stop p _ =>
        (∀ i, i < r0.num_pids → r0.m_mon_grps i = some (mon_group.pids p) →
          r.m_mon_grps i = some mon_group.freed ∧
          r1.num_pids = r0.num_pids ∧
          r1.m_mon_grps = Function.update r.m_mon_grps i (some (mon_group.pids q))) ∧
        ((∀ i, i < r0.num_pids → r0.m_mon_grps i ≠ some (mon_group.pids p)) → r = r0)) ∧
    (calls = [] → rdt.free_pids = false →
      ∀ (q : Int) (ok : Bool) (r1 : IntelRDT), r.monitor_setup_pid q ok = .ok r1 →
        r1.num_pids = r.num_pids + 1 ∧
        r1.m_mon_grps = Function.update r.m_mon_grps r.num_pids (some (mon_group.pids q))) := by
  refine ⟨IntelRDT.run_distinct calls rdt r hd hf hrun, ?_, ?_⟩
  · intro pre c r0 q ok r1 hc hpre h
    subst hc
    have hd0 : r0.distinct :=
      IntelRDT.run_distinct pre rdt r0 hd (IntelRDT.fresh_setups_prefix [c] pre rdt hf) hpre
    rw [IntelRDT.run_append, hpre] at hrun
    obtain ⟨hg, hn⟩ := IntelRDT.monitor_setup_pid_spec r r1 q ok h
    cases c with
    | setup p sok =>
      simp only [IntelRDT.run] at hrun
      cases hs : r0.monitor_setup_pid p sok with
      | error e => rw [hs] at hrun; cases hrun
      | ok r2 =>
        rw [hs] at hrun
        simp only [Except.ok.injEq] at hrun
        subst hrun
        have hflag := IntelRDT.monitor_setup_pid_flag r0 r2 p sok hs
        rw [hflag] at hg hn
        simp only [Bool.false_eq_true, if_false] at hg hn
        exact ⟨hn, hg⟩
    | stop p sok =>
      simp only [IntelRDT.run] at hrun
      cases hs : r0.monitor_stop_pid p sok with
      | error e => rw [hs] at hrun; cases hrun
      | ok r2 =>
        rw [hs] at hrun
        simp only [Except.ok.injEq] at hrun
        subst hrun
        unfold IntelRDT.monitor_stop_pid at hs
        rcases IntelRDT.stop_pid_loop_result r0 r2 p sok _ hs with ⟨e, hnone⟩ | ⟨j, hj, hgj, e⟩
        · refine ⟨fun i hi hgi => ?_, fun _ => e⟩
          exact absurd hgi (hnone i (List.mem_range.2 hi))
        · refine ⟨fun i hi hgi => ?_, fun hnone => ?_⟩
          · have hij : i = j := hd0 i j p hgi hgj
            subst hij
            rw [e] at hg hn ⊢
            simp only [if_true] at hg hn
            exact ⟨by simp only [Function.update_same], hn, hg⟩
          · exact absurd hgj (hnone j (List.mem_range.1 hj))
  · intro hc hfree q ok r1 h
    subst hc
    simp only [IntelRDT.run, Except.ok.injEq] at hrun
    subst hrun
    obtain ⟨hg, hn⟩ := IntelRDT.monitor_setup_pid_spec rdt r1 q ok h
    rw [hfree] at hg hn
    simp only [Bool.false_eq_true, if_false] at hg hn
    exact ⟨hn, hg⟩

/-- Witness of C20, amended: on a new adapter, the pids 100 and 101 are set
up and the pid 101 is stopped; a set-up that follows takes the slot that held
101. -/
theorem monitor_slots_distinct_witness :
    ∃ r, rdt0.run [IntelRDT.Call.setup 100 true, IntelRDT.Call.setup 101 true,
        IntelRDT.Call.stop 101 true] = .ok r ∧
      r.distinct ∧
      ∀ (r0 : IntelRDT) (q : Int) (ok : Bool) (r1 : IntelRDT),
        rdt0.run [IntelRDT.Call.setup 100 true, IntelRDT.Call.setup 101 true] = .ok r0 →
        r.monitor_setup_pid q ok = .ok r1 →
        (∀ i, i < r0.num_pids → r0.m_mon_grps i = some (mon_group.pids 101) →
          r.m_mon_grps i = some mon_group.freed ∧
          r1.num_pids = r0.num_pids ∧
          r1.m_mon_grps = Function.update r.m_mon_grps i (some (mon_group.pids q))) ∧
        ((∀ i, i < r0.num_pids → r0.m_mon_grps i ≠ some (mon_group.pids 101)) → r = r0) := by
  have hok : (rdt0.run [IntelRDT.Call.setup 100 true, IntelRDT.Call.setup 101 true,
      IntelRDT.Call.stop 101 true]).toBool = true := by decide
  have hd : rdt0.distinct := by
    intro i j pid hi
    simp [rdt0] at hi
  have hf : rdt0.fresh_setups [IntelRDT.Call.setup 100 true, IntelRDT.Call.setup 101 true,
      IntelRDT.Call.stop 101 true] := by
    refine ⟨?_, ?_⟩
    · rintro ⟨i, hi⟩
      simp [rdt0] at hi
    · have e1 := IntelRDT.monitor_setup_pid_ok rdt0 100 (by decide)
      rw [e1]
      refine ⟨?_, ?_⟩
      · rintro ⟨i, hi⟩
        by_cases h0 : i = 0
        · subst h0
          simp [rdt0] at hi
        · simp [rdt0, Function.update_noteq h0] at hi
      · dsimp only
        split
        · trivial
        · simp only [IntelRDT.fresh_setups]
          split <;> trivial
  cases h : rdt0.run [IntelRDT.Call.setup 100 true, IntelRDT.Call.setup 101 true,
      IntelRDT.Call.stop 101 true] with
  | error e => rw [h] at hok; cases hok
  | ok r =>
    exact ⟨r, rfl, (monitor_slots_distinct rdt0 _ r hd hf h).1,
      fun r0 q ok r1 hpre hs =>
        (monitor_slots_distinct rdt0 _ r hd hf h).2.1
          [IntelRDT.Call.setup 100 true, IntelRDT.Call.setup 101 true]
          (IntelRDT.Call.stop 101 true) r0 q ok r1 rfl hpre hs⟩

/-- For the cpu at position `i`, `task_pause` throws and sends nothing when
the stored pid is at most 1, and sends `SIGSTOP` to the stored pid
otherwise. -/
theorem AppTask.task_pause_body_sent (env : TaskEnv) (i : Nat) (t : AppTask) (hi : i < 32) :
    (t.pids i ≤ 1 →
      AppTask.task_pause_body env i t
        = .error (.runtime_error "Tried to send SIGSTOP to pid", t)) ∧
    (1 < t.pids i →
      (final_state (AppTask.task_pause_body env i t)).sent
        = (t.pids i, Signal.SIGSTOP) :: t.sent) := by
  have h32 : ¬ 32 ≤ i := by omega
  constructor
  · intro h
    simp only [AppTask.task_pause_body, if_neg h32, if_pos h]
  · intro h
    have h1 : ¬ t.pids i ≤ 1 := by omega
    simp only [AppTask.task_pause_body, if_neg h32, if_neg h1]
    split
    · rfl
    · split <;> rfl

/-- Every signal that `task_pause` sends goes to a pid greater than 1,
whether the method returns or throws. -/
theorem AppTask.task_pause_sent (env : TaskEnv) (t : AppTask) :
    ∀ x ∈ (final_state (AppTask.task_pause env t)).sent, x ∈ t.sent ∨ 1 < x.1 := by
  unfold AppTask.task_pause
  refine for_each_final_inv (fun s : AppTask => ∀ x ∈ s.sent, x ∈ t.sent ∨ 1 < x.1)
    (AppTask.task_pause_body env) ?_ _ t (fun x hx => Or.inl hx)
  intro i s hs
  by_cases h32 : 32 ≤ i
  · simpa [AppTask.task_pause_body, h32, final_state] using hs
  · by_cases h1 : s.pids i ≤ 1
    · rw [(AppTask.task_pause_body_sent env i s (by omega)).1 h1]
      simpa [final_state] using hs
    · rw [(AppTask.task_pause_body_sent env i s (by omega)).2 (by omega)]
      intro x hx
      rcases List.mem_cons.1 hx with rfl | hx
      · exact Or.inr (by simpa using (by omega : 1 < s.pids i))
      · exact hs x hx

/-- A loop throws when the body throws for one of its elements in every state
that the loop can reach. -/
theorem for_each_throws {σ ε α : Type} (P : σ → Prop) (body : α → σ → Except ε σ) (a : α)
    (hP : ∀ b s s1, P s → body b s = .ok s1 → P s1)
    (ha : ∀ s s1, P s → body a s ≠ .ok s1) :
    ∀ (l : List α), a ∈ l → ∀ s s1, P s → for_each body l s ≠ .ok s1 := by
  intro l
  induction l with
  | nil => intro h; cases h
  | cons b rest ih =>
    intro hmem s s1 hs hr
    simp only [for_each] at hr
    cases hb : body b s with
    | error e => rw [hb] at hr; cases hr
    | ok s2 =>
      rw [hb] at hr
      rcases List.mem_cons.1 hmem with rfl | hmem
      · exact ha s s2 hs hb
      · exact ih hmem s2 s1 (hP b s s2 hs hb) hr

/-- The body of the loop of `task_pause` keeps the pid slots. -/
theorem AppTask.task_pause_body_pids (env : TaskEnv) (i : Nat) (s s1 : AppTask)
    (h : AppTask.task_pause_body env i s = .ok s1) : s1.pids = s.pids := by
  unfold AppTask.task_pause_body at h
  split at h
  · cases h
  · dsimp only at h
    split at h
    · cases h
    · split at h
      · cases h
      · split at h
        · cases h
        · simp only [Except.ok.injEq] at h
          subst h
          rfl

/-- A launch fills the first pid slot only. When no pid is in the second
slot, `task_get_ready_to_execute` throws for a Process workload on two or more
cpus: a workload that it returns has one cpu at most, and, when it has one,
the pid that `fork` returned, which is greater than 1, in its first slot. -/
theorem AppTask.launch_one_cpu (env : TaskEnv) (t t1 : AppTask) (h1 : t.pids 1 ≤ 1)
    (h : AppTask.task_get_ready_to_execute env t = .ok t1) :
    t1.cpus = t.cpus ∧ t.cpus.length ≤ 1 ∧
    (t.cpus.length = 1 → t1.pids 0 = env.fork t.num_restarts ∧ 1 < t1.pids 0) := by
  unfold AppTask.task_get_ready_to_execute at h
  split at h
  · dsimp only at h
    split at h
    · cases h
    · split at h
      · cases h
      · unfold AppTask.task_pause at h
        have h : for_each (AppTask.task_pause_body env) (List.range t.cpus.length)
            ({ t with pids := Function.update t.pids 0 (env.fork t.num_restarts) } : AppTask)
            = .ok t1 := h
        have hP : ∀ (b : Nat) (s s1 : AppTask),
            (s.pids = Function.update t.pids 0 (env.fork t.num_restarts) ∧ s.cpus = t.cpus) →
            AppTask.task_pause_body env b s = .ok s1 →
            (s1.pids = Function.update t.pids 0 (env.fork t.num_restarts) ∧ s1.cpus = t.cpus) := by
          intro b s s1 hs hb
          have e := AppTask.task_pause_body_pids env b s s1 hb
          refine ⟨by rw [e]; exact hs.1, ?_⟩
          unfold AppTask.task_pause_body at hb
          split at hb
          · cases hb
          · dsimp only at hb
            split at hb
            · cases hb
            · split at hb
              · cases hb
              · split at hb
                · cases hb
                · simp only [Except.ok.injEq] at hb
                  subst hb
                  exact hs.2
        have hinv := for_each_ok_inv
          (fun s : AppTask =>
            s.pids = Function.update t.pids 0 (env.fork t.num_restarts) ∧ s.cpus = t.cpus)
          (AppTask.task_pause_body env) (List.range t.cpus.length)
          (fun b _ s s1 hs hb => hP b s s1 hs hb)
          ({ t with pids := Function.update t.pids 0 (env.fork t.num_restarts) } : AppTask) t1
          ⟨rfl, rfl⟩ h
        have hlen : t.cpus.length ≤ 1 := by
          by_contra hc
          have hmem : 1 ∈ List.range t.cpus.length := List.mem_range.2 (by omega)
          refine for_each_throws
            (fun s : AppTask =>
              s.pids = Function.update t.pids 0 (env.fork t.num_restarts) ∧ s.cpus = t.cpus)
            (AppTask.task_pause_body env) 1 hP ?_ _ hmem
            ({ t with pids := Function.update t.pids 0 (env.fork t.num_restarts) } : AppTask) t1
            ⟨rfl, rfl⟩ h
          intro s s1 hs hb
          have hp1 : s.pids 1 ≤ 1 := by
            rw [hs.1, Function.update_noteq (by decide)]
            exact h1
          rw [(AppTask.task_pause_body_sent env 1 s (by decide)).1 hp1] at hb
          cases hb
        refine ⟨hinv.2, hlen, fun hone => ?_⟩
        have hp0 : t1.pids 0 = env.fork t.num_restarts := by
          rw [hinv.1, Function.update_same]
        refine ⟨hp0, ?_⟩
        by_contra hc
        have hmem : 0 ∈ List.range t.cpus.length := List.mem_range.2 (by omega)
        refine for_each_throws
          (fun s : AppTask =>
            s.pids = Function.update t.pids 0 (env.fork t.num_restarts) ∧ s.cpus = t.cpus)
          (AppTask.task_pause_body env) 0 hP ?_ _ hmem
          ({ t with pids := Function.update t.pids 0 (env.fork t.num_restarts) } : AppTask) t1
          ⟨rfl, rfl⟩ h
        intro s s1 hs hb
        have hp1 : s.pids 0 ≤ 1 := by
          rw [hs.1, Function.update_same]
          rw [hp0] at hc
          omega
        rw [(AppTask.task_pause_body_sent env 0 s (by decide)).1 hp1] at hb
        cases hb
  · cases h

/-- C22. With `monitor_only` false, and `w` the result of
`waitpid(pids[0], &statusTask, WNOHANG)`: `AppTask::task_exited` returns true
exactly when `waitpid` reports the pid of the child (a value other than 0 and
-1) and the child exited with status 0; it throws exactly when `waitpid`
returns -1, or reports a pid other than `pids[0]`, or reports `pids[0]` and
the child exited with a status other than 0; and it returns false when
`waitpid` returns 0, that is when the child is still running. -/
theorem task_exited_by_waitpid (w : WaitResult) (t : AppTask) :
    (AppTask.task_exited w false t = .ok true ↔
      (w.ret ≠ 0 ∧ w.ret ≠ -1 ∧ w.ret = t.pids 0 ∧ w.exited = true ∧ w.exit_status = 0)) ∧
    ((∃ e, AppTask.task_exited w false t = .error e) ↔
      (w.ret = -1 ∨ (w.ret ≠ 0 ∧ w.ret ≠ t.pids 0) ∨
       (w.ret ≠ 0 ∧ w.ret = t.pids 0 ∧ w.exited = true ∧ w.exit_status ≠ 0))) ∧
    (w.ret = 0 → AppTask.task_exited w false t = .ok false) := by
  unfold AppTask.task_exited
  by_cases h0 : w.ret = 0
  · simp [h0]
  · by_cases h1 : w.ret = -1
    · simp [h1]
    · by_cases hp : w.ret = t.pids 0
      · have hp0 : t.pids 0 ≠ 0 := fun h => h0 (hp.trans h)
        have hp1 : t.pids 0 ≠ -1 := fun h => h1 (hp.trans h)
        cases he : w.exited
        · simp [hp, hp0, hp1, he]
        · by_cases hs : w.exit_status = 0
          · simp [hp, hp0, hp1, he, hs]
          · simp [hp, hp0, hp1, he, hs]
      · simp [h0, h1, hp]

/-- C27, counterexample. In monitor-only mode `VMTask::task_exited` returns
false for a domain whose sentinel file exists. -/
theorem monitor_only_hides_sentinel : VMTask.task_exited true true = false := by
  decide

/-- C27, amended. In monitor-only mode `AppTask::task_exited` returns false,
whatever `waitpid` would report, and `VMTask::task_exited` returns false,
whether the sentinel file exists or not; with `monitor_only` false,
`VMTask::task_exited` returns true exactly when the sentinel file exists. -/
theorem task_exited_monitor_only (w : WaitResult) (t : AppTask) (sentinel : Bool) :
    AppTask.task_exited w true t = .ok false ∧
    VMTask.task_exited sentinel true = false ∧
    (VMTask.task_exited sentinel false = true ↔ sentinel = true) := by
  refine ⟨?_, ?_, ?_⟩
  · simp [AppTask.task_exited]
  · simp [VMTask.task_exited]
  · simp [VMTask.task_exited]

/-! ## Properties of the delay of the next sleep -/

/-- Truncated division by a positive literal, by cases on the sign. -/
theorem tdiv_nat (x : Int) (d : Nat) :
    Int.tdiv x d = if 0 ≤ x then x / (d : Int) else -((-x) / (d : Int)) := by
  by_cases hx : 0 ≤ x
  · rw [if_pos hx, Int.tdiv_eq_ediv hx (Int.natCast_nonneg d)]
  · rw [if_neg hx]
    have h2 : x = -(-x) := by ring
    conv_lhs => rw [h2, Int.neg_tdiv]
    rw [Int.tdiv_eq_ediv (by omega) (Int.natCast_nonneg d)]

/-- Without a task completion, `adjust_time` never returns a negative delay,
whatever the readings of the clock and the previous delay. -/
theorem adjust_time_nonneg (elapsed_us total_elapsed_us interval time_int_us : Nat)
    (adj_delay_us : Int) :
    0 ≤ adjust_time elapsed_us total_elapsed_us interval time_int_us adj_delay_us false := by
  unfold adjust_time
  dsimp only
  split
  · simp [to_int64]
  · rename_i h
    simp only [and_true, not_lt] at h
    exact h

/-- The value that `adjust_time` returns without a task completion, within
the range where the machine arithmetic is exact, in terms of
`y = 4 * trunc (adj_delay + proportional / 2) + integral`: it is 0 exactly
when `y < 4`. -/
theorem adjust_time_zero_iff (elapsed_us total_elapsed_us interval time_int_us : Nat)
    (adj_delay_us : Int)
    (hT : time_int_us * (interval + 1) < 2 ^ 50) (he : elapsed_us < 2 ^ 50)
    (ht : total_elapsed_us < 2 ^ 50)
    (ha1 : -2 ^ 50 < adj_delay_us) (ha2 : adj_delay_us < 2 ^ 50) :
    adjust_time elapsed_us total_elapsed_us interval time_int_us adj_delay_us false = 0 ↔
      4 * Int.tdiv (2 * adj_delay_us + ((time_int_us : Int) - (elapsed_us : Int))) 2
        + ((time_int_us : Int) * ((interval : Int) + 1) - (total_elapsed_us : Int)) < 4 := by
  rw [adjust_time_eq elapsed_us total_elapsed_us interval time_int_us adj_delay_us false
    hT he ht ha1 ha2, adjust_time_sum_eq]
  generalize 4 * Int.tdiv (2 * adj_delay_us + ((time_int_us : Int) - (elapsed_us : Int))) 2
    + ((time_int_us : Int) * ((interval : Int) + 1) - (total_elapsed_us : Int)) = y
  have h4 := tdiv_nat y 4
  simp only [Nat.cast_ofNat] at h4
  rw [h4]
  simp only [and_true]
  by_cases hy : 0 ≤ y
  · simp only [if_pos hy]
    split <;> omega
  · simp only [if_neg hy]
    split <;> omega

/-- C25, counterexample. With `T = 1 s`, a first interval (`k = 0`) that
lasted 1.6 s and `adj_delay = 1 s`, `proportional = integral = -600000`, so
that `proportional + integral < -adj_delay`; no task completed, and
`adjust_time` returns 550000, not 0. -/
theorem adjust_time_unweighted_sum :
    ((1000000 : Int) - 1600000) + (1000000 * (0 + 1) - 1600000) < -1000000 ∧
    adjust_time 1600000 1600000 0 1000000 1000000 false = 550000 := by
  refine ⟨by decide, ?_⟩
  rw [adjust_time_eq _ _ _ _ _ _ (by decide) (by decide) (by decide) (by decide) (by decide),
    adjust_time_sum_eq]
  decide

/-- C25, amended. Within the range where the machine arithmetic is exact
(times below `2^50` microseconds), with `proportional = T - elapsed`,
`integral = T*(k+1) - total_elapsed` and no task completed in the interval:
`adjust_time` returns 0 whenever
`adj_delay + proportional / 2 + integral / 4 <= 1/4`, in particular whenever
`proportional / 2 + integral / 4 < -adj_delay`; and it returns 0 only if
`adj_delay + proportional / 2 + integral / 4 <= 5/4`. The two inequalities
are written multiplied by 4. -/
theorem adjust_time_zero_weighted (elapsed_us total_elapsed_us interval time_int_us : Nat)
    (adj_delay_us : Int)
    (hT : time_int_us * (interval + 1) < 2 ^ 50) (he : elapsed_us < 2 ^ 50)
    (ht : total_elapsed_us < 2 ^ 50)
    (ha1 : -2 ^ 50 < adj_delay_us) (ha2 : adj_delay_us < 2 ^ 50) :
    (4 * adj_delay_us + 2 * ((time_int_us : Int) - (elapsed_us : Int))
        + ((time_int_us : Int) * ((interval : Int) + 1) - (total_elapsed_us : Int)) ≤ 1 →
      adjust_time elapsed_us total_elapsed_us interval time_int_us adj_delay_us false = 0) ∧
    (adjust_time elapsed_us total_elapsed_us interval time_int_us adj_delay_us false = 0 →
      4 * adj_delay_us + 2 * ((time_int_us : Int) - (elapsed_us : Int))
        + ((time_int_us : Int) * ((interval : Int) + 1) - (total_elapsed_us : Int)) ≤ 5) := by
  rw [adjust_time_zero_iff elapsed_us total_elapsed_us interval time_int_us adj_delay_us
    hT he ht ha1 ha2]
  have h2 := tdiv_nat (2 * adj_delay_us + ((time_int_us : Int) - (elapsed_us : Int))) 2
  simp only [Nat.cast_ofNat] at h2
  rw [h2]
  generalize (time_int_us : Int) * ((interval : Int) + 1) - (total_elapsed_us : Int) = I
  generalize (time_int_us : Int) - (elapsed_us : Int) = p
  constructor
  · intro h
    split <;> omega
  · intro h
    split at h <;> omega

/-- Witness of C25: with `T = 1 s`, a first interval that lasted 3 s and
`adj_delay = 1 s`, the weighted sum is -500000 and `adjust_time` returns 0. -/
theorem adjust_time_zero_weighted_witness :
    adjust_time 3000000 3000000 0 1000000 1000000 false = 0 :=
  (adjust_time_zero_weighted 3000000 3000000 0 1000000 1000000 (by decide) (by decide)
    (by decide) (by decide) (by decide)).1 (by decide)

/-- The post-sleep loop does not write `adj_delay_us`. -/
theorem post_sleep_delay (cfg : Config) (env : IntervalEnv) (L L2 : Loop) (ac : Bool)
    (h : post_sleep cfg env L = .ok (L2, ac)) : L2.adj_delay_us = L.adj_delay_us := by
  unfold post_sleep at h
  exact for_each_ok_inv (fun s : Loop × Bool => s.1.adj_delay_us = L.adj_delay_us)
    (post_sleep_body cfg env) L.runlist
    (fun a _ s s1 hs hb => (post_sleep_body_spec cfg env a s s1 hb).2.2.2.1.trans hs)
    (L, true) (L2, ac) rfl h

/-- The post-processing loop does not write `adj_delay_us`. -/
theorem post_process_delay (env : IntervalEnv) (L L3 : Loop)
    (h : post_process env L = .ok L3) : L3.adj_delay_us = L.adj_delay_us := by
  unfold post_process at h
  exact for_each_ok_inv (fun s : Loop => s.adj_delay_us = L.adj_delay_us)
    (post_process_body env) L.runlist
    (fun a _ s s1 hs hb => (post_process_body_spec env a s s1 hb).2.2.2.1.trans hs)
    L L3 rfl h

/-- The delay that the body of the loop leaves for the next sleep is the
result of the call of `adjust_time` that follows the sleep, which is made
with `new_task_completion = false`. -/
theorem interval_body_delay (cfg : Config) (env : IntervalEnv) (L L1 : Loop) (b : Bool)
    (h : interval_body cfg env L = .ok (L1, b)) :
    L1.adj_delay_us = adjust_time env.elapsed_us env.total_elapsed_us L.interval
      cfg.time_int_us L.adj_delay_us false := by
  obtain ⟨L2, ac, h2, hb1, hb2⟩ := interval_body_spec cfg env L L1 b h
  have hs : (sleep cfg env L).adj_delay_us = adjust_time env.elapsed_us env.total_elapsed_us
      L.interval cfg.time_int_us L.adj_delay_us false := by
    unfold sleep
    exact rfl
  have e2 := post_sleep_delay cfg env _ L2 ac h2
  cases b with
  | true =>
    obtain ⟨_, e1⟩ := hb1 rfl
    rw [e1, e2, hs]
  | false =>
    obtain ⟨_, L3, h3, e1, _⟩ := hb2 rfl
    have e3 := post_process_delay env L2 L3 h3
    rw [e1]
    show L3.adj_delay_us = _
    rw [e3, e2, hs]

/-- The loop keeps the delay of the sleep non-negative. -/
theorem intervals_delay (cfg : Config) :
    ∀ (envs : List IntervalEnv) (L L1 : Loop) (b : Bool), 0 ≤ L.adj_delay_us →
      intervals cfg envs L = .ok (L1, b) → 0 ≤ L1.adj_delay_us := by
  intro envs
  induction envs with
  | nil =>
    intro L L1 b h0 h
    simp only [intervals, Except.ok.injEq, Prod.mk.injEq] at h
    rw [← h.1]
    exact h0
  | cons env envs ih =>
    intro L L1 b h0 h
    simp only [intervals] at h
    split at h
    · cases hb : interval_body cfg env L with
      | error e => rw [hb] at h; cases h
      | ok r =>
        obtain ⟨L2, b2⟩ := r
        rw [hb] at h
        have hd := interval_body_delay cfg env L L2 b2 hb
        have hn : 0 ≤ L2.adj_delay_us := by
          rw [hd]
          exact adjust_time_nonneg _ _ _ _ _
        cases b2 with
        | true =>
          simp only [Except.ok.injEq, Prod.mk.injEq] at h
          rw [← h.1]
          exact hn
        | false =>
          exact ih { L2 with interval := (L2.interval + 1) % 2 ^ 32 } L1 b hn h
    · simp only [Except.ok.injEq, Prod.mk.injEq] at h
      rw [← h.1]
      exact h0

/-- C29. The interval length `T` fits an `int64_t`. At the start of any
interval that `simple_loop` reaches, and when the loop returns, `adj_delay_us`,
the delay that the next sleep is given, is not negative; and each run of the
body of the loop leaves in `adj_delay_us` the result of `adjust_time` called
with `new_task_completion = false`, which is not negative whatever the
readings of the clock. -/
theorem sleep_delay_nonneg (cfg : Config) (hT : cfg.time_int_us < 2 ^ 63)
    (tasks : Nat → AnyTask) (ntasks : Nat) (envs : List IntervalEnv) (L : Loop) (b : Bool)
    (hrun : intervals cfg envs (Loop.start cfg tasks ntasks) = .ok (L, b)) :
    0 ≤ L.adj_delay_us ∧
    ∀ (env : IntervalEnv) (L1 : Loop) (b1 : Bool), interval_body cfg env L = .ok (L1, b1) →
      L1.adj_delay_us = adjust_time env.elapsed_us env.total_elapsed_us L.interval
        cfg.time_int_us L.adj_delay_us false ∧
      0 ≤ L1.adj_delay_us := by
  have h0 : 0 ≤ (Loop.start cfg tasks ntasks).adj_delay_us := by
    show 0 ≤ to_int64 (cfg.time_int_us : Int)
    have : ((cfg.time_int_us : Nat) : Int) < 2 ^ 63 := by exact_mod_cast hT
    rw [to_int64_eq (by omega) this]
    omega
  refine ⟨intervals_delay cfg envs _ L b h0 hrun, ?_⟩
  intro env L1 b1 h1
  have hd := interval_body_delay cfg env L L1 b1 h1
  refine ⟨hd, ?_⟩
  rw [hd]
  exact adjust_time_nonneg _ _ _ _ _

/-- Witness of C29: two intervals of a loop over two Process workloads, with
`T = 1 s`. -/
theorem sleep_delay_nonneg_witness :
    ∃ L b, intervals cfg0 [busy_interval 0, busy_interval 1]
        (Loop.start cfg0 (two_tasks 0 0) 2) = .ok (L, b) ∧
      0 ≤ L.adj_delay_us ∧
      ∀ (env : IntervalEnv) (L1 : Loop) (b1 : Bool),
        interval_body cfg0 env L = .ok (L1, b1) →
        L1.adj_delay_us = adjust_time env.elapsed_us env.total_elapsed_us L.interval
          cfg0.time_int_us L.adj_delay_us false ∧
        0 ≤ L1.adj_delay_us := by
  have hok : (intervals cfg0 [busy_interval 0, busy_interval 1]
      (Loop.start cfg0 (two_tasks 0 0) 2)).toBool = true := by decide!
  cases h : intervals cfg0 [busy_interval 0, busy_interval 1]
      (Loop.start cfg0 (two_tasks 0 0) 2) with
  | error e => rw [h] at hok; cases hok
  | ok r =>
    exact ⟨r.1, r.2, rfl,
      sleep_delay_nonneg cfg0 (by decide) (two_tasks 0 0) 2
        [busy_interval 0, busy_interval 1] r.1 r.2 h⟩

/-! ## The assertion on the run-list -/

/-- A property of every exception that the body of a loop throws holds for the
exception that the loop throws. -/
theorem for_each_error_inv {σ ε α : Type} (Q : ε → Prop) (body : α → σ → Except ε σ)
    (h : ∀ a s e, body a s = .error e → Q e) :
    ∀ (l : List α) (s : σ) (e : ε), for_each body l s = .error e → Q e := by
  intro l
  induction l with
  | nil => intro s e hr; simp only [for_each] at hr; cases hr
  | cons a rest ih =>
    intro s e hr
    simp only [for_each] at hr
    cases hb : body a s with
    | error e1 =>
      rw [hb] at hr
      simp only [Except.error.injEq] at hr
      exact hr ▸ h a s e1 hb
    | ok s1 =>
      rw [hb] at hr
      exact ih s1 e hr

theorem app_reset_no_assert (t : AppTask) (e : TaskError × AppTask)
    (h : AppTask.reset t = .error e) : e.1 ≠ TaskError.runlist_empty := by
  unfold AppTask.reset at h
  refine for_each_error_inv (fun e : TaskError × AppTask => e.1 ≠ TaskError.runlist_empty)
    AppTask.reset_body ?_ _ _ e h
  intro a s e1 h1
  unfold AppTask.reset_body at h1
  split at h1 <;> cases h1
  intro c; cases c

theorem app_task_pause_no_assert (env : TaskEnv) (t : AppTask) (e : TaskError × AppTask)
    (h : AppTask.task_pause env t = .error e) : e.1 ≠ TaskError.runlist_empty := by
  unfold AppTask.task_pause at h
  refine for_each_error_inv (fun e : TaskError × AppTask => e.1 ≠ TaskError.runlist_empty)
    (AppTask.task_pause_body env) ?_ _ _ e h
  intro a s e1 h1
  unfold AppTask.task_pause_body at h1
  dsimp only at h1
  repeat' split at h1
  all_goals (cases h1; first | done | (intro c; cases c))

theorem app_task_resume_no_assert (env : TaskEnv) (t : AppTask) (e : TaskError × AppTask)
    (h : AppTask.task_resume env t = .error e) : e.1 ≠ TaskError.runlist_empty := by
  unfold AppTask.task_resume at h
  refine for_each_error_inv (fun e : TaskError × AppTask => e.1 ≠ TaskError.runlist_empty)
    (AppTask.task_resume_body env) ?_ _ _ e h
  intro a s e1 h1
  unfold AppTask.task_resume_body at h1
  dsimp only at h1
  repeat' split at h1
  all_goals (cases h1; first | done | (intro c; cases c))

theorem app_task_kill_no_assert (env : TaskEnv) (t : AppTask) (e : TaskError × AppTask)
    (h : AppTask.task_kill env t = .error e) : e.1 ≠ TaskError.runlist_empty := by
  unfold AppTask.task_kill at h
  refine for_each_error_inv (fun e : TaskError × AppTask => e.1 ≠ TaskError.runlist_empty)
    (AppTask.task_kill_body env) ?_ _ _ e h
  intro a s e1 h1
  unfold AppTask.task_kill_body at h1
  dsimp only at h1
  repeat' split at h1
  all_goals (cases h1; first | done | (intro c; cases c))

theorem app_task_restart_no_assert (env : TaskEnv) (t : AppTask) (e : TaskError × AppTask)
    (h : AppTask.task_restart env t = .error e) : e.1 ≠ TaskError.runlist_empty := by
  unfold AppTask.task_restart at h
  split at h
  · cases h1 : AppTask.reset t with
    | error e1 =>
      rw [h1] at h
      simp only [Except.error.injEq] at h
      exact h ▸ app_reset_no_assert t e1 h1
    | ok t1 =>
      rw [h1] at h
      dsimp only at h
      cases h2 : AppTask.task_get_ready_to_execute env t1 with
      | error e2 =>
        rw [h2] at h
        simp only [Except.error.injEq] at h
        rw [← h]
        unfold AppTask.task_get_ready_to_execute at h2
        dsimp only at h2
        split at h2
        · split at h2
          · cases h2; intro c; cases c
          · split at h2
            · cases h2; intro c; cases c
            · exact app_task_pause_no_assert env _ e2 h2
        · cases h2; intro c; cases c
      | ok t2 =>
        rw [h2] at h
        dsimp only at h
        cases h3 : AppTask.task_start_to_execute env t2 with
        | error e3 =>
          rw [h3] at h
          simp only [Except.error.injEq] at h
          rw [← h]
          exact app_task_resume_no_assert env t2 e3 h3
        | ok t3 =>
          rw [h3] at h
          cases h
  · cases h
    intro c; cases c

theorem app_restart_or_set_done_no_assert (env : TaskEnv) (t : AppTask)
    (e : TaskError × AppTask) (h : AppTask.task_restart_or_set_done env t = .error e) :
    e.1 ≠ TaskError.runlist_empty := by
  unfold AppTask.task_restart_or_set_done at h
  refine for_each_error_inv (fun e : TaskError × AppTask => e.1 ≠ TaskError.runlist_empty)
    (AppTask.restart_or_set_done_body env t.status) ?_ _ _ e h
  intro a s e1 h1
  unfold AppTask.restart_or_set_done_body at h1
  split at h1
  · cases hm : AppTask.stop_monitoring env a.1 s with
    | error em =>
      rw [hm] at h1
      simp only [Except.error.injEq] at h1
      rw [← h1]
      unfold AppTask.stop_monitoring at hm
      repeat' split at hm
      all_goals (cases hm; first | done | (intro c; cases c))
    | ok s1 =>
      rw [hm] at h1
      dsimp only at h1
      have hk : ∀ ek, (if t.status = Status.limit_reached then AppTask.task_kill env s1
          else if t.status ≠ Status.exited then
            Except.error (TaskError.runtime_error "Should not have reached this...", s1)
          else Except.ok s1) = Except.error ek → ek.1 ≠ TaskError.runlist_empty := by
        intro ek hk
        split at hk
        · exact app_task_kill_no_assert env s1 ek hk
        · split at hk
          · cases hk; intro c; cases c
          · cases hk
      cases hkk : (if t.status = Status.limit_reached then AppTask.task_kill env s1
          else if t.status ≠ Status.exited then
            Except.error (TaskError.runtime_error "Should not have reached this...", s1)
          else Except.ok s1) with
      | error ek =>
        rw [hkk] at h1
        simp only [Except.error.injEq] at h1
        rw [← h1]
        exact hk ek hkk
      | ok s2 =>
        rw [hkk] at h1
        dsimp only at h1
        split at h1
        · split at h1
          · split at h1
            · exact app_task_restart_no_assert env s2 e1 h1
            · cases h1; intro c; cases c
          · exact app_task_restart_no_assert env s2 e1 h1
        · cases h1
  · cases h1

theorem vm_restart_or_set_done_no_assert (env : TaskEnv) (t : VMTask)
    (e : TaskError × VMTask) (h : VMTask.task_restart_or_set_done env t = .error e) :
    e.1 ≠ TaskError.runlist_empty := by
  have hreset : ∀ (t1 : VMTask) e1, VMTask.reset t1 = .error e1 →
      e1.1 ≠ TaskError.runlist_empty := by
    intro t1 e1 h1
    unfold VMTask.reset at h1
    refine for_each_error_inv (fun e : TaskError × VMTask => e.1 ≠ TaskError.runlist_empty)
      VMTask.reset_body ?_ _ _ e1 h1
    intro a s e2 h2
    unfold VMTask.reset_body at h2
    split at h2 <;> cases h2
    intro c; cases c
  have hrestart : ∀ (t1 : VMTask) e1, VMTask.task_restart env t1 = .error e1 →
      e1.1 ≠ TaskError.runlist_empty := by
    intro t1 e1 h1
    unfold VMTask.task_restart at h1
    split at h1
    · cases hr : VMTask.reset t1 with
      | error er =>
        rw [hr] at h1
        simp only [Except.error.injEq] at h1
        exact h1 ▸ hreset t1 er hr
      | ok t2 =>
        rw [hr] at h1
        dsimp only at h1
        cases hg : VMTask.task_get_ready_to_execute_light env t2 with
        | error eg =>
          rw [hg] at h1
          simp only [Except.error.injEq] at h1
          rw [← h1]
          unfold VMTask.task_get_ready_to_execute_light at hg
          repeat' split at hg
          all_goals (cases hg; first | done | (intro c; cases c))
        | ok t3 =>
          rw [hg] at h1
          dsimp only at h1
          cases hs : VMTask.task_start_to_execute env t3 with
          | error es =>
            rw [hs] at h1
            simp only [Except.error.injEq] at h1
            rw [← h1]
            unfold VMTask.task_start_to_execute at hs
            repeat' split at hs
            all_goals (cases hs; first | done | (intro c; cases c))
          | ok t4 =>
            rw [hs] at h1
            cases h1
    · cases h1
      intro c; cases c
  unfold VMTask.task_restart_or_set_done at h
  dsimp only at h
  split at h
  · cases hk : (if t.status = Status.limit_reached then VMTask.task_kill env t
        else Except.ok t) with
    | error ek =>
      rw [hk] at h
      simp only [Except.error.injEq] at h
      rw [← h]
      split at hk
      · unfold VMTask.task_kill at hk
        repeat' split at hk
        all_goals (cases hk; first | done | (intro c; cases c))
      · cases hk
    | ok t1 =>
      rw [hk] at h
      dsimp only at h
      split at h
      · exact hrestart t1 e h
      · cases h
  · cases h

/-- The post-processing phase does not throw the exception that stands for
the failure of the assertion on the run-list. -/
theorem post_process_no_assert (env : IntervalEnv) (L : Loop) (e : TaskError)
    (h : post_process env L = .error e) : e ≠ TaskError.runlist_empty := by
  unfold post_process at h
  refine for_each_error_inv (fun e : TaskError => e ≠ TaskError.runlist_empty)
    (post_process_body env) ?_ _ _ e h
  intro a s e1 h1
  unfold post_process_body at h1
  split at h1
  · cases ht : (s.tasks a).task_restart_or_set_done (env.task a) with
    | error et =>
      rw [ht] at h1
      simp only [Except.error.injEq] at h1
      rw [← h1]
      unfold AnyTask.task_restart_or_set_done at ht
      cases hta : s.tasks a with
      | app t =>
        rw [hta] at ht
        dsimp only at ht
        cases hr : AppTask.task_restart_or_set_done (env.task a) t with
        | error er =>
          rw [hr] at ht
          simp only [Except.error.injEq] at ht
          exact ht ▸ app_restart_or_set_done_no_assert (env.task a) t er hr
        | ok t1 => rw [hr] at ht; cases ht
      | vm t =>
        rw [hta] at ht
        dsimp only at ht
        cases hr : VMTask.task_restart_or_set_done (env.task a) t with
        | error er =>
          rw [hr] at ht
          simp only [Except.error.injEq] at ht
          exact ht ▸ vm_restart_or_set_done_no_assert (env.task a) t er hr
        | ok t1 => rw [hr] at ht; cases ht
    | ok t1 => rw [ht] at h1; cases h1
  · cases h1

/-- The post-sleep phase does not throw the exception that stands for the
failure of the assertion on the run-list. -/
theorem post_sleep_no_assert (cfg : Config) (env : IntervalEnv) (L : Loop) (e : TaskError)
    (h : post_sleep cfg env L = .error e) : e ≠ TaskError.runlist_empty := by
  unfold post_sleep at h
  refine for_each_error_inv (fun e : TaskError => e ≠ TaskError.runlist_empty)
    (post_sleep_body cfg env) ?_ _ _ e h
  intro a s e1 h1
  unfold post_sleep_body at h1
  cases ht : post_sleep_task cfg env a (s.1.tasks a) s.1.new_task_completion with
  | ok r => rw [ht] at h1; cases h1
  | error et =>
    rw [ht] at h1
    simp only [Except.error.injEq] at h1
    rw [← h1]
    unfold post_sleep_task at ht
    cases hta : s.1.tasks a with
    | vm t =>
      rw [hta] at ht
      dsimp only at ht
      cases hs : VMTask.sample cfg (env.task a).perf_type (env.counters a) t with
      | error es =>
        rw [hs] at ht
        simp only [Except.error.injEq] at ht
        rw [← ht]
        unfold VMTask.sample at hs
        refine for_each_error_inv (fun e : TaskError => e ≠ TaskError.runlist_empty)
          (VMTask.sample_body cfg (env.task a).perf_type (env.counters a)) ?_ _ _ es hs
        intro x v e2 h2
        unfold VMTask.sample_body at h2
        repeat' split at h2
        all_goals (cases h2; first | done | (intro c; cases c))
      | ok t1 =>
        rw [hs] at ht
        dsimp only at ht
        split at ht <;> cases ht
    | app t =>
      rw [hta] at ht
      dsimp only at ht
      cases hs : AppTask.sample cfg (env.task a).perf_type (env.counters a) t with
      | error es =>
        rw [hs] at ht
        simp only [Except.error.injEq] at ht
        rw [← ht]
        unfold AppTask.sample at hs
        refine for_each_error_inv (fun e : TaskError => e ≠ TaskError.runlist_empty)
          (AppTask.sample_body cfg (env.task a).perf_type (env.counters a)) ?_ _ _ es hs
        intro x v e2 h2
        unfold AppTask.sample_body at h2
        repeat' split at h2
        all_goals (cases h2; first | done | (intro c; cases c))
      | ok r =>
        obtain ⟨t1, total_inst⟩ := r
        rw [hs] at ht
        dsimp only at ht
        cases hx : AppTask.task_exited (env.waitpid_nohang a) cfg.monitor_only t1 with
        | error ex =>
          rw [hx] at ht
          simp only [Except.error.injEq] at ht
          rw [← ht]
          unfold AppTask.task_exited at hx
          repeat' split at hx
          all_goals (cases hx; first | done | (intro c; cases c))
        | ok bx =>
          rw [hx] at ht
          cases bx with
          | true => cases ht
          | false =>
            dsimp only at ht
            split at ht <;> cases ht
/-- When the variables are consistent at the start of an interval and the
cleaning of the run-list would remove every workload, `all_completed` is true
after the post-sleep phase. -/
theorem all_removed_all_completed (cfg : Config) (hmax : cfg.max_int < 2 ^ 32)
    (env : IntervalEnv) (L L2 L3 : Loop) (ac : Bool)
    (hI : L.consistent cfg) (hlt : L.interval < cfg.max_int)
    (h2 : post_sleep cfg env (sleep cfg env L) = .ok (L2, ac))
    (h3 : post_process env L2 = .ok L3)
    (he : L3.runlist.filter (fun i => !(done_or_exited L3 i)) = []) : ac = true := by
  obtain ⟨c1, c2, c3, _, c5, _⟩ := hI
  obtain ⟨p1, _, _, _, p5, p6⟩ := post_sleep_spec cfg env L L2 ac c1 h2
  rw [p6]
  intro i hi hc
  obtain ⟨ntc, ntc1, hq⟩ := p5 i hi
  have hnd2 : L2.runlist.Nodup := by rw [p1]; exact c1
  unfold post_process at h3
  obtain ⟨q1, _, _, _, _, _, q7⟩ := post_process_loop_spec env L2.runlist L2 L3 hnd2 h3
  have hi2 : i ∈ L2.runlist := by rw [p1]; exact hi
  have hcomp : (L.tasks i).base.completed + 1 < 2 ^ 32 := by
    have := c5 i (c2 i hi)
    omega
  obtain ⟨_, t2, _, _, t5⟩ := interval_task_spec cfg env i (L.tasks i) (L2.tasks i) (L3.tasks i)
    ntc ntc1 (c3 i hi) hcomp hq (q7 i hi2)
  have hi3 : i ∈ L3.runlist := by rw [q1]; exact hi2
  have hrem : (!(done_or_exited L3 i)) = false := by
    by_contra hne
    have hmem : i ∈ L3.runlist.filter (fun i => !(done_or_exited L3 i)) :=
      List.mem_filter.2 ⟨hi3, by simpa using hne⟩
    rw [he] at hmem
    cases hmem
  have hde : (L3.tasks i).base.status = Status.done ∨
      (L3.tasks i).base.status = Status.exited := by
    have hr : ¬(L3.tasks i).base.status = Status.done →
        (L3.tasks i).base.status = Status.exited := by
      simpa [done_or_exited] using hrem
    by_cases hd : (L3.tasks i).base.status = Status.done
    · exact Or.inl hd
    · exact Or.inr (hr hd)
  have := (t5 hde).2
  rw [t2, hc.1] at this
  exact absurd this (by decide)

/-- From consistent variables, no run of the loop stops on the assertion that
the run-list is not empty. -/
theorem intervals_runlist (cfg : Config) (hmax : cfg.max_int < 2 ^ 32) :
    ∀ (envs : List IntervalEnv) (L : Loop), L.consistent cfg →
      intervals cfg envs L ≠ .error TaskError.runlist_empty := by
  intro envs
  induction envs with
  | nil =>
    intro L _ h
    simp only [intervals] at h
    cases h
  | cons env envs ih =>
    intro L hI h
    simp only [intervals] at h
    split at h
    · rename_i hlt
      cases hb : interval_body cfg env L with
      | error e =>
        rw [hb] at h
        simp only [Except.error.injEq] at h
        rw [h] at hb
        unfold interval_body at hb
        cases h2 : post_sleep cfg env (sleep cfg env L) with
        | error e2 =>
          rw [h2] at hb
          simp only [Except.error.injEq] at hb
          exact post_sleep_no_assert cfg env _ e2 h2 hb
        | ok r =>
          obtain ⟨L2, ac⟩ := r
          rw [h2] at hb
          dsimp only at hb
          cases hac : ac with
          | true => rw [hac] at hb; simp at hb
          | false =>
            rw [hac] at hb
            simp only [Bool.false_eq_true, if_false] at hb
            cases h3 : post_process env L2 with
            | error e3 =>
              rw [h3] at hb
              simp only [Except.error.injEq] at hb
              exact post_process_no_assert env _ e3 h3 hb
            | ok L3 =>
              rw [h3] at hb
              dsimp only at hb
              split at hb
              · rename_i hemp
                have := all_removed_all_completed cfg hmax env L L2 L3 ac hI hlt h2 h3
                  (List.isEmpty_iff.1 hemp)
                rw [hac] at this
                cases this
              · cases hb
      | ok r =>
        obtain ⟨L1, b1⟩ := r
        rw [hb] at h
        cases b1 with
        | true => cases h
        | false =>
          exact ih _ (Loop.consistent_step cfg hmax env L L1 hI hlt hb) h
    · cases h

/-- C28. The loop starts with every workload of the task list `runnable`
and `completed = 0`, and `max_int` fits its 32 bits. Whatever the samples, the
results of `waitpid`, the sentinel files and the results of the other external
calls in each interval, the loop never stops on the assertion that the
run-list is not empty after the removal of the `done` and `exited` workloads.
And in any interval that the loop reaches, if the removal would leave the
run-list empty after the post-sleep and post-processing phases, then
`all_completed` is true after the post-sleep phase and the body of the loop
leaves by `break`, before the post-processing phase and the removal. -/
theorem runlist_assert_never_fails (cfg : Config) (hmax : cfg.max_int < 2 ^ 32)
    (tasks : Nat → AnyTask) (ntasks : Nat)
    (h0 : ∀ i, i < ntasks →
      (tasks i).base.status = Status.runnable ∧ (tasks i).base.completed = 0)
    (envs : List IntervalEnv) :
    intervals cfg envs (Loop.start cfg tasks ntasks) ≠ .error TaskError.runlist_empty ∧
    ∀ (L : Loop), intervals cfg envs (Loop.start cfg tasks ntasks) = .ok (L, false) →
      L.interval < cfg.max_int →
      ∀ (env : IntervalEnv) (L2 L3 : Loop) (all_completed : Bool),
        post_sleep cfg env (sleep cfg env L) = .ok (L2, all_completed) →
        post_process env L2 = .ok L3 →
        L3.runlist.filter (fun i => !(done_or_exited L3 i)) = [] →
        all_completed = true ∧ interval_body cfg env L = .ok (L2, true) := by
  have hI := Loop.consistent_start cfg tasks ntasks h0
  refine ⟨intervals_runlist cfg hmax envs _ hI, ?_⟩
  intro L hrun hlt env L2 L3 ac h2 h3 he
  have hL := Loop.consistent_intervals cfg hmax envs _ L hI hrun
  have hac := all_removed_all_completed cfg hmax env L L2 L3 ac hL hlt h2 h3 he
  refine ⟨hac, ?_⟩
  unfold interval_body
  rw [h2, hac]
  rfl

/-- Witness of C28: a loop over one Process workload that exits with status
0 in the first interval: the loop leaves by `break`, with the workload
`exited` and still in the run-list. -/
theorem runlist_assert_never_fails_witness :
    task_summary (intervals cfg0 [exit_interval 0] (Loop.start cfg0 (two_tasks 0 0) 1)) 0
      = some (Status.exited, 0, 1, true) ∧
    intervals cfg0 [exit_interval 0] (Loop.start cfg0 (two_tasks 0 0) 1)
      ≠ .error TaskError.runlist_empty ∧
    ∀ (L : Loop), intervals cfg0 [exit_interval 0] (Loop.start cfg0 (two_tasks 0 0) 1)
        = .ok (L, false) →
      L.interval < cfg0.max_int →
      ∀ (env : IntervalEnv) (L2 L3 : Loop) (all_completed : Bool),
        post_sleep cfg0 env (sleep cfg0 env L) = .ok (L2, all_completed) →
        post_process env L2 = .ok L3 →
        L3.runlist.filter (fun i => !(done_or_exited L3 i)) = [] →
        all_completed = true ∧ interval_body cfg0 env L = .ok (L2, true) :=
  ⟨by decide!,
    runlist_assert_never_fails cfg0 (by decide) (two_tasks 0 0) 1
      (fun i _ => by unfold two_tasks; split <;> exact ⟨rfl, rfl⟩) [exit_interval 0]⟩

/-! ## Properties of a counter that was not enabled -/

/-- C24, counterexample. A store tracks `cycles`; the first sample reads 5
and the second reads 8 with `enabled = 0` and `running = 0`. The second
`accum` records 3, the difference of the two readings, not 0. -/
theorem not_enabled_records_difference :
    (cycles_sample_mux 8 0 0).enabled = 0 ∧ (cycles_sample_mux 8 0 0).running = 0 ∧
    last_after rapl0 ["cycles"] (Dbl.fin 1)
      [Call.accum [cycles_sample 5] (Dbl.fin 1), Call.accum [cycles_sample_mux 8 0 0] (Dbl.fin 1)]
      "cycles" = .ok (Dbl.fin 3) := by
  refine ⟨rfl, rfl, ?_⟩
  simp [last_after, init, new, init_derived_metrics_int, init_derived_metrics_total,
    events_insert, run, accum, accum_first, first_value, cycles_sample, cycles_sample_mux,
    events_push, accum_finish, accum_derived, Stats.last, accum_t.last, accum_t.push, Dbl.div,
    Dbl.ofNat, Dbl.lt, Dbl.isFinite, accum_next, next_value, raw_value, fix_negative,
    scale_value, is_mb, Dbl.sub, Dbl.add, Dbl.neg]
  norm_num

/-- C24, amended. On an `accum` that is not the first one and returns, for a
counter outside the MBL/MBT/MBR family whose current sample has `enabled = 0`:
when the interval value `d` of the counter (the current reading of a snapshot
counter, the current reading minus the previous one otherwise) is a
non-negative number, the value recorded is `d`, without any compensation; it
is 0 if and only if `d = 0`. -/
theorem accum_not_enabled_records_raw (rapl : Rapl) (st st1 : Stats)
    (counters : List Counter) (interval_ti : Dbl) (c l : Counter) (d : ℚ)
    (hnonfirst : st.ccurr ≠ [])
    (hok : st.accum rapl counters interval_ti = .ok st1)
    (hnodup : (counters.map Counter.name).Nodup)
    (hmem : (c, l) ∈ counters.zip st.ccurr)
    (hen : c.enabled = 0)
    (hmb : is_mb c.name = false)
    (hder : c.name ∉ st.derived_metrics_int.map Prod.fst)
    (hd : interval_diff c l = Dbl.fin d) (hd0 : 0 ≤ d) :
    c.running = 0 ∧ st1.last c.name = .ok (Dbl.fin d) ∧
    (st1.last c.name = .ok (Dbl.fin 0) ↔ d = 0) := by
  obtain ⟨ev1, cc1, st2, hnext, hderived, rfl⟩ := accum_nonfirst_ok hnonfirst hok
  obtain ⟨v, a, hv, _, hpush⟩ :=
    accum_next_pushes rapl interval_ti counters st.ccurr st.events ev1 cc1 hnext hnodup c l hmem
  have hframe := (accum_derived_frame _ _ _ hderived).2.2.2.2.2.2.2.2.2 c.name hder
  have hvq : c.running = 0 ∧ v = Dbl.fin d := by
    unfold next_value at hv
    split at hv
    · have hraw : raw_value interval_ti c l = Dbl.fin d := by
        simp only [raw_value, hmb, Bool.false_eq_true, if_false]
        exact hd
      have hfix : fix_negative rapl c l (Dbl.fin d) = .ok (Dbl.fin d) := by
        simp [fix_negative, Dbl.lt, not_lt.mpr hd0]
      rw [hraw, hfix] at hv
      simp only [scale_value, hen] at hv
      split at hv
      · rename_i hrun
        simp only [if_true, Dbl.isFinite, Except.ok.injEq] at hv
        exact ⟨Nat.le_zero.1 hrun, hv.symm⟩
      · cases hv
    · cases hv
  have hlast : (Stats.last { st2 with counter := (st2.counter + 1) % 2 ^ 64 } c.name)
      = .ok (Dbl.fin d) := by
    simp only [Stats.last]
    rw [hframe]
    simp only [hpush, accum_t.last, accum_t.push, List.headD_cons, hvq.2]
  refine ⟨hvq.1, hlast, ?_⟩
  rw [hlast]
  constructor
  · intro h
    simp only [Except.ok.injEq, Dbl.fin.injEq] at h
    exact h
  · intro h
    rw [h]

/-- Witness of C24, amended: after the reading 5 of `cycles`, the reading 8
of a sample with `enabled = 0` is recorded as 3. -/
theorem accum_not_enabled_records_raw_witness :
    ∃ st1, cycles_store.accum rapl0 [cycles_sample_mux 8 0 0] (Dbl.fin 1) = .ok st1 ∧
      (cycles_sample_mux 8 0 0).running = 0 ∧
      st1.last "cycles" = .ok (Dbl.fin 3) ∧
      (st1.last "cycles" = .ok (Dbl.fin 0) ↔ (3 : ℚ) = 0) := by
  have hok : (cycles_store.accum rapl0 [cycles_sample_mux 8 0 0] (Dbl.fin 1)).toBool = true := by
    decide!
  cases h : cycles_store.accum rapl0 [cycles_sample_mux 8 0 0] (Dbl.fin 1) with
  | error e => rw [h] at hok; cases hok
  | ok st1 =>
    exact ⟨st1, rfl,
      accum_not_enabled_records_raw rapl0 cycles_store st1 [cycles_sample_mux 8 0 0]
        (Dbl.fin 1) (cycles_sample_mux 8 0 0) (cycles_sample 5) 3 (by simp [cycles_store]) h
        (by simp) (by simp [cycles_store]) rfl (by simp [is_mb, cycles_sample_mux])
        (by simp [cycles_store])
        (by simp [interval_diff, cycles_sample, cycles_sample_mux, Dbl.sub, Dbl.add, Dbl.neg]
            norm_num)
        (by norm_num)⟩

/-! ## Properties of the cpu usage of a virtual machine -/

theorem param_at_nat (params : List virTypedParameter) (i : Nat) (p : virTypedParameter)
    (h : params[i]? = some p) : param_at params (i : Int) = .ok p := by
  unfold param_at
  rw [if_pos (Int.natCast_nonneg i)]
  simp only [Int.toNat_ofNat, h]

theorem checked_int_nat (i : Nat) (h : i < 2 ^ 31) : checked_int (i : Int) = .ok (i : Int) := by
  unfold checked_int
  have h1 : ((i : Nat) : Int) < 2 ^ 31 := by exact_mod_cast h
  rw [if_pos ⟨by omega, h1⟩]

/-- One iteration of the search loop. -/
theorem find_vcputime_step (then_params : List virTypedParameter) (c j0 m : Nat)
    (p : virTypedParameter) (hb : c + j0 < 2 ^ 31) (hp : then_params[c + j0]? = some p) :
    find_vcputime then_params (c : Int) (m + 1) j0 =
      if p.field = VIR_DOMAIN_CPU_STATS_VCPUTIME then .ok (some ((c + j0 : Nat) : Int))
      else find_vcputime then_params (c : Int) m (j0 + 1) := by
  have e1 : ((c : Int) + (j0 : Int)) = ((c + j0 : Nat) : Int) := by push_cast; ring
  rw [find_vcputime, e1, checked_int_nat _ hb]
  dsimp only
  rw [param_at_nat _ _ _ hp]

/-- The search loop returns the position of the first entry named
`vcpu_time`. -/
theorem find_vcputime_found (then_params : List virTypedParameter) (c j : Nat)
    (hb : c + j < 2 ^ 31)
    (hj : ∃ p, then_params[c + j]? = some p ∧ p.field = VIR_DOMAIN_CPU_STATS_VCPUTIME) :
    ∀ (d j0 n : Nat), j0 + d = j → d < n →
      (∀ k, j0 ≤ k → k < j → ∃ p, then_params[c + k]? = some p ∧
        p.field ≠ VIR_DOMAIN_CPU_STATS_VCPUTIME) →
      find_vcputime then_params (c : Int) n j0 = .ok (some ((c + j : Nat) : Int)) := by
  intro d
  induction d with
  | zero =>
    intro j0 n hd hn _
    obtain ⟨m, rfl⟩ : ∃ m, n = m + 1 := ⟨n - 1, by omega⟩
    have hj0 : j0 = j := by omega
    subst hj0
    obtain ⟨p, hp, hf⟩ := hj
    rw [find_vcputime_step then_params c j0 m p hb hp, if_pos hf]
  | succ d ih =>
    intro j0 n hd hn hk
    obtain ⟨m, rfl⟩ : ∃ m, n = m + 1 := ⟨n - 1, by omega⟩
    obtain ⟨p, hp, hf⟩ := hk j0 (le_refl _) (by omega)
    rw [find_vcputime_step then_params c j0 m p (by omega) hp, if_neg hf]
    exact ih (j0 + 1) m (by omega) (by omega) (fun k h1 h2 => hk k (by omega) h2)

/-- When the arrays hold the vcputime readings of the cpu, the method returns:
the quotient of the two differences, computed on integers, when both are
positive, and 0 otherwise. -/
theorem task_get_VM_CPU_usage_eq (s : CpuStats) (cpu vt vn then_ now : Nat)
    (h : s.vcputime cpu vt vn) :
    VMTask.task_get_VM_CPU_usage s then_ now (cpu : Int) =
      .ok (if then_ < now ∧ vt < vn then to_float ((vn - vt) / (now - then_) / 10) else 0) := by
  obtain ⟨n, j, h1, h2, hjn, hb, ⟨pn, hpn, hpn0⟩, ⟨pt, hpt, hpt0⟩, hk, ⟨qt, hqt, hqf, hqv⟩,
    ⟨qn, hqn, hqnv⟩⟩ := h
  have e0 : ((cpu : Int) * (n : Int)) = ((cpu * n : Nat) : Int) := by push_cast; ring
  have hfind := find_vcputime_found s.then_params (cpu * n) j (by omega) ⟨qt, hqt, hqf⟩
    j 0 n (by omega) hjn (fun k _ hkj => hk k hkj)
  have hnn : ¬ ((n : Int) < 0) := by omega
  have hlt : cpu * n < 2 ^ 31 := by omega
  unfold VMTask.task_get_VM_CPU_usage
  rw [h1, h2, if_neg (fun hne => hne rfl), e0, checked_int_nat _ hlt]
  dsimp only
  rw [param_at_nat _ _ _ hpn]
  dsimp only
  rw [if_neg hpn0, param_at_nat _ _ _ hpt]
  dsimp only
  rw [if_neg hpt0, if_neg hnn, Int.toNat_ofNat, hfind]
  dsimp only
  rw [param_at_nat _ _ _ hqn]
  dsimp only
  rw [param_at_nat _ _ _ hqt]
  dsimp only
  rw [hqv, hqnv]
  split <;> rfl

/-- The conversion to `float` of an integer below `2^24` is exact. -/
theorem to_float_small (n : Nat) (h : n < 2 ^ 24) : to_float n = n := by
  unfold to_float
  rw [if_pos h]

/-- The quotient computed on integers is the integer part of the quotient of
the two differences divided by 10. -/
theorem usage_quotient_floor (a b : Nat) :
    a / b / 10 = ⌊(a : ℚ) / (b : ℚ) / 10⌋₊ := by
  rw [Nat.div_div_eq_div_mul, div_div]
  have : ((b : ℚ) * 10) = ((b * 10 : Nat) : ℚ) := by push_cast; ring
  rw [this, Nat.floor_div_eq_div]

/-- C26, counterexample. One virtual cpu, with wall-clock readings
`then = 0` and `now = 1000000` microseconds. When its vcputime grows by
999999999 ns the method returns 99, where the quotient is 99.9999999; when it
grows by 5000000 ns the method returns 0, where the quotient is 0.5. -/
theorem vm_cpu_usage_not_quotient :
    (VMTask.task_get_VM_CPU_usage (cpu_stats_one 0 999999999) 0 1000000 0).toOption = some 99 ∧
    ((99 : ℚ) ≠ (999999999 - 0) / (1000000 - 0) / 10) ∧
    (VMTask.task_get_VM_CPU_usage (cpu_stats_one 0 5000000) 0 1000000 0).toOption = some 0 ∧
    ((0 : ℚ) ≠ (5000000 - 0) / (1000000 - 0) / 10) := by
  refine ⟨by decide, by norm_num, by decide, by norm_num⟩

/-- C26, amended. The arrays of the virtual machine hold the vcputime
readings `vt` and `vn` (nanoseconds) of the cpu. For all wall-clock readings
`then` and `now` (microseconds), `task_get_VM_CPU_usage` returns: when
`then < now` and `vt < vn`, the conversion to `float` of
`(vn - vt) / (now - then) / 10` computed with the division of unsigned
integers, which is the integer part of the quotient of the two differences
divided by 10, and is converted exactly when it is below `2^24`; and 0 when
`now <= then` or `vn <= vt`. -/
theorem vm_cpu_usage_integer_quotient (s : CpuStats) (cpu vt vn then_ now : Nat)
    (h : s.vcputime cpu vt vn) :
    (then_ < now → vt < vn →
      VMTask.task_get_VM_CPU_usage s then_ now (cpu : Int)
        = .ok (to_float ((vn - vt) / (now - then_) / 10)) ∧
      (vn - vt) / (now - then_) / 10
        = ⌊((vn - vt : Nat) : ℚ) / ((now - then_ : Nat) : ℚ) / 10⌋₊ ∧
      ((vn - vt) / (now - then_) / 10 < 2 ^ 24 →
        to_float ((vn - vt) / (now - then_) / 10) = (vn - vt) / (now - then_) / 10)) ∧
    (now ≤ then_ ∨ vn ≤ vt → VMTask.task_get_VM_CPU_usage s then_ now (cpu : Int) = .ok 0) := by
  have he := task_get_VM_CPU_usage_eq s cpu vt vn then_ now h
  constructor
  · intro h1 h2
    rw [he, if_pos ⟨h1, h2⟩]
    exact ⟨rfl, usage_quotient_floor _ _, to_float_small _⟩
  · intro h1
    rw [he, if_neg]
    rintro ⟨h2, h3⟩
    rcases h1 with h1 | h1 <;> omega

/-- Witness of C26, amended: one virtual cpu whose vcputime grows by 0.5 s
in an interval of 1 s has a usage of 50. -/
theorem vm_cpu_usage_integer_quotient_witness :
    VMTask.task_get_VM_CPU_usage (cpu_stats_one 1000 500001000) 0 1000000 ((0 : Nat) : Int)
      = .ok (to_float ((500001000 - 1000) / (1000000 - 0) / 10)) ∧
    to_float ((500001000 - 1000) / (1000000 - 0) / 10) = 50 :=
  ⟨((vm_cpu_usage_integer_quotient (cpu_stats_one 1000 500001000) 0 1000 500001000 0 1000000
      ⟨2, 1, rfl, rfl, by decide, by decide, ⟨_, rfl, by decide⟩, ⟨_, rfl, by decide⟩,
        fun k hk => ⟨_, by
          have : k = 0 := by omega
          subst this
          exact rfl, by decide⟩,
        ⟨_, rfl, rfl, rfl⟩, ⟨_, rfl, rfl⟩⟩).1 (by decide) (by decide)).1,
    by decide⟩

/-! ## Properties of the perf adapter -/

/-- A counter whose id is above every id of the container goes to its end. -/
theorem insert_by_id_last (c : Counter) :
    ∀ (cs : List Counter), (∀ x ∈ cs, x.id < c.id) → insert_by_id c cs = cs ++ [c] := by
  intro cs
  induction cs with
  | nil => intro _; rfl
  | cons x xs ih =>
    intro h
    have hx : ¬ c.id < x.id := by
      have := h x (List.mem_cons_self x xs)
      omega
    simp only [insert_by_id, if_neg hx, List.cons_append]
    rw [ih (fun y hy => h y (List.mem_cons_of_mem x hy))]

/-- A counter with a new name and an id above every id of the container is
inserted at its end. -/
theorem counters_insert_fresh (cs : List Counter) (c : Counter)
    (hid : ∀ x ∈ cs, x.id < c.id) (hname : ∀ x ∈ cs, x.name ≠ c.name) :
    counters_insert cs c = cs ++ [c] := by
  unfold counters_insert
  have hany : cs.any (fun x => decide (x.id = c.id) || decide (x.name = c.name)) = false := by
    rw [List.any_eq_false]
    intro x hx
    have h1 := hid x hx
    have h2 := hname x hx
    have h3 : x.id ≠ c.id := by omega
    simp [h2, h3]
  rw [hany]
  exact insert_by_id_last c cs hid

theorem entry_counters_names : ∀ (es : List PerfEntry) (i : Int),
    (entry_counters i es).map Counter.name = es.map PerfEntry.name := by
  intro es
  induction es with
  | nil => intro i; rfl
  | cons e es ih => intro i; simp only [entry_counters, List.map_cons, ih]

theorem extra_counters_names : ∀ (l : List (String × Dbl × String × Bool)) (i : Int),
    (extra_counters i l).map Counter.name = l.map Prod.fst := by
  intro l
  induction l with
  | nil => intro i; rfl
  | cons m l ih => intro i; simp only [extra_counters, List.map_cons, ih]

theorem entry_counters_ids : ∀ (es : List PerfEntry) (i : Int),
    (entry_counters i es).map Counter.id =
      (List.range es.length).map (fun (k : Nat) => i + (k : Int)) := by
  intro es
  induction es with
  | nil => intro i; rfl
  | cons e es ih =>
    intro i
    simp only [entry_counters, List.map_cons, ih, List.length_cons, List.range_succ_eq_map,
      List.map_map]
    refine congrArg₂ _ (by simp) ?_
    apply List.map_congr_left
    intro k _
    simp only [Function.comp_apply]
    push_cast
    ring

theorem extra_counters_ids : ∀ (l : List (String × Dbl × String × Bool)) (i : Int),
    (extra_counters i l).map Counter.id =
      (List.range l.length).map (fun (k : Nat) => i + (k : Int)) := by
  intro l
  induction l with
  | nil => intro i; rfl
  | cons m l ih =>
    intro i
    simp only [extra_counters, List.map_cons, ih, List.length_cons, List.range_succ_eq_map,
      List.map_map]
    refine congrArg₂ _ (by simp) ?_
    apply List.map_congr_left
    intro k _
    simp only [Function.comp_apply]
    push_cast
    ring

/-- The loop over the events of a list appends one counter by event when the
names are new and distinct. -/
theorem insert_entries_fresh : ∀ (es : List PerfEntry) (i : Int) (cs : List Counter),
    (∀ e ∈ es, e.running ≤ e.enabled) → (∀ x ∈ cs, x.id < i) →
    (cs.map Counter.name ++ es.map PerfEntry.name).Nodup →
    insert_entries es i cs = .ok (cs ++ entry_counters i es) := by
  intro es
  induction es with
  | nil => intro i cs _ _ _; simp [insert_entries, entry_counters]
  | cons e es ih =>
    intro i cs hrun hid hnd
    have hr := hrun e (List.mem_cons_self e es)
    simp only [insert_entries, if_pos hr]
    have hfresh : ∀ x ∈ cs, x.name ≠ e.name := by
      intro x hx hxe
      rw [List.nodup_append] at hnd
      exact hnd.2.2 (List.mem_map_of_mem Counter.name hx)
        (by rw [hxe]; simp)
    rw [counters_insert_fresh cs _ hid hfresh]
    rw [ih (i + 1) _ (fun e1 h1 => hrun e1 (List.mem_cons_of_mem e h1))]
    · simp [entry_counters]
    · intro x hx
      rcases List.mem_append.1 hx with h | h
      · have := hid x h
        omega
      · simp only [List.mem_singleton] at h
        rw [h]
        show i < i + 1
        omega
    · simp only [List.map_append, List.map_cons, List.map_nil, List.append_assoc,
        List.singleton_append]
      simpa using hnd

/-- The statements that follow the loop append one counter by added value
when the names are new and distinct. -/
theorem insert_extras_fresh : ∀ (l : List (String × Dbl × String × Bool)) (i : Int)
    (cs : List Counter), (∀ x ∈ cs, x.id < i) →
    (cs.map Counter.name ++ l.map Prod.fst).Nodup →
    insert_extras l i cs = cs ++ extra_counters i l := by
  intro l
  induction l with
  | nil => intro i cs _ _; simp [insert_extras, extra_counters]
  | cons m l ih =>
    intro i cs hid hnd
    simp only [insert_extras]
    have hfresh : ∀ x ∈ cs, x.name ≠ m.1 := by
      intro x hx hxe
      rw [List.nodup_append] at hnd
      exact hnd.2.2 (List.mem_map_of_mem Counter.name hx)
        (by rw [hxe]; simp)
    rw [counters_insert_fresh cs _ hid hfresh]
    rw [ih (i + 1) _]
    · simp [extra_counters]
    · intro x hx
      rcases List.mem_append.1 hx with h | h
      · have := hid x h
        omega
      · simp only [List.mem_singleton] at h
        rw [h]
        show i < i + 1
        omega
    · simp only [List.map_append, List.map_cons, List.map_nil, List.append_assoc,
        List.singleton_append]
      simpa using hnd

/-- The loop over the events of a list returns when no event ran longer than
it was enabled. -/
theorem insert_entries_total : ∀ (es : List PerfEntry) (i : Int) (cs : List Counter),
    (∀ e ∈ es, e.running ≤ e.enabled) → ∃ r, insert_entries es i cs = .ok r := by
  intro es
  induction es with
  | nil => intro i cs _; exact ⟨cs, rfl⟩
  | cons e es ih =>
    intro i cs hrun
    simp only [insert_entries, if_pos (hrun e (List.mem_cons_self e es))]
    exact ih _ _ (fun e1 h1 => hrun e1 (List.mem_cons_of_mem e h1))

/-- The loop of `read_counters` over the event lists after the first one
returns when every list fits the arrays and no event ran longer than it was
enabled. -/
theorem read_groups_total (extras : List (String × Dbl × String × Bool)) :
    ∀ (groups : List (List PerfEntry)),
      (∀ l ∈ groups, l.length ≤ Perf.max_num_events) →
      (∀ l ∈ groups, ∀ e ∈ l, e.running ≤ e.enabled) →
      ∃ r, Perf.read_groups extras false groups = .ok r := by
  intro groups
  induction groups with
  | nil => intro _ _; exact ⟨[], rfl⟩
  | cons g gs ih =>
    intro hlen hrun
    obtain ⟨r, hr⟩ := ih (fun l hl => hlen l (List.mem_cons_of_mem g hl))
      (fun l hl => hrun l (List.mem_cons_of_mem g hl))
    obtain ⟨c, hc⟩ := insert_entries_total g 0 [] (hrun g (List.mem_cons_self g gs))
    have hl : ¬ Perf.max_num_events < g.length := by
      have := hlen g (List.mem_cons_self g gs)
      omega
    refine ⟨c :: r, ?_⟩
    simp only [Perf.read_groups, Perf.read_group, if_neg hl, hc, hr, Bool.false_eq_true,
      if_false]

/-- The loop of `get_names` over the event lists after the first one returns
when every list fits the array. -/
theorem get_names_groups_total (type : String) :
    ∀ (groups : List (List PerfEntry)),
      (∀ l ∈ groups, l.length ≤ Perf.max_num_events) →
      ∃ r, Perf.get_names_groups type false groups = .ok r := by
  intro groups
  induction groups with
  | nil => intro _; exact ⟨[], rfl⟩
  | cons g gs ih =>
    intro hlen
    obtain ⟨r, hr⟩ := ih (fun l hl => hlen l (List.mem_cons_of_mem g hl))
    have hl : ¬ Perf.max_num_events < g.length := by
      have := hlen g (List.mem_cons_self g gs)
      omega
    refine ⟨(g.map PerfEntry.name ++ []) :: r, ?_⟩
    simp [Perf.get_names_groups, hl, hr]

/-- The counters of the first event list when the names of its events and of
the added values are distinct: one by event, then one by added value, with the
ids 0, 1, 2, ... -/
theorem read_group_first (extras : List (String × Dbl × String × Bool))
    (evlist : List PerfEntry) (hlen : evlist.length ≤ Perf.max_num_events)
    (hrun : ∀ e ∈ evlist, e.running ≤ e.enabled)
    (hnd : (evlist.map PerfEntry.name ++ extras.map Prod.fst).Nodup) :
    Perf.read_group extras true evlist =
      .ok (entry_counters 0 evlist ++ extra_counters (evlist.length : Int) extras) := by
  have hl : ¬ Perf.max_num_events < evlist.length := by omega
  have h1 := insert_entries_fresh evlist 0 [] hrun (fun x hx => by cases hx)
    (by simpa using (List.nodup_append.1 hnd).1)
  simp only [List.nil_append] at h1
  have hids : ∀ x ∈ entry_counters 0 evlist, x.id < (evlist.length : Int) := by
    intro x hx
    have hm : x.id ∈ (entry_counters 0 evlist).map Counter.id := List.mem_map_of_mem _ hx
    rw [entry_counters_ids] at hm
    obtain ⟨k, hk, hkx⟩ := List.mem_map.1 hm
    rw [← hkx]
    have := List.mem_range.1 hk
    omega
  have h2 := insert_extras_fresh extras (evlist.length : Int) (entry_counters 0 evlist) hids
    (by rw [entry_counters_names]; exact hnd)
  simp only [Perf.read_group, if_neg hl, h1, if_true, h2]

/-- The ids of the counters of the first event list are their positions. -/
theorem first_group_ids (extras : List (String × Dbl × String × Bool))
    (evlist : List PerfEntry) :
    (entry_counters 0 evlist ++ extra_counters (evlist.length : Int) extras).map Counter.id =
      (List.range (entry_counters 0 evlist ++
        extra_counters (evlist.length : Int) extras).length).map (fun (k : Nat) => (k : Int)) := by
  have hl1 : (entry_counters 0 evlist).length = evlist.length := by
    have := congrArg List.length (entry_counters_names evlist 0)
    simpa using this
  have hl2 : (extra_counters (evlist.length : Int) extras).length = extras.length := by
    have := congrArg List.length (extra_counters_names extras (evlist.length : Int))
    simpa using this
  rw [List.map_append, entry_counters_ids, extra_counters_ids, List.length_append, hl1, hl2,
    List.range_add, List.map_append, List.map_map]
  congr 1
  apply List.map_congr_left
  intro k _
  omega

/-- The names of the values that each overload of `read_counters` adds are
those that `get_names` adds for the matching type. -/
theorem extras_names (type : String) (x : Readings) :
    (if type = "VM" then Perf.extras_vm x else Perf.extras_app x).map Prod.fst =
      Perf.extra_names type := by
  by_cases h : type = "VM"
  · simp [h, Perf.extras_vm, Perf.extra_names]
  · simp [h, Perf.extras_app, Perf.extra_names]

/-- On the store built by `Stats(names, ti)`, after a first `accum` of a
sample vector whose names, in the order of the ids, are `names`, the header,
the interval rows and the total rows have the same columns. -/
theorem columns_agree (rapl : Rapl) (names : List String) (counters : List Counter)
    (ti ti1 : Dbl) (st0 st : Stats) (hne : names ≠ [])
    (hnames : counters.map Counter.name = names)
    (h0 : Stats.init Stats.new names ti = .ok st0)
    (h1 : st0.accum rapl counters ti1 = .ok st) :
    st.header_columns = st.int_columns ∧ st.int_columns = st.total_columns := by
  rw [init_new_eq] at h0
  injection h0 with h0
  subst h0
  obtain ⟨ev1, st2, _, hder, rfl⟩ := accum_first_ok rfl h1
  obtain ⟨_, _, f3, _, _, f6, f7, f8, _, _⟩ := accum_derived_frame _ _ _ hder
  have hemp : names.isEmpty = false := by
    cases names with
    | nil => exact absurd rfl hne
    | cons a b => rfl
  simp only [Stats.header_columns, Stats.int_columns, Stats.total_columns, f3, f6, f7, f8, hemp,
    Bool.false_eq_true, if_false, hnames, derived_names_eq, true_and]

/-- C30, counterexample. The first event list holds the event `cycles`
twice, for a Process workload: `get_names` returns nine names, `cycles` twice,
and `read_counters` returns eight counters, since the container refuses the
second `cycles`; the header and the interval rows of the store have nine
columns and the total rows eight. The same happens when the list holds the
event `power/energy-pkg/` of perf: the added counter of that name is refused,
for a virtual machine too. -/
theorem duplicate_name_drops_counter :
    (Perf.get_names [[perf_event "cycles" 10, perf_event "cycles" 20]] "app").toOption
      = some [["cycles", "cycles", "power/energy-pkg/", "power/energy-ram/", "LLC_occup[MB]",
          "MBL[MBps]", "MBT[MBps]", "MBR[MBps]", "Time[ns]"]] ∧
    (Perf.read_counters_app [[perf_event "cycles" 10, perf_event "cycles" 20]]
        readings0).toOption.map (List.map (List.map (fun c => (c.id, c.name))))
      = some [[(0, "cycles"), (2, "power/energy-pkg/"), (3, "power/energy-ram/"),
          (4, "LLC_occup[MB]"), (5, "MBL[MBps]"), (6, "MBT[MBps]"), (7, "MBR[MBps]"),
          (8, "Time[ns]")]] ∧
    column_counts
        ["cycles", "cycles", "power/energy-pkg/", "power/energy-ram/", "LLC_occup[MB]",
          "MBL[MBps]", "MBT[MBps]", "MBR[MBps]", "Time[ns]"]
        (first_group (Perf.read_counters_app [[perf_event "cycles" 10, perf_event "cycles" 20]]
          readings0))
      = some (9, 9, 8) ∧
    ((Perf.get_names [[perf_event "power/energy-pkg/" 3]] "VM").toOption.map
        (List.map List.length)) = some [17] ∧
    ((Perf.read_counters_vm [[perf_event "power/energy-pkg/" 3]] readings0).toOption.map
        (List.map List.length)) = some [16] := by
  refine ⟨by decide, by decide, by decide!, by decide, by decide⟩

/-- C30, amended. Every event list of the id has at most `max_num_events`
events, none of which ran longer than it was enabled, and the names of the
events of the first list are distinct and differ from the names that
`get_names` adds for the type. Then `get_names(id, type)` and the matching
overload of `read_counters` (the one with disk and network arguments for the
type `VM`, the other one otherwise) return; the names of the first list that
`get_names` returns are, in the same order, the names of the counters of the
first container that `read_counters` returns, taken in the order of their ids,
which are 0, 1, 2, ...; and on the store built from these names, after a first
`accum` of these counters, the header, the interval rows and the total rows
have the same columns in the same order. -/
theorem names_match_counters (type : String) (evlist : List PerfEntry)
    (groups : List (List PerfEntry)) (x : Readings)
    (hlen : ∀ l ∈ evlist :: groups, l.length ≤ Perf.max_num_events)
    (hrun : ∀ l ∈ evlist :: groups, ∀ e ∈ l, e.running ≤ e.enabled)
    (hnd : (evlist.map PerfEntry.name ++ Perf.extra_names type).Nodup) :
    ∃ names ns counters cs,
      Perf.get_names (evlist :: groups) type = .ok (names :: ns) ∧
      (if type = "VM" then Perf.read_counters_vm (evlist :: groups) x
        else Perf.read_counters_app (evlist :: groups) x) = .ok (counters :: cs) ∧
      counters.map Counter.name = names ∧
      counters.map Counter.id = (List.range counters.length).map (fun (k : Nat) => (k : Int)) ∧
      ∀ (rapl : Rapl) (ti ti1 : Dbl) (st0 st : Stats),
        Stats.init Stats.new names ti = .ok st0 → st0.accum rapl counters ti1 = .ok st →
        st.header_columns = st.int_columns ∧ st.int_columns = st.total_columns := by
  have hl0 := hlen evlist (List.mem_cons_self _ _)
  have hl : ¬ Perf.max_num_events < evlist.length := by omega
  obtain ⟨ns, hns⟩ := get_names_groups_total type groups
    (fun l h => hlen l (List.mem_cons_of_mem _ h))
  have hE := extras_names type x
  obtain ⟨cs, hcs⟩ := read_groups_total (if type = "VM" then Perf.extras_vm x
    else Perf.extras_app x) groups (fun l h => hlen l (List.mem_cons_of_mem _ h))
    (fun l h => hrun l (List.mem_cons_of_mem _ h))
  have hg := read_group_first (if type = "VM" then Perf.extras_vm x else Perf.extras_app x)
    evlist hl0 (hrun evlist (List.mem_cons_self _ _)) (by rw [hE]; exact hnd)
  have hread : (if type = "VM" then Perf.read_counters_vm (evlist :: groups) x
      else Perf.read_counters_app (evlist :: groups) x) =
      Perf.read_groups (if type = "VM" then Perf.extras_vm x else Perf.extras_app x) true
        (evlist :: groups) := by
    by_cases h : type = "VM"
    · simp only [h, if_true, Perf.read_counters_vm]
    · simp only [h, if_false, Perf.read_counters_app]
  have hnames : (entry_counters 0 evlist ++ extra_counters (evlist.length : Int)
      (if type = "VM" then Perf.extras_vm x else Perf.extras_app x)).map Counter.name
      = evlist.map PerfEntry.name ++ Perf.extra_names type := by
    rw [List.map_append, entry_counters_names, extra_counters_names, hE]
  refine ⟨evlist.map PerfEntry.name ++ Perf.extra_names type, ns,
    entry_counters 0 evlist ++ extra_counters (evlist.length : Int)
      (if type = "VM" then Perf.extras_vm x else Perf.extras_app x), cs, ?_, ?_, hnames,
    first_group_ids _ evlist, ?_⟩
  · simp only [Perf.get_names, Perf.get_names_groups, if_neg hl, hns, if_true]
  · rw [hread]
    simp only [Perf.read_groups, hg, hcs]
  · intro rapl ti ti1 st0 st h0 h1
    refine columns_agree rapl _ _ ti ti1 st0 st ?_ hnames h0 h1
    intro hc
    have := congrArg List.length hc
    simp [Perf.extra_names] at this

/-- Witness of C30, amended: a Process workload whose first event list
holds `cycles` and `inst_retired.any`. -/
theorem names_match_counters_witness :
    ∃ names ns counters cs,
      Perf.get_names [[perf_event "cycles" 10, perf_event "inst_retired.any" 5]] "app"
        = .ok (names :: ns) ∧
      (if "app" = "VM" then
          Perf.read_counters_vm [[perf_event "cycles" 10, perf_event "inst_retired.any" 5]]
            readings0
        else
          Perf.read_counters_app [[perf_event "cycles" 10, perf_event "inst_retired.any" 5]]
            readings0) = .ok (counters :: cs) ∧
      counters.map Counter.name = names ∧
      counters.map Counter.id = (List.range counters.length).map (fun (k : Nat) => (k : Int)) ∧
      ∀ (rapl : Rapl) (ti ti1 : Dbl) (st0 st : Stats),
        Stats.init Stats.new names ti = .ok st0 → st0.accum rapl counters ti1 = .ok st →
        st.header_columns = st.int_columns ∧ st.int_columns = st.total_columns :=
  names_match_counters "app" [perf_event "cycles" 10, perf_event "inst_retired.any" 5] []
    readings0
    (fun l hl => by
      simp only [List.mem_singleton] at hl
      subst hl
      decide)
    (fun l hl e he => by
      simp only [List.mem_singleton] at hl
      subst hl
      simp only [List.mem_cons, List.mem_singleton, List.not_mem_nil, or_false] at he
      rcases he with rfl | rfl <;> decide)
    (by decide)

/-! ## Properties of the statistics of Open vSwitch -/

/-- The test on the pointer is false for every address. -/
theorem pointer_test_false (p : Nat) : pointer_test p = false := by
  unfold pointer_test
  have h : ¬ ((p : Int) < 0) := by omega
  simp [h]

/-- For a token that holds `bytes`, the value written is the one that `atof`
reads after the first six characters and before the last one, whatever its
sign and whether it is finite or not. -/
theorem poll_token_writes (p : Nat) (token : List Char) (mem : Nat → Dbl) (value : Dbl)
    (hb : contains "bytes".toList token = true) (hne : token.drop 6 ≠ [])
    (ha : atof (token.drop 6).dropLast = some value) :
    ∃ mem1, poll_token p token mem = .ok mem1 ∧ mem1 p = value ∧
      ∀ a, a ≠ p → mem1 a = mem a := by
  have he : (token.drop 6).isEmpty = false := by
    cases h : token.drop 6 with
    | nil => exact absurd h hne
    | cons a b => rfl
  refine ⟨Function.update mem p value, ?_, by simp, fun a ha1 => by simp [ha1]⟩
  simp only [poll_token, hb, if_true, he, Bool.false_eq_true, if_false, ha, pointer_test_false]

/-- C23, the code at the failing input. The command prints the byte counts
`-5` (received) and `nan` (sent) for a port; the two `double` hold -1 before
the call, at the addresses 0 and 1. The function returns with -5 at the first
address and NaN at the second; with the counts `inf` and `-1e999` it leaves
the two infinities. With the counts `1420` and `886` it leaves 1420 and
886. -/
theorem ovs_clamp_tests_pointer :
    double_at (ovs_ofctl_poll_stats (dump_ports "-5" "nan") 0 1 (fun _ => Dbl.fin (-1))) 0
      = some (Dbl.fin (-5)) ∧
    double_at (ovs_ofctl_poll_stats (dump_ports "-5" "nan") 0 1 (fun _ => Dbl.fin (-1))) 1
      = some Dbl.nan ∧
    double_at (ovs_ofctl_poll_stats (dump_ports "inf" "-1e999") 0 1 (fun _ => Dbl.fin (-1))) 0
      = some Dbl.pinf ∧
    double_at (ovs_ofctl_poll_stats (dump_ports "inf" "-1e999") 0 1 (fun _ => Dbl.fin (-1))) 1
      = some Dbl.ninf ∧
    double_at (ovs_ofctl_poll_stats (dump_ports "1420" "886") 0 1 (fun _ => Dbl.fin (-1))) 0
      = some (Dbl.fin 1420) ∧
    double_at (ovs_ofctl_poll_stats (dump_ports "1420" "886") 0 1 (fun _ => Dbl.fin (-1))) 1
      = some (Dbl.fin 886) := by
  refine ⟨?_, ?_, ?_, ?_, ?_, ?_⟩ <;> decide!

end Stratus
